import Mathlib

/-! # PICAS: a shallow embedding of the allocator engine

The development follows the C++ sources (`src/picas.cpp`, `src/policy.cpp`,
`src/safety.cpp`, `src/fallback.cpp`, `src/scavenger.cpp` and the headers under
`include/picas/`).

Modelling conventions.

* `std::size_t`, `std::uintptr_t` and `std::uint64_t` are 64-bit, `std::uint32_t`
  is 32-bit; unsigned arithmetic wraps and the wrap is written out with `%`.
* Addresses are natural numbers, the null pointer is `0`. A bump cursor (of a
  layer, of the emergency reserve) is a 64-bit machine word: the sums
  `bump + need` of `has_space` and `g_bump + total` of `fallback_alloc` and the
  updates `bump += total`, `g_bump += total` wrap modulo 2^64, as they do on the
  machine, because `need` and `total` may be any `std::size_t`. A constant
  offset (a header field, the user pointer behind a header, the 48 bytes of a
  minimum block in `choose_layer_bounded`) is added exactly. Arithmetic on
  `std::uintptr_t` wraps.
* Memory is a byte map. Multi-byte fields are little-endian and structs have the
  x86-64 / AArch64 layout: `BlockHeader` is 32 bytes (`magic` 0, `mem_layer` 4,
  `data_layer` 8, `flags` 12, `user_size` 16, `total_size` 24), `FreeNode` is
  (`next` 0, `size` 8), `AlignTag` is 24 bytes (`magic` 0, `base` 8,
  `requested` 16), `FallbackHeader` is 24 bytes (`magic` 0, `mode` 4,
  `user_size` 8, `total_size` 16).
* The singly linked free list of a bin is kept as the list of its nodes in
  traversal order; the `next` and `size` words of the nodes are written to
  memory as the source writes them.
* Atomics are plain fields (one thread). The layer mutexes, the debug pause and
  the floating-point penalty of a trace entry are not represented.
* The operating system and the host runtime are parameters: the page size, the
  base addresses returned by `os_reserve_and_commit`, and the successive results
  of `std::malloc`.
-/

namespace picas

/-! ## Machine words -/

/-- Two to the 64: the modulus of `std::size_t` arithmetic. -/
def W64 : Nat := 18446744073709551616

/-- Two to the 32: the modulus of `std::uint32_t` arithmetic. -/
def W32 : Nat := 4294967296

/-- Largest `std::size_t`, `std::numeric_limits<std::size_t>::max()`. -/
def SIZE_MAX : Nat := 18446744073709551615

/-- Bitwise complement of a 64-bit word, the C++ `~x`. -/
def not64 (x : Nat) : Nat := SIZE_MAX - x % W64

/-- Wrapping 64-bit subtraction `x - y`. -/
def sub64 (x y : Nat) : Nat := (x % W64 + (W64 - y % W64)) % W64

/-- The rounding idiom `(x + (a - 1)) & ~(a - 1)` on 64-bit words; it is
`PICAS::align_up`, `align_up` of `fallback.cpp` and the body of `align_ptr`. -/
def align_up (x a : Nat) : Nat := ((x + sub64 a 1) % W64) &&& not64 (sub64 a 1)

/-- Wrapping 32-bit subtraction `x - y`. -/
def sub32 (x y : Nat) : Nat := (x % W32 + (W32 - y % W32)) % W32

/-- The `is_pow2_local` test of `picas.cpp`: `x && ((x & (x - 1)) == 0)`. -/
def is_pow2_local (x : Nat) : Bool := x != 0 && (x &&& sub64 x 1) == 0

/-! ## Byte memory -/

/-- Byte-addressed memory. -/
abbrev Mem := Nat → Nat

/-- Little-endian read of an `n`-byte unsigned field at address `a`. -/
def rdN (m : Mem) (a : Nat) : Nat → Nat
  | 0 => 0
  | n + 1 => m a % 256 + 256 * rdN m (a + 1) n

/-- Little-endian write of the low `n` bytes of `v` at address `a`. -/
def wrN (m : Mem) (a n v : Nat) : Mem :=
  fun x => if a ≤ x ∧ x < a + n then (v / 256 ^ (x - a)) % 256 else m x

/-- Read one byte. -/
def rd8 (m : Mem) (a : Nat) : Nat := rdN m a 1

/-- Read a `std::uint32_t`. -/
def rd32 (m : Mem) (a : Nat) : Nat := rdN m a 4

/-- Read a 64-bit word or pointer. -/
def rd64 (m : Mem) (a : Nat) : Nat := rdN m a 8

/-- Write a `std::uint32_t`. -/
def wr32 (m : Mem) (a v : Nat) : Mem := wrN m a 4 v

/-- Write a 64-bit word or pointer. -/
def wr64 (m : Mem) (a v : Nat) : Mem := wrN m a 8 v

/-- The bytes `std::memcpy(dst, src, n)` leaves behind. -/
def memcpy (m : Mem) (dst src n : Nat) : Mem :=
  fun x => if dst ≤ x ∧ x < dst + n then m (src + (x - dst)) else m x

/-- The bytes `std::memset(p, 0, n)` leaves behind. -/
def memset0 (m : Mem) (p n : Nat) : Mem :=
  fun x => if p ≤ x ∧ x < p + n then 0 else m x

/-- The call `std::memset(p, 0, n)`: the memory it leaves behind, or `none` when
the range `[p, p + n)` runs past the end of the 64-bit address space, where the
stores cannot be made and the call faults. Which pages inside the address space
are mapped is not represented, so this is the only fault that is reported. -/
def memset0_checked (m : Mem) (p n : Nat) : Option Mem :=
  if p + n ≤ W64 then some (memset0 m p n) else none

/-! ## Checkpoints (`checkpoints.hpp`) -/

/-- Half-open interval `[start, end)`. -/
structure Range where
  start : Nat := 0
  end_ : Nat := 0
deriving DecidableEq, Repr

/-- `Range::len`. -/
def Range.len (r : Range) : Nat := if r.end_ > r.start then r.end_ - r.start else 0

/-- `Range::reached_end`. -/
def Range.reached_end (r : Range) (x : Nat) : Bool := r.end_ != 0 && decide (x ≥ r.end_)

/-- `enum class Logic { Any, All }`. -/
inductive Logic where
  | Any
  | All
deriving DecidableEq, Repr

/-- Hybrid point: a count range, a byte range and the logic joining them. -/
structure HybridPoint where
  count : Range := {}
  bytes : Range := {}
  logic : Logic := Logic.Any
deriving DecidableEq, Repr

/-- `HybridPoint::reached`. -/
def HybridPoint.reached (h : HybridPoint) (c b : Nat) : Bool :=
  let has_c := h.count.end_ != 0
  let has_b := h.bytes.end_ != 0
  if !has_c && !has_b then false
  else
    let rc := if has_c then h.count.reached_end c else true
    let rb := if has_b then h.bytes.reached_end b else true
    if h.logic = Logic.All then rc && rb
    else
      let ok := false
      let ok := if has_c then ok || h.count.reached_end c else ok
      let ok := if has_b then ok || h.bytes.reached_end b else ok
      ok

/-- `HybridPoint::bytes_len`. -/
def HybridPoint.bytes_len (h : HybridPoint) : Nat := h.bytes.len

/-- The two checkpoints of a data layer. -/
structure DataLayerPoints where
  tlp : HybridPoint := {}
  data_lp : HybridPoint := {}
deriving DecidableEq, Repr

/-! ## Configuration (`config.hpp`, `safety.hpp`, `invariants.hpp`, `fallback.hpp`,
`scavenger.hpp`) -/

/-- `enum class FallbackMode`. -/
inductive FallbackMode where
  | None
  | SystemMalloc
  | EmergencyReserve
deriving DecidableEq, Repr

/-- The value `static_cast<std::uint32_t>(mode)`. -/
def FallbackMode.code : FallbackMode → Nat
  | FallbackMode.None => 0
  | FallbackMode.SystemMalloc => 1
  | FallbackMode.EmergencyReserve => 2

/-- `struct FallbackConfig` with its default member initialisers. -/
structure FallbackConfig where
  mode : FallbackMode := FallbackMode.SystemMalloc
  emergency_bytes : Nat := 2 * 1024 * 1024
deriving DecidableEq, Repr

/-- `struct AntiStranding` with its default member initialisers. -/
structure AntiStranding where
  enabled : Bool := true
  max_stranded_per_layer : Nat := 256 * 1024
  allow_jump_if_pressure : Bool := true
  aggressive_backfill : Bool := true
deriving DecidableEq, Repr

/-- `struct SafetyConfig`. -/
structure SafetyConfig where
  fallback : FallbackConfig := {}
  anti_stranding : AntiStranding := {}
  max_layer_probes : Nat := 8
  always_fallback_on_fail : Bool := true
deriving DecidableEq, Repr

/-- `struct ScavengerConfig`. -/
structure ScavengerConfig where
  enabled : Bool := true
  period_allocs : Nat := 4096
  enable_coalescing : Bool := true
  enable_rebucket : Bool := true
  enable_os_release : Bool := false
deriving DecidableEq, Repr

/-- `struct LayerConfig`. -/
structure LayerConfig where
  bytes : Nat := 0
  mem_tp_bytes : Nat := 0
deriving DecidableEq, Repr

/-- `Config::kMaxLayers`. -/
def kMaxLayers : Nat := 8

/-- `struct Config`. The two `std::array`s are indexed by functions; the
floating-point `penalty_k` is left out. -/
structure Config where
  num_layers : Nat := 3
  mem_layers : Nat → LayerConfig := fun _ => {}
  data_layers : Nat → DataLayerPoints := fun _ => {}
  strict_picas_jumps : Bool := true
  enable_event_hooks : Bool := true
  enable_debug_pause : Bool := false
  debug_pause_ms : Nat := 0
  safety : SafetyConfig := {}
  scavenger : ScavengerConfig := {}
  enable_tracing : Bool := true

/-! ## Policy (`policy.hpp`, `policy.cpp`) -/

/-- `struct PolicyInput`; the nullable `data_points` pointer is an `Option`. -/
structure PolicyInput where
  num_layers : Nat := 0
  data_layer : Nat := 0
  mem_layer : Nat := 0
  request_size : Nat := 0
  data_alloc_count : Nat := 0
  data_alloc_bytes : Nat := 0
  data_points : Option DataLayerPoints := none
  mem_tp_reached : Bool := false
  mem_lp_full : Bool := false
  mem_used_bytes : Nat := 0
  mem_capacity_bytes : Nat := 0
  mem_tp_bytes : Nat := 0
  prev_layers_incomplete : Bool := false
deriving DecidableEq, Repr

/-- `struct PolicyOutput`; a null `note` is the empty string. -/
structure PolicyOutput where
  chosen_mem_layer : Nat := 0
  jump_data_layer : Bool := false
  jump_mem_layer : Bool := false
  backfill_memory : Bool := false
  reached_tlp : Bool := false
  reached_data_lp : Bool := false
  hard_error : Bool := false
  note : String := ""
deriving DecidableEq, Repr

/-- `Policy::decide`; `cfg` is the configuration the policy object refers to. -/
def Policy.decide (cfg : Config) (inp : PolicyInput) : PolicyOutput :=
  let out : PolicyOutput := { chosen_mem_layer := inp.mem_layer }
  if inp.num_layers = 0 then
    { out with hard_error := true, note := "Invalid: num_layers=0" }
  else
    let reached_tlp :=
      match inp.data_points with
      | some dp => dp.tlp.reached inp.data_alloc_count inp.data_alloc_bytes
      | none => false
    let reached_data_lp :=
      match inp.data_points with
      | some dp => dp.data_lp.reached inp.data_alloc_count inp.data_alloc_bytes
      | none => false
    let out := { out with reached_tlp := reached_tlp, reached_data_lp := reached_data_lp }
    let tlp_bytes_len :=
      match inp.data_points with
      | some dp => dp.tlp.bytes_len
      | none => 0
    if inp.data_points.isSome && tlp_bytes_len != 0 && inp.mem_capacity_bytes != 0
        && Decidable.decide (tlp_bytes_len > inp.mem_capacity_bytes) then
      { out with hard_error := true,
                 note := "Hard error: TLP.bytes_len > mem layer capacity (len(TLP) > len(MEM-LP))" }
    else if reached_data_lp then
      { out with jump_data_layer := true,
                 jump_mem_layer := cfg.strict_picas_jumps,
                 chosen_mem_layer := if inp.data_layer < inp.num_layers then inp.data_layer else 0,
                 note := "DATA-LP reached => hard advance data layer (and memory if strict)" }
    else if cfg.strict_picas_jumps && reached_tlp && !inp.mem_tp_reached then
      { out with jump_data_layer := true, jump_mem_layer := true,
                 note := "TLP reached before MEM-TP => jump data+memory to next layer" }
    else if cfg.strict_picas_jumps && inp.prev_layers_incomplete then
      { out with backfill_memory := true,
                 note := "Earlier memory incomplete => backfill earlier layer" }
    else if inp.mem_lp_full then
      { out with note := "Current MEM-LP full => spill to alternative layer" }
    else
      { out with chosen_mem_layer := inp.data_layer,
                 note := "Default: same-layer allocation" }

/-! ## Layer state (`layer.hpp`) -/

/-- `sizeof(BlockHeader)`. -/
def sizeof_BlockHeader : Nat := 32

/-- `sizeof(AlignTag)`. -/
def sizeof_AlignTag : Nat := 24

/-- `sizeof(FallbackHeader)`: two `std::uint32_t` and two `std::size_t`. -/
def sizeof_FallbackHeader : Nat := 24

/-- `kMagic`, the block header magic 'PICA'. -/
def kMagic : Nat := 0x50494341

/-- `kAlignMagic`, the align tag magic "PICAALIG". -/
def kAlignMagic : Nat := 0x50494341414C4947

/-- `kFallbackMagic`, the fallback header magic 'FALL'. -/
def kFallbackMagic : Nat := 0x46414C4C

/-- `kAlign` of `picas.hpp` and `fallback.cpp`. -/
def kAlign : Nat := 16

/-- `LayerState::kBins`. -/
def kBins : Nat := 20

/-- `struct MemLayerPoints`. -/
structure MemLayerPoints where
  mem_tp : Nat := 0
deriving DecidableEq, Repr

/-- `struct LayerState`. `bins b` is the chain of free-node addresses hanging off
`bins[b]`, head first; node sizes live in memory. -/
structure LayerState where
  begin : Nat := 0
  end_ : Nat := 0
  bump : Nat := 0
  capacity_bytes : Nat := 0
  bump_used_bytes : Nat := 0
  live_bytes_est : Nat := 0
  points : MemLayerPoints := {}
  mem_tp_reached : Bool := false
  bins : Nat → List Nat := fun _ => []

/-- `LayerState::has_space`: `bump + need <= end`. `need` is a block total, any
64-bit value, and the pointer sum wraps modulo 2^64 before it is compared. -/
def LayerState.has_space (L : LayerState) (need : Nat) : Bool :=
  decide ((L.bump + need) % W64 ≤ L.end_)

/-- `LayerState::mem_lp_full`. -/
def LayerState.mem_lp_full (L : LayerState) : Bool := decide (L.bump ≥ L.end_)

/-- `LayerState::used_bytes`. -/
def LayerState.used_bytes (L : LayerState) : Nat := L.bump_used_bytes

/-- The loop `while (v >>= 1) ++idx;` of `bin_index`; a 64-bit `v` is exhausted
after at most 64 shifts, which is the fuel handed in. -/
def bin_index_loop : Nat → Nat → Nat → Nat
  | 0, _, idx => idx
  | fuel + 1, v, idx => if v / 2 ≠ 0 then bin_index_loop fuel (v / 2) (idx + 1) else idx

/-- `LayerState::bin_index`. -/
def bin_index (sz : Nat) : Nat :=
  let v := if sz < 32 then 32 else sz
  let idx := bin_index_loop 64 v 0
  if idx ≥ kBins then kBins - 1 else idx

/-- `block_total` of `picas.cpp`: header plus payload, rounded up to 16. -/
def block_total (user_size : Nat) : Nat :=
  let a := 16
  let x := (sizeof_BlockHeader + user_size) % W64
  ((x + (a - 1)) % W64) &&& not64 (a - 1)

/-- `align_ptr` of `picas.cpp`, on the `std::uintptr_t` value of the pointer. -/
def align_ptr (p a : Nat) : Nat := ((p + sub64 a 1) % W64) &&& not64 (sub64 a 1)

/-! ## Events and trace (`events.hpp`, `tracer.hpp`) -/

/-- `enum class EventType`. -/
inductive EventType where
  | Alloc
  | Free
  | Realloc
  | JumpToNextLayer
  | DataAdvancedMemoryBackfill
  | MemorySpillToOtherLayer
  | LayerMemTPReached
  | LayerTLPReached
  | LayerDataLPReached
  | Scavenge
  | FallbackAlloc
  | OutOfMemory
deriving DecidableEq, Repr

/-- `struct Event`. -/
structure Event where
  type : EventType
  data_layer : Nat := 0
  mem_layer : Nat := 0
  size : Nat := 0
  note : String := ""
deriving DecidableEq, Repr

/-- `struct TraceEntry`; `cross_layer` stands for the penalty, which is zero
exactly when the block was placed in its own data layer. -/
structure TraceEntry where
  seq : Nat := 0
  data_layer : Nat := 0
  mem_layer : Nat := 0
  size : Nat := 0
  addr : Nat := 0
  layer_offset : Nat := 0
  cross_layer : Bool := false
  note : String := ""
deriving DecidableEq, Repr

/-- `class Tracer`. -/
structure Tracer where
  enabled : Bool := true
  entries : List TraceEntry := []
deriving DecidableEq, Repr

/-- `Tracer::record`. -/
def Tracer.record (t : Tracer) (e : TraceEntry) : Tracer :=
  if !t.enabled then t else { t with entries := t.entries ++ [e] }

/-! ## Operating system and fallback allocator (`os_pages.hpp`, `fallback.cpp`) -/

/-- `struct Pages`. -/
structure Pages where
  base : Nat := 0
  size : Nat := 0
deriving DecidableEq, Repr

/-- What the allocator obtains from outside: the value of `os_page_size()`, the
base addresses of the two `os_reserve_and_commit` mappings, and the successive
results of `std::malloc` (`0` is failure, as is an exhausted list). -/
structure Host where
  page_size : Nat := 4096
  arena_base : Nat := 0
  emergency_base : Nat := 0
  malloc_results : List Nat := []
deriving DecidableEq, Repr

/-- The file-scope state of `fallback.cpp`, with the pending `std::malloc`
results and the blocks handed back to `std::free`. -/
structure Fallback where
  g_cfg : FallbackConfig := {}
  g_emergency : Pages := {}
  g_bump : Nat := 0
  malloc_results : List Nat := []
  freed : List Nat := []
deriving DecidableEq, Repr

/-- `fallback_init`. -/
def fallback_init (cfg : FallbackConfig) (host : Host) : Fallback :=
  if cfg.mode = FallbackMode.EmergencyReserve then
    let ps := host.page_size
    let bytes := align_up (max cfg.emergency_bytes ps) ps
    { g_cfg := cfg, g_emergency := { base := host.emergency_base, size := bytes },
      g_bump := host.emergency_base, malloc_results := host.malloc_results }
  else
    { g_cfg := cfg, malloc_results := host.malloc_results }

/-- `hdr_from_user`. -/
def hdr_from_user (p : Nat) : Nat := p - sizeof_FallbackHeader

/-- `header_ok`. -/
def header_ok (m : Mem) (h : Nat) : Bool := h != 0 && rd32 m h == kFallbackMagic

/-- `fallback_owns`. -/
def fallback_owns (m : Mem) (p : Nat) : Bool :=
  if p = 0 then false else header_ok m (hdr_from_user p)

/-- `fallback_usable_size`. -/
def fallback_usable_size (m : Mem) (p : Nat) : Nat :=
  if p = 0 then 0
  else if !header_ok m (hdr_from_user p) then 0
  else rd64 m (hdr_from_user p + 8)

/-- The four stores that fill a `FallbackHeader` at `h`. -/
def write_fallback_header (m : Mem) (h mode size total : Nat) : Mem :=
  let m := wr32 m h kFallbackMagic
  let m := wr32 m (h + 4) mode
  let m := wr64 m (h + 8) size
  wr64 m (h + 16) total

/-- `fallback_alloc`: the new fallback state, the new memory and the pointer.
The cursor sum `g_bump + total` of the emergency reserve wraps modulo 2^64. -/
def fallback_alloc (fb : Fallback) (m : Mem) (size : Nat) : Fallback × Mem × Nat :=
  let size := if size = 0 then 1 else size
  let payload := align_up size kAlign
  let total := align_up ((sizeof_FallbackHeader + payload) % W64) kAlign
  match fb.g_cfg.mode with
  | FallbackMode.None => (fb, m, 0)
  | FallbackMode.SystemMalloc =>
    let raw := fb.malloc_results.headD 0
    let fb := { fb with malloc_results := fb.malloc_results.tail }
    if raw = 0 then (fb, m, 0)
    else
      (fb, write_fallback_header m raw FallbackMode.SystemMalloc.code size total,
        raw + sizeof_FallbackHeader)
  | FallbackMode.EmergencyReserve =>
    if fb.g_emergency.base = 0 then (fb, m, 0)
    else
      let end_ := fb.g_emergency.base + fb.g_emergency.size
      if fb.g_bump = 0 ∨ (fb.g_bump + total) % W64 > end_ then (fb, m, 0)
      else
        ({ fb with g_bump := (fb.g_bump + total) % W64 },
          write_fallback_header m fb.g_bump FallbackMode.EmergencyReserve.code size total,
          fb.g_bump + sizeof_FallbackHeader)

/-- `fallback_free`: only a system-malloc block is released, to `std::free`. -/
def fallback_free (fb : Fallback) (m : Mem) (p : Nat) : Fallback :=
  if p = 0 then fb
  else
    let h := hdr_from_user p
    if !header_ok m h then fb
    else if rd32 m (h + 4) = FallbackMode.SystemMalloc.code then
      { fb with freed := fb.freed ++ [h] }
    else fb

/-! ## Sanitising the configuration (`safety.cpp`) -/

/-- Wrapping sum `total += cfg.mem_layers[i].bytes` for `i < n`. -/
def sum_layer_bytes (ml : Nat → LayerConfig) : Nat → Nat
  | 0 => 0
  | n + 1 => (sum_layer_bytes ml n + (ml n).bytes) % W64

/-- `safety_validate_and_sanitize`, as the configuration it leaves behind (the
function always returns `true`). -/
def safety_validate_and_sanitize (cfg : Config) : Config :=
  let num_layers := if cfg.num_layers = 0 then 1 else cfg.num_layers
  let num_layers := if num_layers > kMaxLayers then kMaxLayers else num_layers
  let probes := if cfg.safety.max_layer_probes = 0 then 1 else cfg.safety.max_layer_probes
  let probes := if probes > num_layers then num_layers else probes
  let fb := cfg.safety.fallback
  let fb :=
    if fb.mode = FallbackMode.EmergencyReserve ∧ fb.emergency_bytes < 4096 then
      { fb with emergency_bytes := 4096 }
    else fb
  let scav := cfg.scavenger
  let scav := if scav.enabled ∧ scav.period_allocs = 0 then { scav with period_allocs := 4096 } else scav
  let total := sum_layer_bytes cfg.mem_layers num_layers
  let per := (8 * 1024 * 1024) / num_layers
  let mls : Nat → LayerConfig :=
    if total = 0 then
      fun i => if i < num_layers then { bytes := per, mem_tp_bytes := (per * 3) % W64 / 4 }
               else cfg.mem_layers i
    else cfg.mem_layers
  let mls : Nat → LayerConfig :=
    fun i => if i < num_layers ∧ (mls i).mem_tp_bytes > (mls i).bytes
             then { mls i with mem_tp_bytes := (mls i).bytes } else mls i
  let anti := cfg.safety.anti_stranding
  let anti :=
    if anti.enabled ∧ anti.max_stranded_per_layer < 1024 then
      { anti with max_stranded_per_layer := 1024 }
    else anti
  { cfg with
    num_layers := num_layers,
    mem_layers := mls,
    scavenger := scav,
    safety := { cfg.safety with max_layer_probes := probes, fallback := fb, anti_stranding := anti } }

/-! ## The allocator (`picas.hpp`, `picas.cpp`) -/

/-- `class PICAS` together with what it acts on: the byte memory, the state of
the fallback subsystem and the events handed to the hook. -/
structure PICAS where
  cfg : Config := {}
  pages : Pages := {}
  num_layers : Nat := 0
  layers : Nat → LayerState := fun _ => {}
  current_data_layer : Nat := 0
  current_mem_layer : Nat := 0
  data_alloc_count_in_layer : Nat := 0
  data_alloc_bytes_in_layer : Nat := 0
  tracer : Tracer := {}
  alloc_seq : Nat := 0
  ring_cursor : Nat := 0
  allocs_since_scavenge : Nat := 0
  mem : Mem := fun _ => 0
  fb : Fallback := {}
  events : List Event := []

/-- Offset of layer `i` inside the arena: the wrapping sum of the page-rounded
capacities of the layers before it. -/
def layer_offset (cfg : Config) (ps : Nat) : Nat → Nat
  | 0 => 0
  | i + 1 => (layer_offset cfg ps i + align_up (cfg.mem_layers i).bytes ps) % W64

/-- The constructor `PICAS::PICAS(Config)`. -/
def PICAS.construct (cfg0 : Config) (host : Host) : PICAS :=
  let cfg := safety_validate_and_sanitize cfg0
  let num_layers := max 1 (min cfg.num_layers kMaxLayers)
  let fb := fallback_init cfg.safety.fallback host
  let total := sum_layer_bytes cfg.mem_layers num_layers
  let ps := host.page_size
  let total := align_up total ps
  let pages : Pages := { base := host.arena_base, size := total }
  let base := pages.base
  { cfg := cfg,
    pages := pages,
    num_layers := num_layers,
    layers := fun i =>
      if i < num_layers then
        let cap := align_up (cfg.mem_layers i).bytes ps
        let offset := layer_offset cfg ps i
        let mem_tp := min (cfg.mem_layers i).mem_tp_bytes cap
        { begin := base + offset,
          end_ := base + offset + cap,
          bump := base + offset,
          capacity_bytes := cap,
          bump_used_bytes := 0,
          live_bytes_est := 0,
          points := { mem_tp := mem_tp },
          mem_tp_reached := decide (mem_tp = 0),
          bins := fun _ => [] }
      else {},
    tracer := { enabled := cfg.enable_tracing },
    fb := fb }

/-- `PICAS::emit`: the event reaches the hook only when hooks are enabled. -/
def PICAS.emit (st : PICAS) (e : Event) : PICAS :=
  if !st.cfg.enable_event_hooks then st else { st with events := st.events ++ [e] }

/-- `PICAS::ptr_in_arena`. -/
def PICAS.ptr_in_arena (st : PICAS) (x : Nat) : Bool :=
  let b := st.pages.base
  let e := b + st.pages.size
  b != 0 && decide (x ≥ b) && decide (x < e)

/-- `PICAS::header_from_user_ptr`; `0` is the null result. -/
def PICAS.header_from_user_ptr (st : PICAS) (p : Nat) : Nat :=
  if p = 0 then 0
  else
    let h1 := p - sizeof_BlockHeader
    if st.ptr_in_arena h1 && rd32 st.mem h1 == kMagic then h1
    else
      let tag := p - sizeof_AlignTag
      if p ≥ sizeof_AlignTag ∧ rd64 st.mem tag = kAlignMagic ∧ rd64 st.mem (tag + 8) ≠ 0 then
        let base := rd64 st.mem (tag + 8)
        if fallback_owns st.mem base then 0
        else
          let h2 := base - sizeof_BlockHeader
          if st.ptr_in_arena h2 && rd32 st.mem h2 == kMagic then h2 else 0
      else 0

/-- The scan of `PICAS::any_prev_layer_incomplete` over layers `0 .. n-1`. -/
def any_incomplete_upto (layers : Nat → LayerState) : Nat → Bool
  | 0 => false
  | n + 1 => any_incomplete_upto layers n || decide ((layers n).bump < (layers n).end_)

/-- `PICAS::any_prev_layer_incomplete`. -/
def PICAS.any_prev_layer_incomplete (st : PICAS) (upto_layer : Nat) : Bool :=
  if upto_layer = 0 then false else any_incomplete_upto st.layers upto_layer

/-- The ascending scan of `PICAS::find_earliest_incomplete`: `i` is the index
under test and `k` the number of indices left below `dl`. -/
def find_incomplete_from (layers : Nat → LayerState) (dl : Nat) : Nat → Nat → Nat
  | 0, _ => dl
  | k + 1, i => if (layers i).bump < (layers i).end_ then i else find_incomplete_from layers dl k (i + 1)

/-- `PICAS::find_earliest_incomplete`. -/
def PICAS.find_earliest_incomplete (st : PICAS) (dl : Nat) : Nat :=
  if dl = 0 then dl else find_incomplete_from st.layers dl dl 0

/-- `PICAS::would_strand_too_much`. -/
def PICAS.would_strand_too_much (st : PICAS) (layer : Nat) : Bool :=
  if !st.cfg.safety.anti_stranding.enabled then false
  else if layer ≥ st.num_layers then false
  else
    let L := st.layers layer
    let stranded := if L.end_ > L.bump then L.end_ - L.bump else 0
    decide (stranded > st.cfg.safety.anti_stranding.max_stranded_per_layer)

/-- The lambda `layer_has_space` of `choose_layer_bounded`. Its `need` is the
constant `block_total(1)`, 48 bytes, which is added to the cursor exactly. -/
def PICAS.layer_has_space (st : PICAS) (li : Nat) : Bool :=
  if li ≥ st.num_layers then false
  else decide ((st.layers li).bump + block_total 1 ≤ (st.layers li).end_)

/-- The probing loop of `choose_layer_bounded`: `k` probes are left and `cur` is
the ring position under test; the result is the layer found, if any. -/
def PICAS.probe_ring (st : PICAS) : Nat → Nat → Option Nat
  | 0, _ => none
  | k + 1, cur =>
    if st.layer_has_space cur then some cur
    else st.probe_ring k ((cur + 1) % st.num_layers)

/-- `PICAS::choose_layer_bounded`: the state (the ring cursor moves) and the
layer, `num_layers` when none was found. -/
def PICAS.choose_layer_bounded (st : PICAS) (preferred : Nat) : PICAS × Nat :=
  if preferred < st.num_layers ∧ st.layer_has_space preferred then (st, preferred)
  else
    let max_probes := max 1 st.cfg.safety.max_layer_probes
    let cur := st.ring_cursor % st.num_layers
    match st.probe_ring (min max_probes st.num_layers) cur with
    | some r => ({ st with ring_cursor := (r + 1) % st.num_layers }, r)
    | none => (st, st.num_layers)

/-! ### Scavenger (`scavenger.cpp`, `PICAS::maybe_scavenge`) -/

/-- Replace layer `i`. -/
def PICAS.set_layer (st : PICAS) (i : Nat) (L : LayerState) : PICAS :=
  { st with layers := fun j => if j = i then L else st.layers j }

/-- Replace bin `b` of a layer. -/
def LayerState.set_bin (L : LayerState) (b : Nat) (chain : List Nat) : LayerState :=
  { L with bins := fun j => if j = b then chain else L.bins j }

/-- The address stored in a bin head or a `next` field: the first node of the
chain, null when the chain is empty. -/
def head_ptr (chain : List Nat) : Nat := chain.headD 0

/-- The first loop of the scavenger: every node of bins `0 .. n-1`, bin by bin. -/
def collect_bins (bins : Nat → List Nat) : Nat → List Nat
  | 0 => []
  | n + 1 => collect_bins bins n ++ bins n

/-- The merge loop: `cur` absorbs each following block that starts where it
ends; the blocks that survive are returned in address order. -/
def coalesce (m : Mem) (cur : Nat) : List Nat → Mem × List Nat
  | [] => (m, [cur])
  | nxt :: rest =>
    if cur + rd64 m (cur + 8) = nxt then
      coalesce (wr64 m (cur + 8) ((rd64 m (cur + 8) + rd64 m (nxt + 8)) % W64)) cur rest
    else
      let r := coalesce m nxt rest
      (r.1, cur :: r.2)

/-- The rebucket loop: each block is pushed on the bin of its size. -/
def rebucket (m : Mem) (L : LayerState) : List Nat → Mem × LayerState
  | [] => (m, L)
  | n :: rest =>
    let m := wr64 m n 0
    let bi := bin_index (rd64 m (n + 8))
    let m := wr64 m n (head_ptr (L.bins bi))
    rebucket m (L.set_bin bi (n :: L.bins bi)) rest

/-- The loop taken when rebucketing is off: each block is pushed on the last bin. -/
def dump_big_bin (m : Mem) (L : LayerState) : List Nat → Mem × LayerState
  | [] => (m, L)
  | n :: rest =>
    let m := wr64 m n (head_ptr (L.bins (kBins - 1)))
    dump_big_bin m (L.set_bin (kBins - 1) (n :: L.bins (kBins - 1))) rest

/-- The body of the per-layer loop of `scavenger_run_light`. `std::sort` by
address is an insertion sort here (node addresses are distinct). -/
def scavenge_layer (cfg : ScavengerConfig) (m : Mem) (L : LayerState) : Mem × LayerState :=
  let blocks := collect_bins L.bins kBins
  let L := { L with bins := fun _ => [] }
  match List.insertionSort (fun a b => a ≤ b) blocks with
  | [] => (m, L)
  | b0 :: rest =>
    let r := if cfg.enable_coalescing then coalesce m b0 rest else (m, b0 :: rest)
    if cfg.enable_rebucket then rebucket r.1 L r.2 else dump_big_bin r.1 L r.2

/-- The loop over layers `0 .. n-1` of `scavenger_run_light`. -/
def scavenge_layers (cfg : ScavengerConfig) (st : PICAS) : Nat → PICAS
  | 0 => st
  | n + 1 =>
    let st := scavenge_layers cfg st n
    let r := scavenge_layer cfg st.mem (st.layers n)
    { st.set_layer n r.2 with mem := r.1 }

/-- `scavenger_run_light`. -/
def scavenger_run_light (st : PICAS) (num_layers : Nat) (cfg : ScavengerConfig) : PICAS :=
  if !cfg.enabled then st
  else if num_layers = 0 then st
  else scavenge_layers cfg st num_layers

/-- `PICAS::maybe_scavenge`. -/
def PICAS.maybe_scavenge (st : PICAS) : PICAS :=
  if !st.cfg.scavenger.enabled then st
  else if st.cfg.scavenger.period_allocs = 0 then st
  else
    let n := (st.allocs_since_scavenge + 1) % W64
    let st := { st with allocs_since_scavenge := n }
    if n < st.cfg.scavenger.period_allocs then st
    else
      let st := { st with allocs_since_scavenge := 0 }
      let st := scavenger_run_light st st.num_layers st.cfg.scavenger
      st.emit { type := EventType.Scavenge, data_layer := st.current_data_layer,
                mem_layer := st.current_mem_layer, size := 0, note := "scavenger run" }

/-! ### Allocation inside a layer -/

/-- The stores `h->magic`, `h->mem_layer`, `h->data_layer`, `h->flags`,
`h->user_size`, in source order (`h->total_size` follows separately). -/
def stamp_header (m : Mem) (h mem_layer data_layer size : Nat) : Mem :=
  let m := wr32 m h kMagic
  let m := wr32 m (h + 4) mem_layer
  let m := wr32 m (h + 8) data_layer
  let m := wr32 m (h + 12) 0
  wr64 m (h + 16) size

/-- The first-fit walk of one bin: the nodes in front of the first node whose
`size` is at least `total`, that node, and the nodes behind it. -/
def first_fit (m : Mem) (total : Nat) : List Nat → Option (List Nat × Nat × List Nat)
  | [] => none
  | n :: rest =>
    if rd64 m (n + 8) ≥ total then some ([], n, rest)
    else
      match first_fit m total rest with
      | none => none
      | some (pre, hit, post) => some (n :: pre, hit, post)

/-- The outer loop `for (b = bi; b < kBins; ++b)`: `k` bins are left, `b` is the
bin under test; the result is the bin and the split of its chain at the hit. -/
def scan_bins (m : Mem) (L : LayerState) (total : Nat) :
    Nat → Nat → Option (Nat × List Nat × Nat × List Nat)
  | 0, _ => none
  | k + 1, b =>
    match first_fit m total (L.bins b) with
    | some r => some (b, r)
    | none => scan_bins m L total k (b + 1)

/-- The free-list branch of `alloc_from_layer` once the walk has stopped at
`cur` in bin `b` (`pre` in front of it, `post` behind it). -/
def PICAS.take_from_bin (st : PICAS) (data_layer mem_layer size total : Nat)
    (b : Nat) (pre : List Nat) (cur : Nat) (post : List Nat) : PICAS × Nat :=
  let L := st.layers mem_layer
  let m := st.mem
  -- unlink: `prev->next = cur->next` or `L.bins[b] = cur->next`
  let m := match pre.getLast? with
    | some prev => wr64 m prev (head_ptr post)
    | none => m
  let L := L.set_bin b (pre ++ post)
  let remainder := sub64 (rd64 m (cur + 8)) total
  let r : Mem × LayerState :=
    if remainder ≥ block_total 32 then
      let split := cur + total
      let m := wr64 m (split + 8) remainder
      let m := wr64 m split 0
      let sbi := bin_index (rd64 m (split + 8))
      let m := wr64 m split (head_ptr (L.bins sbi))
      let L := L.set_bin sbi (split :: L.bins sbi)
      let m := wr64 m (cur + 8) total
      (m, L)
    else (m, L)
  let m := r.1
  let L := r.2
  let h := cur
  let m := stamp_header m h mem_layer data_layer size
  -- `h->total_size = cur->size` reads the node's size word after the stores above
  let m := wr64 m (h + 24) (rd64 m (cur + 8))
  let L := { L with live_bytes_est := (L.live_bytes_est + rd64 m (h + 24)) % W64 }
  let st := { st.set_layer mem_layer L with mem := m }
  let st := st.emit { type := EventType.Alloc, data_layer := data_layer, mem_layer := mem_layer,
                      size := size, note := "free-list" }
  (st, h + sizeof_BlockHeader)

/-- The bump branch of `alloc_from_layer`. The header goes where the cursor
stood; the cursor and `bump_used_bytes` are advanced by `total` modulo 2^64. -/
def PICAS.bump_alloc (st : PICAS) (data_layer mem_layer size total : Nat) : PICAS × Nat :=
  let L := st.layers mem_layer
  if !L.has_space total then (st, 0)
  else
    let h := L.bump
    let L := { L with bump := (L.bump + total) % W64 }
    let m := stamp_header st.mem h mem_layer data_layer size
    let m := wr64 m (h + 24) total
    let L := { L with bump_used_bytes := (L.bump_used_bytes + total) % W64 }
    let L := { L with live_bytes_est := (L.live_bytes_est + total) % W64 }
    let hit := !L.mem_tp_reached && decide (L.points.mem_tp > 0)
                && decide (L.bump_used_bytes ≥ L.points.mem_tp)
    let L := if hit then { L with mem_tp_reached := true } else L
    let st := { st.set_layer mem_layer L with mem := m }
    let st := if hit then
        st.emit { type := EventType.LayerMemTPReached, data_layer := data_layer,
                  mem_layer := mem_layer, size := size, note := "MEM-TP reached" }
      else st
    let st := st.emit { type := EventType.Alloc, data_layer := data_layer, mem_layer := mem_layer,
                        size := size, note := "bump" }
    (st, h + sizeof_BlockHeader)

/-- `PICAS::alloc_from_layer`: the new state and the user pointer; `out_oom` is
set exactly when the pointer is null. -/
def PICAS.alloc_from_layer (st : PICAS) (data_layer mem_layer size : Nat) : PICAS × Nat :=
  if mem_layer ≥ st.num_layers then (st, 0)
  else
    let L := st.layers mem_layer
    let total := block_total size
    let bi := bin_index total
    match scan_bins st.mem L total (kBins - bi) bi with
    | some (b, pre, cur, post) => st.take_from_bin data_layer mem_layer size total b pre cur post
    | none => st.bump_alloc data_layer mem_layer size total

/-- `PICAS::free_into_layer`. -/
def PICAS.free_into_layer (st : PICAS) (h : Nat) : PICAS :=
  if h = 0 then st
  else if rd32 st.mem h ≠ kMagic then st
  else
    let ml := rd32 st.mem (h + 4)
    if ml ≥ st.num_layers then st
    else
      let L := st.layers ml
      let node := h
      let m := wr64 st.mem (node + 8) (rd64 st.mem (h + 24))
      let bi := bin_index (rd64 m (node + 8))
      let m := wr64 m node (head_ptr (L.bins bi))
      let L := L.set_bin bi (node :: L.bins bi)
      let L := if L.live_bytes_est ≥ rd64 m (node + 8)
               then { L with live_bytes_est := L.live_bytes_est - rd64 m (node + 8) } else L
      let st := { st.set_layer ml L with mem := m }
      st.emit { type := EventType.Free, data_layer := rd32 m (h + 8), mem_layer := rd32 m (h + 4),
                size := rd64 m (h + 16), note := "free" }

/-! ### `PICAS::malloc` -/

/-- The data layer `malloc` works with: the current one, clamped (lines 332, 334). -/
def PICAS.clamped_dl (st : PICAS) : Nat :=
  if st.current_data_layer ≥ st.num_layers then sub32 st.num_layers 1
  else st.current_data_layer

/-- The memory layer `malloc` works with (lines 333, 335). -/
def PICAS.clamped_ml (st : PICAS) : Nat :=
  if st.current_mem_layer ≥ st.num_layers then st.clamped_dl else st.current_mem_layer

/-- The `PolicyInput` that `malloc` fills in (lines 337–362). -/
def PICAS.policy_input (st : PICAS) (size : Nat) : PolicyInput :=
  let dl := st.clamped_dl
  let ml := st.clamped_ml
  let curL := st.layers ml
  { num_layers := st.num_layers,
    data_layer := dl,
    mem_layer := ml,
    request_size := size,
    data_alloc_count := st.data_alloc_count_in_layer,
    data_alloc_bytes := st.data_alloc_bytes_in_layer,
    data_points := some (st.cfg.data_layers dl),
    mem_tp_reached := curL.mem_tp_reached,
    mem_lp_full := curL.mem_lp_full,
    mem_used_bytes := curL.used_bytes,
    mem_capacity_bytes := curL.capacity_bytes,
    mem_tp_bytes := curL.points.mem_tp,
    prev_layers_incomplete := st.any_prev_layer_incomplete dl }

/-- The two checkpoint events `malloc` emits after the policy call (lines 366–371). -/
def PICAS.emit_reached (st : PICAS) (pout : PolicyOutput) (dl ml size : Nat) : PICAS :=
  let st := if pout.reached_tlp then
      st.emit { type := EventType.LayerTLPReached, data_layer := dl, mem_layer := ml,
                size := size, note := "TLP reached" }
    else st
  if pout.reached_data_lp then
    st.emit { type := EventType.LayerDataLPReached, data_layer := dl, mem_layer := ml,
              size := size, note := "DATA-LP reached" }
  else st

/-- The tail shared by the hard-error exit (lines 373–383) and the
arena-exhausted exit (lines 449–459): an `OutOfMemory` event, then the fallback
allocator when `always_fallback_on_fail` is set, else null. -/
def PICAS.out_of_memory (st : PICAS) (dl ml size : Nat) (oom_note fb_note : String) :
    PICAS × Nat :=
  let st := st.emit { type := EventType.OutOfMemory, data_layer := dl, mem_layer := ml,
                      size := size, note := oom_note }
  if st.cfg.safety.always_fallback_on_fail then
    let r := fallback_alloc st.fb st.mem size
    let st := { st with fb := r.1, mem := r.2.1 }
    if r.2.2 ≠ 0 then
      (st.emit { type := EventType.FallbackAlloc, data_layer := dl, mem_layer := ml,
                 size := size, note := fb_note }, r.2.2)
    else (st, 0)
  else (st, 0)

/-- The anti-stranding guard (lines 386–402). -/
def PICAS.anti_stranding (st : PICAS) (ml : Nat) (pout : PolicyOutput) : PolicyOutput :=
  if pout.jump_data_layer && st.cfg.safety.anti_stranding.enabled then
    let strand_bad := st.would_strand_too_much ml
    let L := st.layers ml
    let pressured :=
      L.mem_lp_full ||
      (L.capacity_bytes != 0 && decide (L.used_bytes > (L.capacity_bytes * 9) % W64 / 10))
    if strand_bad && !(st.cfg.safety.anti_stranding.allow_jump_if_pressure && pressured) then
      { pout with
        jump_data_layer := false,
        jump_mem_layer := false,
        backfill_memory :=
          if st.cfg.safety.anti_stranding.aggressive_backfill then true else pout.backfill_memory,
        note := "Anti-stranding: delayed jump; prefer backfill/same-layer" }
    else pout
  else pout

/-- Applying the jumps (lines 405–415): the state and the layers `dl`, `ml`. -/
def PICAS.apply_jumps (st : PICAS) (pout : PolicyOutput) (dl ml size : Nat) : PICAS × Nat × Nat :=
  if pout.jump_data_layer ∧ (dl + 1) % W32 < st.num_layers then
    let st := st.emit { type := EventType.JumpToNextLayer, data_layer := dl, mem_layer := ml,
                        size := size, note := pout.note }
    let dl := (dl + 1) % W32
    let st := { st with current_data_layer := dl,
                        data_alloc_count_in_layer := 0,
                        data_alloc_bytes_in_layer := 0 }
    if pout.jump_mem_layer then
      let ml := min dl (sub32 st.num_layers 1)
      ({ st with current_mem_layer := ml }, dl, ml)
    else (st, dl, ml)
  else (st, dl, ml)

/-- Backfill selection (lines 418–424): the state and `chosen_ml`. -/
def PICAS.select_layer (st : PICAS) (pout : PolicyOutput) (dl size : Nat) : PICAS × Nat :=
  if pout.backfill_memory then
    let chosen_ml := st.find_earliest_incomplete dl
    (st.emit { type := EventType.DataAdvancedMemoryBackfill, data_layer := dl,
               mem_layer := chosen_ml, size := size, note := pout.note }, chosen_ml)
  else (st, min pout.chosen_mem_layer (sub32 st.num_layers 1))

/-- The probe made when the chosen layer is full (lines 427–433). -/
def PICAS.spill_if_full (st : PICAS) (dl chosen_ml size : Nat) : PICAS × Nat :=
  if chosen_ml ≥ st.num_layers ∨ (st.layers chosen_ml).mem_lp_full then
    let r := st.choose_layer_bounded dl
    if r.2 < st.num_layers then
      (r.1.emit { type := EventType.MemorySpillToOtherLayer, data_layer := dl, mem_layer := r.2,
                  size := size, note := "bounded-probe spill" }, r.2)
    else (r.1, chosen_ml)
  else (st, chosen_ml)

/-- The retry after a failed first attempt (lines 439–446): the state,
`chosen_ml` and the pointer. -/
def PICAS.retry_probe (st : PICAS) (dl chosen_ml size : Nat) : PICAS × Nat × Nat :=
  let r := st.choose_layer_bounded chosen_ml
  if r.2 < st.num_layers then
    let st := r.1.emit { type := EventType.MemorySpillToOtherLayer, data_layer := dl,
                         mem_layer := r.2, size := size, note := "bounded-probe retry" }
    let a := st.alloc_from_layer dl r.2 size
    (a.1, r.2, a.2)
  else (r.1, chosen_ml, 0)

/-- The first `alloc_from_layer` and, when it fails, the retry (lines 435–446).
Returns the state, `chosen_ml` and the pointer, null when neither attempt
served the request. -/
def PICAS.attempt (st : PICAS) (dl chosen_ml size : Nat) : PICAS × Nat × Nat :=
  let a := st.alloc_from_layer dl chosen_ml size
  if a.2 = 0 then a.1.retry_probe dl chosen_ml size else (a.1, chosen_ml, a.2)

/-- The arena part of `malloc` (lines 426–446): the probe for a full layer, then
the attempt. `malloc` goes on to its "PICAS arena exhausted" step exactly when
the pointer returned here is null. -/
def PICAS.place (st : PICAS) (dl chosen_ml size : Nat) : PICAS × Nat × Nat :=
  let s := st.spill_if_full dl chosen_ml size
  s.1.attempt dl s.2 size

/-- The bookkeeping after a successful placement (lines 461–480). -/
def PICAS.finish (st : PICAS) (pout : PolicyOutput) (dl chosen_ml size p : Nat) : PICAS :=
  let st := { st with
    data_alloc_count_in_layer := (st.data_alloc_count_in_layer + 1) % W64,
    data_alloc_bytes_in_layer := (st.data_alloc_bytes_in_layer + size) % W64 }
  if st.cfg.enable_tracing && st.tracer.enabled then
    let te : TraceEntry :=
      { seq := st.alloc_seq,
        data_layer := dl,
        mem_layer := chosen_ml,
        size := size,
        addr := p,
        layer_offset := if p ≥ (st.layers chosen_ml).begin then p - (st.layers chosen_ml).begin else 0,
        cross_layer := decide (chosen_ml ≠ dl),
        note := pout.note }
    { st with alloc_seq := (st.alloc_seq + 1) % W64, tracer := st.tracer.record te }
  else st

/-- `PICAS::malloc` up to the arena attempt (lines 329–424), for a request that
is not a hard error: the scavenger tick, the policy call, the anti-stranding
guard, the jumps and the layer selection. Returns the state, the policy output
after the guard, `dl` and `chosen_ml`. -/
def PICAS.prepare (st : PICAS) (size : Nat) : PICAS × PolicyOutput × Nat × Nat :=
  let st := st.maybe_scavenge
  let size := if size = 0 then 1 else size
  let dl := st.clamped_dl
  let ml := st.clamped_ml
  let pout := Policy.decide st.cfg (st.policy_input size)
  let st := st.emit_reached pout dl ml size
  let pout := st.anti_stranding ml pout
  let j := st.apply_jumps pout dl ml size
  let c := j.1.select_layer pout j.2.1 size
  (c.1, pout, j.2.1, c.2)

/-- `PICAS::malloc`: the new state and the pointer (`0` is null). -/
def PICAS.malloc (st : PICAS) (size : Nat) : PICAS × Nat :=
  let st0 := st.maybe_scavenge
  let size1 := if size = 0 then 1 else size
  let pout := Policy.decide st0.cfg (st0.policy_input size1)
  if pout.hard_error then
    (st0.emit_reached pout st0.clamped_dl st0.clamped_ml size1).out_of_memory
      st0.clamped_dl st0.clamped_ml size1 pout.note "fallback (hard_error)"
  else
    let q := st.prepare size
    let r := q.1.place q.2.2.1 q.2.2.2 size1
    if r.2.2 = 0 then
      r.1.out_of_memory q.2.2.1 r.2.1 size1 "PICAS arena exhausted" "fallback"
    else
      (r.1.finish q.2.1 q.2.2.1 r.2.1 size1 r.2.2, r.2.2)

/-- The pointer `malloc` obtains from the memory layers: the result of the arena
part (lines 426–446), null on the hard-error exit. When it is not null it is
what `malloc` returns. -/
def PICAS.arena_ptr (st : PICAS) (size : Nat) : Nat :=
  let st0 := st.maybe_scavenge
  let size1 := if size = 0 then 1 else size
  if (Policy.decide st0.cfg (st0.policy_input size1)).hard_error then 0
  else (((st.prepare size).1).place (st.prepare size).2.2.1 (st.prepare size).2.2.2 size1).2.2

/-! ### `free`, `realloc`, `memalign`, `usable_size` -/

/-- The test `tag->magic == kAlignMagic && tag->base` on the 24 bytes in front
of `p` (the guard `p >= sizeof(AlignTag)` included). -/
def has_align_tag (m : Mem) (p : Nat) : Bool :=
  decide (p ≥ sizeof_AlignTag) && rd64 m (p - sizeof_AlignTag) == kAlignMagic
    && rd64 m (p - sizeof_AlignTag + 8) != 0

/-- `PICAS::free` with a bound on the depth of the recursion through
`tag->base`. -/
def PICAS.free_depth : Nat → PICAS → Nat → PICAS
  | 0, st, _ => st
  | k + 1, st, p =>
    if p = 0 then st
    else if has_align_tag st.mem p then
      PICAS.free_depth k st (rd64 st.mem (p - sizeof_AlignTag + 8))
    else if fallback_owns st.mem p then
      let st := { st with fb := fallback_free st.fb st.mem p }
      st.emit { type := EventType.Free, data_layer := st.current_data_layer, mem_layer := 0,
                size := 0, note := "free fallback" }
    else
      let h := st.header_from_user_ptr p
      if h = 0 then st else st.free_into_layer h

/-- `PICAS::free`. A chain of align tags that ends visits no address twice, so
the depth allowed here is never used up by a call that returns. -/
def PICAS.free (st : PICAS) (p : Nat) : PICAS := PICAS.free_depth W64 st p

/-- `PICAS::realloc`. -/
def PICAS.realloc (st : PICAS) (p new_size : Nat) : PICAS × Nat :=
  if p = 0 then st.malloc new_size
  else if new_size = 0 then (st.free p, 0)
  else if has_align_tag st.mem p then
    let old_sz := rd64 st.mem (p - sizeof_AlignTag + 16)
    let r := st.malloc new_size
    if r.2 = 0 then (r.1, 0)
    else
      let to_copy := if old_sz < new_size then old_sz else new_size
      let st := if to_copy ≠ 0 then { r.1 with mem := memcpy r.1.mem r.2 p to_copy } else r.1
      let st := st.free p
      (st.emit { type := EventType.Realloc, data_layer := st.current_data_layer,
                 mem_layer := st.current_mem_layer, size := new_size,
                 note := "realloc aligned -> copy" }, r.2)
  else if fallback_owns st.mem p then
    let old_sz := fallback_usable_size st.mem p
    let r := st.malloc new_size
    if r.2 = 0 then (r.1, 0)
    else
      let to_copy := if old_sz < new_size then old_sz else new_size
      let st := if to_copy > 0 then { r.1 with mem := memcpy r.1.mem r.2 p to_copy } else r.1
      let st := { st with fb := fallback_free st.fb st.mem p }
      (st.emit { type := EventType.Realloc, data_layer := st.current_data_layer, mem_layer := 0,
                 size := new_size, note := "realloc fallback -> picas" }, r.2)
  else
    let h := st.header_from_user_ptr p
    if h = 0 then (st, 0)
    else if new_size ≤ rd64 st.mem (h + 16) then
      let st := { st with mem := wr64 st.mem (h + 16) new_size }
      (st.emit { type := EventType.Realloc, data_layer := rd32 st.mem (h + 8),
                 mem_layer := rd32 st.mem (h + 4), size := new_size, note := "shrink in-place" }, p)
    else
      let r := st.malloc new_size
      if r.2 = 0 then (r.1, 0)
      else
        let st := { r.1 with mem := memcpy r.1.mem r.2 p (rd64 r.1.mem (h + 16)) }
        let st := st.free p
        (st.emit { type := EventType.Realloc, data_layer := rd32 st.mem (h + 8),
                   mem_layer := rd32 st.mem (h + 4), size := new_size, note := "grow via copy" },
          r.2)

/-- `PICAS::memalign`. -/
def PICAS.memalign (st : PICAS) (alignment size : Nat) : PICAS × Nat :=
  let size := if size = 0 then 1 else size
  let alignment := if alignment < 8 then 8 else alignment
  if !is_pow2_local alignment then (st, 0)
  else if alignment ≤ kAlign then st.malloc size
  else
    let extra := (alignment + sizeof_AlignTag) % W64
    let r := st.malloc ((size + extra) % W64)
    let base := r.2
    if base = 0 then (r.1, 0)
    else
      let aligned := align_ptr (base + sizeof_AlignTag) alignment
      let tag := aligned - sizeof_AlignTag
      let m := wr64 r.1.mem tag kAlignMagic
      let m := wr64 m (tag + 8) base
      let m := wr64 m (tag + 16) size
      let st := { r.1 with mem := m }
      (st.emit { type := EventType.Alloc, data_layer := st.current_data_layer,
                 mem_layer := st.current_mem_layer, size := size, note := "memalign" }, aligned)

/-- `PICAS::usable_size`. -/
def PICAS.usable_size (st : PICAS) (p : Nat) : Nat :=
  if p = 0 then 0
  else if p ≥ sizeof_AlignTag ∧ rd64 st.mem (p - sizeof_AlignTag) = kAlignMagic then
    rd64 st.mem (p - sizeof_AlignTag + 16)
  else if fallback_owns st.mem p then fallback_usable_size st.mem p
  else
    let h := st.header_from_user_ptr p
    if h = 0 then 0
    else if rd32 st.mem h ≠ kMagic then 0
    else rd64 st.mem (h + 16)

/-- `PICAS::set_data_layer`. -/
def PICAS.set_data_layer (st : PICAS) (layer : Nat) : PICAS :=
  let layer := if layer ≥ st.num_layers then sub32 st.num_layers 1 else layer
  { st with current_data_layer := layer,
            current_mem_layer := layer,
            data_alloc_count_in_layer := 0,
            data_alloc_bytes_in_layer := 0 }

/-- `PICAS::data_layer`. -/
def PICAS.data_layer (st : PICAS) : Nat := st.current_data_layer

/-- `struct PICAS::Stats`. -/
structure Stats where
  total_reserved : Nat := 0
  total_capacity : Nat := 0
  total_live_est : Nat := 0
deriving DecidableEq, Repr

/-- The accumulation loop of `PICAS::stats` over layers `0 .. n-1`. -/
def stats_loop (st : PICAS) : Nat → Stats
  | 0 => { total_reserved := st.pages.size }
  | n + 1 =>
    let s := stats_loop st n
    { s with total_capacity := (s.total_capacity + (st.layers n).capacity_bytes) % W64,
             total_live_est := (s.total_live_est + (st.layers n).live_bytes_est) % W64 }

/-- `PICAS::stats`. -/
def PICAS.stats (st : PICAS) : Stats := stats_loop st st.num_layers

/-! ### The process-wide instance -/

/-- `picas_init`; `g` is the global `g_alloc`. -/
def picas_init (g : Option PICAS) (cfg : Config) (host : Host) : Option PICAS :=
  match g with
  | some st => some st
  | none => some (PICAS.construct cfg host)

/-- `picas_malloc`. -/
def picas_malloc (g : Option PICAS) (size : Nat) : Option PICAS × Nat :=
  match g with
  | some st => (some (st.malloc size).1, (st.malloc size).2)
  | none => (none, 0)

/-- `picas_calloc`: the global allocator and the pointer it returns, or `none`
when its `memset` faults and the call does not return. -/
def picas_calloc (g : Option PICAS) (n sz : Nat) : Option (Option PICAS × Nat) :=
  match g with
  | none => some (none, 0)
  | some st =>
    if n = 0 ∨ sz = 0 then some (some (st.malloc 1).1, (st.malloc 1).2)
    else if sz > SIZE_MAX / n then some (some st, 0)
    else
      let total := (n * sz) % W64
      let r := st.malloc total
      if r.2 ≠ 0 then
        match memset0_checked r.1.mem r.2 total with
        | some m => some (some { r.1 with mem := m }, r.2)
        | none => none
      else some (some r.1, r.2)

/-- `picas_usable_size`. -/
def picas_usable_size (g : Option PICAS) (p : Nat) : Nat :=
  match g with
  | some st => st.usable_size p
  | none => 0

/-- The parts of the state that the arena side of `malloc` never writes. -/
def PICAS.same_frame (a b : PICAS) : Prop :=
  b.pages = a.pages ∧ b.num_layers = a.num_layers ∧ b.cfg = a.cfg ∧ b.fb = a.fb

/-! ## Concrete allocators used to exercise the model -/

/-- A host with 4 KiB pages that maps the arena at address 65536 and whose
`std::malloc` has nothing to give. -/
def plain_host : Host := { page_size := 4096, arena_base := 65536 }

/-- A host whose next `std::malloc` returns the 16-byte aligned address 131072
and whose emergency mapping sits at the page-aligned address 1048576. -/
def giving_host : Host :=
  { page_size := 4096, arena_base := 65536, emergency_base := 1048576, malloc_results := [131072] }

/-- One memory layer of 64 KiB, everything else at its default. -/
def one_layer : PICAS :=
  PICAS.construct { num_layers := 1, mem_layers := fun _ => { bytes := 65536 } } plain_host

/-- Three memory layers of 64 KiB each, everything else at its default. -/
def three_layers : PICAS :=
  PICAS.construct { num_layers := 3, mem_layers := fun _ => { bytes := 65536 } } plain_host

/-- Three memory layers of 100 bytes each: capacities that are not whole pages. -/
def ragged_layers : PICAS :=
  PICAS.construct { num_layers := 3, mem_layers := fun _ => { bytes := 100 } } plain_host

/-- One memory layer of a single page, system-malloc fallback (the default). -/
def one_page_system : PICAS :=
  PICAS.construct { num_layers := 1, mem_layers := fun _ => { bytes := 4096 } } giving_host

/-- One memory layer of a single page, emergency-reserve fallback. -/
def one_page_emergency : PICAS :=
  PICAS.construct
    { num_layers := 1, mem_layers := fun _ => { bytes := 4096 },
      safety := { fallback := { mode := FallbackMode.EmergencyReserve } } } giving_host

/-- A first layer of one page and a second layer of 64 KiB; no fallback memory. -/
def small_then_large : PICAS :=
  PICAS.construct
    { num_layers := 2, mem_layers := fun i => if i = 0 then { bytes := 4096 } else { bytes := 65536 } }
    plain_host

/-- `small_then_large` after `malloc(4020)`: 32 bytes are left in layer 0, less
than a minimum block. -/
def small_nearly_full : PICAS := (small_then_large.malloc 4020).1

/-- One memory layer of a single page whose data layer asks for a TLP after
1 MiB: the configuration `Policy::decide` rejects as a hard error. -/
def oversized_tlp : PICAS :=
  PICAS.construct
    { num_layers := 1, mem_layers := fun _ => { bytes := 4096 },
      data_layers := fun _ => { tlp := { bytes := { end_ := 1048576 } } } } giving_host

/-- Scenario for `realloc`: `a = malloc(16)`. -/
def grow_a : PICAS × Nat := one_layer.malloc 16

/-- Scenario for `realloc`: `p = malloc(40)`, right behind `a`. -/
def grow_p : PICAS × Nat := grow_a.1.malloc 40

/-- Scenario for `realloc`: the client stores the 32-bit word 0x50494341 at
`p + 16` (the other bytes of the block stay zero), then calls `free(a)`. -/
def grow_before : PICAS :=
  PICAS.free { grow_p.1 with mem := wr32 grow_p.1.mem (grow_p.2 + 16) 0x50494341 } grow_a.2

/-- Scenario for `realloc`: the call `realloc(p, SIZE_MAX)`. -/
def grow_after : PICAS × Nat := grow_before.realloc grow_p.2 SIZE_MAX

/-- Scenario for the free-list stamp: `a = malloc(16)`, `free(a)`,
`set_data_layer(1)`, then `malloc(16)`, which backfills layer 0 from its free
list. -/
def reuse_after : PICAS × Nat :=
  (((three_layers.malloc 16).1.free (three_layers.malloc 16).2).set_data_layer 1).malloc 16

/-- A `PolicyInput` whose DATA-LP (48 KiB of bytes, ANY) has been reached. -/
def data_lp_input : PolicyInput :=
  { num_layers := 3, data_layer := 1, mem_layer := 0, request_size := 64,
    data_alloc_count := 7, data_alloc_bytes := 50000,
    data_points := some { tlp := { bytes := { end_ := 16384 } },
                          data_lp := { bytes := { end_ := 49152 } } },
    mem_tp_reached := true, mem_lp_full := true, mem_capacity_bytes := 131072,
    prev_layers_incomplete := true }

/-! ## Reference notions used by the properties -/

/-- The value `reached_tlp` that `Policy::decide` computes (lines 17–23): the TLP
of the data layer evaluated at the progress counters, `false` without points. -/
def PolicyInput.reached_tlp (inp : PolicyInput) : Bool :=
  match inp.data_points with
  | some dp => dp.tlp.reached inp.data_alloc_count inp.data_alloc_bytes
  | none => false

/-- The value `reached_data_lp` that `Policy::decide` computes (lines 17–23). -/
def PolicyInput.reached_data_lp (inp : PolicyInput) : Bool :=
  match inp.data_points with
  | some dp => dp.data_lp.reached inp.data_alloc_count inp.data_alloc_bytes
  | none => false

/-- The hybrid-point rule as the specification words it: never reached when both
dimensions are unconfigured; under ALL every configured dimension must have
reached its end; under ANY some configured dimension must have. -/
def HybridPoint.reached_ref (h : HybridPoint) (c b : Nat) : Bool :=
  if h.count.end_ = 0 ∧ h.bytes.end_ = 0 then false
  else
    match h.logic with
    | Logic.All =>
      decide ((h.count.end_ = 0 ∨ c ≥ h.count.end_) ∧ (h.bytes.end_ = 0 ∨ b ≥ h.bytes.end_))
    | Logic.Any =>
      decide ((h.count.end_ ≠ 0 ∧ c ≥ h.count.end_) ∨ (h.bytes.end_ ≠ 0 ∧ b ≥ h.bytes.end_))

/-- A `PolicyInput` in strict mode whose TLP (16 KiB) is reached at 20000 bytes
while DATA-LP (48 KiB) is not, before MEM-TP. -/
def tlp_input : PolicyInput :=
  { num_layers := 3, data_layer := 0, mem_layer := 0, request_size := 64,
    data_alloc_count := 3, data_alloc_bytes := 20000,
    data_points := some { tlp := { bytes := { end_ := 16384 } },
                          data_lp := { bytes := { end_ := 49152 } } },
    mem_tp_reached := false, mem_capacity_bytes := 131072,
    prev_layers_incomplete := true }

/-- The input `tlp_input` with MEM-TP already reached. -/
def tlp_after_mem_tp_input : PolicyInput := { tlp_input with mem_tp_reached := true }

/-- A `PolicyInput` with no checkpoint reached and an earlier layer incomplete. -/
def backfill_input : PolicyInput :=
  { num_layers := 3, data_layer := 1, mem_layer := 1, request_size := 64,
    data_alloc_count := 1, data_alloc_bytes := 100,
    data_points := some { tlp := { bytes := { end_ := 16384 } },
                          data_lp := { bytes := { end_ := 49152 } } },
    mem_capacity_bytes := 131072, prev_layers_incomplete := true }

/-- A `PolicyInput` whose TLP byte range is 1 MiB long on a memory layer of
64 KiB. -/
def long_tlp_input : PolicyInput :=
  { num_layers := 3, data_points := some { tlp := { bytes := { end_ := 1048576 } } },
    mem_capacity_bytes := 65536 }

/-- The input `long_tlp_input` on a memory layer of capacity 0. -/
def long_tlp_zero_capacity_input : PolicyInput := { long_tlp_input with mem_capacity_bytes := 0 }

/-- The ring positions that the loop of `choose_layer_bounded` examines, in
order, with `k` probes left and `cur` the position under test: the loop stops
behind the first position with room. Same recursion as `probe_ring`. -/
def PICAS.probe_ring_visits (st : PICAS) : Nat → Nat → List Nat
  | 0, _ => []
  | k + 1, cur =>
    if st.layer_has_space cur then [cur]
    else cur :: st.probe_ring_visits k ((cur + 1) % st.num_layers)

/-- Three layers of 64 KiB with the anti-stranding limit at its minimum of
1024 bytes. -/
def tight_stranding : PICAS :=
  PICAS.construct
    { num_layers := 3, mem_layers := fun _ => { bytes := 65536 },
      safety := { anti_stranding := { max_stranded_per_layer := 1024 } } } plain_host

/-- The layer count and the four progress fields of the facade: the current data
and memory layer and the two counters of the data layer. -/
def PICAS.same_progress (a b : PICAS) : Prop :=
  b.num_layers = a.num_layers ∧
  b.current_data_layer = a.current_data_layer ∧
  b.current_mem_layer = a.current_mem_layer ∧
  b.data_alloc_count_in_layer = a.data_alloc_count_in_layer ∧
  b.data_alloc_bytes_in_layer = a.data_alloc_bytes_in_layer

/-- The allocator states a client can reach: construction, then any sequence of
`malloc`, `free`, `realloc`, `memalign`, `set_data_layer` and stores to memory
(any store, which is more than a well-behaved client does). -/
inductive PICAS.Reachable : PICAS → Prop where
  | construct (cfg : Config) (host : Host) : PICAS.Reachable (PICAS.construct cfg host)
  | malloc (st : PICAS) (size : Nat) : PICAS.Reachable st → PICAS.Reachable (st.malloc size).1
  | free (st : PICAS) (p : Nat) : PICAS.Reachable st → PICAS.Reachable (st.free p)
  | realloc (st : PICAS) (p n : Nat) : PICAS.Reachable st → PICAS.Reachable (st.realloc p n).1
  | memalign (st : PICAS) (a n : Nat) : PICAS.Reachable st → PICAS.Reachable (st.memalign a n).1
  | set_data_layer (st : PICAS) (layer : Nat) :
      PICAS.Reachable st → PICAS.Reachable (st.set_data_layer layer)
  | store (st : PICAS) (m : Mem) : PICAS.Reachable st → PICAS.Reachable { st with mem := m }

/-- The state invariant of the data layer: between 1 and `kMaxLayers` layers,
and the current data layer is one of them. -/
def PICAS.data_layer_ok (st : PICAS) : Prop :=
  1 ≤ st.num_layers ∧ st.num_layers ≤ kMaxLayers ∧ st.current_data_layer < st.num_layers

/-- Three layers of 64 KiB, non-strict jumps, and every data layer complete
(DATA-LP) after one allocation. -/
def relaxed_counting : PICAS :=
  PICAS.construct
    { num_layers := 3, mem_layers := fun _ => { bytes := 65536 },
      data_layers := fun _ => { data_lp := { count := { end_ := 1 } } },
      strict_picas_jumps := false } plain_host

/-- The state `relaxed_counting` after one `malloc(16)`: one block counted in
data layer 0. -/
def relaxed_counting_one : PICAS := (relaxed_counting.malloc 16).1

/-- The same three layers with strict jumps. -/
def strict_counting : PICAS :=
  PICAS.construct
    { num_layers := 3, mem_layers := fun _ => { bytes := 65536 },
      data_layers := fun _ => { data_lp := { count := { end_ := 1 } } } } plain_host

/-- The state `strict_counting` after one `malloc(16)`. -/
def strict_counting_one : PICAS := (strict_counting.malloc 16).1

/-- The state `grow_a` (one block of 48 bytes, from `malloc(16)`) with the
estimate of live bytes of layer 0 lowered to 10, below the size of the block. -/
def underestimated : PICAS :=
  grow_a.1.set_layer 0 { grow_a.1.layers 0 with live_bytes_est := 10 }

/-- The allocator of the first end-to-end scenario: three layers of 128 KiB with
MEM-TP at 96 KiB, every data layer with a TLP at 16 KiB and a DATA-LP at 48 KiB
(both ANY), strict jumps and the default safety settings. -/
def scenario_one : PICAS :=
  PICAS.construct
    { num_layers := 3,
      mem_layers := fun _ => { bytes := 131072, mem_tp_bytes := 98304 },
      data_layers := fun _ =>
        { tlp := { bytes := { end_ := 16384 } }, data_lp := { bytes := { end_ := 49152 } } } }
    plain_host

/-- Scenario 1 after the first `malloc(61440)`. -/
def scenario_one_a : PICAS × Nat := scenario_one.malloc 61440

/-- Scenario 1 after the second `malloc(61440)`. -/
def scenario_one_b : PICAS × Nat := scenario_one_a.1.malloc 61440

/-- Scenario 1 after the third `malloc(61440)`. -/
def scenario_one_c : PICAS × Nat := scenario_one_b.1.malloc 61440

/-- The cursor invariant of a memory layer: `begin ≤ bump ≤ end` and
`bump_used_bytes = bump − begin`. -/
def LayerState.cursor_ok (L : LayerState) : Prop :=
  L.begin ≤ L.bump ∧ L.bump ≤ L.end_ ∧ L.bump_used_bytes = L.bump - L.begin

/-- Two layer states with the same bounds, bump cursor and bump count. -/
def LayerState.same_cursor (a b : LayerState) : Prop :=
  b.begin = a.begin ∧ b.end_ = a.end_ ∧ b.bump = a.bump ∧ b.bump_used_bytes = a.bump_used_bytes

/-- A step that keeps the configuration and the scavenger tick and emits no
`Scavenge` event: the events of `b` are those of `a` followed by other events. -/
def PICAS.quiet (a b : PICAS) : Prop :=
  b.cfg = a.cfg ∧ b.allocs_since_scavenge = a.allocs_since_scavenge ∧
  ∃ l, b.events = a.events ++ l ∧ ∀ e ∈ l, e.type ≠ EventType.Scavenge

/-- The states a client can drive the allocator to from the state `s0`, by any
sequence of `malloc`, `free`, `realloc`, `memalign`, `set_data_layer` and stores
to memory. -/
inductive PICAS.Evolves (s0 : PICAS) : PICAS → Prop where
  | start : PICAS.Evolves s0 s0
  | malloc (st : PICAS) (size : Nat) : PICAS.Evolves s0 st → PICAS.Evolves s0 (st.malloc size).1
  | free (st : PICAS) (p : Nat) : PICAS.Evolves s0 st → PICAS.Evolves s0 (st.free p)
  | realloc (st : PICAS) (p n : Nat) :
      PICAS.Evolves s0 st → PICAS.Evolves s0 (st.realloc p n).1
  | memalign (st : PICAS) (a n : Nat) :
      PICAS.Evolves s0 st → PICAS.Evolves s0 (st.memalign a n).1
  | set_data_layer (st : PICAS) (layer : Nat) :
      PICAS.Evolves s0 st → PICAS.Evolves s0 (st.set_data_layer layer)
  | store (st : PICAS) (m : Mem) : PICAS.Evolves s0 st → PICAS.Evolves s0 { st with mem := m }

/-- The state after `k` successive calls `malloc(size)`. -/
def PICAS.malloc_times (st : PICAS) (size : Nat) : Nat → PICAS
  | 0 => st
  | k + 1 => ((st.malloc_times size k).malloc size).1

/-- A configuration of one layer of 64 KiB whose scavenger is enabled (the
default) with `period_allocs = 0`. -/
def zero_period_config : Config :=
  { num_layers := 1, mem_layers := fun _ => { bytes := 65536 },
    scavenger := { period_allocs := 0 } }

/-- The allocator built from `zero_period_config`. -/
def zero_period : PICAS := PICAS.construct zero_period_config plain_host

/-- The same configuration with the scavenger disabled. -/
def scavenger_off_config : Config :=
  { num_layers := 1, mem_layers := fun _ => { bytes := 65536 },
    scavenger := { enabled := false, period_allocs := 0 } }

/-- The `size` field of the free node at address `n`. -/
def node_size (m : Mem) (n : Nat) : Nat := rd64 m (n + 8)

/-- Every free node of a layer, bin by bin: what the scavenger collects. -/
def LayerState.free_nodes (L : LayerState) : List Nat := collect_bins L.bins kBins

/-- Free nodes that occupy pairwise non-overlapping ranges: a node at `n` holds
the 16 bytes of its `FreeNode` and the range `[n, n + size)` that it records, and
that range lies inside the 64-bit address space. -/
def nodes_apart (m : Mem) (l : List Nat) : Prop :=
  l.Pairwise (fun a b =>
    (a + 16 ≤ b ∧ a + node_size m a ≤ b) ∨ (b + 16 ≤ a ∧ b + node_size m b ≤ a)) ∧
  ∀ a ∈ l, a + node_size m a < W64

/-- Free nodes in address order, each ending no later than the next begins. -/
def nodes_in_order (m : Mem) (l : List Nat) : Prop :=
  l.Pairwise (fun a b => a + 16 ≤ b ∧ a + node_size m a ≤ b) ∧
  ∀ a ∈ l, a + node_size m a < W64

/-- Scenario for the scavenger: three blocks from `malloc(16)` on one layer,
48 bytes each and adjacent. -/
def adj_a : PICAS × Nat := one_layer.malloc 16

/-- The second block of the scenario. -/
def adj_b : PICAS × Nat := adj_a.1.malloc 16

/-- The third block of the scenario. -/
def adj_c : PICAS × Nat := adj_b.1.malloc 16

/-- The scenario after the three blocks were freed: three adjacent free nodes in
bin 5 of layer 0. -/
def adjacent_free : PICAS := ((adj_c.1.free adj_a.2).free adj_b.2).free adj_c.2

/-- The free-list bin invariant of a layer: every free node stored in bin `b`
has `bin_index(size) ≥ b`. -/
def LayerState.bins_ok (m : Mem) (L : LayerState) : Prop :=
  ∀ b, b < kBins → ∀ n ∈ L.bins b, b ≤ bin_index (node_size m n)

/-- A configuration whose scavenger runs at every `malloc` with rebucketing off. -/
def big_bin_config : Config :=
  { num_layers := 1, mem_layers := fun _ => { bytes := 65536 },
    scavenger := { period_allocs := 1, enable_rebucket := false } }

/-- Scenario for the big bin: `a = malloc(16)` on the allocator of
`big_bin_config`. -/
def big_bin_a : PICAS × Nat := (PICAS.construct big_bin_config plain_host).malloc 16

/-- Scenario for the big bin: `free(a)`, then `malloc(100)`, whose scavenger
tick moves the free node of 48 bytes to the last bin. -/
def big_bin_after : PICAS × Nat := (big_bin_a.1.free big_bin_a.2).malloc 100

/-- Scenario for the free-list path: a block of `alloc_from_layer(0, 0, 16)` on
one layer, 48 bytes in all. -/
def lifo_a : PICAS × Nat := one_layer.alloc_from_layer 0 0 16

/-- The scenario after `free_into_layer` on that block. -/
def lifo_freed : PICAS := lifo_a.1.free_into_layer (lifo_a.2 - sizeof_BlockHeader)

/-- The scenario after the next operation, `alloc_from_layer(0, 0, 16)` again. -/
def lifo_b : PICAS × Nat := lifo_freed.alloc_from_layer 0 0 16

/-- Scenario for a split: a block of `alloc_from_layer(0, 0, 100)` on one layer,
144 bytes in all. -/
def split_a : PICAS × Nat := one_layer.alloc_from_layer 0 0 100

/-- The scenario after `free_into_layer` on that block: one free node of 144
bytes. -/
def split_freed : PICAS := split_a.1.free_into_layer (split_a.2 - sizeof_BlockHeader)

/-- The scenario after `alloc_from_layer(0, 0, 16)`, which takes 48 bytes of the
node and reinserts the remainder of 96 bytes. -/
def split_b : PICAS × Nat := split_freed.alloc_from_layer 0 0 16

/-- One memory layer of a single page after `alloc_from_layer(0, 0, 4040)`: 16
bytes are left, less than a minimum block. -/
def one_page_filled : PICAS := (one_page_system.alloc_from_layer 0 0 4040).1

/-- Two layer states that differ at most in the bins. -/
def LayerState.same_but_bins (a b : LayerState) : Prop :=
  b.begin = a.begin ∧ b.end_ = a.end_ ∧ b.bump = a.bump ∧
  b.capacity_bytes = a.capacity_bytes ∧ b.bump_used_bytes = a.bump_used_bytes ∧
  b.live_bytes_est = a.live_bytes_est ∧ b.points = a.points ∧
  b.mem_tp_reached = a.mem_tp_reached

/-- Two layer states with the same cursor, MEM-TP threshold and MEM-TP flag. -/
def LayerState.same_tp (a b : LayerState) : Prop :=
  a.same_cursor b ∧ b.points = a.points ∧ b.mem_tp_reached = a.mem_tp_reached

/-- The half of the MEM-TP flag invariant that every step keeps: when the
threshold is 0 or `bump_used_bytes` has reached it, the flag is set. -/
def LayerState.tp_ok (L : LayerState) : Prop :=
  (L.points.mem_tp = 0 ∨ L.points.mem_tp ≤ L.bump_used_bytes) → L.mem_tp_reached = true

/-- The event is `LayerMemTPReached` for memory layer `i`. -/
def is_mem_tp_event (i : Nat) (e : Event) : Bool :=
  decide (e.type = EventType.LayerMemTPReached) && decide (e.mem_layer = i)

/-- The number of `LayerMemTPReached` events for memory layer `i` in a list. -/
def mem_tp_events (i : Nat) (l : List Event) : Nat := l.countP (is_mem_tp_event i)

/-- The flag as a number: 1 when set. -/
def flag_count (b : Bool) : Nat := if b then 1 else 0

/-- A step of the allocator as the MEM-TP flags see it: the number of layers
stays, a threshold that is reached keeps its flag set, and each `LayerMemTPReached`
event the step emits for a layer is paid for by the flag of that layer going
from clear to set. -/
def PICAS.tp_step (a b : PICAS) : Prop :=
  b.num_layers = a.num_layers ∧
  (∀ i, (a.layers i).tp_ok → (b.layers i).tp_ok) ∧
  ∃ l, b.events = a.events ++ l ∧
    ∀ i, mem_tp_events i l + flag_count (a.layers i).mem_tp_reached
      ≤ flag_count (b.layers i).mem_tp_reached

/-- The sum of the sizes the free nodes of a list record. -/
def free_bytes (m : Mem) (l : List Nat) : Nat := (l.map (node_size m)).sum

/-- An address is covered by a free node of the list. -/
def covered (m : Mem) (l : List Nat) (x : Nat) : Prop :=
  ∃ n ∈ l, n ≤ x ∧ x < n + node_size m n

/-- The free nodes of the layers `0 .. n-1`, layer by layer. -/
def PICAS.all_free_nodes (st : PICAS) (n : Nat) : List Nat :=
  collect_bins (fun i => (st.layers i).free_nodes) n

/-- The bin placement the scan of `alloc_from_layer` relies on: a free node
stored in bin `b` has `bin_index(size) ≤ b`, so a scan that starts at the bin of
the size wanted passes every node that is large enough. -/
def LayerState.bins_hi (m : Mem) (L : LayerState) : Prop :=
  ∀ b, b < kBins → ∀ n ∈ L.bins b, bin_index (node_size m n) ≤ b

/-- The body of the per-layer loop of `scavenger_run_light` applied to layer
`ml`; the loop of the pass is this step for `ml = 0, 1, ...`. -/
def PICAS.scavenge_one (st : PICAS) (cfg : ScavengerConfig) (ml : Nat) : PICAS :=
  { st.set_layer ml (scavenge_layer cfg st.mem (st.layers ml)).2 with
    mem := (scavenge_layer cfg st.mem (st.layers ml)).1 }

/-- The state of a layer together with its live blocks (`live` lists their
headers, `ext h` is the number of bytes block `h` owns): the free nodes are
apart and below the bump cursor, every free node sits in a bin at or above the
bin of its size, every live block owns at least a header, lies below the bump
cursor and records a `total_size` no larger than what it owns, and live blocks
overlap neither each other nor a free node. -/
structure LayerInv (m : Mem) (L : LayerState) (live : List Nat) (ext : Nat → Nat) : Prop where
  bump_le : L.bump ≤ L.end_
  end_lt : L.end_ < W64
  apart : nodes_apart m L.free_nodes
  below : ∀ n ∈ L.free_nodes, n + 16 ≤ L.bump ∧ n + node_size m n ≤ L.bump
  hi : L.bins_hi m
  live_ok : ∀ h ∈ live, 32 ≤ ext h ∧ h + ext h ≤ L.bump ∧ rd64 m (h + 24) ≤ ext h
  live_apart : live.Pairwise (fun a b => a + ext a ≤ b ∨ b + ext b ≤ a)
  live_free : ∀ h ∈ live, ∀ n ∈ L.free_nodes,
    h + ext h ≤ n ∨ (n + 16 ≤ h ∧ n + node_size m n ≤ h)

/-- The states of memory layer `ml` that are reachable through
`alloc_from_layer`, `free_into_layer` and scavenger passes without a wrap, with
the headers of the blocks that are live. It starts from a layer with empty bins
inside the address space; `alloc_from_layer` is called with a data-layer index
and a request below 2^64 − 48 (whose block total does not wrap) that keeps the
cursor sum `bump + block_total(size)` below 2^64; `free_into_layer` is applied
to a live block. -/
inductive PICAS.LayerReach (ml : Nat) : PICAS → List Nat → Prop where
  | start (st : PICAS) (hml : ml < st.num_layers)
      (hbins : ∀ b, (st.layers ml).bins b = [])
      (hbump : (st.layers ml).bump ≤ (st.layers ml).end_)
      (hend : (st.layers ml).end_ < W64) : PICAS.LayerReach ml st []
  | alloc (st : PICAS) (live : List Nat) (dl size : Nat) (hdl : dl < kMaxLayers)
      (hsize : size < W64 - 48) (hfit : (st.layers ml).bump + block_total size < W64) :
      PICAS.LayerReach ml st live →
      PICAS.LayerReach ml (st.alloc_from_layer dl ml size).1
        (if (st.alloc_from_layer dl ml size).2 = 0 then live
         else ((st.alloc_from_layer dl ml size).2 - sizeof_BlockHeader) :: live)
  | free (st : PICAS) (live : List Nat) (h : Nat) (hh : h ∈ live) :
      PICAS.LayerReach ml st live → PICAS.LayerReach ml (st.free_into_layer h) (live.erase h)
  | scavenge (st : PICAS) (live : List Nat) (cfg : ScavengerConfig) :
      PICAS.LayerReach ml st live → PICAS.LayerReach ml (st.scavenge_one cfg ml) live

/-- A layer with a hole: the invariant holds, and the `s` bytes at `cur` belong
to no free node and no live block. This is the state of `alloc_from_layer`
between taking a node off its bin and stamping the header. -/
structure LayerHole (m : Mem) (L : LayerState) (live : List Nat) (ext : Nat → Nat)
    (cur s : Nat) : Prop where
  inv : LayerInv m L live ext
  hole_nodes : ∀ n ∈ L.free_nodes,
    (n + 16 ≤ cur ∧ n + node_size m n ≤ cur) ∨ (cur + 16 ≤ n ∧ cur + s ≤ n)
  hole_live : ∀ h ∈ live, h + ext h ≤ cur ∨ (cur + 16 ≤ h ∧ cur + s ≤ h)
  hole_below : cur + 16 ≤ L.bump ∧ cur + s ≤ L.bump

/-- Three layers of one page each behind a reservation of one page
(`ragged_layers`), after `malloc(4032)`: layer 0 keeps 32 bytes, less than a
minimum block. -/
def ragged_a : PICAS × Nat := ragged_layers.malloc 4032

/-- The next call, `malloc(100)`: the bounded probe finds layer 1, which starts
where the reservation ends. -/
def ragged_b : PICAS × Nat := ragged_a.1.malloc 100

/-- One 64 KiB layer and the request `SIZE_MAX - 100`, whose block total is
2^64 − 64. -/
def wrap_a : PICAS × Nat := one_layer.alloc_from_layer 0 0 (SIZE_MAX - 100)

/-- The next call, `alloc_from_layer(0, 0, 100)`. -/
def wrap_b : PICAS × Nat := wrap_a.1.alloc_from_layer 0 0 100

/-- One layer with one free node of 48 bytes (`lifo_freed`), then the request
`SIZE_MAX - 100`. -/
def skip_a : PICAS × Nat := lifo_freed.alloc_from_layer 0 0 (SIZE_MAX - 100)

/-- The next call, `alloc_from_layer(0, 0, 100)`. -/
def skip_b : PICAS × Nat := skip_a.1.alloc_from_layer 0 0 100

/-- The call after that, `alloc_from_layer(0, 0, 100)` again. -/
def skip_c : PICAS × Nat := skip_b.1.alloc_from_layer 0 0 100

/-- One memory layer of 64 KiB with its MEM-TP at 4096 bytes, everything else at
its default. -/
def tp_layer : PICAS :=
  PICAS.construct
    { num_layers := 1, mem_layers := fun _ => { bytes := 65536, mem_tp_bytes := 4096 } }
    plain_host

/-- `tp_layer` after `malloc(16)`. -/
def tp_a : PICAS × Nat := tp_layer.malloc 16

/-- Then `malloc(SIZE_MAX - 100)`. -/
def tp_b : PICAS × Nat := tp_a.1.malloc (SIZE_MAX - 100)

/-- Then `malloc(16)`. -/
def tp_c : PICAS × Nat := tp_b.1.malloc 16

/-! ## Properties: reading and writing memory -/

theorem rdN_congr (m m2 : Mem) (n : Nat) : ∀ a : Nat,
    (∀ x, a ≤ x → x < a + n → m x = m2 x) → rdN m a n = rdN m2 a n := by
  induction n with
  | zero => intro a _; rfl
  | succ n ih =>
    intro a h
    simp only [rdN]
    rw [h a (Nat.le_refl a) (by omega), ih (a + 1) (fun x h1 h2 => h x (by omega) (by omega))]

theorem rdN_of_bytes (m : Mem) (n : Nat) : ∀ (a v : Nat),
    (∀ i, i < n → m (a + i) = (v / 256 ^ i) % 256) → rdN m a n = v % 256 ^ n := by
  induction n with
  | zero => intro a v _; simp [rdN, Nat.mod_one]
  | succ n ih =>
    intro a v h
    simp only [rdN]
    have h0 := h 0 (by omega)
    simp only [Nat.add_zero, pow_zero, Nat.div_one] at h0
    rw [h0, ih (a + 1) (v / 256)]
    · rw [pow_succ, Nat.mul_comm (256 ^ n) 256, Nat.mod_mul, Nat.mod_mod]
    · intro i hi
      have := h (i + 1) (by omega)
      rw [show a + 1 + i = a + (i + 1) by omega, this, Nat.div_div_eq_div_mul, pow_succ,
        Nat.mul_comm]

theorem rdN_wrN_same (m : Mem) (a n v : Nat) : rdN (wrN m a n v) a n = v % 256 ^ n := by
  apply rdN_of_bytes
  intro i hi
  simp [wrN, hi]

theorem rdN_wrN_disjoint (m : Mem) (a n v b k : Nat) (h : a + n ≤ b ∨ b + k ≤ a) :
    rdN (wrN m a n v) b k = rdN m b k := by
  apply rdN_congr
  intro x h1 h2
  have : ¬ (a ≤ x ∧ x < a + n) := by omega
  simp [wrN, this]

theorem rdN_append (m : Mem) (k l : Nat) : ∀ a : Nat,
    rdN m a (k + l) = rdN m a k + 256 ^ k * rdN m (a + k) l := by
  induction k with
  | zero => intro a; simp [rdN]
  | succ k ih =>
    intro a
    rw [show k + 1 + l = (k + l) + 1 by omega]
    simp only [rdN]
    rw [ih (a + 1), show a + 1 + k = a + (k + 1) by omega, pow_succ]
    ring

theorem rd64_split (m : Mem) (a : Nat) : rd64 m a = rd32 m a + W32 * rd32 m (a + 4) := by
  have := rdN_append m 4 4 a
  simpa [rd64, rd32, W32] using this

theorem rdN_lt (m : Mem) (n : Nat) : ∀ a : Nat, rdN m a n < 256 ^ n := by
  induction n with
  | zero => intro a; simp [rdN]
  | succ n ih =>
    intro a
    simp only [rdN]
    have := ih (a + 1)
    have h2 : m a % 256 < 256 := Nat.mod_lt _ (by norm_num)
    rw [pow_succ]
    omega

/-! ## What the stages leave alone -/

@[simp] theorem emit_mem (st : PICAS) (e : Event) : (st.emit e).mem = st.mem := by
  unfold PICAS.emit; split <;> rfl

@[simp] theorem emit_pages (st : PICAS) (e : Event) : (st.emit e).pages = st.pages := by
  unfold PICAS.emit; split <;> rfl

@[simp] theorem emit_cfg (st : PICAS) (e : Event) : (st.emit e).cfg = st.cfg := by
  unfold PICAS.emit; split <;> rfl

@[simp] theorem emit_num_layers (st : PICAS) (e : Event) :
    (st.emit e).num_layers = st.num_layers := by
  unfold PICAS.emit; split <;> rfl

@[simp] theorem emit_layers (st : PICAS) (e : Event) : (st.emit e).layers = st.layers := by
  unfold PICAS.emit; split <;> rfl

@[simp] theorem emit_fb (st : PICAS) (e : Event) : (st.emit e).fb = st.fb := by
  unfold PICAS.emit; split <;> rfl

/-- The header fields read back after the six stores of a stamp. -/
theorem stamp_header_reads (m : Mem) (h ml dl size t : Nat) :
    rd32 (wr64 (stamp_header m h ml dl size) (h + 24) t) h = kMagic ∧
    rd32 (wr64 (stamp_header m h ml dl size) (h + 24) t) (h + 8) = dl % W32 ∧
    rd32 (wr64 (stamp_header m h ml dl size) (h + 24) t) (h + 12) = 0 ∧
    rd64 (wr64 (stamp_header m h ml dl size) (h + 24) t) (h + 16) = size % W64 := by
  unfold stamp_header
  simp only [rd32, rd64, wr32, wr64]
  refine ⟨?_, ?_, ?_, ?_⟩
  · rw [rdN_wrN_disjoint _ _ _ _ _ _ (by omega), rdN_wrN_disjoint _ _ _ _ _ _ (by omega),
      rdN_wrN_disjoint _ _ _ _ _ _ (by omega), rdN_wrN_disjoint _ _ _ _ _ _ (by omega),
      rdN_wrN_disjoint _ _ _ _ _ _ (by omega), rdN_wrN_same]
    norm_num [kMagic]
  · rw [rdN_wrN_disjoint _ _ _ _ _ _ (by omega), rdN_wrN_disjoint _ _ _ _ _ _ (by omega),
      rdN_wrN_disjoint _ _ _ _ _ _ (by omega), rdN_wrN_same]
    norm_num [W32]
  · rw [rdN_wrN_disjoint _ _ _ _ _ _ (by omega), rdN_wrN_disjoint _ _ _ _ _ _ (by omega),
      rdN_wrN_same]
    norm_num
  · rw [rdN_wrN_disjoint _ _ _ _ _ _ (by omega), rdN_wrN_same]
    norm_num [W64]

/-- A call of `alloc_from_layer` either fails and changes nothing, or returns
the address 32 bytes past a freshly stamped header. -/
theorem alloc_from_layer_shape (st : PICAS) (dl ml size : Nat) :
    st.alloc_from_layer dl ml size = (st, 0) ∨
    ∃ m h t, (st.alloc_from_layer dl ml size).2 = h + 32 ∧
      (st.alloc_from_layer dl ml size).1.mem = wr64 (stamp_header m h ml dl size) (h + 24) t ∧
      (st.alloc_from_layer dl ml size).1.pages = st.pages ∧
      (st.alloc_from_layer dl ml size).1.num_layers = st.num_layers ∧
      (st.alloc_from_layer dl ml size).1.cfg = st.cfg ∧
      (st.alloc_from_layer dl ml size).1.fb = st.fb := by
  by_cases h : ml ≥ st.num_layers
  · left; simp [PICAS.alloc_from_layer, h]
  · cases hs : scan_bins st.mem (st.layers ml) (block_total size)
        (kBins - bin_index (block_total size)) (bin_index (block_total size)) with
    | some r =>
      obtain ⟨b, pre, cur, post⟩ := r
      right
      simp only [PICAS.alloc_from_layer, h, if_false, hs]
      simp only [PICAS.take_from_bin, emit_mem, emit_pages, emit_num_layers, emit_cfg, emit_fb,
        PICAS.set_layer, sizeof_BlockHeader]
      exact ⟨_, cur, _, rfl, rfl, trivial, trivial, trivial, trivial⟩
    | none =>
      simp only [PICAS.alloc_from_layer, h, if_false, hs]
      by_cases h2 : (st.layers ml).has_space (block_total size) = true
      · right
        refine ⟨st.mem, (st.layers ml).bump, block_total size, ?_, ?_, ?_, ?_, ?_, ?_⟩ <;>
          simp only [PICAS.bump_alloc, h2] <;> simp [PICAS.set_layer, sizeof_BlockHeader] <;>
          split <;> simp
      · left; simp [PICAS.bump_alloc, h2]

/-- What a successful `alloc_from_layer` leaves in front of the pointer. -/
theorem alloc_from_layer_header (st : PICAS) (dl ml size : Nat)
    (hp : (st.alloc_from_layer dl ml size).2 ≠ 0) :
    32 ≤ (st.alloc_from_layer dl ml size).2 ∧
    rd32 (st.alloc_from_layer dl ml size).1.mem ((st.alloc_from_layer dl ml size).2 - 32) = kMagic ∧
    rd32 (st.alloc_from_layer dl ml size).1.mem ((st.alloc_from_layer dl ml size).2 - 32 + 8)
      = dl % W32 ∧
    rd32 (st.alloc_from_layer dl ml size).1.mem ((st.alloc_from_layer dl ml size).2 - 32 + 12) = 0 ∧
    rd64 (st.alloc_from_layer dl ml size).1.mem ((st.alloc_from_layer dl ml size).2 - 32 + 16)
      = size % W64 := by
  rcases alloc_from_layer_shape st dl ml size with h | ⟨m, h, t, h1, h2, -⟩
  · rw [h] at hp; exact absurd rfl hp
  · rw [h1, h2, Nat.add_sub_cancel]
    exact ⟨by omega, stamp_header_reads _ _ _ _ _ _⟩

/-- The three identification tests on a pointer whose header is an arena block
header with clear flags: the tag test and the fallback test fail, the header
test succeeds, and `usable_size` is the stored `user_size`. -/
theorem usable_size_of_header (st : PICAS) (p : Nat) (hp : 32 ≤ p)
    (hmagic : rd32 st.mem (p - 32) = kMagic)
    (hdl : rd32 st.mem (p - 32 + 8) ≠ kFallbackMagic)
    (hflags : rd32 st.mem (p - 32 + 12) = 0)
    (harena : st.ptr_in_arena (p - 32) = true) :
    rd64 st.mem (p - sizeof_AlignTag) ≠ kAlignMagic ∧
    fallback_owns st.mem p = false ∧
    st.header_from_user_ptr p = p - 32 ∧
    st.usable_size p = rd64 st.mem (p - 32 + 16) := by
  have e24 : p - 24 = p - 32 + 8 := by omega
  have htag : rd64 st.mem (p - sizeof_AlignTag) ≠ kAlignMagic := by
    rw [sizeof_AlignTag, e24, rd64_split, show p - 32 + 8 + 4 = p - 32 + 12 by omega, hflags]
    have := rdN_lt st.mem 4 (p - 32 + 8)
    simp only [rd32, kAlignMagic, W32] at *
    omega
  have hfb : fallback_owns st.mem p = false := by
    have hp0 : p ≠ 0 := by omega
    simp [fallback_owns, hp0, header_ok, hdr_from_user, sizeof_FallbackHeader, e24, hdl]
  have hhdr : st.header_from_user_ptr p = p - 32 := by
    have hp0 : p ≠ 0 := by omega
    simp [PICAS.header_from_user_ptr, hp0, sizeof_BlockHeader, harena, hmagic]
  refine ⟨htag, hfb, hhdr, ?_⟩
  have hp0 : p ≠ 0 := by omega
  have hne : p - 32 ≠ 0 := by
    intro h0
    rw [h0] at harena
    simp [PICAS.ptr_in_arena] at harena
  unfold PICAS.usable_size
  rw [hhdr]
  simp [hp0, htag, hfb, hmagic, hne]

theorem same_frame_refl (a : PICAS) : a.same_frame a := ⟨rfl, rfl, rfl, rfl⟩

theorem same_frame_trans {a b c : PICAS} (h1 : a.same_frame b) (h2 : b.same_frame c) :
    a.same_frame c :=
  ⟨h2.1.trans h1.1, h2.2.1.trans h1.2.1, h2.2.2.1.trans h1.2.2.1, h2.2.2.2.trans h1.2.2.2⟩

theorem same_frame_emit (st : PICAS) (e : Event) : st.same_frame (st.emit e) :=
  ⟨emit_pages st e, emit_num_layers st e, emit_cfg st e, emit_fb st e⟩

theorem same_frame_scavenge_layers (cfg : ScavengerConfig) (st : PICAS) (n : Nat) :
    st.same_frame (scavenge_layers cfg st n) := by
  induction n with
  | zero => exact same_frame_refl st
  | succ n ih =>
    simp only [scavenge_layers, PICAS.set_layer]
    exact ih

theorem same_frame_maybe_scavenge (st : PICAS) : st.same_frame st.maybe_scavenge := by
  unfold PICAS.maybe_scavenge
  split
  · exact same_frame_refl st
  · split
    · exact same_frame_refl st
    · simp only
      split
      · exact ⟨rfl, rfl, rfl, rfl⟩
      · refine same_frame_trans ?_ (same_frame_emit _ _)
        unfold scavenger_run_light
        split
        · exact ⟨rfl, rfl, rfl, rfl⟩
        · split
          · exact ⟨rfl, rfl, rfl, rfl⟩
          · exact same_frame_trans (b := { st with allocs_since_scavenge := 0 })
              ⟨rfl, rfl, rfl, rfl⟩ (same_frame_scavenge_layers _ _ _)

theorem same_frame_emit_reached (st : PICAS) (pout : PolicyOutput) (dl ml size : Nat) :
    st.same_frame (st.emit_reached pout dl ml size) := by
  unfold PICAS.emit_reached
  split <;> split <;>
    first
      | exact same_frame_refl st
      | exact same_frame_emit _ _
      | exact same_frame_trans (same_frame_emit _ _) (same_frame_emit _ _)

theorem same_frame_apply_jumps (st : PICAS) (pout : PolicyOutput) (dl ml size : Nat) :
    st.same_frame (st.apply_jumps pout dl ml size).1 := by
  unfold PICAS.apply_jumps
  split
  · split
    · exact same_frame_trans (same_frame_emit st _) ⟨rfl, rfl, rfl, rfl⟩
    · exact same_frame_trans (same_frame_emit st _) ⟨rfl, rfl, rfl, rfl⟩
  · exact same_frame_refl st

theorem same_frame_select_layer (st : PICAS) (pout : PolicyOutput) (dl size : Nat) :
    st.same_frame (st.select_layer pout dl size).1 := by
  unfold PICAS.select_layer
  split
  · exact same_frame_emit _ _
  · exact same_frame_refl st

theorem same_frame_choose (st : PICAS) (preferred : Nat) :
    st.same_frame (st.choose_layer_bounded preferred).1 := by
  unfold PICAS.choose_layer_bounded
  split
  · exact same_frame_refl st
  · dsimp only
    split
    · exact ⟨rfl, rfl, rfl, rfl⟩
    · exact same_frame_refl st

theorem same_frame_spill_if_full (st : PICAS) (dl cm size : Nat) :
    st.same_frame (st.spill_if_full dl cm size).1 := by
  unfold PICAS.spill_if_full
  split
  · dsimp only
    split
    · exact same_frame_trans (same_frame_choose st dl) (same_frame_emit _ _)
    · exact same_frame_choose st dl
  · exact same_frame_refl st

theorem same_frame_alloc (st : PICAS) (dl ml size : Nat) :
    st.same_frame (st.alloc_from_layer dl ml size).1 := by
  rcases alloc_from_layer_shape st dl ml size with h | ⟨m, h, t, -, -, h3, h4, h5, h6⟩
  · rw [h]; exact same_frame_refl st
  · exact ⟨h3, h4, h5, h6⟩

theorem same_frame_retry (st : PICAS) (dl cm size : Nat) :
    st.same_frame (st.retry_probe dl cm size).1 := by
  unfold PICAS.retry_probe
  simp only
  split
  · exact same_frame_trans (same_frame_trans (same_frame_choose st cm) (same_frame_emit _ _))
      (same_frame_alloc _ _ _ _)
  · exact same_frame_choose st cm

theorem same_frame_attempt (st : PICAS) (dl cm size : Nat) :
    st.same_frame (st.attempt dl cm size).1 := by
  unfold PICAS.attempt
  dsimp only
  split
  · exact same_frame_trans (same_frame_alloc _ _ _ _) (same_frame_retry _ _ _ _)
  · exact same_frame_alloc _ _ _ _

theorem same_frame_place (st : PICAS) (dl cm size : Nat) :
    st.same_frame (st.place dl cm size).1 :=
  same_frame_trans (same_frame_spill_if_full st dl cm size) (same_frame_attempt _ _ _ _)

theorem same_frame_prepare (st : PICAS) (size : Nat) : st.same_frame (st.prepare size).1 := by
  unfold PICAS.prepare
  simp only
  exact same_frame_trans (same_frame_trans (same_frame_trans (same_frame_maybe_scavenge st)
    (same_frame_emit_reached _ _ _ _ _)) (same_frame_apply_jumps _ _ _ _ _))
    (same_frame_select_layer _ _ _ _)

theorem clamped_dl_lt (st : PICAS) (h1 : 1 ≤ st.num_layers) (h2 : st.num_layers ≤ W32) :
    st.clamped_dl < st.num_layers := by
  unfold PICAS.clamped_dl
  split
  · simp only [sub32, W32] at *
    omega
  · omega

theorem apply_jumps_dl_lt (st : PICAS) (pout : PolicyOutput) (dl ml size : Nat)
    (h : dl < st.num_layers) : (st.apply_jumps pout dl ml size).2.1 < st.num_layers := by
  unfold PICAS.apply_jumps
  split
  · rename_i hj
    split <;> exact hj.2
  · exact h

theorem prepare_dl_lt (st : PICAS) (size : Nat) (h1 : 1 ≤ st.num_layers)
    (h2 : st.num_layers ≤ W32) : (st.prepare size).2.2.1 < st.num_layers := by
  unfold PICAS.prepare
  simp only
  have hs := same_frame_maybe_scavenge st
  have he := same_frame_emit_reached st.maybe_scavenge
    (Policy.decide st.maybe_scavenge.cfg (st.maybe_scavenge.policy_input (if size = 0 then 1 else size)))
    st.maybe_scavenge.clamped_dl st.maybe_scavenge.clamped_ml (if size = 0 then 1 else size)
  have hnl := he.2.1.trans hs.2.1
  rw [← hnl]
  apply apply_jumps_dl_lt
  rw [hnl, ← hs.2.1]
  exact clamped_dl_lt _ (by rw [hs.2.1]; exact h1) (by rw [hs.2.1]; exact h2)

/-- What a successful attempt leaves in front of the pointer. -/
theorem attempt_header (st : PICAS) (dl cm size : Nat) (hp : (st.attempt dl cm size).2.2 ≠ 0) :
    32 ≤ (st.attempt dl cm size).2.2 ∧
    rd32 (st.attempt dl cm size).1.mem ((st.attempt dl cm size).2.2 - 32) = kMagic ∧
    rd32 (st.attempt dl cm size).1.mem ((st.attempt dl cm size).2.2 - 32 + 8) = dl % W32 ∧
    rd32 (st.attempt dl cm size).1.mem ((st.attempt dl cm size).2.2 - 32 + 12) = 0 ∧
    rd64 (st.attempt dl cm size).1.mem ((st.attempt dl cm size).2.2 - 32 + 16) = size % W64 := by
  unfold PICAS.attempt at hp ⊢
  dsimp only at hp ⊢
  split
  · rename_i h0
    rw [if_pos h0] at hp
    unfold PICAS.retry_probe at hp ⊢
    dsimp only at hp ⊢
    split
    · rename_i h1
      rw [if_pos h1] at hp
      exact alloc_from_layer_header _ _ _ _ hp
    · rename_i h1
      rw [if_neg h1] at hp
      exact absurd rfl hp
  · rename_i h0
    exact alloc_from_layer_header _ _ _ _ h0

/-- What a successful arena part leaves in front of the pointer. -/
theorem place_header (st : PICAS) (dl cm size : Nat) (hp : (st.place dl cm size).2.2 ≠ 0) :
    32 ≤ (st.place dl cm size).2.2 ∧
    rd32 (st.place dl cm size).1.mem ((st.place dl cm size).2.2 - 32) = kMagic ∧
    rd32 (st.place dl cm size).1.mem ((st.place dl cm size).2.2 - 32 + 8) = dl % W32 ∧
    rd32 (st.place dl cm size).1.mem ((st.place dl cm size).2.2 - 32 + 12) = 0 ∧
    rd64 (st.place dl cm size).1.mem ((st.place dl cm size).2.2 - 32 + 16) = size % W64 :=
  attempt_header _ _ _ _ hp

theorem finish_mem (st : PICAS) (pout : PolicyOutput) (dl cm size p : Nat) :
    (st.finish pout dl cm size p).mem = st.mem ∧ (st.finish pout dl cm size p).pages = st.pages := by
  unfold PICAS.finish
  dsimp only
  split <;> exact ⟨rfl, rfl⟩

/-- The low-bit mask `~(2^k - 1)` clears the low `k` bits. -/
theorem and_not64_mod (y k : Nat) (hk : k ≤ 64) : (y &&& (W64 - 2 ^ k)) % 2 ^ k = 0 := by
  rw [← Nat.and_pow_two_sub_one_eq_mod, Nat.and_assoc, Nat.and_pow_two_sub_one_eq_mod]
  have : (W64 - 2 ^ k) % 2 ^ k = 0 := by
    apply Nat.sub_mod_eq_zero_of_mod_eq
    have : W64 = 2 ^ k * 2 ^ (64 - k) := by
      rw [← pow_add, show k + (64 - k) = 64 by omega]; rfl
    rw [this, Nat.mul_mod_right, Nat.mod_self]
  rw [this, Nat.and_zero]

theorem sub64_one (a : Nat) (h1 : 1 ≤ a) (h2 : a < W64) : sub64 a 1 = a - 1 := by
  simp only [sub64, W64] at *
  omega

theorem align_ptr_mod (p k : Nat) (hk : k < 64) : align_ptr p (2 ^ k) % 2 ^ k = 0 := by
  have hlt : 2 ^ k < W64 := by
    have : (2:Nat) ^ k < 2 ^ 64 := Nat.pow_lt_pow_right (by norm_num) hk
    simpa [W64] using this
  have hpos : 1 ≤ 2 ^ k := Nat.one_le_two_pow
  unfold align_ptr
  rw [sub64_one _ hpos hlt]
  have : not64 (2 ^ k - 1) = W64 - 2 ^ k := by
    simp only [not64, SIZE_MAX, W64] at *
    rw [Nat.mod_eq_of_lt (by omega)]
    omega
  rw [this]
  exact and_not64_mod _ _ (by omega)

theorem is_pow2_local_pow (k : Nat) (hk : k < 64) : is_pow2_local (2 ^ k) = true := by
  have hlt : 2 ^ k < W64 := by
    have : (2:Nat) ^ k < 2 ^ 64 := Nat.pow_lt_pow_right (by norm_num) hk
    simpa [W64] using this
  have hpos : 1 ≤ 2 ^ k := Nat.one_le_two_pow
  unfold is_pow2_local
  rw [sub64_one _ hpos hlt, Nat.and_pow_two_sub_one_eq_mod, Nat.mod_self]
  simp

theorem malloc_of_arena_ptr (st : PICAS) (size : Nat) (h : st.arena_ptr size ≠ 0) :
    (st.malloc size).2 = st.arena_ptr size ∧
    st.arena_ptr size = ((st.prepare size).1.place (st.prepare size).2.2.1 (st.prepare size).2.2.2
        (if size = 0 then 1 else size)).2.2 ∧
    (st.malloc size).1.mem =
      ((st.prepare size).1.place (st.prepare size).2.2.1 (st.prepare size).2.2.2
        (if size = 0 then 1 else size)).1.mem ∧
    (st.malloc size).1.pages = st.pages := by
  by_cases hh : (Policy.decide st.maybe_scavenge.cfg
      (st.maybe_scavenge.policy_input (if size = 0 then 1 else size))).hard_error = true
  · unfold PICAS.arena_ptr at h
    dsimp only at h
    rw [if_pos hh] at h
    exact absurd rfl h
  · unfold PICAS.arena_ptr at h ⊢
    unfold PICAS.malloc
    dsimp only at h ⊢
    rw [if_neg hh] at h ⊢
    rw [if_neg hh, if_neg h]
    refine ⟨rfl, rfl, (finish_mem _ _ _ _ _ _).1, ?_⟩
    rw [(finish_mem _ _ _ _ _ _).2]
    exact ((same_frame_trans (same_frame_prepare st size) (same_frame_place _ _ _ _)).1)

@[simp] theorem emit_reached_mem (st : PICAS) (pout : PolicyOutput) (dl ml size : Nat) :
    (st.emit_reached pout dl ml size).mem = st.mem := by
  unfold PICAS.emit_reached
  split <;> split <;> simp

@[simp] theorem emit_reached_layers (st : PICAS) (pout : PolicyOutput) (dl ml size : Nat) :
    (st.emit_reached pout dl ml size).layers = st.layers := by
  unfold PICAS.emit_reached
  split <;> split <;> simp

/-- The out-of-memory tail returns what the fallback allocator returns when
`always_fallback_on_fail` is set, else null, and leaves the layers alone. -/
theorem out_of_memory_result (st : PICAS) (dl ml size : Nat) (n1 n2 : String) :
    (st.out_of_memory dl ml size n1 n2).2 =
      (if st.cfg.safety.always_fallback_on_fail then (fallback_alloc st.fb st.mem size).2.2 else 0) ∧
    (st.out_of_memory dl ml size n1 n2).1.layers = st.layers := by
  unfold PICAS.out_of_memory
  simp only [emit_cfg, emit_fb, emit_mem]
  by_cases ha : st.cfg.safety.always_fallback_on_fail = true
  · simp only [ha, if_true]
    by_cases h0 : (fallback_alloc st.fb st.mem size).2.2 = 0
    · simp [h0]
    · simp [h0]
  · simp [ha]

/-- A failed `alloc_from_layer` changes nothing, and the layer it was aimed at
had no bump room for the block. -/
theorem alloc_from_layer_fail (st : PICAS) (dl ml size : Nat)
    (h0 : (st.alloc_from_layer dl ml size).2 = 0) :
    (st.alloc_from_layer dl ml size).1 = st ∧
    (ml < st.num_layers → (st.layers ml).bump + block_total size > (st.layers ml).end_) := by
  by_cases h : ml ≥ st.num_layers
  · constructor
    · simp [PICAS.alloc_from_layer, h]
    · intro hlt; omega
  · cases hs : scan_bins st.mem (st.layers ml) (block_total size)
        (kBins - bin_index (block_total size)) (bin_index (block_total size)) with
    | some r =>
      obtain ⟨b, pre, cur, post⟩ := r
      simp only [PICAS.alloc_from_layer, h, if_false, hs, PICAS.take_from_bin,
        sizeof_BlockHeader] at h0
      omega
    | none =>
      simp only [PICAS.alloc_from_layer, h, if_false, hs] at h0 ⊢
      by_cases h2 : (st.layers ml).has_space (block_total size) = true
      · simp only [PICAS.bump_alloc, h2, sizeof_BlockHeader] at h0
        simp at h0
      · constructor
        · simp [PICAS.bump_alloc, h2]
        · intro _
          simp only [LayerState.has_space, decide_eq_true_eq] at h2
          have := Nat.mod_le ((st.layers ml).bump + block_total size) W64
          omega

/-- With bump room in the layer, `alloc_from_layer` succeeds. -/
theorem alloc_from_layer_room (st : PICAS) (dl ml size : Nat) (hml : ml < st.num_layers)
    (hroom : (st.layers ml).bump + block_total size ≤ (st.layers ml).end_) :
    (st.alloc_from_layer dl ml size).2 ≠ 0 := by
  intro h0
  have := (alloc_from_layer_fail st dl ml size h0).2 hml
  omega

@[simp] theorem choose_layers (st : PICAS) (preferred : Nat) :
    (st.choose_layer_bounded preferred).1.layers = st.layers := by
  unfold PICAS.choose_layer_bounded
  split
  · rfl
  · dsimp only
    split <;> rfl

/-! ## The claims -/

set_option maxRecDepth 100000 in
/-- C1, failing input. `realloc` does not always preserve the first
`min(usable_size(p), n)` bytes: with `a = malloc(16)`, `p = malloc(40)`, the
word 0x50494341 stored at `p + 16` and `a` freed, the call
`realloc(p, SIZE_MAX)` returns the non-null pointer `a` (the wrapped
`block_total(SIZE_MAX) = 32` fits the 48-byte free node), copies the 40 bytes
over the header of `p`, and the `free(p)` that follows turns that header into a
free node. `usable_size(p)` was 40, the byte at `p + 16` was 0x41, the byte at
`q + 16` is 0. -/
theorem realloc_grow_loses_bytes :
    grow_before.usable_size grow_p.2 = 40 ∧
    grow_after.2 = grow_a.2 ∧ grow_after.2 ≠ 0 ∧
    rd8 grow_before.mem (grow_p.2 + 16) = 0x41 ∧
    rd8 grow_after.1.mem (grow_after.2 + 16) = 0 := by
  decide

/-- The pointer `fallback_alloc` hands out in system-malloc mode is the raw block
plus the 24-byte header, so a 16-byte aligned raw block gives an address that is
8 modulo 16. -/
theorem fallback_alloc_system_mod (fb : Fallback) (m : Mem) (size : Nat)
    (hmode : fb.g_cfg.mode = FallbackMode.SystemMalloc)
    (hraw : fb.malloc_results.headD 0 % 16 = 0)
    (hp : (fallback_alloc fb m size).2.2 ≠ 0) :
    (fallback_alloc fb m size).2.2 % 16 = 8 := by
  unfold fallback_alloc at hp ⊢
  simp only [hmode] at hp ⊢
  split
  · rename_i h0
    rw [if_pos h0] at hp
    exact absurd rfl hp
  · simp only [sizeof_FallbackHeader]
    omega

set_option maxRecDepth 100000 in
/-- C2, failing input. A request the single 4096-byte layer cannot hold is served
by the fallback allocator, and the pointer is 8 modulo 16: in system-malloc mode
with `std::malloc` returning the 16-byte aligned 131072, and in
emergency-reserve mode with the reserve mapped at the page-aligned 1048576. -/
theorem fallback_pointer_not_16_aligned :
    (131072 % 16 = 0 ∧
      (one_page_system.malloc 8192).2 = 131072 + sizeof_FallbackHeader ∧
      fallback_owns (one_page_system.malloc 8192).1.mem (one_page_system.malloc 8192).2 = true ∧
      (one_page_system.malloc 8192).2 % 16 = 8) ∧
    (1048576 % 4096 = 0 ∧
      (one_page_emergency.malloc 8192).2 = 1048576 + sizeof_FallbackHeader ∧
      fallback_owns (one_page_emergency.malloc 8192).1.mem (one_page_emergency.malloc 8192).2
        = true ∧
      (one_page_emergency.malloc 8192).2 % 16 = 8) := by
  decide

set_option maxRecDepth 100000 in
/-- C3, failing input. `memalign(16, 8192)` on the allocator with one 4096-byte
layer defers to `malloc`, which is served by the fallback allocator; the
returned pointer is not null and not a multiple of the alignment 16. -/
theorem memalign_16_not_aligned :
    is_pow2_local 16 = true ∧
    (one_page_system.memalign 16 8192).2 ≠ 0 ∧
    (one_page_system.memalign 16 8192).2 % 16 ≠ 0 := by
  decide

/-- What `usable_size` returns on blocks inside the reservation. For
`1 ≤ n < 2^64`: if `malloc(n)` returns a pointer served by a memory layer whose
header lies in the reserved arena (on an allocator with 1 to 8 layers), then on
that pointer the align-tag test fails, the fallback-magic test fails, the header
test succeeds and `usable_size` is `n`; and if `memalign(A, n)` with
`A = 2^k > 16` returns a non-null pointer, the tag test succeeds on it and
`usable_size` is `n`. -/
theorem usable_size_inside_reservation (st : PICAS) (n : Nat) (hn1 : 1 ≤ n) (hn : n < W64) :
    (1 ≤ st.num_layers → st.num_layers ≤ kMaxLayers → st.arena_ptr n ≠ 0 →
      (st.malloc n).1.ptr_in_arena (st.arena_ptr n - sizeof_BlockHeader) = true →
        (st.malloc n).2 = st.arena_ptr n ∧
        rd64 (st.malloc n).1.mem ((st.malloc n).2 - sizeof_AlignTag) ≠ kAlignMagic ∧
        fallback_owns (st.malloc n).1.mem (st.malloc n).2 = false ∧
        (st.malloc n).1.header_from_user_ptr (st.malloc n).2 = (st.malloc n).2 - sizeof_BlockHeader ∧
        (st.malloc n).1.usable_size (st.malloc n).2 = n) ∧
    (∀ A k : Nat, A = 2 ^ k → 4 < k → k < 64 → (st.memalign A n).2 ≠ 0 →
        sizeof_AlignTag ≤ (st.memalign A n).2 ∧
        rd64 (st.memalign A n).1.mem ((st.memalign A n).2 - sizeof_AlignTag) = kAlignMagic ∧
        (st.memalign A n).1.usable_size (st.memalign A n).2 = n) := by
  have hn0 : n ≠ 0 := by omega
  constructor
  · intro h1 h8 hp harena
    obtain ⟨e1, hap, e2, e3⟩ := malloc_of_arena_ptr st n hp
    simp only [hn0, if_false] at e2 hap
    have hp2 : ((st.prepare n).1.place (st.prepare n).2.2.1 (st.prepare n).2.2.2 n).2.2 ≠ 0 := by
      rw [← hap]; exact hp
    obtain ⟨g1, g2, g3, g4, g5⟩ := place_header _ _ _ _ hp2
    rw [← e2, ← hap] at g2 g3 g4 g5
    rw [← hap] at g1
    have hdl : (st.prepare n).2.2.1 < st.num_layers :=
      prepare_dl_lt st n h1 (by simp only [kMaxLayers, W32] at *; omega)
    have hdl8 : (st.prepare n).2.2.1 % W32 ≠ kFallbackMagic := by
      simp only [kMaxLayers, W32, kFallbackMagic] at *
      omega
    rw [← g3] at hdl8
    have key := usable_size_of_header (st.malloc n).1 (st.arena_ptr n) g1 g2 hdl8 g4
      (by simpa [sizeof_BlockHeader] using harena)
    rw [e1]
    refine ⟨rfl, key.1, key.2.1, key.2.2.1, ?_⟩
    rw [key.2.2.2, g5]
    exact Nat.mod_eq_of_lt hn
  · intro A k hA hk4 hk64 hp
    subst hA
    have h32 : 32 ≤ 2 ^ k := by
      have : (2:Nat) ^ 5 ≤ 2 ^ k := Nat.pow_le_pow_right (by norm_num) (by omega)
      simpa using this
    have hnot8 : ¬ 2 ^ k < 8 := by omega
    have hnot16 : ¬ 2 ^ k ≤ kAlign := by simp only [kAlign]; omega
    unfold PICAS.memalign at hp ⊢
    simp only [hn0, if_false, hnot8, is_pow2_local_pow k hk64, hnot16, Bool.not_true,
      Bool.false_eq_true] at hp ⊢
    split
    · rename_i hb
      rw [if_pos hb] at hp
      exact absurd rfl hp
    · rename_i hb
      rw [if_neg hb] at hp
      dsimp only at hp ⊢
      have hmod := align_ptr_mod ((st.malloc ((n + (2 ^ k + sizeof_AlignTag) % W64) % W64)).2
        + sizeof_AlignTag) k hk64
      generalize align_ptr ((st.malloc ((n + (2 ^ k + sizeof_AlignTag) % W64) % W64)).2
        + sizeof_AlignTag) (2 ^ k) = p at hp hmod ⊢
      have hp32 : 32 ≤ p := by
        have : 2 ^ k ≤ p := Nat.le_of_dvd (Nat.pos_of_ne_zero hp) (Nat.dvd_of_mod_eq_zero hmod)
        omega
      have hp0 : p ≠ 0 := by omega
      have htag : rd64 (wr64 (wr64 (wr64 (st.malloc ((n + (2 ^ k + sizeof_AlignTag) % W64) % W64)).1.mem
          (p - sizeof_AlignTag) kAlignMagic) (p - sizeof_AlignTag + 8)
          (st.malloc ((n + (2 ^ k + sizeof_AlignTag) % W64) % W64)).2) (p - sizeof_AlignTag + 16) n)
          (p - sizeof_AlignTag) = kAlignMagic := by
        simp only [rd64, wr64]
        rw [rdN_wrN_disjoint _ _ _ _ _ _ (by omega), rdN_wrN_disjoint _ _ _ _ _ _ (by omega),
          rdN_wrN_same]
        norm_num [kAlignMagic]
      refine ⟨by simp only [sizeof_AlignTag]; omega, ?_, ?_⟩
      · simpa using htag
      · unfold PICAS.usable_size
        simp only [emit_mem]
        have hge : p ≥ sizeof_AlignTag := by simp only [sizeof_AlignTag]; omega
        simp only [hp0, if_false, hge, htag, and_self, if_true]
        simp only [rd64, wr64]
        rw [rdN_wrN_same]
        simpa [W64] using Nat.mod_eq_of_lt hn

set_option maxRecDepth 100000 in
/-- C4, failing input. `usable_size` does not return the requested size for every
arena pointer that `malloc` returns. On `ragged_layers` (three layers of 100
bytes: the constructor reserves one page, 65536 to 69632, and gives each layer a
page of its own) `malloc(4032)` fills layer 0 up to 32 bytes and the next
`malloc(100)` is served by layer 1, which lies behind the reservation: it
returns the arena pointer 69664, whose header at 69632 holds the magic, memory
layer 1 and `user_size = 100`. On this live block no align tag and no fallback
magic is found, yet `ptr_in_arena` rejects the header, `header_from_user_ptr`
returns null and `usable_size` is 0, not 100. -/
theorem usable_size_zero_behind_reservation :
    ragged_layers.pages = { base := 65536, size := 4096 } ∧
    (ragged_layers.layers 1).begin = 69632 ∧
    ragged_a.2 = 65568 ∧
    ragged_a.1.arena_ptr 100 = 69664 ∧
    ragged_b.2 = 69664 ∧
    rd32 ragged_b.1.mem 69632 = kMagic ∧
    rd32 ragged_b.1.mem (69632 + 4) = 1 ∧
    rd64 ragged_b.1.mem (69632 + 16) = 100 ∧
    (ragged_b.1.layers 1).bump = 69632 + block_total 100 ∧
    rd64 ragged_b.1.mem (69664 - sizeof_AlignTag) ≠ kAlignMagic ∧
    fallback_owns ragged_b.1.mem 69664 = false ∧
    ragged_b.1.ptr_in_arena 69632 = false ∧
    ragged_b.1.header_from_user_ptr 69664 = 0 ∧
    ragged_b.1.usable_size ragged_b.2 = 0 := by
  decide

set_option maxRecDepth 100000 in
/-- At a concrete input inside the reservation: `malloc(100)` and
`memalign(64, 100)` on the allocator with one 64 KiB layer. -/
theorem usable_size_inside_reservation_witness :
    one_layer.arena_ptr 100 ≠ 0 ∧
    (one_layer.malloc 100).1.usable_size (one_layer.malloc 100).2 = 100 ∧
    (one_layer.memalign 64 100).2 ≠ 0 ∧
    (one_layer.memalign 64 100).1.usable_size (one_layer.memalign 64 100).2 = 100 :=
  ⟨by decide,
   ((usable_size_inside_reservation one_layer 100 (by decide) (by decide)).1
      (by decide) (by decide) (by decide) (by decide)).2.2.2.2,
   by decide,
   ((usable_size_inside_reservation one_layer 100 (by decide) (by decide)).2 64 6
      (by decide) (by decide) (by decide) (by decide)).2.2⟩

set_option maxRecDepth 100000 in
/-- C5, failing input. `picas_calloc(SIZE_MAX, 1)` on the allocator with one
64 KiB layer. The product `SIZE_MAX * 1` does not exceed `SIZE_MAX`, so the
overflow exit is not taken. `malloc(SIZE_MAX)` succeeds, because
`block_total(SIZE_MAX)` wraps to 32: it returns 65568, the payload address of a
block whose `total_size` is 32, the header alone. The `memset` of `SIZE_MAX`
bytes at 65568 then runs over the end of the layer at 131072 and past the end of
the address space: the call faults, and returns neither null nor a buffer of
zero bytes. -/
theorem calloc_faults_on_wrapped_block :
    ¬ (1 > SIZE_MAX / SIZE_MAX) ∧
    SIZE_MAX * 1 ≤ SIZE_MAX ∧
    block_total SIZE_MAX = 32 ∧
    (one_layer.malloc SIZE_MAX).2 = 65568 ∧
    rd64 (one_layer.malloc SIZE_MAX).1.mem (65568 - sizeof_BlockHeader + 24) = 32 ∧
    (one_layer.layers 0).end_ = 131072 ∧
    ¬ (65568 + SIZE_MAX ≤ W64) ∧
    (picas_calloc (some one_layer) SIZE_MAX 1).isNone = true := by
  decide

/-- `picas_calloc` where its `memset` stays inside the address space. For
non-zero `n` and `sz`: when the product `n * sz` exceeds `SIZE_MAX`, it returns
null and leaves the allocator as it was; when `malloc(n * sz)` returns null, so
does `picas_calloc`; and when `malloc(n * sz)` returns a pointer `p` with
`p + n * sz ≤ 2^64`, `picas_calloc` returns `p` and the first `n * sz` bytes at
`p` are zero. -/
theorem calloc_without_fault (st : PICAS) (n sz : Nat)
    (hn0 : 0 < n) (hs0 : 0 < sz) :
    (SIZE_MAX < n * sz → picas_calloc (some st) n sz = some (some st, 0)) ∧
    (n * sz ≤ SIZE_MAX → (st.malloc (n * sz)).2 = 0 →
      picas_calloc (some st) n sz = some (some (st.malloc (n * sz)).1, 0)) ∧
    (n * sz ≤ SIZE_MAX → (st.malloc (n * sz)).2 ≠ 0 →
      (st.malloc (n * sz)).2 + n * sz ≤ W64 →
      ∃ st2, picas_calloc (some st) n sz = some (some st2, (st.malloc (n * sz)).2) ∧
        ∀ i, i < n * sz → st2.mem ((st.malloc (n * sz)).2 + i) = 0) := by
  have hn' : n ≠ 0 := by omega
  have hs' : sz ≠ 0 := by omega
  have hiff : sz > SIZE_MAX / n ↔ SIZE_MAX < n * sz := by
    rw [gt_iff_lt, Nat.div_lt_iff_lt_mul hn0, Nat.mul_comm]
  refine ⟨?_, ?_, ?_⟩
  · intro h
    simp [picas_calloc, hn', hs', hiff.2 h]
  · intro h h0
    have hno : ¬ sz > SIZE_MAX / n := fun hc => by have := hiff.1 hc; omega
    have hmod : (n * sz) % W64 = n * sz :=
      Nat.mod_eq_of_lt (by simp only [SIZE_MAX, W64] at *; omega)
    simp only [picas_calloc, hn', hs', false_or, if_false, hno, hmod]
    rw [if_neg (fun hc => hc h0), h0]
  · intro h hp hfit
    have hno : ¬ sz > SIZE_MAX / n := fun hc => by have := hiff.1 hc; omega
    have hmod : (n * sz) % W64 = n * sz :=
      Nat.mod_eq_of_lt (by simp only [SIZE_MAX, W64] at *; omega)
    simp only [picas_calloc, hn', hs', false_or, if_false, hno, hmod]
    rw [if_pos hp]
    simp only [memset0_checked, if_pos hfit]
    refine ⟨_, rfl, ?_⟩
    intro i hi
    simp [memset0, hi]

set_option maxRecDepth 100000 in
/-- C6, failing input. The header stamped by `alloc_from_layer` can have
`total_size < 32 + user_size`, and a `total_size` that is no multiple of 16.
On the bump path, the request `SIZE_MAX` wraps `block_total` to 32: the header
holds `user_size = SIZE_MAX`, `total_size = 32`. On the free-list path, the
stores to `data_layer` and `flags` overwrite the node's `size` word before
`h->total_size = cur->size` reads it: after `malloc(16)`, `free`,
`set_data_layer(1)`, `malloc(16)` the header holds `user_size = 16`,
`total_size = 1`. -/
theorem stamped_total_size_too_small :
    ((one_layer.alloc_from_layer 0 0 SIZE_MAX).2 ≠ 0 ∧
      rd64 (one_layer.alloc_from_layer 0 0 SIZE_MAX).1.mem
        ((one_layer.alloc_from_layer 0 0 SIZE_MAX).2 - 16) = SIZE_MAX ∧
      rd64 (one_layer.alloc_from_layer 0 0 SIZE_MAX).1.mem
        ((one_layer.alloc_from_layer 0 0 SIZE_MAX).2 - 8) = 32) ∧
    (reuse_after.2 ≠ 0 ∧
      rd64 reuse_after.1.mem (reuse_after.2 - 16) = 16 ∧
      rd64 reuse_after.1.mem (reuse_after.2 - 8) = 1 ∧
      ¬ (sizeof_BlockHeader + 16 ≤ rd64 reuse_after.1.mem (reuse_after.2 - 8)) ∧
      rd64 reuse_after.1.mem (reuse_after.2 - 8) % 16 ≠ 0) := by
  decide

set_option maxRecDepth 100000 in
/-- C7, failing input. With three layers of 100 bytes and 4096-byte pages the
constructor reserves `align_up(300) = 4096` bytes but gives each layer
`align_up(100) = 4096` bytes: layers 1 and 2 lie outside the reserved arena and
`total_capacity = 12288 > total_reserved = 4096`. -/
theorem layers_exceed_reserved_arena :
    ragged_layers.pages = { base := 65536, size := 4096 } ∧
    (ragged_layers.layers 1).begin = 65536 + 4096 ∧
    (ragged_layers.layers 1).end_ = 65536 + 8192 ∧
    (ragged_layers.layers 2).end_ = 65536 + 12288 ∧
    ¬ ((ragged_layers.layers 1).end_ ≤ ragged_layers.pages.base + ragged_layers.pages.size) ∧
    ragged_layers.stats.total_capacity = 12288 ∧
    ragged_layers.stats.total_reserved = 4096 := by
  decide

set_option maxRecDepth 100000 in
/-- C8, counterexample. With two layers (one page, then 64 KiB) and
`max_layer_probes = num_layers = 2`, `malloc(5000)` is not a hard error, fails
in the chosen layer 0, retries in the layer the bounded probe returns, which is
layer 0 again, and reaches the arena-exhausted step, although layer 1 has bump
room for the block. -/
theorem exhausted_with_room_elsewhere :
    small_then_large.cfg.safety.max_layer_probes = small_then_large.num_layers ∧
    (Policy.decide small_then_large.cfg
      (small_then_large.maybe_scavenge.policy_input 5000)).hard_error = false ∧
    (small_then_large.prepare 5000).2.2.2 = 0 ∧
    ((small_then_large.prepare 5000).1.choose_layer_bounded 0).2 = 0 ∧
    small_then_large.arena_ptr 5000 = 0 ∧
    (small_then_large.malloc 5000).2 = 0 ∧
    (small_then_large.malloc 5000).1.events.getLast? =
      some { type := EventType.OutOfMemory, data_layer := 0, mem_layer := 0, size := 5000,
             note := "PICAS arena exhausted" } ∧
    (small_then_large.layers 1).bump + block_total 5000 ≤ (small_then_large.layers 1).end_ ∧
    ((small_then_large.malloc 5000).1.layers 1).bump + block_total 5000
      ≤ ((small_then_large.malloc 5000).1.layers 1).end_ := by
  decide

/-- C8, amended. For the attempt of `malloc` (first `alloc_from_layer` in the
chosen layer `cm`, then the retry in the layer that `choose_layer_bounded(cm)`
returns): if it ends with a null pointer, which is when `malloc` goes to its
arena-exhausted step, then the chosen layer has no bump room for the block
(`bump + block_total(size) > end`) and neither has the layer returned by the
probe, if it returned one; and whenever the first attempt fails and the layer
returned by the probe has bump room for the block, the attempt places the
block. This holds for every value of `max_layer_probes`. -/
theorem attempt_exhausted_only_if (st : PICAS) (dl cm size : Nat) :
    ((st.attempt dl cm size).2.2 = 0 →
      (cm < st.num_layers →
        (st.layers cm).bump + block_total size > (st.layers cm).end_) ∧
      ((st.choose_layer_bounded cm).2 < st.num_layers →
        (st.layers (st.choose_layer_bounded cm).2).bump + block_total size
          > (st.layers (st.choose_layer_bounded cm).2).end_)) ∧
    ((st.alloc_from_layer dl cm size).2 = 0 →
      (st.choose_layer_bounded cm).2 < st.num_layers →
      (st.layers (st.choose_layer_bounded cm).2).bump + block_total size
          ≤ (st.layers (st.choose_layer_bounded cm).2).end_ →
      (st.attempt dl cm size).2.2 ≠ 0) := by
  have hnl : ∀ e, ((st.choose_layer_bounded cm).1.emit e).num_layers = st.num_layers :=
    fun e => (same_frame_trans (same_frame_choose st cm) (same_frame_emit _ e)).2.1
  constructor
  · intro h0
    unfold PICAS.attempt at h0
    dsimp only at h0
    by_cases ha : (st.alloc_from_layer dl cm size).2 = 0
    · obtain ⟨hst, hroom⟩ := alloc_from_layer_fail st dl cm size ha
      refine ⟨hroom, ?_⟩
      intro hc
      rw [if_pos ha, hst] at h0
      unfold PICAS.retry_probe at h0
      dsimp only at h0
      rw [if_pos hc] at h0
      have := (alloc_from_layer_fail _ _ _ _ h0).2 (by rw [hnl]; exact hc)
      simpa using this
    · rw [if_neg ha] at h0
      exact absurd h0 ha
  · intro ha hc hroom
    obtain ⟨hst, -⟩ := alloc_from_layer_fail st dl cm size ha
    unfold PICAS.attempt
    dsimp only
    rw [if_pos ha, hst]
    unfold PICAS.retry_probe
    dsimp only
    rw [if_pos hc]
    apply alloc_from_layer_room
    · rw [hnl]; exact hc
    · simpa using hroom

set_option maxRecDepth 100000 in
/-- C8, amended, at concrete inputs: in `small_then_large` the attempt for 5000
bytes in layer 0 ends null and layer 0 has no bump room; in `small_nearly_full`
the first attempt fails, the probe returns layer 1, which has room, and the
attempt places the block. -/
theorem attempt_exhausted_only_if_witness :
    ((small_then_large.attempt 0 0 5000).2.2 = 0 ∧
      (small_then_large.layers 0).bump + block_total 5000 > (small_then_large.layers 0).end_) ∧
    ((small_nearly_full.choose_layer_bounded 0).2 = 1 ∧
      (small_nearly_full.attempt 0 0 5000).2.2 ≠ 0) :=
  ⟨⟨by decide,
    ((attempt_exhausted_only_if small_then_large 0 0 5000).1 (by decide)).1 (by decide)⟩,
   ⟨by decide,
    (attempt_exhausted_only_if small_nearly_full 0 0 5000).2 (by decide) (by decide) (by decide)⟩⟩

set_option maxRecDepth 100000 in
/-- C9, counterexample. A TLP of 1 MiB on a 4096-byte layer makes
`Policy::decide` return `hard_error`, and `malloc(16)` with the default safety
settings (`always_fallback_on_fail`, system malloc) returns the fallback block
131072 + 24, not null. -/
theorem hard_error_served_by_fallback :
    (Policy.decide oversized_tlp.maybe_scavenge.cfg
      (oversized_tlp.maybe_scavenge.policy_input 16)).hard_error = true ∧
    (oversized_tlp.malloc 16).2 = 131072 + sizeof_FallbackHeader ∧
    (oversized_tlp.malloc 16).2 ≠ 0 := by
  decide

/-- C9, amended. Whenever `Policy::decide` returns `hard_error` for the request,
`malloc` places nothing in a memory layer (the layers stay as the scavenger tick
left them) and returns what `fallback_alloc` returns when
`always_fallback_on_fail` is set, else null; in particular it returns null when
`always_fallback_on_fail` is off or the fallback mode is `None`. -/
theorem malloc_hard_error (st : PICAS) (size : Nat)
    (hh : (Policy.decide st.maybe_scavenge.cfg
      (st.maybe_scavenge.policy_input (if size = 0 then 1 else size))).hard_error = true) :
    (st.malloc size).2 =
      (if st.cfg.safety.always_fallback_on_fail then
        (fallback_alloc st.fb st.maybe_scavenge.mem (if size = 0 then 1 else size)).2.2 else 0) ∧
    (st.malloc size).1.layers = st.maybe_scavenge.layers ∧
    (st.cfg.safety.always_fallback_on_fail = false ∨ st.fb.g_cfg.mode = FallbackMode.None →
      (st.malloc size).2 = 0) := by
  have hs := same_frame_maybe_scavenge st
  have he := same_frame_emit_reached st.maybe_scavenge
    (Policy.decide st.maybe_scavenge.cfg (st.maybe_scavenge.policy_input (if size = 0 then 1 else size)))
    st.maybe_scavenge.clamped_dl st.maybe_scavenge.clamped_ml (if size = 0 then 1 else size)
  have hcfg := he.2.2.1.trans hs.2.2.1
  have hfb := he.2.2.2.trans hs.2.2.2
  have key : (st.malloc size).2 =
      (if st.cfg.safety.always_fallback_on_fail then
        (fallback_alloc st.fb st.maybe_scavenge.mem (if size = 0 then 1 else size)).2.2 else 0) ∧
      (st.malloc size).1.layers = st.maybe_scavenge.layers := by
    unfold PICAS.malloc
    dsimp only
    rw [if_pos hh]
    have := out_of_memory_result (st.maybe_scavenge.emit_reached
      (Policy.decide st.maybe_scavenge.cfg (st.maybe_scavenge.policy_input (if size = 0 then 1 else size)))
      st.maybe_scavenge.clamped_dl st.maybe_scavenge.clamped_ml (if size = 0 then 1 else size))
      st.maybe_scavenge.clamped_dl st.maybe_scavenge.clamped_ml (if size = 0 then 1 else size)
      (Policy.decide st.maybe_scavenge.cfg
        (st.maybe_scavenge.policy_input (if size = 0 then 1 else size))).note "fallback (hard_error)"
    rw [hcfg, hfb, emit_reached_mem, emit_reached_layers] at this
    exact this
  refine ⟨key.1, key.2, ?_⟩
  rintro (h | h)
  · rw [key.1]; simp [h]
  · rw [key.1]
    by_cases ha : st.cfg.safety.always_fallback_on_fail = true
    · rw [if_pos ha]; simp [fallback_alloc, h]
    · rw [if_neg ha]

set_option maxRecDepth 100000 in
/-- C9, amended, at a concrete input: the hard-error request of
`oversized_tlp`. -/
theorem malloc_hard_error_witness :
    (Policy.decide oversized_tlp.maybe_scavenge.cfg
      (oversized_tlp.maybe_scavenge.policy_input (if 16 = 0 then 1 else 16))).hard_error = true ∧
    (oversized_tlp.malloc 16).1.layers = oversized_tlp.maybe_scavenge.layers :=
  ⟨by decide, (malloc_hard_error oversized_tlp 16 (by decide)).2.1⟩

/-- C10. `Policy::decide`, DATA-LP rule: for every input with `num_layers > 0`,
`data_layer < num_layers`, no hard error, and whose DATA-LP hybrid point is
reached by the progress counters, the output has `jump_data_layer = true`,
`jump_mem_layer = strict_picas_jumps`, `backfill_memory = false`,
`hard_error = false` and `chosen_mem_layer = data_layer`, whatever the TLP,
MEM-TP, full and `prev_layers_incomplete` inputs are. -/
theorem decide_data_lp_rule (cfg : Config) (inp : PolicyInput) (dp : DataLayerPoints)
    (hn : 0 < inp.num_layers) (hdl : inp.data_layer < inp.num_layers)
    (hdp : inp.data_points = some dp)
    (hreach : dp.data_lp.reached inp.data_alloc_count inp.data_alloc_bytes = true)
    (hok : (Policy.decide cfg inp).hard_error = false) :
    (Policy.decide cfg inp).jump_data_layer = true ∧
    (Policy.decide cfg inp).jump_mem_layer = cfg.strict_picas_jumps ∧
    (Policy.decide cfg inp).backfill_memory = false ∧
    (Policy.decide cfg inp).hard_error = false ∧
    (Policy.decide cfg inp).chosen_mem_layer = inp.data_layer := by
  have hn0 : inp.num_layers ≠ 0 := by omega
  unfold Policy.decide at hok ⊢
  simp only [hn0, hdp, hreach, if_false] at hok ⊢
  split at hok
  · simp at hok
  · rename_i h
    rw [if_neg h]
    simp [hdl]

/-- C10 at a concrete input: DATA-LP of 48 KiB reached at 50000 bytes, with the
TLP reached, MEM-TP reached, the layer full and earlier layers incomplete. -/
theorem decide_data_lp_rule_witness :
    (Policy.decide {} data_lp_input).jump_data_layer = true ∧
    (Policy.decide {} data_lp_input).jump_mem_layer = true ∧
    (Policy.decide {} data_lp_input).backfill_memory = false ∧
    (Policy.decide {} data_lp_input).hard_error = false ∧
    (Policy.decide {} data_lp_input).chosen_mem_layer = 1 :=
  decide_data_lp_rule {} data_lp_input
    { tlp := { bytes := { end_ := 16384 } }, data_lp := { bytes := { end_ := 49152 } } }
    (by decide) (by decide) rfl (by decide) (by decide)

/-! ## The policy rules -/

/-- Past the `num_layers == 0` exit the two informational outputs are the
checkpoint evaluations of the input. -/
theorem decide_reports_reached (cfg : Config) (inp : PolicyInput) (hn : inp.num_layers ≠ 0) :
    (Policy.decide cfg inp).reached_tlp = inp.reached_tlp ∧
    (Policy.decide cfg inp).reached_data_lp = inp.reached_data_lp := by
  unfold Policy.decide PolicyInput.reached_tlp PolicyInput.reached_data_lp
  simp only [hn, if_false]
  repeat' split
  all_goals exact ⟨rfl, rfl⟩

/-- The output of `Policy::decide` past the two hard-error exits, rule by rule. -/
theorem decide_rules (cfg : Config) (inp : PolicyInput)
    (hok : (Policy.decide cfg inp).hard_error = false) :
    Policy.decide cfg inp =
      if inp.reached_data_lp then
        { chosen_mem_layer := if inp.data_layer < inp.num_layers then inp.data_layer else 0,
          jump_data_layer := true, jump_mem_layer := cfg.strict_picas_jumps,
          reached_tlp := inp.reached_tlp, reached_data_lp := inp.reached_data_lp,
          note := "DATA-LP reached => hard advance data layer (and memory if strict)" }
      else if cfg.strict_picas_jumps && inp.reached_tlp && !inp.mem_tp_reached then
        { chosen_mem_layer := inp.mem_layer, jump_data_layer := true, jump_mem_layer := true,
          reached_tlp := inp.reached_tlp, reached_data_lp := inp.reached_data_lp,
          note := "TLP reached before MEM-TP => jump data+memory to next layer" }
      else if cfg.strict_picas_jumps && inp.prev_layers_incomplete then
        { chosen_mem_layer := inp.mem_layer, backfill_memory := true,
          reached_tlp := inp.reached_tlp, reached_data_lp := inp.reached_data_lp,
          note := "Earlier memory incomplete => backfill earlier layer" }
      else if inp.mem_lp_full then
        { chosen_mem_layer := inp.mem_layer,
          reached_tlp := inp.reached_tlp, reached_data_lp := inp.reached_data_lp,
          note := "Current MEM-LP full => spill to alternative layer" }
      else
        { chosen_mem_layer := inp.data_layer,
          reached_tlp := inp.reached_tlp, reached_data_lp := inp.reached_data_lp,
          note := "Default: same-layer allocation" } := by
  unfold Policy.decide at hok ⊢
  unfold PolicyInput.reached_tlp PolicyInput.reached_data_lp
  by_cases hn : inp.num_layers = 0
  · simp [hn] at hok
  · simp only [hn, if_false] at hok ⊢
    split at hok
    · simp at hok
    · rename_i hh
      rw [if_neg hh]

/-- The hard-error outputs of `Policy::decide` carry no control flag. -/
theorem decide_hard_error_flags (cfg : Config) (inp : PolicyInput)
    (hh : (Policy.decide cfg inp).hard_error = true) :
    (Policy.decide cfg inp).jump_data_layer = false ∧
    (Policy.decide cfg inp).jump_mem_layer = false ∧
    (Policy.decide cfg inp).backfill_memory = false := by
  unfold Policy.decide at hh ⊢
  by_cases hn : inp.num_layers = 0
  · simp [hn]
  · simp only [hn, if_false] at hh ⊢
    split
    · simp
    · rename_i hc
      rw [if_neg hc] at hh
      repeat' split at hh
      all_goals simp at hh

/-! ## The claims, continued -/

/-- C11. `Policy::decide`, strict TLP-before-MEM-TP rule: for every input with no
hard error and DATA-LP not reached, with `strict_picas_jumps` set and the TLP
reached: if `mem_tp_reached` is false the output has `jump_data_layer = true`,
`jump_mem_layer = true` and `backfill_memory = false`; if `mem_tp_reached` is
true neither jump flag is set. -/
theorem decide_tlp_before_mem_tp (cfg : Config) (inp : PolicyInput)
    (hok : (Policy.decide cfg inp).hard_error = false)
    (hdlp : inp.reached_data_lp = false)
    (hstrict : cfg.strict_picas_jumps = true)
    (htlp : inp.reached_tlp = true) :
    (inp.mem_tp_reached = false →
      (Policy.decide cfg inp).jump_data_layer = true ∧
      (Policy.decide cfg inp).jump_mem_layer = true ∧
      (Policy.decide cfg inp).backfill_memory = false) ∧
    (inp.mem_tp_reached = true →
      (Policy.decide cfg inp).jump_data_layer = false ∧
      (Policy.decide cfg inp).jump_mem_layer = false) := by
  rw [decide_rules cfg inp hok]
  constructor
  · intro hm
    simp [hdlp, hstrict, htlp, hm]
  · intro hm
    simp only [hdlp, hstrict, htlp, hm, Bool.false_eq_true, if_false, Bool.not_true, Bool.and_false,
      Bool.true_and]
    repeat' split
    all_goals exact ⟨rfl, rfl⟩

/-- C11 at concrete inputs: `tlp_input` (TLP reached before MEM-TP) jumps,
`tlp_after_mem_tp_input` does not. -/
theorem decide_tlp_before_mem_tp_witness :
    ((Policy.decide {} tlp_input).jump_data_layer = true ∧
      (Policy.decide {} tlp_input).jump_mem_layer = true ∧
      (Policy.decide {} tlp_input).backfill_memory = false) ∧
    ((Policy.decide {} tlp_after_mem_tp_input).jump_data_layer = false ∧
      (Policy.decide {} tlp_after_mem_tp_input).jump_mem_layer = false) :=
  ⟨(decide_tlp_before_mem_tp {} tlp_input (by decide) (by decide) (by decide) (by decide)).1
      (by decide),
   (decide_tlp_before_mem_tp {} tlp_after_mem_tp_input (by decide) (by decide) (by decide)
      (by decide)).2 (by decide)⟩

/-- C12. `Policy::decide`, backfill rule and rule order: the output has
`backfill_memory = true` if and only if there is no hard error, DATA-LP is not
reached, the strict TLP-before-MEM-TP rule does not apply (not (`reached_tlp`
and not `mem_tp_reached`)), `strict_picas_jumps` holds and
`prev_layers_incomplete` is true; and in that case neither jump flag is set. -/
theorem decide_backfill_iff (cfg : Config) (inp : PolicyInput) :
    ((Policy.decide cfg inp).backfill_memory = true ↔
      ((Policy.decide cfg inp).hard_error = false ∧
        inp.reached_data_lp = false ∧
        ¬ (inp.reached_tlp = true ∧ inp.mem_tp_reached = false) ∧
        cfg.strict_picas_jumps = true ∧
        inp.prev_layers_incomplete = true)) ∧
    ((Policy.decide cfg inp).backfill_memory = true →
      (Policy.decide cfg inp).jump_data_layer = false ∧
      (Policy.decide cfg inp).jump_mem_layer = false) := by
  cases hh : (Policy.decide cfg inp).hard_error with
  | true =>
    obtain ⟨h1, h2, h3⟩ := decide_hard_error_flags cfg inp hh
    simp [h3]
  | false =>
    rw [decide_rules cfg inp hh]
    cases h1 : inp.reached_data_lp <;> cases h2 : cfg.strict_picas_jumps <;>
      cases h3 : inp.reached_tlp <;> cases h4 : inp.mem_tp_reached <;>
      cases h5 : inp.prev_layers_incomplete <;> cases h6 : inp.mem_lp_full <;> simp

/-- C12 at a concrete input: `backfill_input` (no checkpoint reached, an earlier
layer incomplete, strict mode) is sent to backfill, without a jump. -/
theorem decide_backfill_iff_witness :
    (Policy.decide {} backfill_input).backfill_memory = true ∧
    (Policy.decide {} backfill_input).jump_data_layer = false ∧
    (Policy.decide {} backfill_input).jump_mem_layer = false :=
  have hb := (decide_backfill_iff {} backfill_input).1.2
    ⟨by decide, by decide, by decide, by decide, by decide⟩
  ⟨hb, (decide_backfill_iff {} backfill_input).2 hb⟩

/-- C13, counterexample. With `num_layers = 3`, a TLP byte range of 1 MiB
configured and `mem_capacity_bytes = 0`, the range is longer than the capacity
but `Policy::decide` reports no hard error. -/
theorem long_tlp_on_zero_capacity :
    0 < long_tlp_zero_capacity_input.num_layers ∧
    (∃ dp, long_tlp_zero_capacity_input.data_points = some dp ∧ dp.tlp.bytes.end_ ≠ 0 ∧
      dp.tlp.bytes.end_ - dp.tlp.bytes.start > long_tlp_zero_capacity_input.mem_capacity_bytes) ∧
    (Policy.decide {} long_tlp_zero_capacity_input).hard_error = false :=
  ⟨by decide, ⟨{ tlp := { bytes := { end_ := 1048576 } } }, rfl, by decide, by decide⟩, by decide⟩

/-- C13, amended. `Policy::decide`, invalid-checkpoint rule: for every input with
`num_layers > 0` whose TLP byte range has a length (`end − start`) that exceeds a
non-zero `mem_capacity_bytes` (the range is then configured, `bytes.end ≠ 0`),
the output has
`hard_error = true` and none of `jump_data_layer`, `jump_mem_layer`,
`backfill_memory` set. With `mem_capacity_bytes = 0` the rule is skipped. -/
theorem decide_long_tlp_hard_error (cfg : Config) (inp : PolicyInput) (dp : DataLayerPoints)
    (hn : 0 < inp.num_layers)
    (hdp : inp.data_points = some dp)
    (hlen : dp.tlp.bytes.end_ - dp.tlp.bytes.start > inp.mem_capacity_bytes)
    (hcap : inp.mem_capacity_bytes ≠ 0) :
    (Policy.decide cfg inp).hard_error = true ∧
    (Policy.decide cfg inp).jump_data_layer = false ∧
    (Policy.decide cfg inp).jump_mem_layer = false ∧
    (Policy.decide cfg inp).backfill_memory = false := by
  have hh : (Policy.decide cfg inp).hard_error = true := by
    have hn0 : inp.num_layers ≠ 0 := by omega
    have hl : dp.tlp.bytes_len = dp.tlp.bytes.end_ - dp.tlp.bytes.start := by
      unfold HybridPoint.bytes_len Range.len
      split
      · rfl
      · omega
    have hl0 : dp.tlp.bytes_len ≠ 0 := by omega
    unfold Policy.decide
    simp only [hn0, if_false, hdp, Option.isSome_some, Bool.true_and]
    have hc : (dp.tlp.bytes_len != 0 && inp.mem_capacity_bytes != 0 &&
        Decidable.decide (dp.tlp.bytes_len > inp.mem_capacity_bytes)) = true := by
      simp [hl0, hcap]; omega
    rw [if_pos hc]
  exact ⟨hh, decide_hard_error_flags cfg inp hh⟩

/-- C13, amended, at a concrete input: a TLP of 1 MiB on a layer of 64 KiB. -/
theorem decide_long_tlp_hard_error_witness :
    (Policy.decide {} long_tlp_input).hard_error = true ∧
    (Policy.decide {} long_tlp_input).jump_data_layer = false ∧
    (Policy.decide {} long_tlp_input).jump_mem_layer = false ∧
    (Policy.decide {} long_tlp_input).backfill_memory = false :=
  decide_long_tlp_hard_error {} long_tlp_input { tlp := { bytes := { end_ := 1048576 } } }
    (by decide) rfl (by decide) (by decide)

/-- C14. With `strict_picas_jumps = false`, for every input `Policy::decide`
never sets `jump_mem_layer` and never sets `backfill_memory`, and, when there is
no hard error, sets `jump_data_layer` exactly when the DATA-LP hybrid point is
reached; in particular reaching the TLP without DATA-LP causes no jump. -/
theorem decide_non_strict (cfg : Config) (inp : PolicyInput)
    (hstrict : cfg.strict_picas_jumps = false) :
    (Policy.decide cfg inp).jump_mem_layer = false ∧
    (Policy.decide cfg inp).backfill_memory = false ∧
    ((Policy.decide cfg inp).hard_error = false →
      ((Policy.decide cfg inp).jump_data_layer = true ↔ inp.reached_data_lp = true)) ∧
    (inp.reached_tlp = true → inp.reached_data_lp = false →
      (Policy.decide cfg inp).jump_data_layer = false) := by
  cases hh : (Policy.decide cfg inp).hard_error with
  | true =>
    obtain ⟨h1, h2, h3⟩ := decide_hard_error_flags cfg inp hh
    simp [h1, h2, h3]
  | false =>
    rw [decide_rules cfg inp hh]
    cases h1 : inp.reached_data_lp <;> cases h3 : inp.reached_tlp <;>
      cases h4 : inp.mem_tp_reached <;>
      cases h5 : inp.prev_layers_incomplete <;> cases h6 : inp.mem_lp_full <;> simp [hstrict]

/-- C14 at a concrete input: `tlp_input` (TLP reached, DATA-LP not) under a
non-strict configuration. -/
theorem decide_non_strict_witness :
    (Policy.decide { strict_picas_jumps := false } tlp_input).jump_mem_layer = false ∧
    (Policy.decide { strict_picas_jumps := false } tlp_input).backfill_memory = false ∧
    (Policy.decide { strict_picas_jumps := false } tlp_input).jump_data_layer = false :=
  ⟨(decide_non_strict { strict_picas_jumps := false } tlp_input rfl).1,
   (decide_non_strict { strict_picas_jumps := false } tlp_input rfl).2.1,
   (decide_non_strict { strict_picas_jumps := false } tlp_input rfl).2.2.2 (by decide)
     (by decide)⟩

/-- C15. `HybridPoint::reached(c, b)` equals the reference definition for all
`c`, `b` and all points: false when `count.end = 0` and `bytes.end = 0`; under
`Logic::All` it is (`count.end = 0` or `c ≥ count.end`) and (`bytes.end = 0` or
`b ≥ bytes.end`); under `Logic::Any` it is (`count.end ≠ 0` and `c ≥ count.end`)
or (`bytes.end ≠ 0` and `b ≥ bytes.end`). -/
theorem reached_eq_reference (h : HybridPoint) (c b : Nat) :
    h.reached c b = h.reached_ref c b := by
  unfold HybridPoint.reached HybridPoint.reached_ref Range.reached_end
  by_cases hc : h.count.end_ = 0 <;> by_cases hb : h.bytes.end_ = 0 <;>
    cases hl : h.logic <;>
    simp [hc, hb, bne_iff_ne.mpr, show ∀ x : Nat, ¬ x = 0 → (x != 0) = true from
      fun x hx => bne_iff_ne.mpr hx]

/-- Integer form of the pressure test: `used > (cap * 9) / 10` says
`10 * used > 9 * cap`. -/
theorem nine_tenths (used cap : Nat) : used > cap * 9 / 10 ↔ 10 * used > 9 * cap := by
  constructor
  · intro h
    have := Nat.lt_of_div_lt_div (c := 10) (a := cap * 9) (b := 10 * used) (by omega)
    omega
  · intro h
    omega

/-- C16. Anti-stranding guard of `malloc`, on a memory layer laid out as the
constructor lays it out (`end = begin + capacity_bytes`, `begin ≤ bump`) and of
a capacity below 2^64 / 9, so that `capacity * 9` does not wrap: when the policy
requests `jump_data_layer` and `anti_stranding.enabled` holds, the jump is
cancelled exactly when `end − bump` of the layer exceeds
`max_stranded_per_layer` and not (`allow_jump_if_pressure` and (`bump ≥ end` or
`10 * used_bytes > 9 * capacity`)); a cancelled jump clears `jump_data_layer`
and `jump_mem_layer` and sets `backfill_memory` if `aggressive_backfill` holds;
a jump that is not cancelled leaves the decision as it was. -/
theorem anti_stranding_cancels_iff (st : PICAS) (ml : Nat) (pout : PolicyOutput)
    (hj : pout.jump_data_layer = true)
    (hen : st.cfg.safety.anti_stranding.enabled = true)
    (hml : ml < st.num_layers)
    (hend : (st.layers ml).end_ = (st.layers ml).begin + (st.layers ml).capacity_bytes)
    (hbump : (st.layers ml).begin ≤ (st.layers ml).bump)
    (hcap : 9 * (st.layers ml).capacity_bytes < W64) :
    ((st.anti_stranding ml pout).jump_data_layer = false ↔
      ((st.layers ml).end_ - (st.layers ml).bump
          > st.cfg.safety.anti_stranding.max_stranded_per_layer ∧
        ¬ (st.cfg.safety.anti_stranding.allow_jump_if_pressure = true ∧
          ((st.layers ml).bump ≥ (st.layers ml).end_ ∨
            10 * (st.layers ml).used_bytes > 9 * (st.layers ml).capacity_bytes)))) ∧
    ((st.anti_stranding ml pout).jump_data_layer = false →
      (st.anti_stranding ml pout).jump_mem_layer = false ∧
      (st.cfg.safety.anti_stranding.aggressive_backfill = true →
        (st.anti_stranding ml pout).backfill_memory = true)) ∧
    ((st.anti_stranding ml pout).jump_data_layer = true → st.anti_stranding ml pout = pout) := by
  have hmod : (st.layers ml).capacity_bytes * 9 % W64 = (st.layers ml).capacity_bytes * 9 :=
    Nat.mod_eq_of_lt (by omega)
  have hnot : ¬ ml ≥ st.num_layers := by omega
  have key : ((decide ((if (st.layers ml).end_ > (st.layers ml).bump
          then (st.layers ml).end_ - (st.layers ml).bump else 0)
          > st.cfg.safety.anti_stranding.max_stranded_per_layer) &&
        !(st.cfg.safety.anti_stranding.allow_jump_if_pressure &&
          (decide ((st.layers ml).bump ≥ (st.layers ml).end_) ||
            (st.layers ml).capacity_bytes != 0 &&
              decide ((st.layers ml).used_bytes > (st.layers ml).capacity_bytes * 9 / 10)))) = true)
      ↔ ((st.layers ml).end_ - (st.layers ml).bump
          > st.cfg.safety.anti_stranding.max_stranded_per_layer ∧
        ¬ (st.cfg.safety.anti_stranding.allow_jump_if_pressure = true ∧
          ((st.layers ml).bump ≥ (st.layers ml).end_ ∨
            10 * (st.layers ml).used_bytes > 9 * (st.layers ml).capacity_bytes))) := by
    have h910 := nine_tenths (st.layers ml).used_bytes (st.layers ml).capacity_bytes
    cases st.cfg.safety.anti_stranding.allow_jump_if_pressure
    · simp only [Bool.false_and, Bool.not_false, Bool.and_true, decide_eq_true_eq,
        Bool.false_eq_true, false_and, not_false_eq_true, and_true]
      split <;> omega
    · simp only [Bool.true_and, Bool.and_eq_true, decide_eq_true_eq, Bool.not_eq_true',
        Bool.or_eq_false_iff, decide_eq_false_iff_not, Bool.and_eq_false_imp, bne_iff_ne,
        true_and, not_or]
      constructor
      · rintro ⟨h1, h2, h3⟩
        split at h1
        · refine ⟨h1, h2, ?_⟩
          rw [← h910]
          apply h3
          omega
        · omega
      · rintro ⟨h1, h2, h3⟩
        refine ⟨by split <;> omega, h2, fun _ => ?_⟩
        rw [h910]
        exact h3
  unfold PICAS.anti_stranding PICAS.would_strand_too_much
  simp only [hj, hen, Bool.and_self, if_true, Bool.not_true, Bool.false_eq_true, if_false, hnot,
    LayerState.mem_lp_full, hmod]
  by_cases hc : ((decide ((if (st.layers ml).end_ > (st.layers ml).bump
          then (st.layers ml).end_ - (st.layers ml).bump else 0)
          > st.cfg.safety.anti_stranding.max_stranded_per_layer) &&
        !(st.cfg.safety.anti_stranding.allow_jump_if_pressure &&
          (decide ((st.layers ml).bump ≥ (st.layers ml).end_) ||
            (st.layers ml).capacity_bytes != 0 &&
              decide ((st.layers ml).used_bytes > (st.layers ml).capacity_bytes * 9 / 10)))) = true)
  · rw [if_pos hc]
    refine ⟨⟨fun _ => key.1 hc, fun _ => rfl⟩, fun _ => ⟨rfl, fun ha => by simp [ha]⟩, ?_⟩
    intro h
    simp at h
  · rw [if_neg hc]
    refine ⟨⟨fun h => ?_, fun h => absurd (key.2 h) hc⟩, fun h => ?_, fun _ => rfl⟩
    · rw [hj] at h; exact absurd h (by simp)
    · rw [hj] at h; exact absurd h (by simp)

set_option maxRecDepth 100000 in
/-- C16 at a concrete input: on the fresh `tight_stranding` allocator 65536 bytes
would be stranded in layer 0, more than the limit of 1024, and the layer is not
under pressure: the jump requested by the DATA-LP rule is cancelled and turned
into a backfill. -/
theorem anti_stranding_cancels_iff_witness :
    (tight_stranding.anti_stranding 0 (Policy.decide {} data_lp_input)).jump_data_layer = false ∧
    (tight_stranding.anti_stranding 0 (Policy.decide {} data_lp_input)).jump_mem_layer = false ∧
    (tight_stranding.anti_stranding 0 (Policy.decide {} data_lp_input)).backfill_memory = true :=
  have h := anti_stranding_cancels_iff tight_stranding 0 (Policy.decide {} data_lp_input)
    (by decide) (by decide) (by decide) (by decide) (by decide) (by decide)
  have hc := h.1.2 (by decide)
  ⟨hc, (h.2.1 hc).1, (h.2.1 hc).2 (by decide)⟩

/-- The visits of the probing loop are at most the probes it was given. -/
theorem probe_ring_visits_length (st : PICAS) (k : Nat) :
    ∀ cur, (st.probe_ring_visits k cur).length ≤ k := by
  induction k with
  | zero => intro cur; simp [PICAS.probe_ring_visits]
  | succ k ih =>
    intro cur
    unfold PICAS.probe_ring_visits
    split
    · simp
    · have := ih ((cur + 1) % st.num_layers)
      simp only [List.length_cons]
      omega

/-- The loop returns the last position it examined when that position has room,
and nothing otherwise. -/
theorem probe_ring_eq_last_visit (st : PICAS) (k : Nat) :
    ∀ cur, st.probe_ring k cur
      = ((st.probe_ring_visits k cur).getLast?).filter st.layer_has_space := by
  induction k with
  | zero => intro cur; simp [PICAS.probe_ring, PICAS.probe_ring_visits]
  | succ k ih =>
    intro cur
    unfold PICAS.probe_ring PICAS.probe_ring_visits
    by_cases h : st.layer_has_space cur = true
    · simp [h, Option.filter]
    · simp only [h, if_false, Bool.false_eq_true]
      rw [ih]
      cases hv : st.probe_ring_visits k ((cur + 1) % st.num_layers) with
      | nil => simp [Option.filter, h]
      | cons a l => simp [List.getLast?_cons_cons]

/-- Every position the loop examines before the last one has no room. -/
theorem probe_ring_some_has_space (st : PICAS) (k : Nat) :
    ∀ cur r, st.probe_ring k cur = some r → st.layer_has_space r = true := by
  induction k with
  | zero => intro cur r h; simp [PICAS.probe_ring] at h
  | succ k ih =>
    intro cur r h
    unfold PICAS.probe_ring at h
    split at h
    · rename_i hs
      simp only [Option.some.injEq] at h
      rw [← h]; exact hs
    · exact ih _ _ h

/-- C17. `choose_layer_bounded(preferred)` is a total function of the state (the
loop counts its probes up to a fixed bound); it returns either the sentinel
`num_layers` or an index `r < num_layers` whose layer has room for a minimum
block (`bump + block_total(1) ≤ end`); and the loop examines at most
`min(max(1, max_layer_probes), num_layers)` ring positions, returning the last
one examined when it has room. -/
theorem choose_layer_bounded_spec (st : PICAS) (preferred : Nat) :
    ((st.choose_layer_bounded preferred).2 = st.num_layers ∨
      ((st.choose_layer_bounded preferred).2 < st.num_layers ∧
        (st.layers (st.choose_layer_bounded preferred).2).bump + block_total 1
          ≤ (st.layers (st.choose_layer_bounded preferred).2).end_)) ∧
    (st.probe_ring_visits (min (max 1 st.cfg.safety.max_layer_probes) st.num_layers)
        (st.ring_cursor % st.num_layers)).length
      ≤ min (max 1 st.cfg.safety.max_layer_probes) st.num_layers ∧
    st.probe_ring (min (max 1 st.cfg.safety.max_layer_probes) st.num_layers)
        (st.ring_cursor % st.num_layers)
      = ((st.probe_ring_visits (min (max 1 st.cfg.safety.max_layer_probes) st.num_layers)
          (st.ring_cursor % st.num_layers)).getLast?).filter st.layer_has_space := by
  have hsp : ∀ r, st.layer_has_space r = true →
      r < st.num_layers ∧ (st.layers r).bump + block_total 1 ≤ (st.layers r).end_ := by
    intro r h
    unfold PICAS.layer_has_space at h
    split at h
    · simp at h
    · rename_i hr
      exact ⟨by omega, by simpa using h⟩
  refine ⟨?_, probe_ring_visits_length _ _ _, probe_ring_eq_last_visit _ _ _⟩
  unfold PICAS.choose_layer_bounded
  split
  · rename_i h
    right
    exact hsp _ h.2
  · dsimp only
    split
    · rename_i r hr
      right
      exact hsp _ (probe_ring_some_has_space _ _ _ _ hr)
    · left; rfl

/-! ## Progress of the data layer through `malloc` -/

theorem same_progress_refl (a : PICAS) : a.same_progress a := ⟨rfl, rfl, rfl, rfl, rfl⟩

theorem same_progress_trans {a b c : PICAS} (h1 : a.same_progress b) (h2 : b.same_progress c) :
    a.same_progress c :=
  ⟨h2.1.trans h1.1, h2.2.1.trans h1.2.1, h2.2.2.1.trans h1.2.2.1, h2.2.2.2.1.trans h1.2.2.2.1,
    h2.2.2.2.2.trans h1.2.2.2.2⟩

theorem same_progress_emit (st : PICAS) (e : Event) : st.same_progress (st.emit e) := by
  unfold PICAS.emit
  split <;> exact ⟨rfl, rfl, rfl, rfl, rfl⟩

theorem same_progress_scavenge_layers (cfg : ScavengerConfig) (st : PICAS) (n : Nat) :
    st.same_progress (scavenge_layers cfg st n) := by
  induction n with
  | zero => exact same_progress_refl st
  | succ n ih =>
    simp only [scavenge_layers, PICAS.set_layer]
    exact ih

theorem same_progress_maybe_scavenge (st : PICAS) : st.same_progress st.maybe_scavenge := by
  unfold PICAS.maybe_scavenge
  split
  · exact same_progress_refl st
  · split
    · exact same_progress_refl st
    · simp only
      split
      · exact ⟨rfl, rfl, rfl, rfl, rfl⟩
      · refine same_progress_trans ?_ (same_progress_emit _ _)
        unfold scavenger_run_light
        split
        · exact ⟨rfl, rfl, rfl, rfl, rfl⟩
        · split
          · exact ⟨rfl, rfl, rfl, rfl, rfl⟩
          · exact same_progress_trans (b := { st with allocs_since_scavenge := 0 })
              ⟨rfl, rfl, rfl, rfl, rfl⟩ (same_progress_scavenge_layers _ _ _)

theorem same_progress_emit_reached (st : PICAS) (pout : PolicyOutput) (dl ml size : Nat) :
    st.same_progress (st.emit_reached pout dl ml size) := by
  unfold PICAS.emit_reached
  split <;> split <;>
    first
      | exact same_progress_refl st
      | exact same_progress_emit _ _
      | exact same_progress_trans (same_progress_emit _ _) (same_progress_emit _ _)

theorem same_progress_select_layer (st : PICAS) (pout : PolicyOutput) (dl size : Nat) :
    st.same_progress (st.select_layer pout dl size).1 := by
  unfold PICAS.select_layer
  split
  · exact same_progress_emit _ _
  · exact same_progress_refl st

theorem same_progress_choose (st : PICAS) (preferred : Nat) :
    st.same_progress (st.choose_layer_bounded preferred).1 := by
  unfold PICAS.choose_layer_bounded
  split
  · exact same_progress_refl st
  · dsimp only
    split
    · exact ⟨rfl, rfl, rfl, rfl, rfl⟩
    · exact same_progress_refl st

theorem same_progress_spill_if_full (st : PICAS) (dl cm size : Nat) :
    st.same_progress (st.spill_if_full dl cm size).1 := by
  unfold PICAS.spill_if_full
  split
  · dsimp only
    split
    · exact same_progress_trans (same_progress_choose st dl) (same_progress_emit _ _)
    · exact same_progress_choose st dl
  · exact same_progress_refl st

theorem same_progress_alloc (st : PICAS) (dl ml size : Nat) :
    st.same_progress (st.alloc_from_layer dl ml size).1 := by
  by_cases h : ml ≥ st.num_layers
  · simp only [PICAS.alloc_from_layer, h, if_true]
    exact same_progress_refl st
  · cases hs : scan_bins st.mem (st.layers ml) (block_total size)
        (kBins - bin_index (block_total size)) (bin_index (block_total size)) with
    | some r =>
      obtain ⟨b, pre, cur, post⟩ := r
      simp only [PICAS.alloc_from_layer, h, if_false, hs, PICAS.take_from_bin]
      exact same_progress_trans (b := { st.set_layer ml _ with mem := _ })
        ⟨rfl, rfl, rfl, rfl, rfl⟩ (same_progress_emit _ _)
    | none =>
      simp only [PICAS.alloc_from_layer, h, if_false, hs]
      unfold PICAS.bump_alloc
      dsimp only
      split
      · exact same_progress_refl st
      · split
        · exact same_progress_trans (same_progress_trans
            (b := { st.set_layer ml _ with mem := _ }) ⟨rfl, rfl, rfl, rfl, rfl⟩
            (same_progress_emit _ _)) (same_progress_emit _ _)
        · exact same_progress_trans (b := { st.set_layer ml _ with mem := _ })
            ⟨rfl, rfl, rfl, rfl, rfl⟩ (same_progress_emit _ _)

theorem same_progress_retry (st : PICAS) (dl cm size : Nat) :
    st.same_progress (st.retry_probe dl cm size).1 := by
  unfold PICAS.retry_probe
  simp only
  split
  · exact same_progress_trans (same_progress_trans (same_progress_choose st cm)
      (same_progress_emit _ _)) (same_progress_alloc _ _ _ _)
  · exact same_progress_choose st cm

theorem same_progress_attempt (st : PICAS) (dl cm size : Nat) :
    st.same_progress (st.attempt dl cm size).1 := by
  unfold PICAS.attempt
  dsimp only
  split
  · exact same_progress_trans (same_progress_alloc _ _ _ _) (same_progress_retry _ _ _ _)
  · exact same_progress_alloc _ _ _ _

theorem same_progress_place (st : PICAS) (dl cm size : Nat) :
    st.same_progress (st.place dl cm size).1 :=
  same_progress_trans (same_progress_spill_if_full st dl cm size) (same_progress_attempt _ _ _ _)

theorem same_progress_out_of_memory (st : PICAS) (dl ml size : Nat) (n1 n2 : String) :
    st.same_progress (st.out_of_memory dl ml size n1 n2).1 := by
  unfold PICAS.out_of_memory
  dsimp only
  split
  · split
    · exact same_progress_trans (same_progress_trans (same_progress_emit st _)
        (b := { st.emit _ with fb := _, mem := _ }) ⟨rfl, rfl, rfl, rfl, rfl⟩)
        (same_progress_emit _ _)
    · exact same_progress_trans (same_progress_emit st _) ⟨rfl, rfl, rfl, rfl, rfl⟩
  · exact same_progress_emit st _

/-- What applying the jumps does to the progress fields. -/
theorem apply_jumps_progress (st : PICAS) (pout : PolicyOutput) (dl ml size : Nat) :
    (pout.jump_data_layer = true ∧ (dl + 1) % W32 < st.num_layers →
      (st.apply_jumps pout dl ml size).1.num_layers = st.num_layers ∧
      (st.apply_jumps pout dl ml size).1.current_data_layer = (dl + 1) % W32 ∧
      (st.apply_jumps pout dl ml size).1.current_mem_layer =
        (if pout.jump_mem_layer then min ((dl + 1) % W32) (sub32 st.num_layers 1)
         else st.current_mem_layer) ∧
      (st.apply_jumps pout dl ml size).1.data_alloc_count_in_layer = 0 ∧
      (st.apply_jumps pout dl ml size).1.data_alloc_bytes_in_layer = 0) ∧
    (¬ (pout.jump_data_layer = true ∧ (dl + 1) % W32 < st.num_layers) →
      st.same_progress (st.apply_jumps pout dl ml size).1) := by
  constructor
  · intro h
    unfold PICAS.apply_jumps
    rw [if_pos h]
    dsimp only
    split
    · rename_i hm
      simp only [hm, if_true, emit_num_layers]
      exact ⟨trivial, trivial, trivial, trivial, trivial⟩
    · rename_i hm
      simp only [hm, if_false, Bool.false_eq_true]
      exact ⟨(same_progress_emit st _).1, trivial, (same_progress_emit st _).2.2.1, trivial,
        trivial⟩
  · intro h
    unfold PICAS.apply_jumps
    rw [if_neg h]
    exact same_progress_refl st

/-- The bookkeeping after a placement counts the block and moves no layer. -/
theorem finish_progress (st : PICAS) (pout : PolicyOutput) (dl cm size p : Nat) :
    (st.finish pout dl cm size p).num_layers = st.num_layers ∧
    (st.finish pout dl cm size p).current_data_layer = st.current_data_layer ∧
    (st.finish pout dl cm size p).current_mem_layer = st.current_mem_layer ∧
    (st.finish pout dl cm size p).data_alloc_count_in_layer
      = (st.data_alloc_count_in_layer + 1) % W64 ∧
    (st.finish pout dl cm size p).data_alloc_bytes_in_layer
      = (st.data_alloc_bytes_in_layer + size) % W64 := by
  unfold PICAS.finish
  dsimp only
  split <;> exact ⟨rfl, rfl, rfl, rfl, rfl⟩

theorem clamped_dl_congr {a b : PICAS} (h : a.same_progress b) : b.clamped_dl = a.clamped_dl := by
  unfold PICAS.clamped_dl
  rw [h.1, h.2.1]

theorem clamped_dl_of_lt (st : PICAS) (h : st.current_data_layer < st.num_layers) :
    st.clamped_dl = st.current_data_layer := by
  unfold PICAS.clamped_dl
  rw [if_neg (by omega)]

/-- The progress fields after the first part of `malloc`: the jump is applied
when the decision left by the anti-stranding guard asks for it and the next data
layer exists, and nothing else touches the fields. -/
theorem prepare_progress (st : PICAS) (size : Nat) :
    ((st.prepare size).2.1.jump_data_layer = true ∧ (st.clamped_dl + 1) % W32 < st.num_layers →
      (st.prepare size).1.num_layers = st.num_layers ∧
      (st.prepare size).1.current_data_layer = (st.clamped_dl + 1) % W32 ∧
      (st.prepare size).1.current_mem_layer =
        (if (st.prepare size).2.1.jump_mem_layer then
          min ((st.clamped_dl + 1) % W32) (sub32 st.num_layers 1)
         else st.current_mem_layer) ∧
      (st.prepare size).1.data_alloc_count_in_layer = 0 ∧
      (st.prepare size).1.data_alloc_bytes_in_layer = 0) ∧
    (¬ ((st.prepare size).2.1.jump_data_layer = true ∧
        (st.clamped_dl + 1) % W32 < st.num_layers) →
      st.same_progress (st.prepare size).1) := by
  have hs := same_progress_maybe_scavenge st
  have hd := clamped_dl_congr hs
  unfold PICAS.prepare
  dsimp only
  generalize hpo : Policy.decide st.maybe_scavenge.cfg
    (st.maybe_scavenge.policy_input (if size = 0 then 1 else size)) = po
  generalize hsz : (if size = 0 then 1 else size) = sz
  have he := same_progress_trans hs (same_progress_emit_reached st.maybe_scavenge po
    st.maybe_scavenge.clamped_dl st.maybe_scavenge.clamped_ml sz)
  generalize hs1 : st.maybe_scavenge.emit_reached po st.maybe_scavenge.clamped_dl
    st.maybe_scavenge.clamped_ml sz = s1 at he
  generalize hpg : s1.anti_stranding st.maybe_scavenge.clamped_ml po = pg
  rw [hd]
  have hj := apply_jumps_progress s1 pg st.clamped_dl st.maybe_scavenge.clamped_ml sz
  rw [he.1] at hj
  have hsel := same_progress_select_layer
    (s1.apply_jumps pg st.clamped_dl st.maybe_scavenge.clamped_ml sz).1 pg
    (s1.apply_jumps pg st.clamped_dl st.maybe_scavenge.clamped_ml sz).2.1 sz
  constructor
  · intro h
    obtain ⟨j1, j2, j3, j4, j5⟩ := hj.1 h
    refine ⟨hsel.1.trans j1, hsel.2.1.trans j2, hsel.2.2.1.trans ?_, hsel.2.2.2.1.trans j4,
      hsel.2.2.2.2.trans j5⟩
    rw [j3, he.2.2.1]
  · intro h
    exact same_progress_trans (same_progress_trans he (hj.2 h)) hsel

/-- The progress fields after `malloc`, exit by exit: the hard-error exit leaves
them alone; the arena-exhausted exit (null or fallback pointer) leaves them as
the first part of the call left them; a placement in a memory layer counts the
block on top of that. -/
theorem malloc_progress (st : PICAS) (size : Nat) :
    ((Policy.decide st.maybe_scavenge.cfg
        (st.maybe_scavenge.policy_input (if size = 0 then 1 else size))).hard_error = true →
      st.same_progress (st.malloc size).1) ∧
    ((Policy.decide st.maybe_scavenge.cfg
        (st.maybe_scavenge.policy_input (if size = 0 then 1 else size))).hard_error = false →
      st.arena_ptr size = 0 → (st.prepare size).1.same_progress (st.malloc size).1) ∧
    (st.arena_ptr size ≠ 0 →
      (st.malloc size).1.num_layers = (st.prepare size).1.num_layers ∧
      (st.malloc size).1.current_data_layer = (st.prepare size).1.current_data_layer ∧
      (st.malloc size).1.current_mem_layer = (st.prepare size).1.current_mem_layer ∧
      (st.malloc size).1.data_alloc_count_in_layer
        = ((st.prepare size).1.data_alloc_count_in_layer + 1) % W64 ∧
      (st.malloc size).1.data_alloc_bytes_in_layer
        = ((st.prepare size).1.data_alloc_bytes_in_layer + (if size = 0 then 1 else size)) % W64) := by
  refine ⟨?_, ?_, ?_⟩
  · intro hh
    unfold PICAS.malloc
    dsimp only
    rw [if_pos hh]
    exact same_progress_trans (same_progress_trans (same_progress_maybe_scavenge st)
      (same_progress_emit_reached _ _ _ _ _)) (same_progress_out_of_memory _ _ _ _ _ _)
  · intro hh h0
    have hh' : ¬ (Policy.decide st.maybe_scavenge.cfg
        (st.maybe_scavenge.policy_input (if size = 0 then 1 else size))).hard_error = true := by
      rw [hh]; simp
    unfold PICAS.arena_ptr at h0
    dsimp only at h0
    rw [if_neg hh'] at h0
    unfold PICAS.malloc
    dsimp only
    rw [if_neg hh', if_pos h0]
    exact same_progress_trans (same_progress_place _ _ _ _) (same_progress_out_of_memory _ _ _ _ _ _)
  · intro hp
    have hh' : ¬ (Policy.decide st.maybe_scavenge.cfg
        (st.maybe_scavenge.policy_input (if size = 0 then 1 else size))).hard_error = true := by
      intro hc
      unfold PICAS.arena_ptr at hp
      dsimp only at hp
      rw [if_pos hc] at hp
      exact hp rfl
    unfold PICAS.arena_ptr at hp
    dsimp only at hp
    rw [if_neg hh'] at hp
    have hpl := same_progress_place (st.prepare size).1 (st.prepare size).2.2.1
      (st.prepare size).2.2.2 (if size = 0 then 1 else size)
    unfold PICAS.malloc
    dsimp only
    rw [if_neg hh', if_neg hp]
    obtain ⟨f1, f2, f3, f4, f5⟩ := finish_progress
      ((st.prepare size).1.place (st.prepare size).2.2.1 (st.prepare size).2.2.2
        (if size = 0 then 1 else size)).1 (st.prepare size).2.1 (st.prepare size).2.2.1
      ((st.prepare size).1.place (st.prepare size).2.2.1 (st.prepare size).2.2.2
        (if size = 0 then 1 else size)).2.1 (if size = 0 then 1 else size)
      ((st.prepare size).1.place (st.prepare size).2.2.1 (st.prepare size).2.2.2
        (if size = 0 then 1 else size)).2.2
    exact ⟨f1.trans hpl.1, f2.trans hpl.2.1, f3.trans hpl.2.2.1,
      by rw [f4, hpl.2.2.2.1], by rw [f5, hpl.2.2.2.2]⟩

/-- The guard either leaves the decision alone or clears both jump flags. -/
theorem anti_stranding_cases (st : PICAS) (ml : Nat) (pout : PolicyOutput) :
    st.anti_stranding ml pout = pout ∨
    ((st.anti_stranding ml pout).jump_data_layer = false ∧
      (st.anti_stranding ml pout).jump_mem_layer = false) := by
  unfold PICAS.anti_stranding
  split
  · dsimp only
    split
    · right; exact ⟨rfl, rfl⟩
    · left; rfl
  · left; rfl

/-- The decision `malloc` acts on is the policy output passed through the guard. -/
theorem prepare_decision (st : PICAS) (size : Nat) :
    (st.prepare size).2.1 =
      (st.maybe_scavenge.emit_reached
        (Policy.decide st.maybe_scavenge.cfg
          (st.maybe_scavenge.policy_input (if size = 0 then 1 else size)))
        st.maybe_scavenge.clamped_dl st.maybe_scavenge.clamped_ml
        (if size = 0 then 1 else size)).anti_stranding st.maybe_scavenge.clamped_ml
        (Policy.decide st.maybe_scavenge.cfg
          (st.maybe_scavenge.policy_input (if size = 0 then 1 else size))) := rfl

/-- A jump that survives the guard moves the memory layer exactly in strict mode. -/
theorem prepare_jump_mem (st : PICAS) (size : Nat)
    (hj : (st.prepare size).2.1.jump_data_layer = true) :
    (st.prepare size).2.1.jump_mem_layer = st.cfg.strict_picas_jumps ∧
    (Policy.decide st.maybe_scavenge.cfg
      (st.maybe_scavenge.policy_input (if size = 0 then 1 else size))).hard_error = false := by
  rw [prepare_decision] at hj ⊢
  have hcfg : st.maybe_scavenge.cfg = st.cfg := (same_frame_maybe_scavenge st).2.2.1
  generalize st.maybe_scavenge.policy_input (if size = 0 then 1 else size) = inp at hj ⊢
  rcases anti_stranding_cases (st.maybe_scavenge.emit_reached
      (Policy.decide st.maybe_scavenge.cfg inp) st.maybe_scavenge.clamped_dl
      st.maybe_scavenge.clamped_ml (if size = 0 then 1 else size)) st.maybe_scavenge.clamped_ml
      (Policy.decide st.maybe_scavenge.cfg inp) with h | h
  · rw [h] at hj ⊢
    rw [hcfg] at hj ⊢
    cases hh : (Policy.decide st.cfg inp).hard_error with
    | true =>
      rw [(decide_hard_error_flags st.cfg inp hh).1] at hj
      exact absurd hj (by simp)
    | false =>
      refine ⟨?_, rfl⟩
      rw [decide_rules st.cfg inp hh] at hj ⊢
      cases h1 : inp.reached_data_lp <;> cases h2 : st.cfg.strict_picas_jumps <;>
        cases h3 : inp.reached_tlp <;> cases h4 : inp.mem_tp_reached <;>
        cases h5 : inp.prev_layers_incomplete <;> cases h6 : inp.mem_lp_full <;>
        simp [h1, h2, h3, h4, h5, h6] at hj ⊢
  · rw [h.1] at hj
    exact absurd hj (by simp)

theorem data_layer_ok_of_same_progress {a b : PICAS} (h : a.same_progress b)
    (ha : a.data_layer_ok) : b.data_layer_ok := by
  unfold PICAS.data_layer_ok at *
  rw [h.1, h.2.1]
  exact ha

/-- What `malloc` does to the current data layer of a state that satisfies the
invariant: it stays, or it moves to the next layer, which exists, on a surviving
jump. -/
theorem malloc_data_layer (st : PICAS) (size : Nat) (hok : st.data_layer_ok) :
    (st.malloc size).1.num_layers = st.num_layers ∧
    (((st.prepare size).2.1.jump_data_layer = true ∧
        st.current_data_layer + 1 < st.num_layers) →
      (st.malloc size).1.current_data_layer = st.current_data_layer + 1) ∧
    (¬ ((st.prepare size).2.1.jump_data_layer = true ∧
        st.current_data_layer + 1 < st.num_layers) →
      (st.malloc size).1.current_data_layer = st.current_data_layer) := by
  obtain ⟨h1, h8, hlt⟩ := hok
  have hcl := clamped_dl_of_lt st hlt
  have hw : ∀ x, x + 1 < st.num_layers → (x + 1) % W32 = x + 1 := by
    intro x hx
    apply Nat.mod_eq_of_lt
    simp only [kMaxLayers, W32] at *
    omega
  have hw2 : (st.current_data_layer + 1) % W32 < st.num_layers ↔
      st.current_data_layer + 1 < st.num_layers := by
    constructor
    · intro h
      by_contra hc
      have : st.current_data_layer + 1 = st.num_layers := by omega
      rw [this, Nat.mod_eq_of_lt (by simp only [kMaxLayers, W32] at *; omega)] at h
      omega
    · intro h
      rw [hw _ h]; exact h
  obtain ⟨m1, m2, m3⟩ := malloc_progress st size
  obtain ⟨p1, p2⟩ := prepare_progress st size
  rw [hcl] at p1 p2
  -- the state after the first part
  have hprep : (st.prepare size).1.num_layers = st.num_layers ∧
      (((st.prepare size).2.1.jump_data_layer = true ∧
          st.current_data_layer + 1 < st.num_layers) →
        (st.prepare size).1.current_data_layer = st.current_data_layer + 1) ∧
      (¬ ((st.prepare size).2.1.jump_data_layer = true ∧
          st.current_data_layer + 1 < st.num_layers) →
        (st.prepare size).1.current_data_layer = st.current_data_layer) := by
    by_cases hj : (st.prepare size).2.1.jump_data_layer = true ∧
        (st.current_data_layer + 1) % W32 < st.num_layers
    · obtain ⟨q1, q2, -⟩ := p1 hj
      refine ⟨q1, fun h => ?_, fun h => absurd ⟨hj.1, hw2.1 hj.2⟩ h⟩
      rw [q2, hw _ h.2]
    · have q := p2 hj
      refine ⟨q.1, fun h => absurd ⟨h.1, hw2.2 h.2⟩ hj, fun _ => q.2.1⟩
  cases hh : (Policy.decide st.maybe_scavenge.cfg
      (st.maybe_scavenge.policy_input (if size = 0 then 1 else size))).hard_error with
  | true =>
    have q := m1 hh
    refine ⟨q.1, fun h => ?_, fun _ => q.2.1⟩
    have := (prepare_jump_mem st size h.1).2
    rw [hh] at this
    exact absurd this (by simp)
  | false =>
    by_cases hp : st.arena_ptr size = 0
    · have q := m2 hh hp
      exact ⟨q.1.trans hprep.1, fun h => q.2.1.trans (hprep.2.1 h),
        fun h => q.2.1.trans (hprep.2.2 h)⟩
    · obtain ⟨q1, q2, -⟩ := m3 hp
      exact ⟨q1.trans hprep.1, fun h => q2.trans (hprep.2.1 h), fun h => q2.trans (hprep.2.2 h)⟩

theorem same_progress_free_into_layer (st : PICAS) (h : Nat) :
    st.same_progress (st.free_into_layer h) := by
  unfold PICAS.free_into_layer
  split
  · exact same_progress_refl st
  · split
    · exact same_progress_refl st
    · dsimp only
      split
      · exact same_progress_refl st
      · exact same_progress_trans (b := { st.set_layer _ _ with mem := _ })
          ⟨rfl, rfl, rfl, rfl, rfl⟩ (same_progress_emit _ _)

theorem same_progress_free_depth (k : Nat) :
    ∀ (st : PICAS) (p : Nat), st.same_progress (PICAS.free_depth k st p) := by
  induction k with
  | zero => intro st p; exact same_progress_refl st
  | succ k ih =>
    intro st p
    unfold PICAS.free_depth
    split
    · exact same_progress_refl st
    · split
      · exact ih _ _
      · split
        · exact same_progress_trans (b := { st with fb := _ }) ⟨rfl, rfl, rfl, rfl, rfl⟩
            (same_progress_emit _ _)
        · dsimp only
          split
          · exact same_progress_refl st
          · exact same_progress_free_into_layer _ _

theorem same_progress_free (st : PICAS) (p : Nat) : st.same_progress (st.free p) :=
  same_progress_free_depth _ _ _

theorem data_layer_ok_emit (st : PICAS) (e : Event) (hok : st.data_layer_ok) :
    (st.emit e).data_layer_ok :=
  data_layer_ok_of_same_progress (same_progress_emit st e) hok

theorem data_layer_ok_free (st : PICAS) (p : Nat) (hok : st.data_layer_ok) :
    (st.free p).data_layer_ok :=
  data_layer_ok_of_same_progress (same_progress_free st p) hok

theorem data_layer_ok_mem (st : PICAS) (m : Mem) (hok : st.data_layer_ok) :
    ({ st with mem := m } : PICAS).data_layer_ok := hok

theorem data_layer_ok_fb (st : PICAS) (f : Fallback) (hok : st.data_layer_ok) :
    ({ st with fb := f } : PICAS).data_layer_ok := hok

theorem data_layer_ok_ite (c : Prop) [Decidable c] (a b : PICAS) (ha : a.data_layer_ok)
    (hb : b.data_layer_ok) : (if c then a else b).data_layer_ok := by
  split
  · exact ha
  · exact hb

theorem data_layer_ok_malloc (st : PICAS) (size : Nat) (hok : st.data_layer_ok) :
    (st.malloc size).1.data_layer_ok := by
  obtain ⟨m0, m1, m2⟩ := malloc_data_layer st size hok
  obtain ⟨h1, h8, hlt⟩ := hok
  unfold PICAS.data_layer_ok
  rw [m0]
  refine ⟨h1, h8, ?_⟩
  by_cases hj : (st.prepare size).2.1.jump_data_layer = true ∧
      st.current_data_layer + 1 < st.num_layers
  · rw [m1 hj]; exact hj.2
  · rw [m2 hj]; exact hlt

theorem data_layer_ok_realloc (st : PICAS) (p n : Nat) (hok : st.data_layer_ok) :
    (st.realloc p n).1.data_layer_ok := by
  have hm := data_layer_ok_malloc st n hok
  unfold PICAS.realloc
  by_cases h1 : p = 0
  · rw [if_pos h1]; exact hm
  rw [if_neg h1]
  by_cases h2 : n = 0
  · rw [if_pos h2]; exact data_layer_ok_free st p hok
  rw [if_neg h2]
  by_cases h3 : has_align_tag st.mem p = true
  · rw [if_pos h3]
    dsimp only
    by_cases h4 : (st.malloc n).2 = 0
    · rw [if_pos h4]; exact hm
    · rw [if_neg h4]
      apply data_layer_ok_emit
      apply data_layer_ok_free
      apply data_layer_ok_ite
      · exact data_layer_ok_mem _ _ hm
      · exact hm
  rw [if_neg h3]
  by_cases h5 : fallback_owns st.mem p = true
  · rw [if_pos h5]
    dsimp only
    by_cases h4 : (st.malloc n).2 = 0
    · rw [if_pos h4]; exact hm
    · rw [if_neg h4]
      apply data_layer_ok_emit
      apply data_layer_ok_fb
      apply data_layer_ok_ite
      · exact data_layer_ok_mem _ _ hm
      · exact hm
  rw [if_neg h5]
  dsimp only
  by_cases h6 : st.header_from_user_ptr p = 0
  · rw [if_pos h6]; exact hok
  rw [if_neg h6]
  by_cases h7 : n ≤ rd64 st.mem (st.header_from_user_ptr p + 16)
  · rw [if_pos h7]
    apply data_layer_ok_emit
    exact data_layer_ok_mem _ _ hok
  rw [if_neg h7]
  by_cases h4 : (st.malloc n).2 = 0
  · rw [if_pos h4]; exact hm
  · rw [if_neg h4]
    apply data_layer_ok_emit
    apply data_layer_ok_free
    exact data_layer_ok_mem _ _ hm

theorem data_layer_ok_memalign (st : PICAS) (a n : Nat) (hok : st.data_layer_ok) :
    (st.memalign a n).1.data_layer_ok := by
  unfold PICAS.memalign
  dsimp only
  generalize (if n = 0 then 1 else n) = n1
  generalize (if a < 8 then 8 else a) = a1
  by_cases h1 : (!is_pow2_local a1) = true
  · rw [if_pos h1]; exact hok
  rw [if_neg h1]
  by_cases h2 : a1 ≤ kAlign
  · rw [if_pos h2]; exact data_layer_ok_malloc _ _ hok
  rw [if_neg h2]
  have hm := data_layer_ok_malloc st ((n1 + (a1 + sizeof_AlignTag) % W64) % W64) hok
  by_cases h3 : (st.malloc ((n1 + (a1 + sizeof_AlignTag) % W64) % W64)).2 = 0
  · rw [if_pos h3]; exact hm
  · rw [if_neg h3]
    apply data_layer_ok_emit
    exact data_layer_ok_mem _ _ hm

theorem data_layer_ok_set_data_layer (st : PICAS) (layer : Nat) (hok : st.data_layer_ok) :
    (st.set_data_layer layer).data_layer_ok := by
  obtain ⟨h1, h8, hlt⟩ := hok
  unfold PICAS.set_data_layer PICAS.data_layer_ok
  dsimp only
  refine ⟨h1, h8, ?_⟩
  split
  · simp only [sub32, W32, kMaxLayers] at *
    omega
  · omega

theorem data_layer_ok_construct (cfg : Config) (host : Host) :
    (PICAS.construct cfg host).data_layer_ok := by
  unfold PICAS.data_layer_ok PICAS.construct
  dsimp only
  simp only [kMaxLayers]
  omega

/-- Every reachable state satisfies the invariant of the data layer. -/
theorem data_layer_ok_of_reachable (st : PICAS) (hr : st.Reachable) : st.data_layer_ok := by
  induction hr with
  | construct cfg host => exact data_layer_ok_construct cfg host
  | malloc st size _ ih => exact data_layer_ok_malloc st size ih
  | free st p _ ih => exact data_layer_ok_free st p ih
  | realloc st p n _ ih => exact data_layer_ok_realloc st p n ih
  | memalign st a n _ ih => exact data_layer_ok_memalign st a n ih
  | set_data_layer st layer _ ih => exact data_layer_ok_set_data_layer st layer ih
  | store st m _ ih => exact ih

/-- The two counters after the first part of `malloc`: zero when the jump was
applied, else what they were. -/
theorem prepare_counters (st : PICAS) (size : Nat) :
    (st.prepare size).1.data_alloc_count_in_layer =
      (if (st.prepare size).2.1.jump_data_layer = true ∧
          (st.clamped_dl + 1) % W32 < st.num_layers then 0
       else st.data_alloc_count_in_layer) ∧
    (st.prepare size).1.data_alloc_bytes_in_layer =
      (if (st.prepare size).2.1.jump_data_layer = true ∧
          (st.clamped_dl + 1) % W32 < st.num_layers then 0
       else st.data_alloc_bytes_in_layer) := by
  obtain ⟨p1, p2⟩ := prepare_progress st size
  by_cases hj : (st.prepare size).2.1.jump_data_layer = true ∧
      (st.clamped_dl + 1) % W32 < st.num_layers
  · rw [if_pos hj, if_pos hj]
    exact ⟨(p1 hj).2.2.2.1, (p1 hj).2.2.2.2⟩
  · rw [if_neg hj, if_neg hj]
    exact ⟨(p2 hj).2.2.2.1, (p2 hj).2.2.2.2⟩

/-- The two counters after `malloc` when no block was placed in a memory layer:
what the first part of the call left. -/
theorem malloc_counters_unplaced (st : PICAS) (size : Nat) (h0 : st.arena_ptr size = 0) :
    (st.malloc size).1.data_alloc_count_in_layer = (st.prepare size).1.data_alloc_count_in_layer ∧
    (st.malloc size).1.data_alloc_bytes_in_layer = (st.prepare size).1.data_alloc_bytes_in_layer ∧
    (st.malloc size).1.current_mem_layer = (st.prepare size).1.current_mem_layer := by
  obtain ⟨m1, m2, -⟩ := malloc_progress st size
  obtain ⟨c1, c2⟩ := prepare_counters st size
  obtain ⟨-, p2⟩ := prepare_progress st size
  cases hh : (Policy.decide st.maybe_scavenge.cfg
      (st.maybe_scavenge.policy_input (if size = 0 then 1 else size))).hard_error with
  | true =>
    have hj : ¬ ((st.prepare size).2.1.jump_data_layer = true ∧
        (st.clamped_dl + 1) % W32 < st.num_layers) := by
      intro hj
      have := (prepare_jump_mem st size hj.1).2
      rw [hh] at this
      exact absurd this (by simp)
    have q := m1 hh
    have r := p2 hj
    exact ⟨q.2.2.2.1.trans r.2.2.2.1.symm, q.2.2.2.2.trans r.2.2.2.2.symm,
      q.2.2.1.trans r.2.2.1.symm⟩
  | false =>
    have q := m2 hh h0
    exact ⟨q.2.2.2.1, q.2.2.2.2, q.2.2.1⟩

/-- Without `always_fallback_on_fail` a call that places no block returns null. -/
theorem malloc_null_without_fallback (st : PICAS) (size : Nat)
    (hf : st.cfg.safety.always_fallback_on_fail = false) (h0 : st.arena_ptr size = 0) :
    (st.malloc size).2 = 0 := by
  have hs := same_frame_maybe_scavenge st
  by_cases hh : (Policy.decide st.maybe_scavenge.cfg
      (st.maybe_scavenge.policy_input (if size = 0 then 1 else size))).hard_error = true
  · have he := same_frame_emit_reached st.maybe_scavenge
      (Policy.decide st.maybe_scavenge.cfg
        (st.maybe_scavenge.policy_input (if size = 0 then 1 else size)))
      st.maybe_scavenge.clamped_dl st.maybe_scavenge.clamped_ml (if size = 0 then 1 else size)
    unfold PICAS.malloc
    dsimp only
    rw [if_pos hh, (out_of_memory_result _ _ _ _ _ _).1, he.2.2.1, hs.2.2.1, hf]
    rfl
  · unfold PICAS.arena_ptr at h0
    dsimp only at h0
    rw [if_neg hh] at h0
    have hp := same_frame_trans (same_frame_prepare st size)
      (same_frame_place (st.prepare size).1 (st.prepare size).2.2.1 (st.prepare size).2.2.2
        (if size = 0 then 1 else size))
    unfold PICAS.malloc
    dsimp only
    rw [if_neg hh, if_pos h0, (out_of_memory_result _ _ _ _ _ _).1, hp.2.2.1, hf]
    rfl

/-! ## The claims: the data layer and its counters -/

/-- C18. Data-layer state machine. In every reachable allocator state the
current data layer is below `num_layers`. A `malloc` call keeps `num_layers`
and either leaves the current data layer `L` unchanged or makes it `L + 1`; it
changes exactly when the policy decision after the anti-stranding guard (the
second component of `prepare`, which is `anti_stranding` applied to the output
of `Policy::decide`) has `jump_data_layer` set and `L + 1 < num_layers`; at
`L = num_layers - 1` it never changes. -/
theorem data_layer_state_machine (st : PICAS) (hr : st.Reachable) (size : Nat) :
    st.current_data_layer < st.num_layers ∧
    (st.malloc size).1.num_layers = st.num_layers ∧
    ((st.malloc size).1.current_data_layer = st.current_data_layer ∨
      (st.malloc size).1.current_data_layer = st.current_data_layer + 1) ∧
    ((st.malloc size).1.current_data_layer ≠ st.current_data_layer ↔
      ((st.prepare size).2.1.jump_data_layer = true ∧
        st.current_data_layer + 1 < st.num_layers)) ∧
    (st.prepare size).2.1 =
      (st.maybe_scavenge.emit_reached
        (Policy.decide st.maybe_scavenge.cfg
          (st.maybe_scavenge.policy_input (if size = 0 then 1 else size)))
        st.maybe_scavenge.clamped_dl st.maybe_scavenge.clamped_ml
        (if size = 0 then 1 else size)).anti_stranding st.maybe_scavenge.clamped_ml
        (Policy.decide st.maybe_scavenge.cfg
          (st.maybe_scavenge.policy_input (if size = 0 then 1 else size))) ∧
    (st.current_data_layer = st.num_layers - 1 →
      (st.malloc size).1.current_data_layer = st.current_data_layer) := by
  have hok := data_layer_ok_of_reachable st hr
  obtain ⟨m0, m1, m2⟩ := malloc_data_layer st size hok
  refine ⟨hok.2.2, m0, ?_, ?_, rfl, ?_⟩
  · by_cases hj : (st.prepare size).2.1.jump_data_layer = true ∧
        st.current_data_layer + 1 < st.num_layers
    · right; exact m1 hj
    · left; exact m2 hj
  · constructor
    · intro hne
      by_contra hj
      exact hne (m2 hj)
    · intro hj
      rw [m1 hj]
      omega
  · intro hl
    apply m2
    intro hj
    omega

set_option maxRecDepth 100000 in
/-- C18, instance: after one `malloc(16)` on three strict layers whose data
layers are complete after one allocation, the state is reachable and a second
`malloc(16)` moves the data layer from 0 to 1. -/
theorem data_layer_state_machine_witness :
    strict_counting_one.Reachable ∧
    strict_counting_one.current_data_layer < strict_counting_one.num_layers ∧
    ((strict_counting_one.malloc 16).1.current_data_layer ≠ strict_counting_one.current_data_layer ↔
      ((strict_counting_one.prepare 16).2.1.jump_data_layer = true ∧
        strict_counting_one.current_data_layer + 1 < strict_counting_one.num_layers)) ∧
    (strict_counting_one.malloc 16).1.current_data_layer = 1 :=
  ⟨PICAS.Reachable.malloc _ 16 (PICAS.Reachable.construct _ _),
   (data_layer_state_machine strict_counting_one
      (PICAS.Reachable.malloc _ 16 (PICAS.Reachable.construct _ _)) 16).1,
   (data_layer_state_machine strict_counting_one
      (PICAS.Reachable.malloc _ 16 (PICAS.Reachable.construct _ _)) 16).2.2.2.1,
   by decide⟩

set_option maxRecDepth 100000 in
/-- C19, counterexample. With `strict_picas_jumps = false` and a DATA-LP after
one allocation, the second `malloc(16)` advances the data layer from 0 to 1 and
resets the counters (they read 1 and 16 afterwards, the new block), but
`current_mem_layer` stays 0: the DATA-LP rule sets `jump_mem_layer` only in
strict mode. -/
theorem advance_keeps_mem_layer :
    relaxed_counting_one.Reachable ∧
    relaxed_counting_one.cfg.strict_picas_jumps = false ∧
    relaxed_counting_one.current_data_layer = 0 ∧
    relaxed_counting_one.current_mem_layer = 0 ∧
    (relaxed_counting_one.prepare 16).2.1.jump_data_layer = true ∧
    (relaxed_counting_one.prepare 16).2.1.jump_mem_layer = false ∧
    (relaxed_counting_one.malloc 16).1.current_data_layer = 1 ∧
    (relaxed_counting_one.malloc 16).1.current_mem_layer = 0 ∧
    (relaxed_counting_one.malloc 16).1.current_mem_layer
      ≠ relaxed_counting_one.current_data_layer + 1 :=
  ⟨PICAS.Reachable.malloc _ 16 (PICAS.Reachable.construct _ _), by decide⟩

/-- C19, amended. In every reachable state, when a `malloc` call advances the
data layer from `L` to `L + 1`: the decision after the guard had
`jump_data_layer` set, both progress counters were reset to 0 at the advance
(they are 0 in the state `prepare` returns, and after the call they count only
the block of this call, if it was placed in a memory layer: 1 and `size`, else
0 and 0), and `current_mem_layer` is `L + 1` in strict mode and unchanged when
`strict_picas_jumps` is off. -/
theorem advance_resets_counters (st : PICAS) (hr : st.Reachable) (size : Nat)
    (hadv : (st.malloc size).1.current_data_layer = st.current_data_layer + 1) :
    (st.prepare size).2.1.jump_data_layer = true ∧
    (st.prepare size).2.1.jump_mem_layer = st.cfg.strict_picas_jumps ∧
    (st.prepare size).1.data_alloc_count_in_layer = 0 ∧
    (st.prepare size).1.data_alloc_bytes_in_layer = 0 ∧
    (st.malloc size).1.data_alloc_count_in_layer = (if st.arena_ptr size ≠ 0 then 1 else 0) ∧
    (st.malloc size).1.data_alloc_bytes_in_layer =
      (if st.arena_ptr size ≠ 0 then (if size = 0 then 1 else size) % W64 else 0) ∧
    (st.malloc size).1.current_mem_layer =
      (if st.cfg.strict_picas_jumps then st.current_data_layer + 1 else st.current_mem_layer) := by
  have hok := data_layer_ok_of_reachable st hr
  obtain ⟨-, -, m2⟩ := malloc_data_layer st size hok
  have hj : (st.prepare size).2.1.jump_data_layer = true ∧
      st.current_data_layer + 1 < st.num_layers := by
    by_contra hj
    have := m2 hj
    omega
  obtain ⟨h1, h8, hlt⟩ := hok
  have hcl := clamped_dl_of_lt st hlt
  have hw : (st.current_data_layer + 1) % W32 = st.current_data_layer + 1 := by
    apply Nat.mod_eq_of_lt
    simp only [kMaxLayers, W32] at *
    omega
  have hJ : (st.prepare size).2.1.jump_data_layer = true ∧
      (st.clamped_dl + 1) % W32 < st.num_layers := by
    rw [hcl, hw]; exact hj
  obtain ⟨p1, -⟩ := prepare_progress st size
  obtain ⟨-, -, q3, q4, q5⟩ := p1 hJ
  have hjm := (prepare_jump_mem st size hj.1).1
  have hcm : (st.prepare size).1.current_mem_layer =
      (if st.cfg.strict_picas_jumps then st.current_data_layer + 1
       else st.current_mem_layer) := by
    rw [q3, hjm, hcl, hw]
    cases st.cfg.strict_picas_jumps with
    | false => simp only [Bool.false_eq_true, if_false]
    | true =>
      simp only [if_true]
      apply Nat.min_eq_left
      simp only [sub32, W32, kMaxLayers] at *
      omega
  refine ⟨hj.1, hjm, q4, q5, ?_⟩
  by_cases hp : st.arena_ptr size = 0
  · obtain ⟨u1, u2, u3⟩ := malloc_counters_unplaced st size hp
    rw [if_neg (by simpa using hp), if_neg (by simpa using hp)]
    exact ⟨u1.trans q4, u2.trans q5, u3.trans hcm⟩
  · obtain ⟨-, -, v3, v4, v5⟩ := (malloc_progress st size).2.2 hp
    rw [if_pos hp, if_pos hp]
    refine ⟨?_, ?_, v3.trans hcm⟩
    · rw [v4, q4]; rfl
    · rw [v5, q5, Nat.zero_add]

set_option maxRecDepth 100000 in
/-- C19, amended, instance: the non-strict advance of `relaxed_counting_one`. -/
theorem advance_resets_counters_witness :
    relaxed_counting_one.Reachable ∧
    (relaxed_counting_one.malloc 16).1.current_data_layer
      = relaxed_counting_one.current_data_layer + 1 ∧
    (relaxed_counting_one.prepare 16).1.data_alloc_count_in_layer = 0 ∧
    (relaxed_counting_one.malloc 16).1.current_mem_layer =
      (if relaxed_counting_one.cfg.strict_picas_jumps then
        relaxed_counting_one.current_data_layer + 1
       else relaxed_counting_one.current_mem_layer) :=
  ⟨PICAS.Reachable.malloc _ 16 (PICAS.Reachable.construct _ _), by decide,
   (advance_resets_counters relaxed_counting_one
      (PICAS.Reachable.malloc _ 16 (PICAS.Reachable.construct _ _)) 16 (by decide)).2.2.1,
   (advance_resets_counters relaxed_counting_one
      (PICAS.Reachable.malloc _ 16 (PICAS.Reachable.construct _ _)) 16 (by decide)).2.2.2.2.2.2⟩

set_option maxRecDepth 100000 in
/-- C20, counterexample. On one layer of a single page with the default safety
settings, `malloc(8192)` finds no room in the arena, is served by the fallback
allocator and returns the non-null pointer 131072 + 24; no jump is applied and
both counters are 0 before and after the call. -/
theorem fallback_block_not_counted :
    (one_page_system.malloc 8192).2 = 131072 + sizeof_FallbackHeader ∧
    (one_page_system.malloc 8192).2 ≠ 0 ∧
    one_page_system.arena_ptr 8192 = 0 ∧
    (one_page_system.prepare 8192).2.1.jump_data_layer = false ∧
    one_page_system.data_alloc_count_in_layer = 0 ∧
    one_page_system.data_alloc_bytes_in_layer = 0 ∧
    (one_page_system.malloc 8192).1.data_alloc_count_in_layer = 0 ∧
    (one_page_system.malloc 8192).1.data_alloc_bytes_in_layer = 0 := by
  decide

/-- C20, amended. A `malloc(size)` call whose block is placed in a memory layer
(`arena_ptr` is not null; it is then the pointer returned) increases
`data_alloc_count_in_layer` by 1 and `data_alloc_bytes_in_layer` by `size` (0
coerced to 1), in `size_t` arithmetic, relative to their values after the reset
of that call, which happens exactly when the decision after the guard has
`jump_data_layer` set and the next data layer exists. A call that places no
block, whether it returns null or a pointer of the fallback allocator, leaves
both unchanged apart from that reset. A null return places no block, and without
`always_fallback_on_fail` every non-null return is a placed block. -/
theorem malloc_counts_placed_blocks (st : PICAS) (size : Nat) :
    (st.arena_ptr size ≠ 0 →
      (st.malloc size).2 = st.arena_ptr size ∧
      (st.malloc size).1.data_alloc_count_in_layer =
        ((if (st.prepare size).2.1.jump_data_layer = true ∧
            (st.clamped_dl + 1) % W32 < st.num_layers then 0
          else st.data_alloc_count_in_layer) + 1) % W64 ∧
      (st.malloc size).1.data_alloc_bytes_in_layer =
        ((if (st.prepare size).2.1.jump_data_layer = true ∧
            (st.clamped_dl + 1) % W32 < st.num_layers then 0
          else st.data_alloc_bytes_in_layer) + (if size = 0 then 1 else size)) % W64) ∧
    (st.arena_ptr size = 0 →
      (st.malloc size).1.data_alloc_count_in_layer =
        (if (st.prepare size).2.1.jump_data_layer = true ∧
            (st.clamped_dl + 1) % W32 < st.num_layers then 0
         else st.data_alloc_count_in_layer) ∧
      (st.malloc size).1.data_alloc_bytes_in_layer =
        (if (st.prepare size).2.1.jump_data_layer = true ∧
            (st.clamped_dl + 1) % W32 < st.num_layers then 0
         else st.data_alloc_bytes_in_layer)) ∧
    ((st.malloc size).2 = 0 → st.arena_ptr size = 0) ∧
    (st.cfg.safety.always_fallback_on_fail = false → (st.malloc size).2 ≠ 0 →
      st.arena_ptr size ≠ 0) := by
  obtain ⟨c1, c2⟩ := prepare_counters st size
  refine ⟨?_, ?_, ?_, ?_⟩
  · intro hp
    obtain ⟨-, -, -, v4, v5⟩ := (malloc_progress st size).2.2 hp
    rw [← c1, ← c2]
    exact ⟨(malloc_of_arena_ptr st size hp).1, v4, v5⟩
  · intro h0
    obtain ⟨u1, u2, -⟩ := malloc_counters_unplaced st size h0
    rw [← c1, ← c2]
    exact ⟨u1, u2⟩
  · intro hn
    by_contra hp
    rw [(malloc_of_arena_ptr st size hp).1] at hn
    exact hp hn
  · intro hf hn h0
    exact hn (malloc_null_without_fallback st size hf h0)

set_option maxRecDepth 100000 in
/-- C20, amended, instance: the first `malloc(16)` on three layers of 64 KiB is
placed in the arena and counted, 0 and 0 becoming 1 and 16. -/
theorem malloc_counts_placed_blocks_witness :
    three_layers.arena_ptr 16 ≠ 0 ∧
    (three_layers.malloc 16).1.data_alloc_count_in_layer = 1 ∧
    (three_layers.malloc 16).1.data_alloc_bytes_in_layer = 16 ∧
    (three_layers.malloc 16).1.data_alloc_count_in_layer =
      ((if (three_layers.prepare 16).2.1.jump_data_layer = true ∧
          (three_layers.clamped_dl + 1) % W32 < three_layers.num_layers then 0
        else three_layers.data_alloc_count_in_layer) + 1) % W64 :=
  ⟨by decide, by decide, by decide,
   ((malloc_counts_placed_blocks three_layers 16).1 (by decide)).2.1⟩

/-! ## Word-level facts used below -/

theorem rd64_lt (m : Mem) (a : Nat) : rd64 m a < W64 := by
  have := rdN_lt m 8 a
  simpa [rd64, W64] using this

theorem rd32_lt (m : Mem) (a : Nat) : rd32 m a < W32 := by
  have := rdN_lt m 4 a
  simpa [rd32, W32] using this

theorem rd64_wr64_same (m : Mem) (a v : Nat) : rd64 (wr64 m a v) a = v % W64 := by
  have := rdN_wrN_same m a 8 v
  simpa [rd64, wr64, W64] using this

theorem rd64_wr64_other (m : Mem) (a v b : Nat) (h : a + 8 ≤ b ∨ b + 8 ≤ a) :
    rd64 (wr64 m a v) b = rd64 m b :=
  rdN_wrN_disjoint m a 8 v b 8 h

/-- The scan of `any_prev_layer_incomplete` finds a layer exactly when one of the
first `n` layers has bump room. -/
theorem any_incomplete_upto_iff (layers : Nat → LayerState) (n : Nat) :
    any_incomplete_upto layers n = true ↔ ∃ i, i < n ∧ (layers i).bump < (layers i).end_ := by
  induction n with
  | zero => simp [any_incomplete_upto]
  | succ n ih =>
    simp only [any_incomplete_upto, Bool.or_eq_true, ih, decide_eq_true_eq]
    constructor
    · rintro (⟨i, hi, h⟩ | h)
      · exact ⟨i, by omega, h⟩
      · exact ⟨n, by omega, h⟩
    · rintro ⟨i, hi, h⟩
      by_cases hin : i = n
      · right; rw [← hin]; exact h
      · left; exact ⟨i, by omega, h⟩

/-- The ascending scan of `find_earliest_incomplete` from index `i` with `k`
indices left below `dl`: it stops at the first incomplete layer, else gives `dl`. -/
theorem find_incomplete_from_spec (layers : Nat → LayerState) (dl : Nat) :
    ∀ (k i : Nat), i + k = dl →
      ((find_incomplete_from layers dl k i = dl ∧
          ∀ j, i ≤ j → j < dl → ¬ (layers j).bump < (layers j).end_) ∨
        (i ≤ find_incomplete_from layers dl k i ∧ find_incomplete_from layers dl k i < dl ∧
          (layers (find_incomplete_from layers dl k i)).bump
            < (layers (find_incomplete_from layers dl k i)).end_ ∧
          ∀ j, i ≤ j → j < find_incomplete_from layers dl k i →
            ¬ (layers j).bump < (layers j).end_)) := by
  intro k
  induction k with
  | zero =>
    intro i h
    left
    exact ⟨rfl, fun j h1 h2 => by omega⟩
  | succ k ih =>
    intro i h
    unfold find_incomplete_from
    split
    · rename_i hlt
      right
      exact ⟨Nat.le_refl i, by omega, hlt, fun j h1 h2 => by omega⟩
    · rename_i hge
      rcases ih (i + 1) (by omega) with ⟨h1, h2⟩ | ⟨h1, h2, h3, h4⟩
      · left
        refine ⟨h1, fun j hj1 hj2 => ?_⟩
        by_cases hji : j = i
        · rw [hji]; exact hge
        · exact h2 j (by omega) hj2
      · right
        refine ⟨by omega, h2, h3, fun j hj1 hj2 => ?_⟩
        by_cases hji : j = i
        · rw [hji]; exact hge
        · exact h4 j (by omega) hj2

/-- What `free_into_layer` does on a block it accepts: the two stores of the
free node, the push on the bin of the size, and the guarded decrement. -/
theorem free_into_layer_shape (st : PICAS) (h : Nat)
    (h0 : h ≠ 0) (hm : rd32 st.mem h = kMagic)
    (hml : rd32 st.mem (h + 4) < st.num_layers) :
    (st.free_into_layer h).mem =
      wr64 (wr64 st.mem (h + 8) (rd64 st.mem (h + 24))) h
        (head_ptr ((st.layers (rd32 st.mem (h + 4))).bins (bin_index (rd64 st.mem (h + 24))))) ∧
    (st.free_into_layer h).layers = (fun j =>
      if j = rd32 st.mem (h + 4) then
        { st.layers (rd32 st.mem (h + 4)) with
          bins := fun b =>
            if b = bin_index (rd64 st.mem (h + 24)) then
              h :: (st.layers (rd32 st.mem (h + 4))).bins (bin_index (rd64 st.mem (h + 24)))
            else (st.layers (rd32 st.mem (h + 4))).bins b,
          live_bytes_est :=
            if (st.layers (rd32 st.mem (h + 4))).live_bytes_est ≥ rd64 st.mem (h + 24)
            then (st.layers (rd32 st.mem (h + 4))).live_bytes_est - rd64 st.mem (h + 24)
            else (st.layers (rd32 st.mem (h + 4))).live_bytes_est }
      else st.layers j) := by
  have hs : rd64 (wr64 st.mem (h + 8) (rd64 st.mem (h + 24))) (h + 8) = rd64 st.mem (h + 24) := by
    rw [rd64_wr64_same, Nat.mod_eq_of_lt (rd64_lt _ _)]
  have hs2 : ∀ x, rd64 (wr64 (wr64 st.mem (h + 8) (rd64 st.mem (h + 24))) h x) (h + 8)
      = rd64 st.mem (h + 24) := by
    intro x
    rw [rd64_wr64_other _ _ _ _ (by omega), hs]
  have hm2 : ¬ rd32 st.mem h ≠ kMagic := fun hc => hc hm
  have hml2 : ¬ rd32 st.mem (h + 4) ≥ st.num_layers := by omega
  unfold PICAS.free_into_layer
  rw [if_neg h0, if_neg hm2]
  simp only [if_neg hml2, emit_layers, emit_mem, hs, hs2, PICAS.set_layer, LayerState.set_bin,
    true_and]
  funext j
  split
  · split <;> rfl
  · rfl

/-! ## The claims: phase control, shrinking, accounting -/

/-- C21. In every reachable state and for every `L`, after `set_data_layer(L)`
the current data layer and the current memory layer both equal
`min(L, num_layers − 1)` and both progress counters are 0; and
`set_data_layer(L)` applied twice yields the same state as applied once. -/
theorem set_data_layer_clamps (st : PICAS) (hr : st.Reachable) (L : Nat) :
    (st.set_data_layer L).current_data_layer = min L (st.num_layers - 1) ∧
    (st.set_data_layer L).current_mem_layer = min L (st.num_layers - 1) ∧
    (st.set_data_layer L).data_alloc_count_in_layer = 0 ∧
    (st.set_data_layer L).data_alloc_bytes_in_layer = 0 ∧
    (st.set_data_layer L).set_data_layer L = st.set_data_layer L := by
  obtain ⟨h1, h8, -⟩ := data_layer_ok_of_reachable st hr
  have hs : sub32 st.num_layers 1 = st.num_layers - 1 := by
    simp only [sub32, W32, kMaxLayers] at *
    omega
  have hc : (if L ≥ st.num_layers then sub32 st.num_layers 1 else L)
      = min L (st.num_layers - 1) := by
    rw [hs]
    split <;> omega
  refine ⟨hc, hc, rfl, rfl, ?_⟩
  unfold PICAS.set_data_layer
  rfl

/-- C21 on three layers: `set_data_layer(7)` clamps to layer 2. -/
theorem set_data_layer_clamps_witness :
    three_layers.Reachable ∧
    (three_layers.set_data_layer 7).current_data_layer = min 7 (three_layers.num_layers - 1) ∧
    (three_layers.set_data_layer 7).set_data_layer 7 = three_layers.set_data_layer 7 :=
  ⟨PICAS.Reachable.construct _ _,
   (set_data_layer_clamps three_layers (PICAS.Reachable.construct _ _) 7).1,
   (set_data_layer_clamps three_layers (PICAS.Reachable.construct _ _) 7).2.2.2.2⟩

/-- C30. `find_earliest_incomplete(dl)` returns the smallest index `i < dl` whose
layer has `bump < end`, and returns `dl` when no such index exists (in
particular for `dl = 0`); hence `any_prev_layer_incomplete(dl)` is true if and
only if `find_earliest_incomplete(dl) < dl`. -/
theorem find_earliest_incomplete_spec (st : PICAS) (dl : Nat) :
    (st.find_earliest_incomplete dl < dl →
      (st.layers (st.find_earliest_incomplete dl)).bump
        < (st.layers (st.find_earliest_incomplete dl)).end_ ∧
      ∀ j, j < st.find_earliest_incomplete dl → ¬ (st.layers j).bump < (st.layers j).end_) ∧
    ((∃ i, i < dl ∧ (st.layers i).bump < (st.layers i).end_) ↔
      st.find_earliest_incomplete dl < dl) ∧
    ((∀ i, i < dl → ¬ (st.layers i).bump < (st.layers i).end_) ↔
      st.find_earliest_incomplete dl = dl) ∧
    st.find_earliest_incomplete 0 = 0 ∧
    (st.any_prev_layer_incomplete dl = true ↔ st.find_earliest_incomplete dl < dl) := by
  have hle : st.find_earliest_incomplete dl ≤ dl := by
    unfold PICAS.find_earliest_incomplete
    split
    · omega
    · rcases find_incomplete_from_spec st.layers dl dl 0 (by omega) with ⟨h1, -⟩ | ⟨-, h2, -⟩
      · omega
      · omega
  have hfound : st.find_earliest_incomplete dl < dl →
      (st.layers (st.find_earliest_incomplete dl)).bump
        < (st.layers (st.find_earliest_incomplete dl)).end_ ∧
      ∀ j, j < st.find_earliest_incomplete dl → ¬ (st.layers j).bump < (st.layers j).end_ := by
    unfold PICAS.find_earliest_incomplete
    split
    · intro h; omega
    · intro h
      rcases find_incomplete_from_spec st.layers dl dl 0 (by omega) with ⟨h1, -⟩ | ⟨-, -, h3, h4⟩
      · omega
      · exact ⟨h3, fun j hj => h4 j (by omega) hj⟩
  have hnone : st.find_earliest_incomplete dl = dl →
      ∀ i, i < dl → ¬ (st.layers i).bump < (st.layers i).end_ := by
    unfold PICAS.find_earliest_incomplete
    split
    · intro _ i hi; omega
    · intro h
      rcases find_incomplete_from_spec st.layers dl dl 0 (by omega) with ⟨-, h2⟩ | ⟨-, h2, -⟩
      · exact fun i hi => h2 i (by omega) hi
      · omega
  have hiff : (∃ i, i < dl ∧ (st.layers i).bump < (st.layers i).end_) ↔
      st.find_earliest_incomplete dl < dl := by
    constructor
    · rintro ⟨i, hi, h⟩
      by_contra hc
      exact hnone (by omega) i hi h
    · intro h
      exact ⟨_, h, (hfound h).1⟩
  refine ⟨hfound, hiff, ?_, ?_, ?_⟩
  · constructor
    · intro h
      by_contra hc
      have hlt : st.find_earliest_incomplete dl < dl := by omega
      exact h _ hlt (hfound hlt).1
    · exact hnone
  · rfl
  · rw [← hiff]
    unfold PICAS.any_prev_layer_incomplete
    split
    · rename_i h0
      simp [h0]
    · exact any_incomplete_upto_iff st.layers dl

set_option maxRecDepth 100000 in
/-- C30 on `small_nearly_full` (layer 0 has 32 bytes left): the earliest
incomplete layer below 1 is layer 0. -/
theorem find_earliest_incomplete_spec_witness :
    small_nearly_full.find_earliest_incomplete 1 = 0 ∧
    (small_nearly_full.layers 0).bump < (small_nearly_full.layers 0).end_ ∧
    small_nearly_full.any_prev_layer_incomplete 1 = true :=
  have h := find_earliest_incomplete_spec small_nearly_full 1
  ⟨by decide, (h.1 (by decide)).1, h.2.2.2.2.2 (by decide)⟩

set_option maxRecDepth 100000 in
/-- C23, counterexample. On a layer whose `live_bytes_est` is 10, freeing a block
of `total_size` 48 leaves the estimate at 10, not at 0. -/
theorem free_keeps_small_estimate :
    rd32 underestimated.mem (grow_a.2 - sizeof_BlockHeader) = kMagic ∧
    rd32 underestimated.mem (grow_a.2 - sizeof_BlockHeader + 4) = 0 ∧
    rd64 underestimated.mem (grow_a.2 - sizeof_BlockHeader + 24) = 48 ∧
    (underestimated.layers 0).live_bytes_est = 10 ∧
    ((underestimated.free_into_layer (grow_a.2 - sizeof_BlockHeader)).layers 0).live_bytes_est
      = 10 ∧
    ((underestimated.free_into_layer (grow_a.2 - sizeof_BlockHeader)).layers 0).live_bytes_est
      ≠ 0 := by
  decide

/-- C23, amended. `free_into_layer` applied to a block (header at `h`, magic
intact, owning layer `ml < num_layers`) of `total_size` `s` in a layer whose
`live_bytes_est` is `v` leaves `live_bytes_est` equal to `v − s` when `v ≥ s`,
and leaves it at `v` when `v < s`. -/
theorem free_into_layer_live_bytes (st : PICAS) (h : Nat)
    (h0 : h ≠ 0) (hm : rd32 st.mem h = kMagic)
    (hml : rd32 st.mem (h + 4) < st.num_layers) :
    ((st.free_into_layer h).layers (rd32 st.mem (h + 4))).live_bytes_est =
      (if (st.layers (rd32 st.mem (h + 4))).live_bytes_est ≥ rd64 st.mem (h + 24)
       then (st.layers (rd32 st.mem (h + 4))).live_bytes_est - rd64 st.mem (h + 24)
       else (st.layers (rd32 st.mem (h + 4))).live_bytes_est) := by
  rw [(free_into_layer_shape st h h0 hm hml).2]
  simp only [if_true]

set_option maxRecDepth 100000 in
/-- C23, amended, on `grow_a`: the estimate 48 drops to 0 when the block of 48
bytes is freed. -/
theorem free_into_layer_live_bytes_witness :
    (grow_a.1.layers 0).live_bytes_est = 48 ∧
    ((grow_a.1.free_into_layer (grow_a.2 - sizeof_BlockHeader)).layers
        (rd32 grow_a.1.mem (grow_a.2 - sizeof_BlockHeader + 4))).live_bytes_est =
      (if (grow_a.1.layers (rd32 grow_a.1.mem (grow_a.2 - sizeof_BlockHeader + 4))).live_bytes_est
          ≥ rd64 grow_a.1.mem (grow_a.2 - sizeof_BlockHeader + 24)
       then (grow_a.1.layers (rd32 grow_a.1.mem (grow_a.2 - sizeof_BlockHeader + 4))).live_bytes_est
          - rd64 grow_a.1.mem (grow_a.2 - sizeof_BlockHeader + 24)
       else (grow_a.1.layers
          (rd32 grow_a.1.mem (grow_a.2 - sizeof_BlockHeader + 4))).live_bytes_est) :=
  ⟨by decide,
   free_into_layer_live_bytes grow_a.1 (grow_a.2 - sizeof_BlockHeader) (by decide) (by decide)
     (by decide)⟩

/-! ## The sanitiser -/

theorem sum_layer_bytes_congr (f g : Nat → LayerConfig) :
    ∀ n, (∀ i, i < n → (f i).bytes = (g i).bytes) → sum_layer_bytes f n = sum_layer_bytes g n := by
  intro n
  induction n with
  | zero => intro _; rfl
  | succ n ih =>
    intro h
    simp only [sum_layer_bytes]
    rw [ih (fun i hi => h i (by omega)), h n (by omega)]

theorem sum_layer_bytes_const (f : Nat → LayerConfig) (c : Nat) :
    ∀ n, (∀ i, i < n → (f i).bytes = c) → n * c < W64 → sum_layer_bytes f n = n * c := by
  intro n
  induction n with
  | zero => intro _ _; simp [sum_layer_bytes]
  | succ n ih =>
    intro h hlt
    have hn : n * c < W64 := by
      have : n * c ≤ (n + 1) * c := Nat.mul_le_mul_right c (by omega)
      omega
    simp only [sum_layer_bytes]
    rw [ih (fun i hi => h i (by omega)) hn, h n (by omega), Nat.mod_eq_of_lt (by
      rw [Nat.add_mul, Nat.one_mul] at hlt; exact hlt), Nat.add_mul, Nat.one_mul]

/-- The layer count after sanitising. -/
theorem sanitize_num_layers (cfg : Config) :
    (safety_validate_and_sanitize cfg).num_layers =
      (if (if cfg.num_layers = 0 then 1 else cfg.num_layers) > kMaxLayers then kMaxLayers
       else (if cfg.num_layers = 0 then 1 else cfg.num_layers)) := rfl

theorem sanitize_num_layers_range (cfg : Config) :
    1 ≤ (safety_validate_and_sanitize cfg).num_layers ∧
    (safety_validate_and_sanitize cfg).num_layers ≤ kMaxLayers := by
  rw [sanitize_num_layers]
  simp only [kMaxLayers]
  split <;> split <;> omega

theorem sanitize_probes (cfg : Config) :
    (safety_validate_and_sanitize cfg).safety.max_layer_probes =
      (if (if cfg.safety.max_layer_probes = 0 then 1 else cfg.safety.max_layer_probes)
          > (safety_validate_and_sanitize cfg).num_layers
       then (safety_validate_and_sanitize cfg).num_layers
       else (if cfg.safety.max_layer_probes = 0 then 1 else cfg.safety.max_layer_probes)) := rfl

/-- The layer table after sanitising. -/
theorem sanitize_mem_layers (cfg : Config) (i : Nat) :
    (safety_validate_and_sanitize cfg).mem_layers i =
      (if i < (safety_validate_and_sanitize cfg).num_layers then
        (if sum_layer_bytes cfg.mem_layers (safety_validate_and_sanitize cfg).num_layers = 0 then
          { bytes := 8 * 1024 * 1024 / (safety_validate_and_sanitize cfg).num_layers,
            mem_tp_bytes :=
              min ((8 * 1024 * 1024 / (safety_validate_and_sanitize cfg).num_layers * 3) % W64 / 4)
                (8 * 1024 * 1024 / (safety_validate_and_sanitize cfg).num_layers) }
        else
          { bytes := (cfg.mem_layers i).bytes,
            mem_tp_bytes := min (cfg.mem_layers i).mem_tp_bytes (cfg.mem_layers i).bytes })
      else cfg.mem_layers i) := by
  rw [sanitize_num_layers]
  unfold safety_validate_and_sanitize
  simp only
  generalize (if (if cfg.num_layers = 0 then 1 else cfg.num_layers) > kMaxLayers then kMaxLayers
       else (if cfg.num_layers = 0 then 1 else cfg.num_layers)) = nl
  by_cases hi : i < nl
  · by_cases ht : sum_layer_bytes cfg.mem_layers nl = 0
    · simp only [hi, ht, if_true, true_and]
      split
      · rename_i h
        rw [Nat.min_eq_right (by omega)]
      · rename_i h
        rw [Nat.min_eq_left (by omega)]
    · simp only [hi, ht, if_true, if_false, true_and]
      split
      · rename_i h
        rw [Nat.min_eq_right (by omega)]
      · rename_i h
        rw [Nat.min_eq_left (by omega)]
  · simp only [hi, false_and, if_false]
    split <;> simp only [hi, if_false]

theorem sanitize_scavenger (cfg : Config) :
    (safety_validate_and_sanitize cfg).scavenger =
      (if cfg.scavenger.enabled ∧ cfg.scavenger.period_allocs = 0
       then { cfg.scavenger with period_allocs := 4096 } else cfg.scavenger) := rfl

theorem sanitize_fallback (cfg : Config) :
    (safety_validate_and_sanitize cfg).safety.fallback =
      (if cfg.safety.fallback.mode = FallbackMode.EmergencyReserve ∧
          cfg.safety.fallback.emergency_bytes < 4096
       then { cfg.safety.fallback with emergency_bytes := 4096 } else cfg.safety.fallback) := rfl

theorem sanitize_anti_stranding (cfg : Config) :
    (safety_validate_and_sanitize cfg).safety.anti_stranding =
      (if cfg.safety.anti_stranding.enabled ∧
          cfg.safety.anti_stranding.max_stranded_per_layer < 1024
       then { cfg.safety.anti_stranding with max_stranded_per_layer := 1024 }
       else cfg.safety.anti_stranding) := rfl

/-- The fields the sanitiser never writes. -/
theorem sanitize_untouched (cfg : Config) :
    (safety_validate_and_sanitize cfg).data_layers = cfg.data_layers ∧
    (safety_validate_and_sanitize cfg).strict_picas_jumps = cfg.strict_picas_jumps ∧
    (safety_validate_and_sanitize cfg).enable_event_hooks = cfg.enable_event_hooks ∧
    (safety_validate_and_sanitize cfg).enable_debug_pause = cfg.enable_debug_pause ∧
    (safety_validate_and_sanitize cfg).debug_pause_ms = cfg.debug_pause_ms ∧
    (safety_validate_and_sanitize cfg).enable_tracing = cfg.enable_tracing ∧
    (safety_validate_and_sanitize cfg).safety.always_fallback_on_fail
      = cfg.safety.always_fallback_on_fail :=
  ⟨rfl, rfl, rfl, rfl, rfl, rfl, rfl⟩

theorem sanitize_probes_range (cfg : Config) :
    1 ≤ (safety_validate_and_sanitize cfg).safety.max_layer_probes ∧
    (safety_validate_and_sanitize cfg).safety.max_layer_probes
      ≤ (safety_validate_and_sanitize cfg).num_layers := by
  have hn := sanitize_num_layers_range cfg
  rw [sanitize_probes]
  split <;> split <;> omega

theorem sanitize_mem_tp_le (cfg : Config) (i : Nat)
    (hi : i < (safety_validate_and_sanitize cfg).num_layers) :
    ((safety_validate_and_sanitize cfg).mem_layers i).mem_tp_bytes
      ≤ ((safety_validate_and_sanitize cfg).mem_layers i).bytes := by
  rw [sanitize_mem_layers, if_pos hi]
  split
  · exact Nat.min_le_right _ _
  · exact Nat.min_le_right _ _

/-- The wrapping byte total of the sanitised layers is not zero. -/
theorem sanitize_total_pos (cfg : Config) :
    0 < sum_layer_bytes (safety_validate_and_sanitize cfg).mem_layers
      (safety_validate_and_sanitize cfg).num_layers := by
  obtain ⟨h1, h8⟩ := sanitize_num_layers_range cfg
  simp only [kMaxLayers] at h8
  by_cases ht : sum_layer_bytes cfg.mem_layers (safety_validate_and_sanitize cfg).num_layers = 0
  · have hb : ∀ i, i < (safety_validate_and_sanitize cfg).num_layers →
        ((safety_validate_and_sanitize cfg).mem_layers i).bytes
          = 8 * 1024 * 1024 / (safety_validate_and_sanitize cfg).num_layers := by
      intro i hi
      rw [sanitize_mem_layers, if_pos hi, if_pos ht]
    have hper : 1024 * 1024 ≤ 8 * 1024 * 1024 / (safety_validate_and_sanitize cfg).num_layers := by
      rw [Nat.le_div_iff_mul_le (by omega)]
      omega
    have hle : (safety_validate_and_sanitize cfg).num_layers *
        (8 * 1024 * 1024 / (safety_validate_and_sanitize cfg).num_layers) ≤ 8 * 1024 * 1024 :=
      Nat.mul_div_le _ _
    rw [sum_layer_bytes_const _ _ _ hb (by simp only [W64]; omega)]
    exact Nat.mul_pos (by omega) (by omega)
  · have hb : ∀ i, i < (safety_validate_and_sanitize cfg).num_layers →
        ((safety_validate_and_sanitize cfg).mem_layers i).bytes = (cfg.mem_layers i).bytes := by
      intro i hi
      rw [sanitize_mem_layers, if_pos hi, if_neg ht]
    rw [sum_layer_bytes_congr _ _ _ hb]
    omega

theorem sum_layer_bytes_le_sum (f : Nat → LayerConfig) :
    ∀ n, sum_layer_bytes f n ≤ ((List.range n).map (fun i => (f i).bytes)).sum := by
  intro n
  induction n with
  | zero => simp [sum_layer_bytes]
  | succ n ih =>
    simp only [sum_layer_bytes, List.range_succ, List.map_append, List.sum_append, List.map_cons,
      List.map_nil, List.sum_cons, List.sum_nil, Nat.add_zero]
    have := Nat.mod_le (sum_layer_bytes f n + (f n).bytes) W64
    omega

theorem config_eq (a b : Config) (h1 : a.num_layers = b.num_layers)
    (h2 : a.mem_layers = b.mem_layers) (h3 : a.data_layers = b.data_layers)
    (h4 : a.strict_picas_jumps = b.strict_picas_jumps)
    (h5 : a.enable_event_hooks = b.enable_event_hooks)
    (h6 : a.enable_debug_pause = b.enable_debug_pause)
    (h7 : a.debug_pause_ms = b.debug_pause_ms)
    (h8 : a.safety = b.safety) (h9 : a.scavenger = b.scavenger)
    (h10 : a.enable_tracing = b.enable_tracing) : a = b := by
  cases a
  cases b
  simp only [Config.mk.injEq]
  exact ⟨h1, h2, h3, h4, h5, h6, h7, h8, h9, h10⟩

theorem safety_config_eq (a b : SafetyConfig) (h1 : a.fallback = b.fallback)
    (h2 : a.anti_stranding = b.anti_stranding) (h3 : a.max_layer_probes = b.max_layer_probes)
    (h4 : a.always_fallback_on_fail = b.always_fallback_on_fail) : a = b := by
  cases a
  cases b
  simp only [SafetyConfig.mk.injEq]
  exact ⟨h1, h2, h3, h4⟩

/-- Sanitising a sanitised configuration changes nothing. -/
theorem sanitize_idempotent (cfg : Config) :
    safety_validate_and_sanitize (safety_validate_and_sanitize cfg)
      = safety_validate_and_sanitize cfg := by
  obtain ⟨h1, h8⟩ := sanitize_num_layers_range cfg
  simp only [kMaxLayers] at h8
  obtain ⟨p1, p2⟩ := sanitize_probes_range cfg
  have hnl : (safety_validate_and_sanitize (safety_validate_and_sanitize cfg)).num_layers
      = (safety_validate_and_sanitize cfg).num_layers := by
    rw [sanitize_num_layers (safety_validate_and_sanitize cfg)]
    simp only [kMaxLayers]
    split <;> split <;> omega
  obtain ⟨u1, u2, u3, u4, u5, u6, u7⟩ := sanitize_untouched (safety_validate_and_sanitize cfg)
  apply config_eq _ _ hnl ?_ u1 u2 u3 u4 u5 ?_ ?_ u6
  · funext i
    rw [sanitize_mem_layers (safety_validate_and_sanitize cfg) i, hnl]
    split
    · rename_i hi
      rw [if_neg (by have := sanitize_total_pos cfg; omega),
        Nat.min_eq_left (sanitize_mem_tp_le cfg i hi)]
    · rfl
  · apply safety_config_eq _ _ ?_ ?_ ?_ u7
    · rw [sanitize_fallback (safety_validate_and_sanitize cfg)]
      split
      · rename_i h
        rw [sanitize_fallback cfg] at h
        split at h
        · simp at h
        · rename_i h2
          exact absurd h h2
      · rfl
    · rw [sanitize_anti_stranding (safety_validate_and_sanitize cfg)]
      split
      · rename_i h
        rw [sanitize_anti_stranding cfg] at h
        split at h
        · simp at h
        · rename_i h2
          exact absurd h h2
      · rfl
    · rw [sanitize_probes (safety_validate_and_sanitize cfg), hnl]
      split <;> split <;> omega
  · rw [sanitize_scavenger (safety_validate_and_sanitize cfg)]
    split
    · rename_i h
      rw [sanitize_scavenger cfg] at h
      split at h
      · simp at h
      · rename_i h2
        exact absurd h h2
    · rfl

/-- C25. For every input configuration, after `safety_validate_and_sanitize`:
`1 ≤ num_layers ≤ 8`, `1 ≤ safety.max_layer_probes ≤ num_layers`,
`mem_tp_bytes ≤ bytes` for every layer index below `num_layers`, and the sum of
`bytes` over the layers below `num_layers` is greater than 0 (as the `size_t`
total the function computes, and so as a sum of numbers); and applying the
function a second time changes nothing. -/
theorem sanitize_spec (cfg : Config) :
    1 ≤ (safety_validate_and_sanitize cfg).num_layers ∧
    (safety_validate_and_sanitize cfg).num_layers ≤ 8 ∧
    1 ≤ (safety_validate_and_sanitize cfg).safety.max_layer_probes ∧
    (safety_validate_and_sanitize cfg).safety.max_layer_probes
      ≤ (safety_validate_and_sanitize cfg).num_layers ∧
    (∀ i, i < (safety_validate_and_sanitize cfg).num_layers →
      ((safety_validate_and_sanitize cfg).mem_layers i).mem_tp_bytes
        ≤ ((safety_validate_and_sanitize cfg).mem_layers i).bytes) ∧
    0 < sum_layer_bytes (safety_validate_and_sanitize cfg).mem_layers
      (safety_validate_and_sanitize cfg).num_layers ∧
    0 < ((List.range (safety_validate_and_sanitize cfg).num_layers).map
      (fun i => ((safety_validate_and_sanitize cfg).mem_layers i).bytes)).sum ∧
    safety_validate_and_sanitize (safety_validate_and_sanitize cfg)
      = safety_validate_and_sanitize cfg :=
  ⟨(sanitize_num_layers_range cfg).1, (sanitize_num_layers_range cfg).2,
   (sanitize_probes_range cfg).1, (sanitize_probes_range cfg).2,
   sanitize_mem_tp_le cfg, sanitize_total_pos cfg,
   Nat.lt_of_lt_of_le (sanitize_total_pos cfg) (sum_layer_bytes_le_sum _ _),
   sanitize_idempotent cfg⟩

set_option maxRecDepth 1000000 in
/-- C26. End-to-end scenario 1: on the fresh allocator `scenario_one` three
successive `malloc(61440)` calls succeed; the first leaves the data layer at 0;
the second reports the TLP as reached (the decision says so and the event
`LayerTLPReached` is emitted) and advances the current data layer from 0 to 1;
the block of the third call is placed in memory layer 1 (it lies between
`begin` and `end` of layer 1 and its header names layer 1). -/
theorem scenario_one_runs :
    scenario_one.current_data_layer = 0 ∧
    scenario_one_a.2 ≠ 0 ∧
    scenario_one_a.1.current_data_layer = 0 ∧
    (scenario_one_a.1.prepare 61440).2.1.reached_tlp = true ∧
    ({ type := EventType.LayerTLPReached, data_layer := 0, mem_layer := 0, size := 61440,
       note := "TLP reached" } : Event)
      ∈ scenario_one_b.1.events.drop scenario_one_a.1.events.length ∧
    scenario_one_b.2 ≠ 0 ∧
    scenario_one_b.1.current_data_layer = 1 ∧
    scenario_one_c.2 ≠ 0 ∧
    scenario_one_c.2 = scenario_one_b.1.arena_ptr 61440 ∧
    (scenario_one_c.1.layers 1).begin + sizeof_BlockHeader ≤ scenario_one_c.2 ∧
    scenario_one_c.2 + 61440 ≤ (scenario_one_c.1.layers 1).bump ∧
    (scenario_one_c.1.layers 1).bump ≤ (scenario_one_c.1.layers 1).end_ ∧
    rd32 scenario_one_c.1.mem (scenario_one_c.2 - sizeof_BlockHeader + 4) = 1 := by
  decide

set_option maxRecDepth 100000 in
/-- C22, failing input. `realloc` does not shrink every live arena block in
place. On `ragged_layers` (three layers of 100 bytes: one page is reserved,
65536 to 69632, and each layer gets a page of its own), after `malloc(4032)` the
call `p = malloc(100)` is served by layer 1 and returns 69664; the header at
69632 holds the magic, memory layer 1, `user_size = 100` and `total_size = 144`.
The block is live and `0 < 16 ≤ 100`, but `ptr_in_arena` rejects the header,
which lies behind the reservation, so `realloc(p, 16)` finds no header and
returns null instead of `p`; `user_size` stays 100. -/
theorem realloc_null_behind_reservation :
    ragged_layers.pages = { base := 65536, size := 4096 } ∧
    (ragged_layers.layers 1).begin = 69632 ∧
    ragged_a.2 = 65568 ∧
    ragged_b.2 = 69664 ∧
    rd32 ragged_b.1.mem 69632 = kMagic ∧
    rd32 ragged_b.1.mem (69632 + 4) = 1 ∧
    rd64 ragged_b.1.mem (69632 + 16) = 100 ∧
    rd64 ragged_b.1.mem (69632 + 24) = 144 ∧
    ragged_b.1.ptr_in_arena 69632 = false ∧
    (ragged_b.1.realloc ragged_b.2 16).2 = 0 ∧
    rd64 (ragged_b.1.realloc ragged_b.2 16).1.mem (69632 + 16) = 100 := by
  decide

/-- `realloc` shrink in place on blocks inside the reservation. Let `p` be a
pointer whose block header lies directly in front of it, inside the reserved
arena, with the magic intact, clear flags and a data-layer word that is a layer
index, as `alloc_from_layer` stamps it. For every `n` with `0 < n ≤ user_size`,
`realloc(p, n)` returns `p` itself, its only store sets `user_size` in the
header to `n`, `total_size` keeps its value, and no layer changes: the bump
cursor, the free-list bins and `live_bytes_est` of the owning layer are as
before. -/
theorem realloc_shrinks_inside_reservation (st : PICAS) (p n : Nat) (hp : 32 ≤ p)
    (hmagic : rd32 st.mem (p - 32) = kMagic)
    (hdl : rd32 st.mem (p - 32 + 8) < kMaxLayers)
    (hflags : rd32 st.mem (p - 32 + 12) = 0)
    (harena : st.ptr_in_arena (p - 32) = true)
    (hn0 : 0 < n) (hn : n ≤ rd64 st.mem (p - 32 + 16)) :
    (st.realloc p n).2 = p ∧
    (st.realloc p n).1.mem = wr64 st.mem (p - 32 + 16) n ∧
    rd64 (st.realloc p n).1.mem (p - 32 + 16) = n ∧
    rd64 (st.realloc p n).1.mem (p - 32 + 24) = rd64 st.mem (p - 32 + 24) ∧
    (st.realloc p n).1.layers = st.layers ∧
    ((st.realloc p n).1.layers (rd32 st.mem (p - 32 + 4))).bump
      = (st.layers (rd32 st.mem (p - 32 + 4))).bump ∧
    ((st.realloc p n).1.layers (rd32 st.mem (p - 32 + 4))).bins
      = (st.layers (rd32 st.mem (p - 32 + 4))).bins ∧
    ((st.realloc p n).1.layers (rd32 st.mem (p - 32 + 4))).live_bytes_est
      = (st.layers (rd32 st.mem (p - 32 + 4))).live_bytes_est := by
  have hdl2 : rd32 st.mem (p - 32 + 8) ≠ kFallbackMagic := by
    simp only [kMaxLayers, kFallbackMagic] at *
    omega
  obtain ⟨htag, hfb, hhdr, -⟩ := usable_size_of_header st p hp hmagic hdl2 hflags harena
  have hp0 : p ≠ 0 := by omega
  have hnn : n ≠ 0 := by omega
  have hat : ¬ has_align_tag st.mem p = true := by
    unfold has_align_tag
    simp [htag]
  have hfb2 : ¬ fallback_owns st.mem p = true := by
    rw [hfb]; simp
  have hne : ¬ p - 32 = 0 := by
    intro h0
    rw [h0] at harena
    simp [PICAS.ptr_in_arena] at harena
  have hres : st.realloc p n =
      (({ st with mem := wr64 st.mem (p - 32 + 16) n } : PICAS).emit
        { type := EventType.Realloc,
          data_layer := rd32 (wr64 st.mem (p - 32 + 16) n) (p - 32 + 8),
          mem_layer := rd32 (wr64 st.mem (p - 32 + 16) n) (p - 32 + 4),
          size := n, note := "shrink in-place" }, p) := by
    unfold PICAS.realloc
    rw [if_neg hp0, if_neg hnn, if_neg hat, if_neg hfb2, hhdr]
    simp only [if_neg hne, if_pos hn]
  rw [hres]
  simp only [emit_mem, emit_layers]
  refine ⟨trivial, trivial, ?_, ?_, trivial, trivial, trivial, trivial⟩
  · rw [rd64_wr64_same]
    exact Nat.mod_eq_of_lt (Nat.lt_of_le_of_lt hn (rd64_lt _ _))
  · exact rd64_wr64_other _ _ _ _ (by omega)

set_option maxRecDepth 100000 in
/-- On `grow_p` (`p = malloc(40)`): `realloc(p, 16)` returns `p`, sets
`user_size` to 16 and keeps `total_size` at 80. -/
theorem realloc_shrinks_inside_reservation_witness :
    rd64 grow_p.1.mem (grow_p.2 - 32 + 16) = 40 ∧
    (grow_p.1.realloc grow_p.2 16).2 = grow_p.2 ∧
    rd64 (grow_p.1.realloc grow_p.2 16).1.mem (grow_p.2 - 32 + 16) = 16 ∧
    rd64 (grow_p.1.realloc grow_p.2 16).1.mem (grow_p.2 - 32 + 24) = 80 ∧
    (grow_p.1.realloc grow_p.2 16).1.layers = grow_p.1.layers :=
  have h := realloc_shrinks_inside_reservation grow_p.1 grow_p.2 16 (by decide) (by decide) (by decide)
    (by decide) (by decide) (by decide) (by decide)
  ⟨by decide, h.1, h.2.2.1, h.2.2.2.1.trans (by decide), h.2.2.2.2.1⟩

/-! ## The bump cursor of a layer -/

theorem same_cursor_refl (L : LayerState) : L.same_cursor L := ⟨rfl, rfl, rfl, rfl⟩

theorem same_cursor_trans {a b c : LayerState} (h1 : a.same_cursor b) (h2 : b.same_cursor c) :
    a.same_cursor c :=
  ⟨h2.1.trans h1.1, h2.2.1.trans h1.2.1, h2.2.2.1.trans h1.2.2.1, h2.2.2.2.trans h1.2.2.2⟩

theorem same_cursor_set_bin (L : LayerState) (b : Nat) (c : List Nat) :
    L.same_cursor (L.set_bin b c) := ⟨rfl, rfl, rfl, rfl⟩

theorem same_cursor_rebucket : ∀ (l : List Nat) (m : Mem) (L : LayerState),
    L.same_cursor (rebucket m L l).2 := by
  intro l
  induction l with
  | nil => intro m L; exact same_cursor_refl L
  | cons n rest ih =>
    intro m L
    simp only [rebucket]
    exact same_cursor_trans (same_cursor_set_bin L _ _) (ih _ _)

theorem same_cursor_dump_big_bin : ∀ (l : List Nat) (m : Mem) (L : LayerState),
    L.same_cursor (dump_big_bin m L l).2 := by
  intro l
  induction l with
  | nil => intro m L; exact same_cursor_refl L
  | cons n rest ih =>
    intro m L
    simp only [dump_big_bin]
    exact same_cursor_trans (same_cursor_set_bin L _ _) (ih _ _)

theorem same_cursor_scavenge_layer (cfg : ScavengerConfig) (m : Mem) (L : LayerState) :
    L.same_cursor (scavenge_layer cfg m L).2 := by
  unfold scavenge_layer
  dsimp only
  split
  · exact ⟨rfl, rfl, rfl, rfl⟩
  · split
    · exact same_cursor_trans (b := { L with bins := fun _ => [] }) ⟨rfl, rfl, rfl, rfl⟩
        (same_cursor_rebucket _ _ _)
    · exact same_cursor_trans (b := { L with bins := fun _ => [] }) ⟨rfl, rfl, rfl, rfl⟩
        (same_cursor_dump_big_bin _ _ _)

theorem same_cursor_scavenge_layers (cfg : ScavengerConfig) (st : PICAS) (i : Nat) :
    ∀ n, (st.layers i).same_cursor ((scavenge_layers cfg st n).layers i) := by
  intro n
  induction n with
  | zero => exact same_cursor_refl _
  | succ n ih =>
    simp only [scavenge_layers, PICAS.set_layer]
    split
    · rename_i hi
      rw [hi] at ih ⊢
      exact same_cursor_trans ih (same_cursor_scavenge_layer _ _ _)
    · exact ih

theorem same_cursor_scavenger_run_light (st : PICAS) (n : Nat) (cfg : ScavengerConfig) (i : Nat) :
    (st.layers i).same_cursor ((scavenger_run_light st n cfg).layers i) := by
  unfold scavenger_run_light
  split
  · exact same_cursor_refl _
  · split
    · exact same_cursor_refl _
    · exact same_cursor_scavenge_layers cfg st i n

theorem same_cursor_free_into_layer (st : PICAS) (h i : Nat) :
    (st.layers i).same_cursor ((st.free_into_layer h).layers i) := by
  by_cases h0 : h = 0
  · simp only [PICAS.free_into_layer, h0, if_true]; exact same_cursor_refl _
  by_cases hm : rd32 st.mem h = kMagic
  · by_cases hml : rd32 st.mem (h + 4) < st.num_layers
    · rw [(free_into_layer_shape st h h0 hm hml).2]
      dsimp only
      split
      · rename_i hi
        rw [hi]
        exact ⟨rfl, rfl, rfl, rfl⟩
      · exact same_cursor_refl _
    · have hml2 : rd32 st.mem (h + 4) ≥ st.num_layers := by omega
      unfold PICAS.free_into_layer
      rw [if_neg h0, if_neg (fun hc => hc hm)]
      simp only [if_pos hml2]
      exact same_cursor_refl _
  · unfold PICAS.free_into_layer
    rw [if_neg h0, if_pos hm]
    exact same_cursor_refl _

theorem same_cursor_take_from_bin (st : PICAS) (dl ml size total b : Nat) (pre : List Nat)
    (cur : Nat) (post : List Nat) (i : Nat) :
    (st.layers i).same_cursor ((st.take_from_bin dl ml size total b pre cur post).1.layers i) := by
  unfold PICAS.take_from_bin
  simp only [emit_layers, PICAS.set_layer]
  split
  · rename_i hi
    rw [hi]
    split <;> exact ⟨rfl, rfl, rfl, rfl⟩
  · exact same_cursor_refl _

/-- What the bump branch does to the cursor of layer `i`: nothing, or it advances
the cursor and the bump count by `total`, both modulo 2^64. -/
theorem bump_alloc_cursor (st : PICAS) (dl ml size total i : Nat) :
    ((st.bump_alloc dl ml size total).1.layers i).begin = (st.layers i).begin ∧
    ((st.bump_alloc dl ml size total).1.layers i).end_ = (st.layers i).end_ ∧
    ((((st.bump_alloc dl ml size total).1.layers i).bump = (st.layers i).bump ∧
        ((st.bump_alloc dl ml size total).1.layers i).bump_used_bytes
          = (st.layers i).bump_used_bytes) ∨
      (((st.layers i).bump + total) % W64 ≤ (st.layers i).end_ ∧
        ((st.bump_alloc dl ml size total).1.layers i).bump
          = ((st.layers i).bump + total) % W64 ∧
        ((st.bump_alloc dl ml size total).1.layers i).bump_used_bytes
          = ((st.layers i).bump_used_bytes + total) % W64)) := by
  by_cases hs : (st.layers ml).has_space total = true
  · have hs2 : ((st.layers ml).bump + total) % W64 ≤ (st.layers ml).end_ := by
      simpa [LayerState.has_space] using hs
    by_cases hi : i = ml
    · rw [hi]
      refine ⟨?_, ?_, Or.inr ⟨hs2, ?_, ?_⟩⟩ <;>
        simp only [PICAS.bump_alloc, hs, Bool.not_true, Bool.false_eq_true, if_false,
          emit_layers] <;>
        split <;> simp only [emit_layers, PICAS.set_layer, if_true]
    · refine ⟨?_, ?_, Or.inl ⟨?_, ?_⟩⟩ <;>
        simp only [PICAS.bump_alloc, hs, Bool.not_true, Bool.false_eq_true, if_false,
          emit_layers] <;>
        split <;> simp only [emit_layers, PICAS.set_layer, if_neg hi]
  · refine ⟨?_, ?_, Or.inl ⟨?_, ?_⟩⟩ <;> simp [PICAS.bump_alloc, hs]

/-- What `alloc_from_layer` does to the cursor of layer `i`: nothing, or, on the
bump path in the target layer, it advances it by the block total, modulo 2^64. -/
theorem alloc_from_layer_cursor (st : PICAS) (dl ml size i : Nat) :
    ((st.alloc_from_layer dl ml size).1.layers i).begin = (st.layers i).begin ∧
    ((st.alloc_from_layer dl ml size).1.layers i).end_ = (st.layers i).end_ ∧
    ((((st.alloc_from_layer dl ml size).1.layers i).bump = (st.layers i).bump ∧
        ((st.alloc_from_layer dl ml size).1.layers i).bump_used_bytes
          = (st.layers i).bump_used_bytes) ∨
      (((st.layers i).bump + block_total size) % W64 ≤ (st.layers i).end_ ∧
        ((st.alloc_from_layer dl ml size).1.layers i).bump
          = ((st.layers i).bump + block_total size) % W64 ∧
        ((st.alloc_from_layer dl ml size).1.layers i).bump_used_bytes
          = ((st.layers i).bump_used_bytes + block_total size) % W64)) := by
  by_cases h : ml ≥ st.num_layers
  · simp [PICAS.alloc_from_layer, h]
  · cases hs : scan_bins st.mem (st.layers ml) (block_total size)
        (kBins - bin_index (block_total size)) (bin_index (block_total size)) with
    | some r =>
      obtain ⟨b, pre, cur, post⟩ := r
      simp only [PICAS.alloc_from_layer, h, if_false, hs]
      have hc := same_cursor_take_from_bin st dl ml size (block_total size) b pre cur post i
      exact ⟨hc.1, hc.2.1, Or.inl ⟨hc.2.2.1, hc.2.2.2⟩⟩
    | none =>
      simp only [PICAS.alloc_from_layer, h, if_false, hs]
      exact bump_alloc_cursor st dl ml size (block_total size) i

theorem align_up_lt (x a : Nat) : align_up x a < W64 := by
  unfold align_up
  exact Nat.lt_of_le_of_lt Nat.and_le_left (Nat.mod_lt _ (by simp [W64]))

/-- The layers the constructor builds: cursor at the start, less than 2^64 bytes
long. -/
theorem construct_cursor (cfg : Config) (host : Host) (i : Nat) :
    ((PICAS.construct cfg host).layers i).cursor_ok ∧
    ((PICAS.construct cfg host).layers i).end_ - ((PICAS.construct cfg host).layers i).begin
      < W64 := by
  unfold PICAS.construct LayerState.cursor_ok
  dsimp only
  split
  · dsimp only
    have := align_up_lt ((safety_validate_and_sanitize cfg).mem_layers i).bytes host.page_size
    refine ⟨⟨Nat.le_refl _, Nat.le_add_right _ _, by omega⟩, by omega⟩
  · refine ⟨⟨Nat.le_refl _, Nat.le_refl _, rfl⟩, ?_⟩
    show 0 - 0 < W64
    simp [W64]

/-- The cursor invariant where the cursor sum does not wrap. For every memory
layer, `begin ≤ bump ≤ end` and `bump_used_bytes = bump − begin` hold after
construction (where the layer is also shorter than 2^64 bytes); on such a layer
they are preserved by every `alloc_from_layer` whose block total keeps
`bump + block_total(size)` below 2^64 (success or failure, free-list or bump
path), by `free_into_layer` and by the scavenger pass; `begin` and `end` stay,
and `bump` and `bump_used_bytes` do not decrease in these steps. -/
theorem cursor_kept_without_wrap :
    (∀ (cfg : Config) (host : Host) (i : Nat),
      ((PICAS.construct cfg host).layers i).cursor_ok ∧
      ((PICAS.construct cfg host).layers i).end_ - ((PICAS.construct cfg host).layers i).begin
        < W64) ∧
    (∀ (st : PICAS) (dl ml size i : Nat),
      (st.layers i).cursor_ok → (st.layers i).end_ - (st.layers i).begin < W64 →
      (st.layers i).bump + block_total size < W64 →
      ((st.alloc_from_layer dl ml size).1.layers i).cursor_ok ∧
      ((st.alloc_from_layer dl ml size).1.layers i).begin = (st.layers i).begin ∧
      ((st.alloc_from_layer dl ml size).1.layers i).end_ = (st.layers i).end_ ∧
      (st.layers i).bump ≤ ((st.alloc_from_layer dl ml size).1.layers i).bump ∧
      (st.layers i).bump_used_bytes
        ≤ ((st.alloc_from_layer dl ml size).1.layers i).bump_used_bytes) ∧
    (∀ (st : PICAS) (h i : Nat),
      (st.layers i).cursor_ok →
      ((st.free_into_layer h).layers i).cursor_ok ∧
      (st.layers i).same_cursor ((st.free_into_layer h).layers i)) ∧
    (∀ (st : PICAS) (n : Nat) (cfg : ScavengerConfig) (i : Nat),
      (st.layers i).cursor_ok →
      ((scavenger_run_light st n cfg).layers i).cursor_ok ∧
      (st.layers i).same_cursor ((scavenger_run_light st n cfg).layers i)) := by
  have keep : ∀ (a b : LayerState), a.same_cursor b → a.cursor_ok → b.cursor_ok := by
    intro a b hs ha
    unfold LayerState.cursor_ok at *
    rw [hs.1, hs.2.1, hs.2.2.1, hs.2.2.2]
    exact ha
  refine ⟨construct_cursor, ?_, ?_, ?_⟩
  · intro st dl ml size i hok hspan hnw
    obtain ⟨hb, he, hc⟩ := alloc_from_layer_cursor st dl ml size i
    rw [Nat.mod_eq_of_lt hnw] at hc
    unfold LayerState.cursor_ok at *
    obtain ⟨o1, o2, o3⟩ := hok
    rcases hc with ⟨c1, c2⟩ | ⟨c0, c1, c2⟩
    · rw [hb, he, c1, c2]
      exact ⟨⟨o1, o2, o3⟩, rfl, rfl, Nat.le_refl _, Nat.le_refl _⟩
    · rw [hb, he, c1, c2, o3]
      have hmod : ((st.layers i).bump - (st.layers i).begin + block_total size) % W64
          = (st.layers i).bump - (st.layers i).begin + block_total size :=
        Nat.mod_eq_of_lt (by omega)
      rw [hmod]
      exact ⟨⟨by omega, c0, by omega⟩, rfl, rfl, by omega, by omega⟩
  · intro st h i hok
    exact ⟨keep _ _ (same_cursor_free_into_layer st h i) hok, same_cursor_free_into_layer st h i⟩
  · intro st n cfg i hok
    exact ⟨keep _ _ (same_cursor_scavenger_run_light st n cfg i) hok,
      same_cursor_scavenger_run_light st n cfg i⟩

set_option maxRecDepth 100000 in
/-- On `grow_a` the bump allocation of 40 bytes moves the cursor of layer 0 from
48 to 128 bytes past `begin` and keeps the invariant. -/
theorem cursor_kept_without_wrap_witness :
    (grow_a.1.layers 0).cursor_ok ∧
    ((grow_a.1.alloc_from_layer 0 0 40).1.layers 0).cursor_ok ∧
    (grow_a.1.layers 0).bump_used_bytes = 48 ∧
    ((grow_a.1.alloc_from_layer 0 0 40).1.layers 0).bump_used_bytes = 128 :=
  ⟨⟨by decide, by decide, by decide⟩,
   (cursor_kept_without_wrap.2.1 grow_a.1 0 0 40 0 ⟨by decide, by decide, by decide⟩
      (by decide) (by decide)).1,
   by decide, by decide⟩

set_option maxRecDepth 100000 in
/-- C27, failing input. `alloc_from_layer` does not keep the cursor invariant.
On the fresh layer of `one_layer` (`begin = bump = 65536`, `end = 131072`,
`bump_used_bytes = 0`) the request `SIZE_MAX - 100` has the block total
2^64 − 64; the sum `bump + total` of `has_space` wraps to 65472, which is below
`end`, so the bump path hands out the block at 65536 and moves the cursor to
65472: `bump` has decreased and lies below `begin`, and `bump_used_bytes` is
2^64 − 64, not `bump − begin`. The next request, of 100 bytes, is placed at
65472 and brings `bump_used_bytes` down to 80. -/
theorem cursor_wraps_below_begin :
    (one_layer.layers 0).cursor_ok ∧
    (one_layer.layers 0).begin = 65536 ∧
    (one_layer.layers 0).bump = 65536 ∧
    (one_layer.layers 0).end_ = 131072 ∧
    (one_layer.layers 0).bump_used_bytes = 0 ∧
    block_total (SIZE_MAX - 100) = W64 - 64 ∧
    wrap_a.2 = 65536 + sizeof_BlockHeader ∧
    (wrap_a.1.layers 0).begin = 65536 ∧
    (wrap_a.1.layers 0).bump = 65472 ∧
    (wrap_a.1.layers 0).bump_used_bytes = W64 - 64 ∧
    ¬ (wrap_a.1.layers 0).cursor_ok ∧
    wrap_b.2 = 65472 + sizeof_BlockHeader ∧
    (wrap_b.1.layers 0).bump = 65616 ∧
    (wrap_b.1.layers 0).bump_used_bytes = 80 := by
  unfold LayerState.cursor_ok
  decide

/-! ## Steps that do not run the scavenger -/

theorem quiet_refl (a : PICAS) : a.quiet a :=
  ⟨rfl, rfl, [], (List.append_nil _).symm, fun _ h => absurd h (List.not_mem_nil _)⟩

theorem quiet_trans {a b c : PICAS} (h1 : a.quiet b) (h2 : b.quiet c) : a.quiet c := by
  obtain ⟨c1, t1, l1, e1, n1⟩ := h1
  obtain ⟨c2, t2, l2, e2, n2⟩ := h2
  refine ⟨c2.trans c1, t2.trans t1, l1 ++ l2, ?_, ?_⟩
  · rw [e2, e1, List.append_assoc]
  · intro e he
    rcases List.mem_append.1 he with h | h
    · exact n1 e h
    · exact n2 e h

theorem quiet_same (a b : PICAS) (h1 : b.cfg = a.cfg)
    (h2 : b.allocs_since_scavenge = a.allocs_since_scavenge) (h3 : b.events = a.events) :
    a.quiet b :=
  ⟨h1, h2, [], by rw [h3, List.append_nil], fun _ h => absurd h (List.not_mem_nil _)⟩

theorem quiet_emit (st : PICAS) (e : Event) (he : e.type ≠ EventType.Scavenge) :
    st.quiet (st.emit e) := by
  unfold PICAS.emit
  split
  · exact quiet_refl st
  · refine ⟨rfl, rfl, [e], rfl, ?_⟩
    intro x hx
    rw [List.mem_singleton.1 hx]
    exact he

theorem quiet_emit_reached (st : PICAS) (pout : PolicyOutput) (dl ml size : Nat) :
    st.quiet (st.emit_reached pout dl ml size) := by
  unfold PICAS.emit_reached
  split <;> split <;>
    first
      | exact quiet_refl st
      | exact quiet_emit _ _ (by simp)
      | exact quiet_trans (quiet_emit _ _ (by simp)) (quiet_emit _ _ (by simp))

theorem quiet_apply_jumps (st : PICAS) (pout : PolicyOutput) (dl ml size : Nat) :
    st.quiet (st.apply_jumps pout dl ml size).1 := by
  unfold PICAS.apply_jumps
  split
  · dsimp only
    split
    · exact quiet_trans (quiet_emit st _ (by simp)) (quiet_same _ _ rfl rfl rfl)
    · exact quiet_trans (quiet_emit st _ (by simp)) (quiet_same _ _ rfl rfl rfl)
  · exact quiet_refl st

theorem quiet_select_layer (st : PICAS) (pout : PolicyOutput) (dl size : Nat) :
    st.quiet (st.select_layer pout dl size).1 := by
  unfold PICAS.select_layer
  split
  · exact quiet_emit _ _ (by simp)
  · exact quiet_refl st

theorem quiet_choose (st : PICAS) (preferred : Nat) :
    st.quiet (st.choose_layer_bounded preferred).1 := by
  unfold PICAS.choose_layer_bounded
  split
  · exact quiet_refl st
  · dsimp only
    split
    · exact quiet_same _ _ rfl rfl rfl
    · exact quiet_refl st

theorem quiet_spill_if_full (st : PICAS) (dl cm size : Nat) :
    st.quiet (st.spill_if_full dl cm size).1 := by
  unfold PICAS.spill_if_full
  split
  · dsimp only
    split
    · exact quiet_trans (quiet_choose st dl) (quiet_emit _ _ (by simp))
    · exact quiet_choose st dl
  · exact quiet_refl st

theorem quiet_alloc (st : PICAS) (dl ml size : Nat) :
    st.quiet (st.alloc_from_layer dl ml size).1 := by
  by_cases h : ml ≥ st.num_layers
  · simp only [PICAS.alloc_from_layer, h, if_true]
    exact quiet_refl st
  · cases hs : scan_bins st.mem (st.layers ml) (block_total size)
        (kBins - bin_index (block_total size)) (bin_index (block_total size)) with
    | some r =>
      obtain ⟨b, pre, cur, post⟩ := r
      simp only [PICAS.alloc_from_layer, h, if_false, hs, PICAS.take_from_bin]
      exact quiet_trans (b := { st.set_layer ml _ with mem := _ })
        (quiet_same _ _ rfl rfl rfl) (quiet_emit _ _ (by simp))
    | none =>
      simp only [PICAS.alloc_from_layer, h, if_false, hs]
      unfold PICAS.bump_alloc
      dsimp only
      split
      · exact quiet_refl st
      · split
        · exact quiet_trans (quiet_trans
            (b := { st.set_layer ml _ with mem := _ }) (quiet_same _ _ rfl rfl rfl)
            (quiet_emit _ _ (by simp))) (quiet_emit _ _ (by simp))
        · exact quiet_trans (b := { st.set_layer ml _ with mem := _ })
            (quiet_same _ _ rfl rfl rfl) (quiet_emit _ _ (by simp))

theorem quiet_retry (st : PICAS) (dl cm size : Nat) :
    st.quiet (st.retry_probe dl cm size).1 := by
  unfold PICAS.retry_probe
  simp only
  split
  · exact quiet_trans (quiet_trans (quiet_choose st cm)
      (quiet_emit _ _ (by simp))) (quiet_alloc _ _ _ _)
  · exact quiet_choose st cm

theorem quiet_attempt (st : PICAS) (dl cm size : Nat) :
    st.quiet (st.attempt dl cm size).1 := by
  unfold PICAS.attempt
  dsimp only
  split
  · exact quiet_trans (quiet_alloc _ _ _ _) (quiet_retry _ _ _ _)
  · exact quiet_alloc _ _ _ _

theorem quiet_place (st : PICAS) (dl cm size : Nat) :
    st.quiet (st.place dl cm size).1 :=
  quiet_trans (quiet_spill_if_full st dl cm size) (quiet_attempt _ _ _ _)

theorem quiet_out_of_memory (st : PICAS) (dl ml size : Nat) (n1 n2 : String) :
    st.quiet (st.out_of_memory dl ml size n1 n2).1 := by
  unfold PICAS.out_of_memory
  dsimp only
  split
  · split
    · exact quiet_trans (quiet_trans (quiet_emit st _ (by simp))
        (b := { st.emit _ with fb := _, mem := _ }) (quiet_same _ _ rfl rfl rfl))
        (quiet_emit _ _ (by simp))
    · exact quiet_trans (quiet_emit st _ (by simp)) (quiet_same _ _ rfl rfl rfl)
  · exact quiet_emit st _ (by simp)

theorem quiet_finish (st : PICAS) (pout : PolicyOutput) (dl cm size p : Nat) :
    st.quiet (st.finish pout dl cm size p) := by
  unfold PICAS.finish
  dsimp only
  split <;> exact quiet_same _ _ rfl rfl rfl

/-- Behind the scavenger tick, `malloc` keeps the configuration and the tick and
emits no `Scavenge` event. -/
theorem quiet_prepare (st : PICAS) (size : Nat) : st.maybe_scavenge.quiet (st.prepare size).1 := by
  unfold PICAS.prepare
  dsimp only
  exact quiet_trans (quiet_trans (quiet_emit_reached _ _ _ _ _) (quiet_apply_jumps _ _ _ _ _))
    (quiet_select_layer _ _ _ _)

theorem quiet_malloc (st : PICAS) (size : Nat) : st.maybe_scavenge.quiet (st.malloc size).1 := by
  by_cases hh : (Policy.decide st.maybe_scavenge.cfg
      (st.maybe_scavenge.policy_input (if size = 0 then 1 else size))).hard_error = true
  · unfold PICAS.malloc
    dsimp only
    rw [if_pos hh]
    exact quiet_trans (quiet_emit_reached _ _ _ _ _) (quiet_out_of_memory _ _ _ _ _ _)
  · have hpl := quiet_trans (quiet_prepare st size)
      (quiet_place (st.prepare size).1 (st.prepare size).2.2.1 (st.prepare size).2.2.2
        (if size = 0 then 1 else size))
    by_cases hp : ((st.prepare size).1.place (st.prepare size).2.2.1 (st.prepare size).2.2.2
        (if size = 0 then 1 else size)).2.2 = 0
    · unfold PICAS.malloc
      dsimp only
      rw [if_neg hh, if_pos hp]
      exact quiet_trans hpl (quiet_out_of_memory _ _ _ _ _ _)
    · unfold PICAS.malloc
      dsimp only
      rw [if_neg hh, if_neg hp]
      exact quiet_trans hpl (quiet_finish _ _ _ _ _ _)

theorem quiet_free_into_layer (st : PICAS) (h : Nat) : st.quiet (st.free_into_layer h) := by
  unfold PICAS.free_into_layer
  split
  · exact quiet_refl st
  · split
    · exact quiet_refl st
    · dsimp only
      split
      · exact quiet_refl st
      · exact quiet_trans (b := { st.set_layer _ _ with mem := _ })
          (quiet_same _ _ rfl rfl rfl) (quiet_emit _ _ (by simp))

theorem quiet_free_depth (k : Nat) :
    ∀ (st : PICAS) (p : Nat), st.quiet (PICAS.free_depth k st p) := by
  induction k with
  | zero => intro st p; exact quiet_refl st
  | succ k ih =>
    intro st p
    unfold PICAS.free_depth
    split
    · exact quiet_refl st
    · split
      · exact ih _ _
      · split
        · exact quiet_trans (b := { st with fb := _ }) (quiet_same _ _ rfl rfl rfl)
            (quiet_emit _ _ (by simp))
        · dsimp only
          split
          · exact quiet_refl st
          · exact quiet_free_into_layer _ _

theorem quiet_free (st : PICAS) (p : Nat) : st.quiet (st.free p) :=
  quiet_free_depth _ _ _

theorem quiet_mem {a b : PICAS} (m : Mem) (h : a.quiet b) :
    a.quiet ({ b with mem := m } : PICAS) :=
  quiet_trans h (quiet_same _ _ rfl rfl rfl)

theorem quiet_fb {a b : PICAS} (f : Fallback) (h : a.quiet b) :
    a.quiet ({ b with fb := f } : PICAS) :=
  quiet_trans h (quiet_same _ _ rfl rfl rfl)

theorem quiet_ite {a : PICAS} (c : Prop) [Decidable c] (x y : PICAS) (hx : a.quiet x)
    (hy : a.quiet y) : a.quiet (if c then x else y) := by
  split
  · exact hx
  · exact hy

/-- `realloc` is as quiet as the `malloc` it may call. -/
theorem quiet_realloc (st : PICAS) (p n : Nat) (hm : st.quiet (st.malloc n).1) :
    st.quiet (st.realloc p n).1 := by
  unfold PICAS.realloc
  by_cases h1 : p = 0
  · rw [if_pos h1]; exact hm
  rw [if_neg h1]
  by_cases h2 : n = 0
  · rw [if_pos h2]; exact quiet_free st p
  rw [if_neg h2]
  by_cases h3 : has_align_tag st.mem p = true
  · rw [if_pos h3]
    dsimp only
    by_cases h4 : (st.malloc n).2 = 0
    · rw [if_pos h4]; exact hm
    · rw [if_neg h4]
      refine quiet_trans (quiet_trans ?_ (quiet_free _ _)) (quiet_emit _ _ (by simp))
      apply quiet_ite
      · exact quiet_mem _ hm
      · exact hm
  rw [if_neg h3]
  by_cases h5 : fallback_owns st.mem p = true
  · rw [if_pos h5]
    dsimp only
    by_cases h4 : (st.malloc n).2 = 0
    · rw [if_pos h4]; exact hm
    · rw [if_neg h4]
      refine quiet_trans ?_ (quiet_emit _ _ (by simp))
      apply quiet_fb
      apply quiet_ite
      · exact quiet_mem _ hm
      · exact hm
  rw [if_neg h5]
  dsimp only
  by_cases h6 : st.header_from_user_ptr p = 0
  · rw [if_pos h6]; exact quiet_refl st
  rw [if_neg h6]
  by_cases h7 : n ≤ rd64 st.mem (st.header_from_user_ptr p + 16)
  · rw [if_pos h7]
    exact quiet_trans (quiet_mem _ (quiet_refl st)) (quiet_emit _ _ (by simp))
  rw [if_neg h7]
  by_cases h4 : (st.malloc n).2 = 0
  · rw [if_pos h4]; exact hm
  · rw [if_neg h4]
    exact quiet_trans (quiet_trans (quiet_mem _ hm) (quiet_free _ _)) (quiet_emit _ _ (by simp))

/-- `memalign` is as quiet as the `malloc` it calls. -/
theorem quiet_memalign (st : PICAS) (a n : Nat) (hm : ∀ size, st.quiet (st.malloc size).1) :
    st.quiet (st.memalign a n).1 := by
  unfold PICAS.memalign
  dsimp only
  generalize (if n = 0 then 1 else n) = n1
  generalize (if a < 8 then 8 else a) = a1
  by_cases h1 : (!is_pow2_local a1) = true
  · rw [if_pos h1]; exact quiet_refl st
  rw [if_neg h1]
  by_cases h2 : a1 ≤ kAlign
  · rw [if_pos h2]; exact hm _
  rw [if_neg h2]
  by_cases h3 : (st.malloc ((n1 + (a1 + sizeof_AlignTag) % W64) % W64)).2 = 0
  · rw [if_pos h3]; exact hm _
  · rw [if_neg h3]
    exact quiet_trans (quiet_mem _ (hm _)) (quiet_emit _ _ (by simp))

/-- With the scavenger disabled, or with a period of zero, the tick does nothing. -/
theorem maybe_scavenge_off (st : PICAS)
    (h : st.cfg.scavenger.enabled = false ∨ st.cfg.scavenger.period_allocs = 0) :
    st.maybe_scavenge = st := by
  unfold PICAS.maybe_scavenge
  rcases h with h | h
  · simp [h]
  · split
    · rfl
    · rfl

/-- While the count stays below the period, the tick only counts. -/
theorem maybe_scavenge_tick (st : PICAS) (hen : st.cfg.scavenger.enabled = true)
    (hp : st.cfg.scavenger.period_allocs ≠ 0)
    (hlt : (st.allocs_since_scavenge + 1) % W64 < st.cfg.scavenger.period_allocs) :
    st.maybe_scavenge =
      { st with allocs_since_scavenge := (st.allocs_since_scavenge + 1) % W64 } := by
  unfold PICAS.maybe_scavenge
  simp only [hen, Bool.not_true, Bool.false_eq_true, if_false, hp]
  rw [if_pos hlt]

/-- When the count reaches the period, the tick runs the pass and emits the
`Scavenge` event. -/
theorem maybe_scavenge_run (st : PICAS) (hen : st.cfg.scavenger.enabled = true)
    (hp : st.cfg.scavenger.period_allocs ≠ 0)
    (hge : ¬ (st.allocs_since_scavenge + 1) % W64 < st.cfg.scavenger.period_allocs) :
    st.maybe_scavenge =
      (scavenger_run_light { st with allocs_since_scavenge := 0 } st.num_layers
          st.cfg.scavenger).emit
        { type := EventType.Scavenge, data_layer := st.current_data_layer,
          mem_layer := st.current_mem_layer, size := 0, note := "scavenger run" } := by
  have hs := same_progress_trans (b := { st with allocs_since_scavenge := 0 })
    (a := st) ⟨rfl, rfl, rfl, rfl, rfl⟩
    (show PICAS.same_progress { st with allocs_since_scavenge := 0 }
        (scavenger_run_light { st with allocs_since_scavenge := 0 } st.num_layers
          st.cfg.scavenger) by
      unfold scavenger_run_light
      split
      · exact same_progress_refl _
      · split
        · exact same_progress_refl _
        · exact same_progress_scavenge_layers _ _ _)
  unfold PICAS.maybe_scavenge
  simp only [hen, Bool.not_true, Bool.false_eq_true, if_false, hp]
  rw [if_neg hge, hs.2.1, hs.2.2.1]

/-- The scavenger pass moves neither the configuration nor the event list. -/
theorem scavenger_run_light_frame (st : PICAS) (n : Nat) (cfg : ScavengerConfig) :
    (scavenger_run_light st n cfg).cfg = st.cfg ∧
    (scavenger_run_light st n cfg).events = st.events := by
  have hl : ∀ k, (scavenge_layers cfg st k).cfg = st.cfg ∧
      (scavenge_layers cfg st k).events = st.events := by
    intro k
    induction k with
    | zero => exact ⟨rfl, rfl⟩
    | succ k ih =>
      simp only [scavenge_layers, PICAS.set_layer]
      exact ih
  unfold scavenger_run_light
  split
  · exact ⟨rfl, rfl⟩
  · split
    · exact ⟨rfl, rfl⟩
    · exact hl n

/-- With the scavenger disabled or its period zero, every step a client can take
is quiet: the configuration and the tick stay and no `Scavenge` event appears. -/
theorem evolves_quiet (s0 : PICAS)
    (hoff : s0.cfg.scavenger.enabled = false ∨ s0.cfg.scavenger.period_allocs = 0)
    (st : PICAS) (he : s0.Evolves st) : s0.quiet st := by
  induction he with
  | start => exact quiet_refl s0
  | malloc st size _ ih =>
    have hq := quiet_malloc st size
    rw [maybe_scavenge_off st (by rw [ih.1]; exact hoff)] at hq
    exact quiet_trans ih hq
  | free st p _ ih => exact quiet_trans ih (quiet_free st p)
  | realloc st p n _ ih =>
    have hq := quiet_malloc st n
    rw [maybe_scavenge_off st (by rw [ih.1]; exact hoff)] at hq
    exact quiet_trans ih (quiet_realloc st p n hq)
  | memalign st a n _ ih =>
    have hq : ∀ size, st.quiet (st.malloc size).1 := by
      intro size
      have hq := quiet_malloc st size
      rw [maybe_scavenge_off st (by rw [ih.1]; exact hoff)] at hq
      exact hq
    exact quiet_trans ih (quiet_memalign st a n hq)
  | set_data_layer st layer _ ih =>
    exact quiet_trans ih (quiet_same _ _ rfl rfl rfl)
  | store st m _ ih => exact quiet_mem m ih

/-- The constructor keeps `scavenger.enabled` and replaces a zero period of an
enabled scavenger by 4096. -/
theorem construct_scavenger (cfg0 : Config) (host : Host) :
    (PICAS.construct cfg0 host).cfg.scavenger.enabled = cfg0.scavenger.enabled ∧
    (cfg0.scavenger.enabled = true → cfg0.scavenger.period_allocs = 0 →
      (PICAS.construct cfg0 host).cfg.scavenger.period_allocs = 4096) ∧
    (PICAS.construct cfg0 host).events = [] ∧
    (PICAS.construct cfg0 host).allocs_since_scavenge = 0 := by
  have hc : (PICAS.construct cfg0 host).cfg = safety_validate_and_sanitize cfg0 := rfl
  rw [hc, sanitize_scavenger]
  refine ⟨?_, ?_, rfl, rfl⟩
  · split <;> rfl
  · intro h1 h2
    rw [if_pos ⟨h1, h2⟩]

/-- The tick after `k` calls of `malloc` on a state whose scavenger is enabled
with period `P`: as long as `k` stays below `P`, it has only counted. -/
theorem malloc_times_tick (s0 : PICAS) (size : Nat) (hen : s0.cfg.scavenger.enabled = true)
    (hw : s0.cfg.scavenger.period_allocs ≤ W64) :
    ∀ k, s0.allocs_since_scavenge + k < s0.cfg.scavenger.period_allocs →
      (s0.malloc_times size k).cfg = s0.cfg ∧
      (s0.malloc_times size k).allocs_since_scavenge = s0.allocs_since_scavenge + k := by
  intro k
  induction k with
  | zero => intro _; exact ⟨rfl, rfl⟩
  | succ k ih =>
    intro hk
    obtain ⟨ic, it⟩ := ih (by omega)
    have hq := quiet_malloc (s0.malloc_times size k) size
    have hmod : ((s0.malloc_times size k).allocs_since_scavenge + 1) % W64
        = s0.allocs_since_scavenge + k + 1 := by
      rw [it]
      exact Nat.mod_eq_of_lt (by omega)
    rw [maybe_scavenge_tick _ (by rw [ic]; exact hen) (by rw [ic]; omega)
      (by rw [hmod, ic]; omega)] at hq
    simp only [PICAS.malloc_times]
    refine ⟨hq.1.trans ic, ?_⟩
    rw [hq.2.1]
    exact hmod

/-- On a state whose scavenger is enabled with period `P` and whose tick is at
`P − 1`, the next `malloc` runs the pass and emits the `Scavenge` event. -/
theorem malloc_runs_scavenger (st : PICAS) (size : Nat)
    (hen : st.cfg.scavenger.enabled = true) (hp : st.cfg.scavenger.period_allocs ≠ 0)
    (hw : st.cfg.scavenger.period_allocs < W64)
    (ht : st.allocs_since_scavenge + 1 = st.cfg.scavenger.period_allocs)
    (hhook : st.cfg.enable_event_hooks = true) :
    st.maybe_scavenge =
      (scavenger_run_light { st with allocs_since_scavenge := 0 } st.num_layers
          st.cfg.scavenger).emit
        { type := EventType.Scavenge, data_layer := st.current_data_layer,
          mem_layer := st.current_mem_layer, size := 0, note := "scavenger run" } ∧
    ({ type := EventType.Scavenge, data_layer := st.current_data_layer,
       mem_layer := st.current_mem_layer, size := 0, note := "scavenger run" } : Event)
      ∈ (st.malloc size).1.events := by
  have hge : ¬ (st.allocs_since_scavenge + 1) % W64 < st.cfg.scavenger.period_allocs := by
    rw [Nat.mod_eq_of_lt (by omega)]
    omega
  have hrun := maybe_scavenge_run st hen hp hge
  refine ⟨hrun, ?_⟩
  obtain ⟨-, -, l, hl, -⟩ := quiet_malloc st size
  have hf := scavenger_run_light_frame { st with allocs_since_scavenge := 0 } st.num_layers
    st.cfg.scavenger
  rw [hl, hrun]
  apply List.mem_append_left
  unfold PICAS.emit
  rw [hf.1]
  simp [hhook]

/-! ## The claims: the scavenger period -/

set_option maxRecDepth 100000 in
/-- C24, counterexample. The configuration `zero_period_config` has the
scavenger enabled with `period_allocs = 0`; the allocator built from it holds
the period 4096, and the `malloc` call that follows 4095 calls runs the
scavenger pass and emits a `Scavenge` event. -/
theorem zero_period_scavenges :
    zero_period_config.scavenger.enabled = true ∧
    zero_period_config.scavenger.period_allocs = 0 ∧
    zero_period.cfg.scavenger.period_allocs = 4096 ∧
    EventType.Scavenge ∈
      (((zero_period.malloc_times 16 4095).malloc 16).1.events.map (fun e => e.type)) := by
  have hen : zero_period.cfg.scavenger.enabled = true := by decide
  have hper : zero_period.cfg.scavenger.period_allocs = 4096 := by decide
  have hhook : zero_period.cfg.enable_event_hooks = true := by decide
  have h0 : zero_period.allocs_since_scavenge = 0 := by decide
  obtain ⟨tc, tt⟩ := malloc_times_tick zero_period 16 hen (by rw [hper]; simp [W64]) 4095
    (by rw [h0, hper]; decide)
  have hrun := (malloc_runs_scavenger (zero_period.malloc_times 16 4095) 16 (by rw [tc]; exact hen)
    (by rw [tc, hper]; decide) (by rw [tc, hper]; simp [W64]) (by rw [tc, tt, h0, hper])
    (by rw [tc]; exact hhook)).2
  exact ⟨by decide, by decide, hper, List.mem_map.2 ⟨_, hrun, rfl⟩⟩

/-- C24, amended. For an allocator constructed from a configuration with
`scavenger.period_allocs = 0`: when `scavenger.enabled` is false, in every state
the client can reach the scavenger tick of `malloc` does nothing (the pass is
not run, so maintenance never rebuilds the bins) and no `Scavenge` event is ever
emitted; when `scavenger.enabled` is true, the constructor replaces the period
by 4096 and the 4096th `malloc` call runs the pass (and emits the `Scavenge`
event when event hooks are on). -/
theorem scavenger_period_zero (cfg0 : Config) (host : Host)
    (hp : cfg0.scavenger.period_allocs = 0) :
    (cfg0.scavenger.enabled = false →
      ∀ st, (PICAS.construct cfg0 host).Evolves st → ∀ size,
        st.maybe_scavenge = st ∧
        (∀ e ∈ st.events, e.type ≠ EventType.Scavenge) ∧
        (∀ e ∈ (st.malloc size).1.events, e.type ≠ EventType.Scavenge)) ∧
    (cfg0.scavenger.enabled = true →
      (PICAS.construct cfg0 host).cfg.scavenger.period_allocs = 4096 ∧
      ∀ size,
        ((PICAS.construct cfg0 host).malloc_times size 4095).maybe_scavenge =
          (scavenger_run_light
            { (PICAS.construct cfg0 host).malloc_times size 4095 with
              allocs_since_scavenge := 0 }
            ((PICAS.construct cfg0 host).malloc_times size 4095).num_layers
            ((PICAS.construct cfg0 host).malloc_times size 4095).cfg.scavenger).emit
            { type := EventType.Scavenge,
              data_layer := ((PICAS.construct cfg0 host).malloc_times size 4095).current_data_layer,
              mem_layer := ((PICAS.construct cfg0 host).malloc_times size 4095).current_mem_layer,
              size := 0, note := "scavenger run" } ∧
        (cfg0.enable_event_hooks = true →
          EventType.Scavenge ∈
            ((((PICAS.construct cfg0 host).malloc_times size 4095).malloc size).1.events.map
              (fun e => e.type)))) := by
  obtain ⟨c1, c2, c3, c4⟩ := construct_scavenger cfg0 host
  constructor
  · intro hoff st he size
    have hoff2 : (PICAS.construct cfg0 host).cfg.scavenger.enabled = false ∨
        (PICAS.construct cfg0 host).cfg.scavenger.period_allocs = 0 := by
      left; rw [c1]; exact hoff
    obtain ⟨q1, -, l, ql, qn⟩ := evolves_quiet _ hoff2 st he
    have hms := maybe_scavenge_off st (by rw [q1]; exact hoff2)
    have hclean : ∀ e ∈ st.events, e.type ≠ EventType.Scavenge := by
      intro e hmem
      rw [ql, c3, List.nil_append] at hmem
      exact qn e hmem
    refine ⟨hms, hclean, ?_⟩
    obtain ⟨-, -, l2, ql2, qn2⟩ := quiet_malloc st size
    rw [hms] at ql2
    intro e hmem
    rw [ql2] at hmem
    rcases List.mem_append.1 hmem with h | h
    · exact hclean e h
    · exact qn2 e h
  · intro hen
    have hper := c2 hen hp
    refine ⟨hper, fun size => ?_⟩
    have hen2 : (PICAS.construct cfg0 host).cfg.scavenger.enabled = true := by rw [c1]; exact hen
    obtain ⟨tc, tt⟩ := malloc_times_tick (PICAS.construct cfg0 host) size hen2
      (by rw [hper]; simp [W64]) 4095 (by rw [c4, hper]; decide)
    have hrun := malloc_runs_scavenger ((PICAS.construct cfg0 host).malloc_times size 4095) size
      (by rw [tc]; exact hen2) (by rw [tc, hper]; decide) (by rw [tc, hper]; simp [W64])
      (by rw [tc, tt, c4, hper])
    refine ⟨?_, ?_⟩
    · have hge : ¬ (((PICAS.construct cfg0 host).malloc_times size 4095).allocs_since_scavenge
          + 1) % W64
          < ((PICAS.construct cfg0 host).malloc_times size 4095).cfg.scavenger.period_allocs := by
        rw [tc, tt, c4, hper]
        decide
      exact maybe_scavenge_run _ (by rw [tc]; exact hen2) (by rw [tc, hper]; decide) hge
    · intro hhook
      have hk : ((PICAS.construct cfg0 host).malloc_times size 4095).cfg.enable_event_hooks
          = true := by
        rw [tc]
        exact hhook
      exact List.mem_map.2 ⟨_, (hrun hk).2, rfl⟩

/-- C24, amended, on `scavenger_off_config`: after one `malloc(16)` the tick
still does nothing and no `Scavenge` event has been emitted. -/
theorem scavenger_period_zero_witness :
    scavenger_off_config.scavenger.period_allocs = 0 ∧
    scavenger_off_config.scavenger.enabled = false ∧
    ((PICAS.construct scavenger_off_config plain_host).malloc 16).1.maybe_scavenge
      = ((PICAS.construct scavenger_off_config plain_host).malloc 16).1 ∧
    (∀ e ∈ ((PICAS.construct scavenger_off_config plain_host).malloc 16).1.events,
      e.type ≠ EventType.Scavenge) :=
  have h := (scavenger_period_zero scavenger_off_config plain_host rfl).1 rfl
    ((PICAS.construct scavenger_off_config plain_host).malloc 16).1
    (PICAS.Evolves.malloc _ 16 PICAS.Evolves.start) 16
  ⟨rfl, rfl, h.1, h.2.1⟩

/-! ## The merge loop of the scavenger -/

/-- The merge loop writes only `size` words of the blocks it is given. -/
theorem coalesce_frame : ∀ (rest : List Nat) (m : Mem) (cur b : Nat),
    (∀ n ∈ cur :: rest, b + 8 ≤ n + 8 ∨ n + 16 ≤ b) →
    rd64 (coalesce m cur rest).1 b = rd64 m b := by
  intro rest
  induction rest with
  | nil => intro m cur b _; rfl
  | cons nxt rest ih =>
    intro m cur b h
    have hc := h cur (List.mem_cons_self _ _)
    by_cases hadj : cur + rd64 m (cur + 8) = nxt
    · have hstep : coalesce m cur (nxt :: rest) =
          coalesce (wr64 m (cur + 8) ((rd64 m (cur + 8) + rd64 m (nxt + 8)) % W64)) cur rest := by
        rw [coalesce, if_pos hadj]
      have hrest : ∀ n ∈ cur :: rest, b + 8 ≤ n + 8 ∨ n + 16 ≤ b := by
        intro n hn
        rcases List.mem_cons.1 hn with h1 | h1
        · rw [h1]; exact hc
        · exact h n (List.mem_cons_of_mem _ (List.mem_cons_of_mem _ h1))
      rw [hstep, ih _ cur b hrest]
      exact rd64_wr64_other _ _ _ _ (by omega)
    · have hstep : coalesce m cur (nxt :: rest) =
          ((coalesce m nxt rest).1, cur :: (coalesce m nxt rest).2) := by
        rw [coalesce, if_neg hadj]
      rw [hstep]
      exact ih m nxt b (fun n hn => h n (List.mem_cons_of_mem _ hn))

theorem nodes_in_order_tail {m : Mem} {a : Nat} {l : List Nat} (h : nodes_in_order m (a :: l)) :
    nodes_in_order m l :=
  ⟨(List.pairwise_cons.1 h.1).2, fun x hx => h.2 x (List.mem_cons_of_mem _ hx)⟩

/-- The merge loop on blocks in address order. The survivors start with `cur`,
are among the blocks given, and are strictly apart (`A + size < B`); every block
given lies inside the final range of a survivor, and every byte of the final
range of a survivor lies in a block given that starts at or behind the
survivor. -/
theorem coalesce_spec : ∀ (rest : List Nat) (m : Mem) (cur : Nat),
    nodes_in_order m (cur :: rest) →
    (∃ tl, (coalesce m cur rest).2 = cur :: tl) ∧
    (∀ A ∈ (coalesce m cur rest).2, A ∈ cur :: rest) ∧
    (coalesce m cur rest).2.Pairwise
      (fun A B => A + 16 ≤ B ∧ A + node_size (coalesce m cur rest).1 A < B) ∧
    (∀ A ∈ (coalesce m cur rest).2, A + node_size (coalesce m cur rest).1 A < W64) ∧
    (∀ n ∈ cur :: rest, ∃ A ∈ (coalesce m cur rest).2,
      A ≤ n ∧ n + node_size m n ≤ A + node_size (coalesce m cur rest).1 A) ∧
    (∀ A ∈ (coalesce m cur rest).2, ∀ x, A ≤ x → x < A + node_size (coalesce m cur rest).1 A →
      ∃ n ∈ cur :: rest, A ≤ n ∧ n ≤ x ∧ x < n + node_size m n) := by
  intro rest
  induction rest with
  | nil =>
    intro m cur h
    simp only [coalesce]
    refine ⟨⟨[], rfl⟩, fun A hA => hA, List.pairwise_singleton _ _, h.2, ?_, ?_⟩
    · intro n hn
      exact ⟨n, hn, Nat.le_refl _, Nat.le_refl _⟩
    · intro A hA x h1 h2
      exact ⟨A, hA, Nat.le_refl _, h1, h2⟩
  | cons nxt rest ih =>
    intro m cur h
    obtain ⟨hpw, hsz⟩ := h
    obtain ⟨hcur, hpw2⟩ := List.pairwise_cons.1 hpw
    obtain ⟨hnxt, hpw3⟩ := List.pairwise_cons.1 hpw2
    have hc := hsz cur (List.mem_cons_self _ _)
    have hn := hsz nxt (List.mem_cons_of_mem _ (List.mem_cons_self _ _))
    have hcn := hcur nxt (List.mem_cons_self _ _)
    by_cases hadj : cur + rd64 m (cur + 8) = nxt
    · -- `cur` absorbs `nxt`
      have hstep : coalesce m cur (nxt :: rest) =
          coalesce (wr64 m (cur + 8) ((rd64 m (cur + 8) + rd64 m (nxt + 8)) % W64)) cur rest := by
        rw [coalesce, if_pos hadj]
      have hsum : node_size (wr64 m (cur + 8) ((rd64 m (cur + 8) + rd64 m (nxt + 8)) % W64)) cur
          = node_size m cur + node_size m nxt := by
        unfold node_size at *
        rw [rd64_wr64_same, Nat.mod_mod, Nat.mod_eq_of_lt (by omega)]
      have hsame : ∀ n ∈ rest,
          node_size (wr64 m (cur + 8) ((rd64 m (cur + 8) + rd64 m (nxt + 8)) % W64)) n
            = node_size m n := by
        intro n hnr
        have h1 := hcur n (List.mem_cons_of_mem _ hnr)
        unfold node_size at *
        exact rd64_wr64_other _ _ _ _ (by omega)
      have hord : nodes_in_order
          (wr64 m (cur + 8) ((rd64 m (cur + 8) + rd64 m (nxt + 8)) % W64)) (cur :: rest) := by
        constructor
        · refine List.pairwise_cons.2 ⟨?_, ?_⟩
          · intro b hb
            have h1 := hnxt b hb
            rw [hsum]
            unfold node_size at *
            omega
          · refine List.Pairwise.imp_of_mem ?_ hpw3
            intro a b ha _ hab
            rw [hsame a ha]
            exact hab
        · intro a ha
          rcases List.mem_cons.1 ha with h1 | h1
          · rw [h1, hsum]
            unfold node_size at *
            omega
          · rw [hsame a h1]
            exact hsz a (List.mem_cons_of_mem _ (List.mem_cons_of_mem _ h1))
      obtain ⟨i1, i2, i3, i4, i5, i6⟩ := ih _ cur hord
      rw [hstep]
      refine ⟨i1, ?_, i3, i4, ?_, ?_⟩
      · intro A hA
        rcases List.mem_cons.1 (i2 A hA) with h1 | h1
        · rw [h1]; exact List.mem_cons_self _ _
        · exact List.mem_cons_of_mem _ (List.mem_cons_of_mem _ h1)
      · intro n hmem
        rcases List.mem_cons.1 hmem with h1 | h1
        · obtain ⟨A, hA, a1, a2⟩ := i5 cur (List.mem_cons_self _ _)
          rw [hsum] at a2
          exact ⟨A, hA, by omega, by rw [h1]; omega⟩
        · rcases List.mem_cons.1 h1 with h2 | h2
          · obtain ⟨A, hA, a1, a2⟩ := i5 cur (List.mem_cons_self _ _)
            rw [hsum] at a2
            unfold node_size at *
            exact ⟨A, hA, by omega, by rw [h2]; omega⟩
          · obtain ⟨A, hA, a1, a2⟩ := i5 n (List.mem_cons_of_mem _ h2)
            rw [hsame n h2] at a2
            exact ⟨A, hA, a1, a2⟩
      · intro A hA x hx1 hx2
        obtain ⟨n, hmem, b1, b2, b3⟩ := i6 A hA x hx1 hx2
        rcases List.mem_cons.1 hmem with h1 | h1
        · rw [h1, hsum] at b3
          rw [h1] at b1 b2
          by_cases hlt : x < cur + node_size m cur
          · exact ⟨cur, List.mem_cons_self _ _, b1, b2, hlt⟩
          · refine ⟨nxt, List.mem_cons_of_mem _ (List.mem_cons_self _ _), ?_, ?_, ?_⟩ <;>
              unfold node_size at * <;> omega
        · rw [hsame n h1] at b3
          exact ⟨n, List.mem_cons_of_mem _ (List.mem_cons_of_mem _ h1), b1, b2, b3⟩
    · -- `cur` survives as it is
      have hstep : coalesce m cur (nxt :: rest) =
          ((coalesce m nxt rest).1, cur :: (coalesce m nxt rest).2) := by
        rw [coalesce, if_neg hadj]
      have hord : nodes_in_order m (nxt :: rest) := nodes_in_order_tail ⟨hpw, hsz⟩
      obtain ⟨i1, i2, i3, i4, i5, i6⟩ := ih m nxt hord
      have hkeep : node_size (coalesce m nxt rest).1 cur = node_size m cur := by
        unfold node_size
        apply coalesce_frame
        intro n hmem
        have h1 := hcur n hmem
        unfold node_size at *
        omega
      have hge : ∀ B ∈ nxt :: rest, nxt ≤ B := by
        intro B hB
        rcases List.mem_cons.1 hB with h1 | h1
        · omega
        · have := hnxt B h1
          omega
      rw [hstep]
      dsimp only
      refine ⟨⟨_, rfl⟩, ?_, ?_, ?_, ?_, ?_⟩
      · intro A hA
        rcases List.mem_cons.1 hA with h1 | h1
        · rw [h1]; exact List.mem_cons_self _ _
        · exact List.mem_cons_of_mem _ (i2 A h1)
      · refine List.pairwise_cons.2 ⟨?_, i3⟩
        intro B hB
        have := hge B (i2 B hB)
        rw [hkeep]
        unfold node_size at *
        omega
      · intro A hA
        rcases List.mem_cons.1 hA with h1 | h1
        · rw [h1, hkeep]; exact hc
        · exact i4 A h1
      · intro n hmem
        rcases List.mem_cons.1 hmem with h1 | h1
        · refine ⟨cur, List.mem_cons_self _ _, by omega, ?_⟩
          rw [hkeep, h1]
        · obtain ⟨A, hA, a1, a2⟩ := i5 n h1
          exact ⟨A, List.mem_cons_of_mem _ hA, a1, a2⟩
      · intro A hA x hx1 hx2
        rcases List.mem_cons.1 hA with h1 | h1
        · rw [h1, hkeep] at hx2
          rw [h1] at hx1
          exact ⟨cur, List.mem_cons_self _ _, by omega, hx1, hx2⟩
        · obtain ⟨n, hmem, b1, b2, b3⟩ := i6 A h1 x hx1 hx2
          exact ⟨n, List.mem_cons_of_mem _ hmem, b1, b2, b3⟩

theorem mem_collect_bins (bins : Nat → List Nat) (x : Nat) :
    ∀ n, x ∈ collect_bins bins n ↔ ∃ b, b < n ∧ x ∈ bins b := by
  intro n
  induction n with
  | zero => simp [collect_bins]
  | succ n ih =>
    simp only [collect_bins, List.mem_append, ih]
    constructor
    · rintro (⟨b, hb, h⟩ | h)
      · exact ⟨b, by omega, h⟩
      · exact ⟨n, by omega, h⟩
    · rintro ⟨b, hb, h⟩
      by_cases hbn : b = n
      · right; rw [← hbn]; exact h
      · left; exact ⟨b, by omega, h⟩

theorem bin_index_lt (sz : Nat) : bin_index sz < kBins := by
  unfold bin_index
  simp only [kBins]
  generalize bin_index_loop 64 (if sz < 32 then 32 else sz) 0 = idx
  split <;> omega

/-- The rebucket loop writes only `next` words of the blocks it is given. -/
theorem rebucket_frame : ∀ (l : List Nat) (m : Mem) (L : LayerState) (a : Nat),
    (∀ n ∈ l, n + 8 ≤ a ∨ a + 8 ≤ n) → rd64 (rebucket m L l).1 a = rd64 m a := by
  intro l
  induction l with
  | nil => intro m L a _; rfl
  | cons n rest ih =>
    intro m L a h
    have hn := h n (List.mem_cons_self _ _)
    simp only [rebucket]
    rw [ih _ _ a (fun x hx => h x (List.mem_cons_of_mem _ hx)),
      rd64_wr64_other _ _ _ _ (by omega), rd64_wr64_other _ _ _ _ (by omega)]

/-- The loop taken without rebucketing writes only `next` words as well. -/
theorem dump_big_bin_frame : ∀ (l : List Nat) (m : Mem) (L : LayerState) (a : Nat),
    (∀ n ∈ l, n + 8 ≤ a ∨ a + 8 ≤ n) → rd64 (dump_big_bin m L l).1 a = rd64 m a := by
  intro l
  induction l with
  | nil => intro m L a _; rfl
  | cons n rest ih =>
    intro m L a h
    have hn := h n (List.mem_cons_self _ _)
    simp only [dump_big_bin]
    rw [ih _ _ a (fun x hx => h x (List.mem_cons_of_mem _ hx)),
      rd64_wr64_other _ _ _ _ (by omega)]

/-- Where the rebucket loop puts the blocks: each on the bin of its size. -/
theorem rebucket_bins : ∀ (l : List Nat) (m : Mem) (L : LayerState),
    l.Pairwise (fun a b => a + 16 ≤ b) →
    ∀ b x, x ∈ (rebucket m L l).2.bins b ↔
      x ∈ L.bins b ∨ (x ∈ l ∧ b = bin_index (node_size m x)) := by
  intro l
  induction l with
  | nil => intro m L _ b x; simp [rebucket]
  | cons n rest ih =>
    intro m L hpw b x
    obtain ⟨hn, hrest⟩ := List.pairwise_cons.1 hpw
    have hsz : rd64 (wr64 m n 0) (n + 8) = node_size m n :=
      rd64_wr64_other _ _ _ _ (by omega)
    have hkeep : ∀ y ∈ rest,
        node_size (wr64 (wr64 m n 0) n (head_ptr (L.bins (bin_index (node_size m n))))) y
          = node_size m y := by
      intro y hy
      have := hn y hy
      unfold node_size
      rw [rd64_wr64_other _ _ _ _ (by omega), rd64_wr64_other _ _ _ _ (by omega)]
    simp only [rebucket, hsz]
    rw [ih _ _ hrest b x]
    simp only [LayerState.set_bin, List.mem_cons]
    constructor
    · rintro (h | ⟨h1, h2⟩)
      · split at h
        · rename_i hb
          rcases List.mem_cons.1 h with h3 | h3
          · right; exact ⟨Or.inl h3, by rw [h3]; exact hb⟩
          · left; rw [hb]; exact h3
        · left; exact h
      · right
        rw [hkeep x h1] at h2
        exact ⟨Or.inr h1, h2⟩
    · rintro (h | ⟨h1 | h1, h2⟩)
      · left
        split
        · rename_i hb
          rw [hb] at h
          exact List.mem_cons_of_mem _ h
        · exact h
      · left
        rw [h1] at h2
        rw [if_pos h2, h1]
        exact List.mem_cons_self _ _
      · right
        rw [hkeep x h1]
        exact ⟨h1, h2⟩

/-- Where the loop without rebucketing puts the blocks: all on the last bin. -/
theorem dump_big_bin_bins : ∀ (l : List Nat) (m : Mem) (L : LayerState),
    ∀ b x, x ∈ (dump_big_bin m L l).2.bins b ↔ x ∈ L.bins b ∨ (x ∈ l ∧ b = kBins - 1) := by
  intro l
  induction l with
  | nil => intro m L b x; simp [dump_big_bin]
  | cons n rest ih =>
    intro m L b x
    simp only [dump_big_bin]
    rw [ih _ _ b x]
    simp only [LayerState.set_bin, List.mem_cons]
    constructor
    · rintro (h | ⟨h1, h2⟩)
      · split at h
        · rename_i hb
          rcases List.mem_cons.1 h with h3 | h3
          · right; exact ⟨Or.inl h3, hb⟩
          · left; rw [hb]; exact h3
        · left; exact h
      · right; exact ⟨Or.inr h1, h2⟩
    · rintro (h | ⟨h1 | h1, h2⟩)
      · left
        split
        · rename_i hb
          rw [hb] at h
          exact List.mem_cons_of_mem _ h
        · exact h
      · left
        rw [if_pos h2, h1]
        exact List.mem_cons_self _ _
      · right; exact ⟨h1, h2⟩

/-- Sorting free nodes that are apart puts them in order. -/
theorem nodes_in_order_sorted (m : Mem) (l : List Nat) (h : nodes_apart m l) :
    nodes_in_order m (List.insertionSort (fun a b => a ≤ b) l) := by
  obtain ⟨hpw, hsz⟩ := h
  have hperm := List.perm_insertionSort (fun a b : Nat => a ≤ b) l
  have hsorted := List.sorted_insertionSort (fun a b : Nat => a ≤ b) l
  have hpw2 : (List.insertionSort (fun a b => a ≤ b) l).Pairwise
      (fun a b => (a + 16 ≤ b ∧ a + node_size m a ≤ b) ∨
        (b + 16 ≤ a ∧ b + node_size m b ≤ a)) :=
    hperm.symm.pairwise hpw (fun h => h.symm)
  have hsz2 : ∀ a ∈ List.insertionSort (fun a b => a ≤ b) l, a + node_size m a < W64 :=
    fun a ha => hsz a (hperm.mem_iff.1 ha)
  refine ⟨?_, hsz2⟩
  have hboth := List.Pairwise.and hsorted hpw2
  refine List.Pairwise.imp ?_ hboth
  intro a b hab
  omega

theorem pairwise_mem_cases {R : Nat → Nat → Prop} {l : List Nat} (h : l.Pairwise R) :
    ∀ a ∈ l, ∀ b ∈ l, a = b ∨ R a b ∨ R b a := by
  induction l with
  | nil => intro a ha; exact absurd ha (List.not_mem_nil _)
  | cons x rest ih =>
    obtain ⟨hx, hrest⟩ := List.pairwise_cons.1 h
    intro a ha b hb
    rcases List.mem_cons.1 ha with h1 | h1 <;> rcases List.mem_cons.1 hb with h2 | h2
    · left; rw [h1, h2]
    · right; left; rw [h1]; exact hx b h2
    · right; right; rw [h2]; exact hx a h1
    · exact ih hrest a h1 b h2

/-- The per-layer body of the scavenger when the layer has no free node. -/
theorem scavenge_layer_empty (cfg : ScavengerConfig) (m : Mem) (L : LayerState)
    (hs : List.insertionSort (fun a b => a ≤ b) L.free_nodes = []) :
    scavenge_layer cfg m L = (m, { L with bins := fun _ => [] }) := by
  unfold LayerState.free_nodes at hs
  unfold scavenge_layer
  simp only [hs]

/-- The per-layer body of the scavenger when the sorted free nodes are
`b0 :: rest`: merge (if enabled), then refill the bins. -/
theorem scavenge_layer_cons (cfg : ScavengerConfig) (m : Mem) (L : LayerState) (b0 : Nat)
    (rest : List Nat)
    (hs : List.insertionSort (fun a b => a ≤ b) L.free_nodes = b0 :: rest) :
    scavenge_layer cfg m L =
      (if cfg.enable_rebucket then
        rebucket (if cfg.enable_coalescing then coalesce m b0 rest else (m, b0 :: rest)).1
          { L with bins := fun _ => [] }
          (if cfg.enable_coalescing then coalesce m b0 rest else (m, b0 :: rest)).2
      else
        dump_big_bin (if cfg.enable_coalescing then coalesce m b0 rest else (m, b0 :: rest)).1
          { L with bins := fun _ => [] }
          (if cfg.enable_coalescing then coalesce m b0 rest else (m, b0 :: rest)).2) := by
  unfold LayerState.free_nodes at hs
  unfold scavenge_layer
  simp only [hs]

/-- After the per-layer body on blocks `out` that are 16 bytes apart, the free
nodes of the layer are the blocks `out`, with the sizes they had going in. -/
theorem refill_nodes (cfg : ScavengerConfig) (mc : Mem) (L : LayerState) (out : List Nat)
    (hpw : out.Pairwise (fun a b => a + 16 ≤ b)) :
    (∀ x, x ∈ (if cfg.enable_rebucket then rebucket mc { L with bins := fun _ => [] } out
          else dump_big_bin mc { L with bins := fun _ => [] } out).2.free_nodes ↔ x ∈ out) ∧
    (∀ x ∈ out,
      node_size (if cfg.enable_rebucket then rebucket mc { L with bins := fun _ => [] } out
          else dump_big_bin mc { L with bins := fun _ => [] } out).1 x = node_size mc x) := by
  have hsep : ∀ x ∈ out, ∀ n ∈ out, n + 8 ≤ x + 8 ∨ x + 8 + 8 ≤ n := by
    intro x hx n hn
    rcases pairwise_mem_cases hpw x hx n hn with h | h | h <;> omega
  cases hrb : cfg.enable_rebucket with
  | true =>
    simp only [if_true]
    constructor
    · intro x
      unfold LayerState.free_nodes
      rw [mem_collect_bins]
      constructor
      · rintro ⟨b, -, hb⟩
        rcases (rebucket_bins out mc _ hpw b x).1 hb with h | h
        · exact absurd h (List.not_mem_nil _)
        · exact h.1
      · intro hx
        exact ⟨bin_index (node_size mc x), bin_index_lt _,
          (rebucket_bins out mc _ hpw _ x).2 (Or.inr ⟨hx, rfl⟩)⟩
    · intro x hx
      exact rebucket_frame out mc _ (x + 8) (hsep x hx)
  | false =>
    simp only [Bool.false_eq_true, if_false]
    constructor
    · intro x
      unfold LayerState.free_nodes
      rw [mem_collect_bins]
      constructor
      · rintro ⟨b, -, hb⟩
        rcases (dump_big_bin_bins out mc _ b x).1 hb with h | h
        · exact absurd h (List.not_mem_nil _)
        · exact h.1
      · intro hx
        exact ⟨kBins - 1, by simp [kBins], (dump_big_bin_bins out mc _ _ x).2 (Or.inr ⟨hx, rfl⟩)⟩
    · intro x hx
      exact dump_big_bin_frame out mc _ (x + 8) (hsep x hx)

/-! ## The claims: the scavenger pass -/

/-- C29. Scavenger coalescing is complete. Take a layer whose free nodes occupy
pairwise non-overlapping ranges: a node holds its 16-byte `FreeNode` and the
range `[n, n + size)`, inside the 64-bit address space. After the per-layer pass
with `enable_coalescing = true` (rebucketing on or off): no two surviving free
nodes `A`, `B` satisfy `addr(A) + A.size = addr(B)`; every survivor is one of the
nodes given; every node given lies inside the final range of a survivor (so a
run of adjacent nodes ends as one node); and the final range of a survivor is
exactly the union of the ranges of the nodes given that start inside it, the
nodes merged into it. -/
theorem coalescing_complete (cfg : ScavengerConfig) (m : Mem) (L : LayerState)
    (hco : cfg.enable_coalescing = true)
    (hap : nodes_apart m L.free_nodes) :
    (∀ A ∈ (scavenge_layer cfg m L).2.free_nodes, ∀ B ∈ (scavenge_layer cfg m L).2.free_nodes,
      A ≠ B → A + node_size (scavenge_layer cfg m L).1 A ≠ B) ∧
    (∀ A ∈ (scavenge_layer cfg m L).2.free_nodes, A ∈ L.free_nodes) ∧
    (∀ n ∈ L.free_nodes, ∃ A ∈ (scavenge_layer cfg m L).2.free_nodes,
      A ≤ n ∧ n + node_size m n ≤ A + node_size (scavenge_layer cfg m L).1 A) ∧
    (∀ A ∈ (scavenge_layer cfg m L).2.free_nodes, ∀ x,
      (A ≤ x ∧ x < A + node_size (scavenge_layer cfg m L).1 A) ↔
        ∃ n ∈ L.free_nodes, A ≤ n ∧ n < A + node_size (scavenge_layer cfg m L).1 A ∧
          n ≤ x ∧ x < n + node_size m n) := by
  have hperm := List.perm_insertionSort (fun a b : Nat => a ≤ b) L.free_nodes
  have hord := nodes_in_order_sorted m L.free_nodes hap
  cases hs : List.insertionSort (fun a b => a ≤ b) L.free_nodes with
  | nil =>
    have hnil : L.free_nodes = [] := by
      rw [hs] at hperm
      exact List.Perm.eq_nil hperm.symm
    rw [scavenge_layer_empty cfg m L hs]
    have hno : ∀ A, ¬ A ∈ ({ L with bins := fun _ => [] } : LayerState).free_nodes := by
      intro A hA
      unfold LayerState.free_nodes at hA
      rw [mem_collect_bins] at hA
      obtain ⟨b, -, hb⟩ := hA
      exact absurd hb (List.not_mem_nil _)
    refine ⟨fun A hA => absurd hA (hno A), fun A hA => absurd hA (hno A), ?_,
      fun A hA => absurd hA (hno A)⟩
    intro n hn
    rw [hnil] at hn
    exact absurd hn (List.not_mem_nil _)
  | cons b0 rest =>
    rw [hs] at hord hperm
    obtain ⟨-, p2, p3, p4, p5, p6⟩ := coalesce_spec rest m b0 hord
    have hpw16 : (coalesce m b0 rest).2.Pairwise (fun a b => a + 16 ≤ b) :=
      List.Pairwise.imp (fun hab => hab.1) p3
    obtain ⟨hmem, hsize⟩ := refill_nodes cfg (coalesce m b0 rest).1 L (coalesce m b0 rest).2 hpw16
    rw [scavenge_layer_cons cfg m L b0 rest hs]
    simp only [hco, if_true]
    have hin : ∀ n, n ∈ L.free_nodes ↔ n ∈ b0 :: rest := fun n => (hperm.mem_iff).symm
    have hcover : ∀ n ∈ L.free_nodes,
        ∃ A ∈ (coalesce m b0 rest).2,
          A ≤ n ∧ n + node_size m n ≤ A + node_size (coalesce m b0 rest).1 A :=
      fun n hn => p5 n ((hin n).1 hn)
    refine ⟨?_, ?_, ?_, ?_⟩
    · intro A hA B hB hne
      have hA2 := (hmem A).1 hA
      have hB2 := (hmem B).1 hB
      rw [hsize A hA2]
      rcases pairwise_mem_cases p3 A hA2 B hB2 with h | h | h
      · exact absurd h hne
      · omega
      · omega
    · intro A hA
      exact (hin A).2 (p2 A ((hmem A).1 hA))
    · intro n hn
      obtain ⟨A, hA, a1, a2⟩ := hcover n hn
      exact ⟨A, (hmem A).2 hA, a1, by rw [hsize A hA]; exact a2⟩
    · intro A hA x
      have hA2 := (hmem A).1 hA
      rw [hsize A hA2]
      constructor
      · rintro ⟨h1, h2⟩
        obtain ⟨n, hn, b1, b2, b3⟩ := p6 A hA2 x h1 h2
        exact ⟨n, (hin n).2 hn, b1, by omega, b2, b3⟩
      · rintro ⟨n, hn, c1, c2, c3, c4⟩
        refine ⟨by omega, ?_⟩
        obtain ⟨A2, hA3, a1, a2⟩ := hcover n hn
        have sn := hap.2 n hn
        rcases pairwise_mem_cases p3 A hA2 A2 hA3 with h | h | h
        · rw [← h] at a2
          omega
        · omega
        · omega

set_option maxRecDepth 1000000 in
/-- C29 on `adjacent_free`: the three adjacent free nodes of 48 bytes are apart,
and the pass leaves the single node at 65536 with size 144. -/
theorem coalescing_complete_witness :
    nodes_apart adjacent_free.mem (adjacent_free.layers 0).free_nodes ∧
    (adjacent_free.layers 0).free_nodes = [65632, 65584, 65536] ∧
    (scavenge_layer {} adjacent_free.mem (adjacent_free.layers 0)).2.free_nodes = [65536] ∧
    node_size (scavenge_layer {} adjacent_free.mem (adjacent_free.layers 0)).1 65536 = 144 ∧
    (∀ A ∈ (scavenge_layer {} adjacent_free.mem (adjacent_free.layers 0)).2.free_nodes,
      ∀ B ∈ (scavenge_layer {} adjacent_free.mem (adjacent_free.layers 0)).2.free_nodes,
        A ≠ B →
        A + node_size (scavenge_layer {} adjacent_free.mem (adjacent_free.layers 0)).1 A ≠ B) :=
  ⟨⟨by decide, by decide⟩, by decide, by decide, by decide,
   (coalescing_complete {} adjacent_free.mem (adjacent_free.layers 0) rfl
      ⟨by decide, by decide⟩).1⟩


/-! ## The bins of a layer -/

/-- The per-layer pass with rebucketing on leaves every node on the bin of its
size. -/
theorem scavenge_layer_rebuckets (cfg : ScavengerConfig) (m : Mem) (L : LayerState)
    (hrb : cfg.enable_rebucket = true) (hap : nodes_apart m L.free_nodes) :
    ∀ b x, x ∈ (scavenge_layer cfg m L).2.bins b →
      b = bin_index (node_size (scavenge_layer cfg m L).1 x) := by
  have hord := nodes_in_order_sorted m L.free_nodes hap
  cases hs : List.insertionSort (fun a b => a ≤ b) L.free_nodes with
  | nil =>
    rw [scavenge_layer_empty cfg m L hs]
    intro b x hx
    exact absurd hx (List.not_mem_nil _)
  | cons b0 rest =>
    rw [hs] at hord
    rw [scavenge_layer_cons cfg m L b0 rest hs]
    simp only [hrb, if_true]
    have hpw16 : (if cfg.enable_coalescing then coalesce m b0 rest else (m, b0 :: rest)).2.Pairwise
        (fun a b => a + 16 ≤ b) := by
      cases hco : cfg.enable_coalescing with
      | true =>
        simp only [if_true]
        obtain ⟨-, -, p3, -, -, -⟩ := coalesce_spec rest m b0 hord
        exact List.Pairwise.imp (fun hab => hab.1) p3
      | false =>
        simp only [Bool.false_eq_true, if_false]
        exact List.Pairwise.imp (fun hab => hab.1) hord.1
    intro b x hx
    rcases (rebucket_bins _ _ _ hpw16 b x).1 hx with h | ⟨h1, h2⟩
    · exact absurd h (List.not_mem_nil _)
    · have hsep : ∀ n ∈ (if cfg.enable_coalescing then coalesce m b0 rest
          else (m, b0 :: rest)).2, n + 8 ≤ x + 8 ∨ x + 8 + 8 ≤ n := by
        intro n hn
        rcases pairwise_mem_cases hpw16 x h1 n hn with h | h | h <;> omega
      have hkeep := rebucket_frame _
        (if cfg.enable_coalescing then coalesce m b0 rest else (m, b0 :: rest)).1
        ({ L with bins := fun _ => [] } : LayerState) (x + 8) hsep
      unfold node_size at h2 ⊢
      rw [hkeep]
      exact h2

/-- The per-layer pass with rebucketing off leaves every node on the last bin. -/
theorem scavenge_layer_big_bin (cfg : ScavengerConfig) (m : Mem) (L : LayerState)
    (hrb : cfg.enable_rebucket = false) :
    ∀ b x, x ∈ (scavenge_layer cfg m L).2.bins b → b = kBins - 1 := by
  cases hs : List.insertionSort (fun a b => a ≤ b) L.free_nodes with
  | nil =>
    rw [scavenge_layer_empty cfg m L hs]
    intro b x hx
    exact absurd hx (List.not_mem_nil _)
  | cons b0 rest =>
    rw [scavenge_layer_cons cfg m L b0 rest hs]
    simp only [hrb, Bool.false_eq_true, if_false]
    intro b x hx
    rcases (dump_big_bin_bins _ _ _ b x).1 hx with h | ⟨-, h2⟩
    · exact absurd h (List.not_mem_nil _)
    · exact h2

/-- `free_into_layer` keeps the bin invariant of a layer whose free nodes do not
overlap the 16 bytes of the node it writes. -/
theorem free_into_layer_bins_ok (st : PICAS) (h i : Nat)
    (hsep : ∀ b, b < kBins → ∀ n ∈ (st.layers i).bins b, n + 16 ≤ h ∨ h + 16 ≤ n)
    (hok : (st.layers i).bins_ok st.mem) :
    ((st.free_into_layer h).layers i).bins_ok (st.free_into_layer h).mem := by
  by_cases h0 : h = 0
  · simp only [PICAS.free_into_layer, h0, if_true]; exact hok
  by_cases hm : rd32 st.mem h = kMagic
  · by_cases hml : rd32 st.mem (h + 4) < st.num_layers
    · obtain ⟨e1, e2⟩ := free_into_layer_shape st h h0 hm hml
      generalize (st.free_into_layer h).mem = M at e1 ⊢
      generalize (st.free_into_layer h).layers = Ls at e2 ⊢
      have hs : node_size M h = rd64 st.mem (h + 24) := by
        unfold node_size
        rw [e1, rd64_wr64_other _ _ _ _ (by omega), rd64_wr64_same,
          Nat.mod_eq_of_lt (rd64_lt _ _)]
      have hkeep : ∀ b, b < kBins → ∀ n ∈ (st.layers i).bins b,
          node_size M n = node_size st.mem n := by
        intro b hb n hn
        have := hsep b hb n hn
        unfold node_size
        rw [e1, rd64_wr64_other _ _ _ _ (by omega), rd64_wr64_other _ _ _ _ (by omega)]
      intro b hb n hn
      rw [e2] at hn
      by_cases hi : i = rd32 st.mem (h + 4)
      · subst hi
        simp only [if_true] at hn
        by_cases hbi : b = bin_index (rd64 st.mem (h + 24))
        · simp only [hbi, if_true] at hn
          rcases List.mem_cons.1 hn with h1 | h1
          · rw [h1, hs, hbi]
          · rw [← hbi] at h1
            rw [hkeep b hb n h1]
            exact hok b hb n h1
        · simp only [hbi, if_false] at hn
          rw [hkeep b hb n hn]
          exact hok b hb n hn
      · simp only [hi, if_false] at hn
        rw [hkeep b hb n hn]
        exact hok b hb n hn
    · have hml2 : rd32 st.mem (h + 4) ≥ st.num_layers := by omega
      unfold PICAS.free_into_layer
      rw [if_neg h0, if_neg (fun hc => hc hm)]
      simp only [if_pos hml2]
      exact hok
  · unfold PICAS.free_into_layer
    rw [if_neg h0, if_pos hm]
    exact hok

/-- The free-list branch of `alloc_from_layer` when the remainder is split off:
the memory and the bins of the layer it leaves. `m1` is the memory after the
unlink store. -/
theorem take_from_bin_split (st : PICAS) (dl ml size total b : Nat) (pre : List Nat)
    (cur : Nat) (post : List Nat) (m1 : Mem)
    (hm1 : m1 = (match pre.getLast? with
      | some prev => wr64 st.mem prev (head_ptr post)
      | none => st.mem))
    (hrem : sub64 (rd64 m1 (cur + 8)) total ≥ block_total 32) :
    (∃ v t, (st.take_from_bin dl ml size total b pre cur post).1.mem =
      wr64 (stamp_header (wr64 (wr64 (wr64 (wr64 m1 (cur + total + 8)
          (sub64 (rd64 m1 (cur + 8)) total)) (cur + total) 0) (cur + total) v) (cur + 8) total)
        cur ml dl size) (cur + 24) t) ∧
    ((st.take_from_bin dl ml size total b pre cur post).1.layers ml).bins =
      (((st.layers ml).set_bin b (pre ++ post)).set_bin
        (bin_index (rd64 (wr64 (wr64 m1 (cur + total + 8) (sub64 (rd64 m1 (cur + 8)) total))
          (cur + total) 0) (cur + total + 8)))
        ((cur + total) :: ((st.layers ml).set_bin b (pre ++ post)).bins
          (bin_index (rd64 (wr64 (wr64 m1 (cur + total + 8) (sub64 (rd64 m1 (cur + 8)) total))
            (cur + total) 0) (cur + total + 8))))).bins := by
  subst hm1
  unfold PICAS.take_from_bin
  simp only [emit_mem, emit_layers, PICAS.set_layer, if_true, if_pos hrem]
  exact ⟨⟨_, _, rfl⟩, trivial⟩

/-- The free-list branch of `alloc_from_layer` when the whole node is taken. -/
theorem take_from_bin_whole (st : PICAS) (dl ml size total b : Nat) (pre : List Nat)
    (cur : Nat) (post : List Nat) (m1 : Mem)
    (hm1 : m1 = (match pre.getLast? with
      | some prev => wr64 st.mem prev (head_ptr post)
      | none => st.mem))
    (hrem : ¬ sub64 (rd64 m1 (cur + 8)) total ≥ block_total 32) :
    (∃ t, (st.take_from_bin dl ml size total b pre cur post).1.mem =
      wr64 (stamp_header m1 cur ml dl size) (cur + 24) t) ∧
    ((st.take_from_bin dl ml size total b pre cur post).1.layers ml).bins =
      ((st.layers ml).set_bin b (pre ++ post)).bins := by
  subst hm1
  unfold PICAS.take_from_bin
  simp only [emit_mem, emit_layers, PICAS.set_layer, if_true, if_neg hrem]
  exact ⟨⟨_, rfl⟩, trivial⟩

theorem first_fit_spec (m : Mem) (total : Nat) : ∀ (l pre : List Nat) (cur : Nat)
    (post : List Nat), first_fit m total l = some (pre, cur, post) →
    l = pre ++ cur :: post ∧ total ≤ rd64 m (cur + 8) := by
  intro l
  induction l with
  | nil => intro pre cur post h; simp [first_fit] at h
  | cons n rest ih =>
    intro pre cur post h
    unfold first_fit at h
    split at h
    · rename_i hge
      simp only [Option.some.injEq, Prod.mk.injEq] at h
      obtain ⟨h1, h2, h3⟩ := h
      rw [← h1, ← h2, ← h3]
      exact ⟨rfl, hge⟩
    · cases hr : first_fit m total rest with
      | none => rw [hr] at h; simp at h
      | some r =>
        obtain ⟨pre2, hit, post2⟩ := r
        rw [hr] at h
        simp only [Option.some.injEq, Prod.mk.injEq] at h
        obtain ⟨h1, h2, h3⟩ := h
        obtain ⟨e1, e2⟩ := ih pre2 hit post2 hr
        rw [← h1, ← h2, ← h3, e1]
        exact ⟨rfl, e2⟩

theorem scan_bins_spec (m : Mem) (L : LayerState) (total : Nat) :
    ∀ (k b0 b : Nat) (pre : List Nat) (cur : Nat) (post : List Nat),
    scan_bins m L total k b0 = some (b, pre, cur, post) →
    b0 ≤ b ∧ b < b0 + k ∧ L.bins b = pre ++ cur :: post ∧ total ≤ rd64 m (cur + 8) := by
  intro k
  induction k with
  | zero => intro b0 b pre cur post h; simp [scan_bins] at h
  | succ k ih =>
    intro b0 b pre cur post h
    unfold scan_bins at h
    cases hf : first_fit m total (L.bins b0) with
    | some r =>
      obtain ⟨pre2, hit, post2⟩ := r
      rw [hf] at h
      simp only [Option.some.injEq, Prod.mk.injEq] at h
      obtain ⟨h1, h2, h3, h4⟩ := h
      obtain ⟨e1, e2⟩ := first_fit_spec m total _ _ _ _ hf
      rw [← h1, ← h2, ← h3, ← h4]
      exact ⟨Nat.le_refl _, by omega, e1, e2⟩
    | none =>
      rw [hf] at h
      obtain ⟨e1, e2, e3, e4⟩ := ih (b0 + 1) b pre cur post h
      exact ⟨by omega, by omega, e3, e4⟩

/-- A stamp writes the 24 bytes at `h` only. -/
theorem rd64_stamp_header_other (m : Mem) (h ml dl size a : Nat)
    (hd : a + 8 ≤ h ∨ h + 24 ≤ a) :
    rd64 (stamp_header m h ml dl size) a = rd64 m a := by
  unfold stamp_header
  simp only [rd64, wr32, wr64]
  rw [rdN_wrN_disjoint _ _ _ _ _ _ (by omega), rdN_wrN_disjoint _ _ _ _ _ _ (by omega),
    rdN_wrN_disjoint _ _ _ _ _ _ (by omega), rdN_wrN_disjoint _ _ _ _ _ _ (by omega),
    rdN_wrN_disjoint _ _ _ _ _ _ (by omega)]

theorem sub64_of_le (x y : Nat) (h : y ≤ x) (hx : x < W64) : sub64 x y = x - y := by
  simp only [sub64, W64] at *
  omega

theorem block_total_lt (n : Nat) : block_total n < W64 := by
  unfold block_total
  exact Nat.lt_of_le_of_lt Nat.and_le_left (Nat.mod_lt _ (by simp [W64]))

/-- What a relation that holds pairwise on the collected nodes says bin by bin. -/
theorem collect_bins_pairwise {R : Nat → Nat → Prop} (bins : Nat → List Nat) :
    ∀ n, (collect_bins bins n).Pairwise R →
      (∀ b, b < n → (bins b).Pairwise R) ∧
      (∀ b1 b2, b1 < b2 → b2 < n → ∀ x ∈ bins b1, ∀ y ∈ bins b2, R x y) := by
  intro n
  induction n with
  | zero => intro _; exact ⟨fun b hb => by omega, fun b1 b2 _ h2 => by omega⟩
  | succ n ih =>
    intro h
    simp only [collect_bins] at h
    obtain ⟨h1, h2, h3⟩ := List.pairwise_append.1 h
    obtain ⟨i1, i2⟩ := ih h1
    constructor
    · intro b hb
      by_cases hbn : b = n
      · rw [hbn]; exact h2
      · exact i1 b (by omega)
    · intro b1 b2 hlt hb2 x hx y hy
      by_cases hbn : b2 = n
      · rw [hbn] at hy
        exact h3 x ((mem_collect_bins bins x n).2 ⟨b1, by omega, hx⟩) y hy
      · exact i2 b1 b2 hlt (by omega) x hx y hy

/-- In a layer whose free nodes are apart, the node `cur` of a bin is apart from
every other node of the bins (the other nodes of its own bin included). -/
theorem others_apart (m : Mem) (L : LayerState) (b : Nat) (pre : List Nat) (cur : Nat)
    (post : List Nat) (hap : nodes_apart m L.free_nodes) (hb : b < kBins)
    (hbin : L.bins b = pre ++ cur :: post) :
    ∀ b2, b2 < kBins → ∀ x ∈ (L.set_bin b (pre ++ post)).bins b2,
      x ∈ L.bins b2 ∧
      ((x + 16 ≤ cur ∧ x + node_size m x ≤ cur) ∨
        (cur + 16 ≤ x ∧ cur + node_size m cur ≤ x)) := by
  obtain ⟨c1, c2⟩ := collect_bins_pairwise L.bins kBins hap.1
  intro b2 hb2 x hx
  simp only [LayerState.set_bin] at hx
  by_cases hbb : b2 = b
  · rw [if_pos hbb] at hx
    have hp := c1 b hb
    rw [hbin] at hp
    obtain ⟨-, p2, p3⟩ := List.pairwise_append.1 hp
    rw [hbb, hbin]
    rcases List.mem_append.1 hx with h1 | h1
    · refine ⟨List.mem_append_left _ h1, ?_⟩
      exact p3 x h1 cur (List.mem_cons_self _ _)
    · refine ⟨List.mem_append_right _ (List.mem_cons_of_mem _ h1), ?_⟩
      exact ((List.pairwise_cons.1 p2).1 x h1).symm
  · rw [if_neg hbb] at hx
    refine ⟨hx, ?_⟩
    have hcur : cur ∈ L.bins b := by rw [hbin]; exact List.mem_append_right _ (List.mem_cons_self _ _)
    rcases Nat.lt_or_gt_of_ne hbb with h | h
    · exact c2 b2 b h hb x hx cur hcur
    · exact (c2 b b2 h hb2 cur hcur x hx).symm

theorem unlink_frame (m : Mem) (pre post : List Nat) (a : Nat)
    (h : ∀ prev ∈ pre, prev + 8 ≤ a ∨ a + 8 ≤ prev) :
    rd64 (match pre.getLast? with
      | some prev => wr64 m prev (head_ptr post)
      | none => m) a = rd64 m a := by
  cases hl : pre.getLast? with
  | none => rfl
  | some prev =>
    simp only
    exact rd64_wr64_other _ _ _ _ (h prev (List.mem_of_getLast?_eq_some hl))

/-- The free-list branch of `alloc_from_layer` keeps the bin invariant of its
layer when the free nodes are apart and the block total is at least a header. -/
theorem take_from_bin_bins_ok (st : PICAS) (dl ml size total b : Nat) (pre : List Nat)
    (cur : Nat) (post : List Nat)
    (hap : nodes_apart st.mem (st.layers ml).free_nodes)
    (hok : (st.layers ml).bins_ok st.mem)
    (hb : b < kBins) (hbin : (st.layers ml).bins b = pre ++ cur :: post)
    (hfit : total ≤ rd64 st.mem (cur + 8)) (ht : 32 ≤ total) :
    ((st.take_from_bin dl ml size total b pre cur post).1.layers ml).bins_ok
      (st.take_from_bin dl ml size total b pre cur post).1.mem := by
  have hoth := others_apart st.mem (st.layers ml) b pre cur post hap hb hbin
  have hcurmem : cur ∈ (st.layers ml).free_nodes := by
    unfold LayerState.free_nodes
    rw [mem_collect_bins]
    exact ⟨b, hb, by rw [hbin]; exact List.mem_append_right _ (List.mem_cons_self _ _)⟩
  have hcs := hap.2 cur hcurmem
  have hmemN : ∀ b2, b2 < kBins → ∀ x ∈ (st.layers ml).bins b2, x ∈ (st.layers ml).free_nodes := by
    intro b2 hb2 x hx
    unfold LayerState.free_nodes
    rw [mem_collect_bins]
    exact ⟨b2, hb2, hx⟩
  have hpre : ∀ prev ∈ pre, prev ∈ (st.layers ml).free_nodes ∧
      ((prev + 16 ≤ cur ∧ prev + node_size st.mem prev ≤ cur) ∨
        (cur + 16 ≤ prev ∧ cur + node_size st.mem cur ≤ prev)) := by
    intro prev hp
    have hpm : prev ∈ (st.layers ml).bins b := by rw [hbin]; exact List.mem_append_left _ hp
    refine ⟨hmemN b hb prev hpm, ?_⟩
    have hp2 := (collect_bins_pairwise (st.layers ml).bins kBins hap.1).1 b hb
    rw [hbin] at hp2
    exact (List.pairwise_append.1 hp2).2.2 prev hp cur (List.mem_cons_self _ _)
  -- the unlink store leaves the size of `cur` and of every other node
  generalize hm1 : (match pre.getLast? with
      | some prev => wr64 st.mem prev (head_ptr post)
      | none => st.mem) = m1
  have hm1cur : rd64 m1 (cur + 8) = rd64 st.mem (cur + 8) := by
    rw [← hm1]
    apply unlink_frame
    intro prev hp
    obtain ⟨hpN, hpa⟩ := hpre prev hp
    have := hap.2 prev hpN
    unfold node_size at *
    omega
  have hm1oth : ∀ x ∈ (st.layers ml).free_nodes, rd64 m1 (x + 8) = rd64 st.mem (x + 8) := by
    intro x hx
    rw [← hm1]
    apply unlink_frame
    intro prev hp
    obtain ⟨hpN, -⟩ := hpre prev hp
    have s1 := hap.2 prev hpN
    have s2 := hap.2 x hx
    rcases pairwise_mem_cases hap.1 x hx prev hpN with h | h | h <;>
      unfold node_size at * <;> omega
  have hrem : sub64 (rd64 m1 (cur + 8)) total = rd64 st.mem (cur + 8) - total := by
    rw [hm1cur]
    exact sub64_of_le _ _ hfit (rd64_lt _ _)
  have h64 : block_total 32 = 64 := by decide
  intro b2 hb2 x hx
  by_cases hsp : sub64 (rd64 m1 (cur + 8)) total ≥ block_total 32
  · -- the remainder is split off
    obtain ⟨⟨v, t, hmem⟩, hbins⟩ := take_from_bin_split st dl ml size total b pre cur post m1
      hm1.symm hsp
    rw [hbins] at hx
    rw [hmem]
    rw [hrem, h64] at hsp
    have hsplit : rd64 (wr64 (wr64 m1 (cur + total + 8) (sub64 (rd64 m1 (cur + 8)) total))
        (cur + total) 0) (cur + total + 8) = rd64 st.mem (cur + 8) - total := by
      rw [rd64_wr64_other _ _ _ _ (by omega), rd64_wr64_same, hrem]
      exact Nat.mod_eq_of_lt (Nat.lt_of_le_of_lt (Nat.sub_le _ _) (rd64_lt _ _))
    rw [hsplit] at hx
    have hnew : node_size (wr64 (stamp_header (wr64 (wr64 (wr64 (wr64 m1 (cur + total + 8)
          (sub64 (rd64 m1 (cur + 8)) total)) (cur + total) 0) (cur + total) v) (cur + 8) total)
        cur ml dl size) (cur + 24) t) (cur + total) = rd64 st.mem (cur + 8) - total := by
      unfold node_size
      rw [rd64_wr64_other _ _ _ _ (by omega), rd64_stamp_header_other _ _ _ _ _ _ (by omega),
        rd64_wr64_other _ _ _ _ (by omega), rd64_wr64_other _ _ _ _ (by omega)]
      exact hsplit
    have hold : ∀ y ∈ ((st.layers ml).set_bin b (pre ++ post)).bins b2,
        b2 ≤ bin_index (node_size (wr64 (stamp_header (wr64 (wr64 (wr64 (wr64 m1
          (cur + total + 8) (sub64 (rd64 m1 (cur + 8)) total)) (cur + total) 0) (cur + total) v)
          (cur + 8) total) cur ml dl size) (cur + 24) t) y) := by
      intro y hy
      obtain ⟨hyb, hya⟩ := hoth b2 hb2 y hy
      have hyN := hmemN b2 hb2 y hyb
      have sy := hap.2 y hyN
      have hkeep : node_size (wr64 (stamp_header (wr64 (wr64 (wr64 (wr64 m1
          (cur + total + 8) (sub64 (rd64 m1 (cur + 8)) total)) (cur + total) 0) (cur + total) v)
          (cur + 8) total) cur ml dl size) (cur + 24) t) y = node_size st.mem y := by
        unfold node_size at *
        rw [rd64_wr64_other _ _ _ _ (by omega), rd64_stamp_header_other _ _ _ _ _ _ (by omega),
          rd64_wr64_other _ _ _ _ (by omega), rd64_wr64_other _ _ _ _ (by omega),
          rd64_wr64_other _ _ _ _ (by omega), rd64_wr64_other _ _ _ _ (by omega)]
        exact hm1oth y hyN
      rw [hkeep]
      exact hok b2 hb2 y hyb
    simp only [LayerState.set_bin] at hx hold
    by_cases hbs : b2 = bin_index (rd64 st.mem (cur + 8) - total)
    · rw [if_pos hbs] at hx
      rcases List.mem_cons.1 hx with h1 | h1
      · rw [h1, hnew, hbs]
      · rw [← hbs] at h1
        exact hold x h1
    · rw [if_neg hbs] at hx
      exact hold x hx
  · -- the whole node is taken
    obtain ⟨⟨t, hmem⟩, hbins⟩ := take_from_bin_whole st dl ml size total b pre cur post m1
      hm1.symm hsp
    rw [hbins] at hx
    rw [hmem]
    obtain ⟨hyb, hya⟩ := hoth b2 hb2 x hx
    have hyN := hmemN b2 hb2 x hyb
    have sy := hap.2 x hyN
    have hkeep : node_size (wr64 (stamp_header m1 cur ml dl size) (cur + 24) t) x
        = node_size st.mem x := by
      unfold node_size at *
      rw [rd64_wr64_other _ _ _ _ (by omega), rd64_stamp_header_other _ _ _ _ _ _ (by omega)]
      exact hm1oth x hyN
    rw [hkeep]
    exact hok b2 hb2 x hyb

/-- The bump branch of `alloc_from_layer`: the stores of the header at the bump
cursor, and the bins as they were. -/
theorem bump_alloc_shape (st : PICAS) (dl ml size total : Nat)
    (hs : (st.layers ml).has_space total = true) :
    (st.bump_alloc dl ml size total).1.mem =
      wr64 (stamp_header st.mem (st.layers ml).bump ml dl size) ((st.layers ml).bump + 24) total ∧
    ((st.bump_alloc dl ml size total).1.layers ml).bins = (st.layers ml).bins := by
  constructor <;>
    simp only [PICAS.bump_alloc, hs, Bool.not_true, Bool.false_eq_true, if_false, emit_layers,
      emit_mem] <;>
    split <;> simp only [emit_layers, emit_mem, PICAS.set_layer, if_true]

/-- `alloc_from_layer` keeps the bin invariant of the layer it allocates in, on
both paths, the split remainder included. -/
theorem alloc_from_layer_bins_ok (st : PICAS) (dl ml size : Nat)
    (ht : 32 ≤ block_total size)
    (hap : nodes_apart st.mem (st.layers ml).free_nodes)
    (hbelow : ∀ n ∈ (st.layers ml).free_nodes, n + 16 ≤ (st.layers ml).bump)
    (hok : (st.layers ml).bins_ok st.mem) :
    ((st.alloc_from_layer dl ml size).1.layers ml).bins_ok
      (st.alloc_from_layer dl ml size).1.mem := by
  by_cases h : ml ≥ st.num_layers
  · simp only [PICAS.alloc_from_layer, h, if_true]
    exact hok
  · cases hs : scan_bins st.mem (st.layers ml) (block_total size)
        (kBins - bin_index (block_total size)) (bin_index (block_total size)) with
    | some r =>
      obtain ⟨b, pre, cur, post⟩ := r
      obtain ⟨s1, s2, s3, s4⟩ := scan_bins_spec _ _ _ _ _ _ _ _ _ hs
      have hb : b < kBins := by
        have := bin_index_lt (block_total size)
        omega
      simp only [PICAS.alloc_from_layer, h, if_false, hs]
      exact take_from_bin_bins_ok st dl ml size (block_total size) b pre cur post hap hok hb s3
        s4 ht
    | none =>
      simp only [PICAS.alloc_from_layer, h, if_false, hs]
      by_cases hsp : (st.layers ml).has_space (block_total size) = true
      · obtain ⟨e1, e2⟩ := bump_alloc_shape st dl ml size (block_total size) hsp
        intro b hb x hx
        rw [e2] at hx
        have hxN : x ∈ (st.layers ml).free_nodes := by
          unfold LayerState.free_nodes
          rw [mem_collect_bins]
          exact ⟨b, hb, hx⟩
        have hbx := hbelow x hxN
        have hkeep : node_size (st.bump_alloc dl ml size (block_total size)).1.mem x
            = node_size st.mem x := by
          unfold node_size
          rw [e1, rd64_wr64_other _ _ _ _ (by omega),
            rd64_stamp_header_other _ _ _ _ _ _ (by omega)]
        rw [hkeep]
        exact hok b hb x hx
      · simp only [PICAS.bump_alloc, hsp, Bool.not_false, if_true]
        exact hok

set_option maxRecDepth 1000000 in
/-- C28, counterexample. With `enable_rebucket = false` (and a scavenger period
of 1) the state after `a = malloc(16)`, `free(a)`, `malloc(100)` is reachable,
and bin 19 of layer 0 holds the free node at 65536 whose size is 48, so
`bin_index(size) = 5 < 19`: the pass has put the node on the last bin. -/
theorem big_bin_breaks_invariant :
    big_bin_config.scavenger.enable_rebucket = false ∧
    big_bin_after.1.Reachable ∧
    65536 ∈ (big_bin_after.1.layers 0).bins 19 ∧
    node_size big_bin_after.1.mem 65536 = 48 ∧
    bin_index (node_size big_bin_after.1.mem 65536) = 5 ∧
    ¬ (big_bin_after.1.layers 0).bins_ok big_bin_after.1.mem :=
  ⟨rfl,
   PICAS.Reachable.malloc _ 100 (PICAS.Reachable.free _ _
     (PICAS.Reachable.malloc _ 16 (PICAS.Reachable.construct _ _))),
   by decide, by decide, by decide,
   fun h => absurd (h 19 (by decide) 65536 (by decide)) (by decide)⟩

/-- C28, amended. Free-list bin invariant (every free node stored in bin `b`
has `bin_index(size) ≥ b`). It is preserved by `free_into_layer`, for a layer
whose free nodes do not overlap the 16 bytes of the node being written; by
`alloc_from_layer` in the layer it allocates in, on the free-list path (the split
remainder it reinserts included) and on the bump path, when the free nodes of
the layer are apart and below the bump cursor and the block total has not
wrapped below a header; and the per-layer scavenger pass with
`enable_rebucket = true` (coalescing on or off) establishes it on a layer whose
free nodes are apart. With `enable_rebucket = false` the pass puts every free
node on the last bin, `kBins − 1`, whatever its size. -/
theorem bin_invariant_preserved :
    (∀ (st : PICAS) (h i : Nat),
      (∀ b, b < kBins → ∀ n ∈ (st.layers i).bins b, n + 16 ≤ h ∨ h + 16 ≤ n) →
      (st.layers i).bins_ok st.mem →
      ((st.free_into_layer h).layers i).bins_ok (st.free_into_layer h).mem) ∧
    (∀ (st : PICAS) (dl ml size : Nat),
      32 ≤ block_total size →
      nodes_apart st.mem (st.layers ml).free_nodes →
      (∀ n ∈ (st.layers ml).free_nodes, n + 16 ≤ (st.layers ml).bump) →
      (st.layers ml).bins_ok st.mem →
      ((st.alloc_from_layer dl ml size).1.layers ml).bins_ok
        (st.alloc_from_layer dl ml size).1.mem) ∧
    (∀ (cfg : ScavengerConfig) (m : Mem) (L : LayerState),
      cfg.enable_rebucket = true → nodes_apart m L.free_nodes →
      (scavenge_layer cfg m L).2.bins_ok (scavenge_layer cfg m L).1) ∧
    (∀ (cfg : ScavengerConfig) (m : Mem) (L : LayerState),
      cfg.enable_rebucket = false →
      ∀ b x, x ∈ (scavenge_layer cfg m L).2.bins b → b = kBins - 1) := by
  refine ⟨free_into_layer_bins_ok, alloc_from_layer_bins_ok, ?_, scavenge_layer_big_bin⟩
  intro cfg m L hrb hap b _ x hx
  rw [← scavenge_layer_rebuckets cfg m L hrb hap b x hx]

set_option maxRecDepth 1000000 in
/-- C28, amended, on `adjacent_free`: the pass with the default scavenger
settings leaves the merged node of 144 bytes on bin 7, its own bin; and freeing
the block of `grow_a` keeps the invariant of the empty bins. -/
theorem bin_invariant_preserved_witness :
    nodes_apart adjacent_free.mem (adjacent_free.layers 0).free_nodes ∧
    (scavenge_layer {} adjacent_free.mem (adjacent_free.layers 0)).2.bins 7 = [65536] ∧
    (scavenge_layer {} adjacent_free.mem (adjacent_free.layers 0)).2.bins_ok
      (scavenge_layer {} adjacent_free.mem (adjacent_free.layers 0)).1 ∧
    ((grow_a.1.free_into_layer (grow_a.2 - 32)).layers 0).bins_ok
      (grow_a.1.free_into_layer (grow_a.2 - 32)).mem :=
  ⟨⟨by decide, by decide⟩, by decide,
   bin_invariant_preserved.2.2.1 {} adjacent_free.mem (adjacent_free.layers 0) rfl
     ⟨by decide, by decide⟩,
   bin_invariant_preserved.1 grow_a.1 (grow_a.2 - 32) 0 (by decide)
     (by unfold LayerState.bins_ok; decide)⟩

/-! ## The bin index -/

/-- The shift loop counts the halvings of `v`, up to its fuel. -/
theorem bin_index_loop_eq : ∀ (fuel v idx : Nat),
    bin_index_loop fuel v idx = idx + min (Nat.log 2 v) fuel := by
  intro fuel
  induction fuel with
  | zero => intro v idx; simp [bin_index_loop]
  | succ fuel ih =>
    intro v idx
    unfold bin_index_loop
    by_cases hv : v / 2 ≠ 0
    · rw [if_pos hv, ih]
      have h2 : 2 ≤ v := by omega
      have hlog : Nat.log 2 v = Nat.log 2 (v / 2) + 1 := Nat.log_of_one_lt_of_le (by norm_num) h2
      rw [hlog]
      omega
    · rw [if_neg hv]
      have h2 : v < 2 := by omega
      rw [Nat.log_of_lt h2]
      simp

/-- `bin_index` is the floor of the binary logarithm of `max(sz, 32)`, capped at
the last bin. -/
theorem bin_index_eq_log (sz : Nat) : bin_index sz = min (Nat.log 2 (max sz 32)) 19 := by
  unfold bin_index
  simp only [kBins]
  have hmax : (if sz < 32 then 32 else sz) = max sz 32 := by
    split <;> omega
  rw [hmax, bin_index_loop_eq]
  split <;> omega

theorem bin_index_ge_five (sz : Nat) : 5 ≤ bin_index sz := by
  rw [bin_index_eq_log]
  have h5 : Nat.log 2 32 = 5 := by
    rw [show (32 : Nat) = 2 ^ 5 by norm_num]
    exact Nat.log_pow (by norm_num) 5
  have hm : Nat.log 2 32 ≤ Nat.log 2 (max sz 32) := Nat.log_mono_right (le_max_right _ _)
  omega

theorem bin_index_mono {a b : Nat} (h : a ≤ b) : bin_index a ≤ bin_index b := by
  rw [bin_index_eq_log, bin_index_eq_log]
  have hm : Nat.log 2 (max a 32) ≤ Nat.log 2 (max b 32) :=
    Nat.log_mono_right (max_le_max h (le_refl _))
  omega

/-! ## Word-level facts about alignment, the probing ring, the policy output -/

theorem and_high_mask (x k : Nat) (hx : x < W64) (hk : k ≤ 64) :
    x &&& (W64 - 2 ^ k) = x - x % 2 ^ k := by
  have hW : W64 - 2 ^ k = 2 ^ k * (2 ^ (64 - k) - 1) := by
    have : W64 = 2 ^ k * 2 ^ (64 - k) := by
      rw [← pow_add, show k + (64 - k) = 64 by omega]; rfl
    rw [this, Nat.mul_sub, Nat.mul_one]
  have hR : x - x % 2 ^ k = 2 ^ k * (x / 2 ^ k) := by
    have := Nat.div_add_mod x (2 ^ k)
    omega
  rw [hW, hR]
  apply Nat.eq_of_testBit_eq
  intro i
  rw [Nat.testBit_and, Nat.testBit_mul_pow_two, Nat.testBit_mul_pow_two,
    Nat.testBit_two_pow_sub_one, ← Nat.shiftRight_eq_div_pow, Nat.testBit_shiftRight]
  by_cases hi : i ≥ k
  · simp only [hi, decide_True, Bool.true_and]
    rw [show k + (i - k) = i by omega]
    by_cases h64 : i < 64
    · have : i - k < 64 - k := by omega
      simp [this]
    · have hlt : x < 2 ^ i := by
        have : (2:Nat) ^ 64 ≤ 2 ^ i := Nat.pow_le_pow_right (by norm_num) (by omega)
        simp only [W64] at hx
        omega
      rw [Nat.testBit_lt_two_pow hlt]
      simp
  · simp [hi]

/-- For a power of two `a`, `align_ptr(p, a)` is the least multiple of `a` at or
above `p`, as long as `p + a` stays inside the address space. -/
theorem align_ptr_bounds (p k : Nat) (hk : k < 64) (hp : p + 2 ^ k ≤ W64) :
    p ≤ align_ptr p (2 ^ k) ∧ align_ptr p (2 ^ k) < p + 2 ^ k := by
  have hlt : 2 ^ k < W64 := by
    have : (2:Nat) ^ k < 2 ^ 64 := Nat.pow_lt_pow_right (by norm_num) hk
    simpa [W64] using this
  have hpos : 1 ≤ 2 ^ k := Nat.one_le_two_pow
  unfold align_ptr
  rw [sub64_one _ hpos hlt]
  have hnot : not64 (2 ^ k - 1) = W64 - 2 ^ k := by
    simp only [not64, SIZE_MAX, W64] at *
    rw [Nat.mod_eq_of_lt (by omega)]
    omega
  rw [hnot, Nat.mod_eq_of_lt (by omega), and_high_mask _ _ (by omega) (by omega)]
  have hm : (p + (2 ^ k - 1)) % 2 ^ k < 2 ^ k := Nat.mod_lt _ (by omega)
  have hle : (p + (2 ^ k - 1)) % 2 ^ k ≤ p + (2 ^ k - 1) := Nat.mod_le _ _
  omega

/-- What `memalign` returns for a power-of-two alignment above 16 whose inner
`malloc` succeeds: the aligned address computed from the base block. -/
theorem memalign_result (st : PICAS) (k n : Nat) (hk1 : 4 < k) (hk2 : k < 64)
    (hsz : (if n = 0 then 1 else n) + (2 ^ k + sizeof_AlignTag) < W64)
    (hbase : (st.malloc ((if n = 0 then 1 else n) + (2 ^ k + sizeof_AlignTag))).2 ≠ 0) :
    (st.memalign (2 ^ k) n).2 =
      align_ptr ((st.malloc ((if n = 0 then 1 else n) + (2 ^ k + sizeof_AlignTag))).2
        + sizeof_AlignTag) (2 ^ k) := by
  have h32 : 2 ^ 5 ≤ 2 ^ k := Nat.pow_le_pow_right (by norm_num) (by omega)
  have hlt : 2 ^ k < W64 := by
    have : (2:Nat) ^ k < 2 ^ 64 := Nat.pow_lt_pow_right (by norm_num) hk2
    simpa [W64] using this
  generalize hs : (if n = 0 then 1 else n) = s at hsz hbase ⊢
  unfold PICAS.memalign
  simp only [hs]
  have h8 : ¬ 2 ^ k < 8 := by omega
  rw [if_neg h8]
  have hpow := is_pow2_local_pow k hk2
  simp only [hpow, Bool.not_true, Bool.false_eq_true, if_false]
  have h16 : ¬ 2 ^ k ≤ kAlign := by simp only [kAlign]; omega
  rw [if_neg h16]
  have hextra : (2 ^ k + sizeof_AlignTag) % W64 = 2 ^ k + sizeof_AlignTag :=
    Nat.mod_eq_of_lt (by omega)
  rw [hextra, Nat.mod_eq_of_lt hsz, if_neg hbase]

theorem layer_has_space_iff (st : PICAS) (i : Nat) :
    st.layer_has_space i = true ↔
      i < st.num_layers ∧ (st.layers i).bump + block_total 1 ≤ (st.layers i).end_ := by
  unfold PICAS.layer_has_space
  by_cases h : i ≥ st.num_layers
  · rw [if_pos h]
    constructor
    · intro h1; exact absurd h1 (by simp)
    · intro h1; omega
  · rw [if_neg h, decide_eq_true_iff]
    constructor
    · intro h1; exact ⟨by omega, h1⟩
    · intro h1; exact h1.2

/-- The probing loop finds nothing exactly when none of the `k` ring positions
from `cur` on has room. -/
theorem probe_ring_none_iff (st : PICAS) (k : Nat) :
    ∀ cur, cur < st.num_layers →
      (st.probe_ring k cur = none ↔
        ∀ j, j < k → st.layer_has_space ((cur + j) % st.num_layers) = false) := by
  induction k with
  | zero =>
    intro cur _
    simp [PICAS.probe_ring]
  | succ k ih =>
    intro cur hcur
    have hn : 0 < st.num_layers := by omega
    unfold PICAS.probe_ring
    by_cases hs : st.layer_has_space cur = true
    · rw [if_pos hs]
      constructor
      · intro h; exact absurd h (by simp)
      · intro h
        have h0 := h 0 (by omega)
        rw [Nat.add_zero, Nat.mod_eq_of_lt hcur, hs] at h0
        exact absurd h0 (by simp)
    · rw [if_neg hs, ih _ (Nat.mod_lt _ hn)]
      constructor
      · intro h j hj
        cases j with
        | zero =>
          rw [Nat.add_zero, Nat.mod_eq_of_lt hcur]
          simpa using hs
        | succ j =>
          have := h j (by omega)
          rw [Nat.mod_add_mod] at this
          rw [show cur + (j + 1) = cur + 1 + j by omega]
          exact this
      · intro h j hj
        have := h (j + 1) (by omega)
        rw [Nat.mod_add_mod]
        rw [show cur + 1 + j = cur + (j + 1) by omega]
        exact this


theorem decide_chosen_lt (cfg : Config) (inp : PolicyInput)
    (hd : inp.data_layer < inp.num_layers) (hm : inp.mem_layer < inp.num_layers) :
    (Policy.decide cfg inp).chosen_mem_layer < inp.num_layers := by
  unfold Policy.decide
  have hn : inp.num_layers ≠ 0 := by omega
  simp only [hn, if_false, if_pos hd]
  repeat' split
  all_goals first | exact hm | exact hd

/-! ## The claims: bins, events and the policy output -/

/-- C31. For every size `sz`, `bin_index(sz) = min(floor(log2(max(sz, 32))), 19)`;
consequently `5 ≤ bin_index(sz) ≤ 19`, and `bin_index` is monotone non-decreasing
in `sz`. -/
theorem bin_index_spec :
    (∀ sz, bin_index sz = min (Nat.log 2 (max sz 32)) 19) ∧
    (∀ sz, 5 ≤ bin_index sz ∧ bin_index sz ≤ 19) ∧
    (∀ a b, a ≤ b → bin_index a ≤ bin_index b) := by
  refine ⟨bin_index_eq_log, fun sz => ⟨bin_index_ge_five sz, ?_⟩, fun a b h => bin_index_mono h⟩
  rw [bin_index_eq_log]
  omega

/-- C31 at two sizes: 100 bytes go to bin 6, 4096 bytes to bin 12, in order. -/
theorem bin_index_spec_witness :
    bin_index 100 = 6 ∧ bin_index 4096 = 12 ∧ bin_index 100 ≤ bin_index 4096 :=
  ⟨by decide, by decide, bin_index_spec.2.2 100 4096 (by decide)⟩

set_option maxRecDepth 1000000 in
/-- C32, failing input. In scenario 1 the third block (`malloc(61440)`) has a
header with `data_layer = 2`, `mem_layer = 1`, `user_size = 61440`,
`total_size = 61472`. `free` on it emits a `Free` event with `data_layer = 61472`
and `mem_layer = 0`: the event is built from the header after `node->size` (the
total size) was stored over `data_layer` and `node->next` (null) over
`mem_layer`. Only `user_size` is reported as it was. -/
theorem free_event_reads_node_words :
    rd32 scenario_one_c.1.mem (scenario_one_c.2 - sizeof_BlockHeader + 8) = 2 ∧
    rd32 scenario_one_c.1.mem (scenario_one_c.2 - sizeof_BlockHeader + 4) = 1 ∧
    rd64 scenario_one_c.1.mem (scenario_one_c.2 - sizeof_BlockHeader + 16) = 61440 ∧
    rd64 scenario_one_c.1.mem (scenario_one_c.2 - sizeof_BlockHeader + 24) = 61472 ∧
    (scenario_one_c.1.free scenario_one_c.2).events.getLast? =
      some { type := EventType.Free, data_layer := 61472, mem_layer := 0, size := 61440,
             note := "free" } := by
  decide

/-- C39. Policy output consistency: for every input and both settings of
`strict_picas_jumps`, the output of `Policy::decide` satisfies
`jump_mem_layer ⇒ jump_data_layer`, `backfill_memory ⇒ not jump_data_layer`,
`hard_error ⇒ none of the three control flags is set`, and
`jump_data_layer ⇒ (reached_data_lp or reached_tlp)`; and when
`data_layer < num_layers` and `mem_layer < num_layers`,
`chosen_mem_layer < num_layers`. -/
theorem decide_output_consistent (cfg : Config) (inp : PolicyInput) :
    ((Policy.decide cfg inp).jump_mem_layer = true →
      (Policy.decide cfg inp).jump_data_layer = true) ∧
    ((Policy.decide cfg inp).backfill_memory = true →
      (Policy.decide cfg inp).jump_data_layer = false) ∧
    ((Policy.decide cfg inp).hard_error = true →
      (Policy.decide cfg inp).jump_data_layer = false ∧
      (Policy.decide cfg inp).jump_mem_layer = false ∧
      (Policy.decide cfg inp).backfill_memory = false) ∧
    ((Policy.decide cfg inp).jump_data_layer = true →
      (Policy.decide cfg inp).reached_data_lp = true ∨
      (Policy.decide cfg inp).reached_tlp = true) ∧
    (inp.data_layer < inp.num_layers → inp.mem_layer < inp.num_layers →
      (Policy.decide cfg inp).chosen_mem_layer < inp.num_layers) := by
  refine ⟨?_, ?_, decide_hard_error_flags cfg inp, ?_, decide_chosen_lt cfg inp⟩
  · cases hh : (Policy.decide cfg inp).hard_error with
    | true =>
      intro h
      rw [(decide_hard_error_flags cfg inp hh).2.1] at h
      exact absurd h (by simp)
    | false =>
      rw [decide_rules cfg inp hh]
      repeat' split
      all_goals simp
  · cases hh : (Policy.decide cfg inp).hard_error with
    | true =>
      intro _
      exact (decide_hard_error_flags cfg inp hh).1
    | false =>
      rw [decide_rules cfg inp hh]
      repeat' split
      all_goals simp
  · cases hh : (Policy.decide cfg inp).hard_error with
    | true =>
      intro h
      rw [(decide_hard_error_flags cfg inp hh).1] at h
      exact absurd h (by simp)
    | false =>
      rw [decide_rules cfg inp hh]
      repeat' split
      all_goals simp_all

/-- C39 on `data_lp_input` (data layer 1, memory layer 0, three layers): the
chosen memory layer is below 3. -/
theorem decide_output_consistent_witness :
    data_lp_input.data_layer < data_lp_input.num_layers ∧
    (Policy.decide {} data_lp_input).chosen_mem_layer < data_lp_input.num_layers :=
  ⟨by decide, (decide_output_consistent {} data_lp_input).2.2.2.2 (by decide) (by decide)⟩

/-- C38. Bounded probing is complete when the probe budget covers the ring: if
`max_layer_probes ≥ num_layers`, then for every preferred index and every cursor
value `choose_layer_bounded` returns the sentinel `num_layers` if and only if no
memory layer satisfies `bump + block_total(1) ≤ end`. -/
theorem bounded_probing_complete (st : PICAS) (preferred : Nat)
    (hb : st.num_layers ≤ st.cfg.safety.max_layer_probes) :
    (st.choose_layer_bounded preferred).2 = st.num_layers ↔
      ∀ i, i < st.num_layers →
        ¬ ((st.layers i).bump + block_total 1 ≤ (st.layers i).end_) := by
  have hno : (∀ i, i < st.num_layers →
        ¬ ((st.layers i).bump + block_total 1 ≤ (st.layers i).end_)) ↔
      ∀ i, i < st.num_layers → st.layer_has_space i = false := by
    constructor
    · intro h i hi
      cases hs : st.layer_has_space i with
      | false => rfl
      | true => exact absurd ((layer_has_space_iff st i).1 hs).2 (h i hi)
    · intro h i hi hsp
      have := (layer_has_space_iff st i).2 ⟨hi, hsp⟩
      rw [h i hi] at this
      exact absurd this (by simp)
  rw [hno]
  unfold PICAS.choose_layer_bounded
  by_cases hp : preferred < st.num_layers ∧ st.layer_has_space preferred = true
  · rw [if_pos hp]
    constructor
    · intro h
      simp only at h
      omega
    · intro h
      have := h preferred hp.1
      rw [hp.2] at this
      exact absurd this (by simp)
  · rw [if_neg hp]
    have hmin : min (max 1 st.cfg.safety.max_layer_probes) st.num_layers = st.num_layers := by
      omega
    simp only [hmin]
    by_cases hz : st.num_layers = 0
    · simp only [hz, PICAS.probe_ring]
      constructor
      · intro _ i hi; omega
      · intro _; trivial
    · have hn : 0 < st.num_layers := by omega
      have hcur : st.ring_cursor % st.num_layers < st.num_layers := Nat.mod_lt _ hn
      cases hr : st.probe_ring st.num_layers (st.ring_cursor % st.num_layers) with
      | some r =>
        simp only
        have hsr := probe_ring_some_has_space st _ _ r hr
        have hlt := ((layer_has_space_iff st r).1 hsr).1
        constructor
        · intro h; omega
        · intro h
          rw [h r hlt] at hsr
          exact absurd hsr (by simp)
      | none =>
        simp only [true_iff]
        have hall := (probe_ring_none_iff st st.num_layers _ hcur).1 hr
        intro i hi
        have := hall ((i + st.num_layers - st.ring_cursor % st.num_layers) % st.num_layers)
          (Nat.mod_lt _ hn)
        rw [Nat.add_mod_mod] at this
        have he : (st.ring_cursor % st.num_layers
            + (i + st.num_layers - st.ring_cursor % st.num_layers)) % st.num_layers = i := by
          rw [show st.ring_cursor % st.num_layers
            + (i + st.num_layers - st.ring_cursor % st.num_layers) = i + st.num_layers by omega]
          rw [Nat.add_mod_right, Nat.mod_eq_of_lt hi]
        rw [he] at this
        exact this

set_option maxRecDepth 100000 in
/-- C38 on `one_page_filled` (one layer, one probe, 16 bytes left): the sentinel
1 is returned, and no layer has room for a minimum block. -/
theorem bounded_probing_complete_witness :
    one_page_filled.num_layers ≤ one_page_filled.cfg.safety.max_layer_probes ∧
    (one_page_filled.choose_layer_bounded 0).2 = one_page_filled.num_layers ∧
    (∀ i, i < one_page_filled.num_layers →
      ¬ ((one_page_filled.layers i).bump + block_total 1 ≤ (one_page_filled.layers i).end_)) :=
  ⟨by decide, by decide,
   (bounded_probing_complete one_page_filled 0 (by decide)).1 (by decide)⟩

/-- C37. `memalign` stays inside its base block. For every power-of-two alignment
`A = 2^k > 16`, every size `n` (0 counts as 1, as `memalign` takes it) with
`n + A + sizeof(AlignTag)` not overflowing, and every base address `b` that the
inner `malloc(n + A + sizeof(AlignTag))` returns for a block inside the address
space: the address `a` that `memalign` returns is a multiple of `A` with
`b + sizeof(AlignTag) ≤ a < b + sizeof(AlignTag) + A`, so the tag
`[a − sizeof(AlignTag), a)` starts at or after `b` and the user range `[a, a + n)`
ends inside `[b, b + n + A + sizeof(AlignTag))`. -/
theorem memalign_inside_base (st : PICAS) (k n : Nat) (hk1 : 4 < k) (hk2 : k < 64)
    (hsz : (if n = 0 then 1 else n) + (2 ^ k + sizeof_AlignTag) < W64)
    (hbase : (st.malloc ((if n = 0 then 1 else n) + (2 ^ k + sizeof_AlignTag))).2 ≠ 0)
    (hfit : (st.malloc ((if n = 0 then 1 else n) + (2 ^ k + sizeof_AlignTag))).2
      + ((if n = 0 then 1 else n) + (2 ^ k + sizeof_AlignTag)) ≤ W64) :
    (st.memalign (2 ^ k) n).2 % 2 ^ k = 0 ∧
    (st.malloc ((if n = 0 then 1 else n) + (2 ^ k + sizeof_AlignTag))).2 + sizeof_AlignTag
      ≤ (st.memalign (2 ^ k) n).2 ∧
    (st.memalign (2 ^ k) n).2
      < (st.malloc ((if n = 0 then 1 else n) + (2 ^ k + sizeof_AlignTag))).2
        + sizeof_AlignTag + 2 ^ k ∧
    (st.malloc ((if n = 0 then 1 else n) + (2 ^ k + sizeof_AlignTag))).2
      ≤ (st.memalign (2 ^ k) n).2 - sizeof_AlignTag ∧
    (st.memalign (2 ^ k) n).2 - sizeof_AlignTag + sizeof_AlignTag = (st.memalign (2 ^ k) n).2 ∧
    (st.memalign (2 ^ k) n).2 + (if n = 0 then 1 else n)
      < (st.malloc ((if n = 0 then 1 else n) + (2 ^ k + sizeof_AlignTag))).2
        + ((if n = 0 then 1 else n) + (2 ^ k + sizeof_AlignTag)) := by
  rw [memalign_result st k n hk1 hk2 hsz hbase]
  have hb := align_ptr_bounds
    ((st.malloc ((if n = 0 then 1 else n) + (2 ^ k + sizeof_AlignTag))).2 + sizeof_AlignTag) k hk2
    (by omega)
  refine ⟨align_ptr_mod _ k hk2, hb.1, hb.2, ?_, ?_, ?_⟩ <;> omega

set_option maxRecDepth 100000 in
/-- C37 on one layer: `memalign(32, 8)` has the base block at 65568 and returns
65600. -/
theorem memalign_inside_base_witness :
    (one_layer.malloc (8 + (2 ^ 5 + sizeof_AlignTag))).2 = 65568 ∧
    (one_layer.memalign (2 ^ 5) 8).2 = 65600 ∧
    (one_layer.malloc (8 + (2 ^ 5 + sizeof_AlignTag))).2 + sizeof_AlignTag
      ≤ (one_layer.memalign (2 ^ 5) 8).2 :=
  ⟨by decide, by decide,
   (memalign_inside_base one_layer 5 8 (by decide) (by decide) (by decide) (by decide)
      (by decide)).2.1⟩

set_option maxRecDepth 100000 in
/-- C33, failing input. On one layer: `alloc_from_layer(0, 0, 100)` (a block of
144 bytes), `free_into_layer` on it, `alloc_from_layer(0, 0, 16)`. The last call
splits the free node of 144 bytes: the remainder node at 65584 has size 96, and
the block at 65536 is stamped with `total_size = 0`, since `h->total_size =
cur->size` reads the size word after the stores to `data_layer` and `flags` went
over it. The live block and the free node add up to 96 bytes, while
`bump_used_bytes` is 144; the split does not yield `total_size + remainder =
original node size`. -/
theorem partition_sum_breaks :
    rd64 split_a.1.mem (split_a.2 - sizeof_BlockHeader + 24) = 144 ∧
    (split_freed.layers 0).free_nodes = [65536] ∧
    node_size split_freed.mem 65536 = 144 ∧
    split_b.2 = 65536 + sizeof_BlockHeader ∧
    rd64 split_b.1.mem (split_b.2 - sizeof_BlockHeader + 24) = 0 ∧
    (split_b.1.layers 0).free_nodes = [65584] ∧
    node_size split_b.1.mem 65584 = 96 ∧
    (split_b.1.layers 0).bump_used_bytes = 144 ∧
    rd64 split_b.1.mem (split_b.2 - sizeof_BlockHeader + 24) + node_size split_b.1.mem 65584
      ≠ (split_b.1.layers 0).bump_used_bytes := by
  decide

set_option maxRecDepth 100000 in
/-- C40, failing input. On one layer: a block of `alloc_from_layer(0, 0, 16)`
has `total_size = 48 = block_total(16)` and the layer has `live_bytes_est = 48`.
After `free_into_layer` on it and `alloc_from_layer(0, 0, 16)` the same user
address comes back and the bump cursor has not moved, but the header holds
`total_size = 0` and `live_bytes_est` is 0, not 48: the free-list path stamps
and counts the size word after the header stores went over it. -/
theorem lifo_reuse_loses_total_size :
    rd64 lifo_a.1.mem (lifo_a.2 - sizeof_BlockHeader + 24) = block_total 16 ∧
    (lifo_a.1.layers 0).live_bytes_est = 48 ∧
    lifo_b.2 = lifo_a.2 ∧
    (lifo_b.1.layers 0).bump = (lifo_a.1.layers 0).bump ∧
    rd64 lifo_b.1.mem (lifo_b.2 - sizeof_BlockHeader + 24) = 0 ∧
    block_total 16 = 48 ∧
    (lifo_b.1.layers 0).live_bytes_est = 0 := by
  decide

/-! ## The MEM-TP flag through the steps of the allocator -/

theorem same_but_bins_refl (L : LayerState) : L.same_but_bins L :=
  ⟨rfl, rfl, rfl, rfl, rfl, rfl, rfl, rfl⟩

theorem same_but_bins_trans {a b c : LayerState} (h1 : a.same_but_bins b)
    (h2 : b.same_but_bins c) : a.same_but_bins c :=
  ⟨h2.1.trans h1.1, h2.2.1.trans h1.2.1, h2.2.2.1.trans h1.2.2.1,
   h2.2.2.2.1.trans h1.2.2.2.1, h2.2.2.2.2.1.trans h1.2.2.2.2.1,
   h2.2.2.2.2.2.1.trans h1.2.2.2.2.2.1, h2.2.2.2.2.2.2.1.trans h1.2.2.2.2.2.2.1,
   h2.2.2.2.2.2.2.2.trans h1.2.2.2.2.2.2.2⟩

theorem same_but_bins_set_bin (L : LayerState) (b : Nat) (c : List Nat) :
    L.same_but_bins (L.set_bin b c) := ⟨rfl, rfl, rfl, rfl, rfl, rfl, rfl, rfl⟩

theorem same_but_bins_rebucket : ∀ (l : List Nat) (m : Mem) (L : LayerState),
    L.same_but_bins (rebucket m L l).2 := by
  intro l
  induction l with
  | nil => intro m L; exact same_but_bins_refl L
  | cons n rest ih =>
    intro m L
    simp only [rebucket]
    exact same_but_bins_trans (same_but_bins_set_bin L _ _) (ih _ _)

theorem same_but_bins_dump_big_bin : ∀ (l : List Nat) (m : Mem) (L : LayerState),
    L.same_but_bins (dump_big_bin m L l).2 := by
  intro l
  induction l with
  | nil => intro m L; exact same_but_bins_refl L
  | cons n rest ih =>
    intro m L
    simp only [dump_big_bin]
    exact same_but_bins_trans (same_but_bins_set_bin L _ _) (ih _ _)

theorem same_but_bins_scavenge_layer (cfg : ScavengerConfig) (m : Mem) (L : LayerState) :
    L.same_but_bins (scavenge_layer cfg m L).2 := by
  unfold scavenge_layer
  dsimp only
  split
  · exact ⟨rfl, rfl, rfl, rfl, rfl, rfl, rfl, rfl⟩
  · split
    · exact same_but_bins_trans (b := { L with bins := fun _ => [] })
        ⟨rfl, rfl, rfl, rfl, rfl, rfl, rfl, rfl⟩ (same_but_bins_rebucket _ _ _)
    · exact same_but_bins_trans (b := { L with bins := fun _ => [] })
        ⟨rfl, rfl, rfl, rfl, rfl, rfl, rfl, rfl⟩ (same_but_bins_dump_big_bin _ _ _)

theorem same_but_bins_scavenge_layers (cfg : ScavengerConfig) (st : PICAS) (i : Nat) :
    ∀ n, (st.layers i).same_but_bins ((scavenge_layers cfg st n).layers i) := by
  intro n
  induction n with
  | zero => exact same_but_bins_refl _
  | succ n ih =>
    simp only [scavenge_layers, PICAS.set_layer]
    split
    · rename_i hi
      rw [hi] at ih ⊢
      exact same_but_bins_trans ih (same_but_bins_scavenge_layer _ _ _)
    · exact ih

/-- The scavenger pass changes nothing of a layer but its bins. -/
theorem same_but_bins_scavenger_run_light (st : PICAS) (n : Nat) (cfg : ScavengerConfig)
    (i : Nat) : (st.layers i).same_but_bins ((scavenger_run_light st n cfg).layers i) := by
  unfold scavenger_run_light
  split
  · exact same_but_bins_refl _
  · split
    · exact same_but_bins_refl _
    · exact same_but_bins_scavenge_layers cfg st i n

theorem same_tp_refl (L : LayerState) : L.same_tp L := ⟨same_cursor_refl L, rfl, rfl⟩

theorem same_tp_of_same_but_bins {a b : LayerState} (h : a.same_but_bins b) : a.same_tp b :=
  ⟨⟨h.1, h.2.1, h.2.2.1, h.2.2.2.2.1⟩, h.2.2.2.2.2.2.1, h.2.2.2.2.2.2.2⟩

theorem tp_ok_of_same_tp {a b : LayerState} (h : a.same_tp b) (ha : a.tp_ok) : b.tp_ok := by
  obtain ⟨⟨-, -, -, c4⟩, hp, hf⟩ := h
  unfold LayerState.tp_ok at *
  rw [c4, hp, hf]
  exact ha

theorem same_tp_free_into_layer (st : PICAS) (h i : Nat) :
    (st.layers i).same_tp ((st.free_into_layer h).layers i) := by
  by_cases h0 : h = 0
  · simp only [PICAS.free_into_layer, h0, if_true]; exact same_tp_refl _
  by_cases hm : rd32 st.mem h = kMagic
  · by_cases hml : rd32 st.mem (h + 4) < st.num_layers
    · rw [(free_into_layer_shape st h h0 hm hml).2]
      dsimp only
      split
      · rename_i hi
        rw [hi]
        exact ⟨⟨rfl, rfl, rfl, rfl⟩, rfl, rfl⟩
      · exact same_tp_refl _
    · have hml2 : rd32 st.mem (h + 4) ≥ st.num_layers := by omega
      unfold PICAS.free_into_layer
      rw [if_neg h0, if_neg (fun hc => hc hm)]
      simp only [if_pos hml2]
      exact same_tp_refl _
  · unfold PICAS.free_into_layer
    rw [if_neg h0, if_pos hm]
    exact same_tp_refl _

theorem same_tp_take_from_bin (st : PICAS) (dl ml size total b : Nat) (pre : List Nat)
    (cur : Nat) (post : List Nat) (i : Nat) :
    (st.layers i).same_tp ((st.take_from_bin dl ml size total b pre cur post).1.layers i) := by
  unfold PICAS.take_from_bin
  simp only [emit_layers, PICAS.set_layer]
  split
  · rename_i hi
    rw [hi]
    split <;> exact ⟨⟨rfl, rfl, rfl, rfl⟩, rfl, rfl⟩
  · exact same_tp_refl _

theorem mem_tp_events_append (i : Nat) (l1 l2 : List Event) :
    mem_tp_events i (l1 ++ l2) = mem_tp_events i l1 + mem_tp_events i l2 := by
  unfold mem_tp_events
  exact List.countP_append _ _ _

theorem tp_step_refl (a : PICAS) : a.tp_step a :=
  ⟨rfl, fun _ h => h, [], (List.append_nil _).symm, fun _ => by simp [mem_tp_events]⟩

theorem tp_step_trans {a b c : PICAS} (h1 : a.tp_step b) (h2 : b.tp_step c) : a.tp_step c := by
  obtain ⟨n1, k1, l1, e1, c1⟩ := h1
  obtain ⟨n2, k2, l2, e2, c2⟩ := h2
  refine ⟨n2.trans n1, fun i h => k2 i (k1 i h), l1 ++ l2, ?_, ?_⟩
  · rw [e2, e1, List.append_assoc]
  · intro i
    have := c1 i
    have := c2 i
    rw [mem_tp_events_append]
    omega

/-- A step that leaves the cursor, threshold and flag of every layer and emits
nothing. -/
theorem tp_step_same (a b : PICAS) (h1 : b.num_layers = a.num_layers)
    (h2 : ∀ i, (a.layers i).same_tp (b.layers i)) (h3 : b.events = a.events) : a.tp_step b := by
  refine ⟨h1, fun i h => tp_ok_of_same_tp (h2 i) h, [], by rw [h3, List.append_nil], ?_⟩
  intro i
  rw [(h2 i).2.2]
  simp [mem_tp_events]

theorem tp_step_eq (a b : PICAS) (h1 : b.num_layers = a.num_layers)
    (h2 : b.layers = a.layers) (h3 : b.events = a.events) : a.tp_step b :=
  tp_step_same a b h1 (fun i => by rw [h2]; exact same_tp_refl _) h3

theorem tp_step_emit (st : PICAS) (e : Event) (he : e.type ≠ EventType.LayerMemTPReached) :
    st.tp_step (st.emit e) := by
  unfold PICAS.emit
  split
  · exact tp_step_refl st
  · refine ⟨rfl, fun _ h => h, [e], rfl, ?_⟩
    intro i
    have : mem_tp_events i [e] = 0 := by
      simp [mem_tp_events, is_mem_tp_event, he]
    rw [this, Nat.zero_add]

/-- The events of `emit`: the event is appended when hooks are on. -/
theorem emit_events (st : PICAS) (e : Event) :
    (st.emit e).events = st.events ++ (if st.cfg.enable_event_hooks then [e] else []) := by
  unfold PICAS.emit
  cases st.cfg.enable_event_hooks <;> simp

/-- The bump branch of `alloc_from_layer` sets the flag when the threshold is
reached, and emits `LayerMemTPReached` only together with setting the flag. -/
theorem tp_step_bump_alloc (st : PICAS) (dl ml size total : Nat) :
    st.tp_step (st.bump_alloc dl ml size total).1 := by
  by_cases hs : (st.layers ml).has_space total = true
  · by_cases hhit : (!(st.layers ml).mem_tp_reached && decide ((st.layers ml).points.mem_tp > 0)
        && decide (((st.layers ml).bump_used_bytes + total) % W64
            ≥ (st.layers ml).points.mem_tp)) = true
    · have hres : (st.bump_alloc dl ml size total).1 =
          (({ st.set_layer ml
                { st.layers ml with
                  bump := ((st.layers ml).bump + total) % W64,
                  bump_used_bytes := ((st.layers ml).bump_used_bytes + total) % W64,
                  live_bytes_est := ((st.layers ml).live_bytes_est + total) % W64,
                  mem_tp_reached := true } with
              mem := wr64 (stamp_header st.mem (st.layers ml).bump ml dl size)
                ((st.layers ml).bump + 24) total } : PICAS).emit
              { type := EventType.LayerMemTPReached, data_layer := dl, mem_layer := ml,
                size := size, note := "MEM-TP reached" }).emit
            { type := EventType.Alloc, data_layer := dl, mem_layer := ml, size := size,
              note := "bump" } := by
        simp only [PICAS.bump_alloc, hs, Bool.not_true, Bool.false_eq_true, if_false, hhit,
          if_true]
      rw [hres]
      refine tp_step_trans ?_ (tp_step_emit _ _ (by simp))
      simp only [Bool.and_eq_true, Bool.not_eq_true', decide_eq_true_eq] at hhit
      obtain ⟨⟨hf, hpos⟩, hge⟩ := hhit
      refine ⟨by simp [PICAS.set_layer], ?_, _, emit_events _ _, ?_⟩
      · intro i hok
        simp only [emit_layers, PICAS.set_layer]
        by_cases hi : i = ml
        · rw [if_pos hi]
          intro _
          rfl
        · rw [if_neg hi]
          exact hok
      · intro i
        simp only [emit_layers, PICAS.set_layer]
        by_cases hi : i = ml
        · rw [if_pos hi, hi, hf]
          cases st.cfg.enable_event_hooks <;>
            simp [mem_tp_events, is_mem_tp_event, flag_count]
        · rw [if_neg hi]
          have hne : ¬ ml = i := fun h => hi h.symm
          cases st.cfg.enable_event_hooks <;>
            simp [mem_tp_events, is_mem_tp_event, hne]
    · have hres : (st.bump_alloc dl ml size total).1 =
          ({ st.set_layer ml
                { st.layers ml with
                  bump := ((st.layers ml).bump + total) % W64,
                  bump_used_bytes := ((st.layers ml).bump_used_bytes + total) % W64,
                  live_bytes_est := ((st.layers ml).live_bytes_est + total) % W64 } with
              mem := wr64 (stamp_header st.mem (st.layers ml).bump ml dl size)
                ((st.layers ml).bump + 24) total } : PICAS).emit
            { type := EventType.Alloc, data_layer := dl, mem_layer := ml, size := size,
              note := "bump" } := by
        simp only [PICAS.bump_alloc, hs, Bool.not_true, Bool.false_eq_true, if_false, hhit]
      rw [hres]
      refine tp_step_trans ?_ (tp_step_emit _ _ (by simp))
      simp only [Bool.and_eq_true, Bool.not_eq_true', decide_eq_true_eq, not_and] at hhit
      refine ⟨rfl, ?_, [], (List.append_nil _).symm, ?_⟩
      · intro i hok
        simp only [PICAS.set_layer]
        by_cases hi : i = ml
        · rw [if_pos hi]
          rw [hi] at hok
          show ((st.layers ml).points.mem_tp = 0 ∨
              (st.layers ml).points.mem_tp ≤ ((st.layers ml).bump_used_bytes + total) % W64) →
            (st.layers ml).mem_tp_reached = true
          intro h
          cases hfl : (st.layers ml).mem_tp_reached with
          | true => rfl
          | false =>
            have hpos : (st.layers ml).points.mem_tp > 0 := by
              rcases Nat.eq_zero_or_pos (st.layers ml).points.mem_tp with h0 | h0
              · have := hok (Or.inl h0)
                rw [hfl] at this
                exact absurd this (by simp)
              · exact h0
            have := hhit ⟨hfl, hpos⟩
            omega
        · rw [if_neg hi]
          exact hok
      · intro i
        simp only [PICAS.set_layer]
        by_cases hi : i = ml
        · rw [if_pos hi, hi]
          simp [mem_tp_events]
        · rw [if_neg hi]
          simp [mem_tp_events]
  · have : (st.bump_alloc dl ml size total).1 = st := by
      simp [PICAS.bump_alloc, hs]
    rw [this]
    exact tp_step_refl st

theorem tp_step_alloc (st : PICAS) (dl ml size : Nat) :
    st.tp_step (st.alloc_from_layer dl ml size).1 := by
  by_cases h : ml ≥ st.num_layers
  · simp only [PICAS.alloc_from_layer, h, if_true]
    exact tp_step_refl st
  · cases hs : scan_bins st.mem (st.layers ml) (block_total size)
        (kBins - bin_index (block_total size)) (bin_index (block_total size)) with
    | some r =>
      obtain ⟨b, pre, cur, post⟩ := r
      simp only [PICAS.alloc_from_layer, h, if_false, hs]
      refine ⟨?_, fun i hok => tp_ok_of_same_tp (same_tp_take_from_bin _ _ _ _ _ _ _ _ _ i) hok,
        ?_⟩
      · simp [PICAS.take_from_bin, PICAS.set_layer]
      · refine ⟨(if st.cfg.enable_event_hooks then
                [{ type := EventType.Alloc, data_layer := dl, mem_layer := ml, size := size,
                   note := "free-list" }] else []), ?_, ?_⟩
        · simp only [PICAS.take_from_bin]
          rw [emit_events]
          rfl
        · intro i
          rw [(same_tp_take_from_bin st dl ml size (block_total size) b pre cur post i).2.2]
          cases st.cfg.enable_event_hooks <;> simp [mem_tp_events, is_mem_tp_event]
    | none =>
      simp only [PICAS.alloc_from_layer, h, if_false, hs]
      exact tp_step_bump_alloc st dl ml size (block_total size)

theorem tp_step_emit_reached (st : PICAS) (pout : PolicyOutput) (dl ml size : Nat) :
    st.tp_step (st.emit_reached pout dl ml size) := by
  unfold PICAS.emit_reached
  split <;> split <;>
    first
      | exact tp_step_refl st
      | exact tp_step_emit _ _ (by simp)
      | exact tp_step_trans (tp_step_emit _ _ (by simp)) (tp_step_emit _ _ (by simp))

theorem tp_step_apply_jumps (st : PICAS) (pout : PolicyOutput) (dl ml size : Nat) :
    st.tp_step (st.apply_jumps pout dl ml size).1 := by
  unfold PICAS.apply_jumps
  split
  · dsimp only
    split
    · exact tp_step_trans (tp_step_emit st _ (by simp)) (tp_step_eq _ _ rfl rfl rfl)
    · exact tp_step_trans (tp_step_emit st _ (by simp)) (tp_step_eq _ _ rfl rfl rfl)
  · exact tp_step_refl st

theorem tp_step_select_layer (st : PICAS) (pout : PolicyOutput) (dl size : Nat) :
    st.tp_step (st.select_layer pout dl size).1 := by
  unfold PICAS.select_layer
  split
  · exact tp_step_emit _ _ (by simp)
  · exact tp_step_refl st

theorem tp_step_choose (st : PICAS) (preferred : Nat) :
    st.tp_step (st.choose_layer_bounded preferred).1 := by
  unfold PICAS.choose_layer_bounded
  split
  · exact tp_step_refl st
  · dsimp only
    split
    · exact tp_step_eq _ _ rfl rfl rfl
    · exact tp_step_refl st

theorem tp_step_spill_if_full (st : PICAS) (dl cm size : Nat) :
    st.tp_step (st.spill_if_full dl cm size).1 := by
  unfold PICAS.spill_if_full
  split
  · dsimp only
    split
    · exact tp_step_trans (tp_step_choose st dl) (tp_step_emit _ _ (by simp))
    · exact tp_step_choose st dl
  · exact tp_step_refl st

theorem tp_step_retry (st : PICAS) (dl cm size : Nat) :
    st.tp_step (st.retry_probe dl cm size).1 := by
  unfold PICAS.retry_probe
  simp only
  split
  · exact tp_step_trans (tp_step_trans (tp_step_choose st cm)
      (tp_step_emit _ _ (by simp))) (tp_step_alloc _ _ _ _)
  · exact tp_step_choose st cm

theorem tp_step_attempt (st : PICAS) (dl cm size : Nat) :
    st.tp_step (st.attempt dl cm size).1 := by
  unfold PICAS.attempt
  dsimp only
  split
  · exact tp_step_trans (tp_step_alloc _ _ _ _) (tp_step_retry _ _ _ _)
  · exact tp_step_alloc _ _ _ _

theorem tp_step_place (st : PICAS) (dl cm size : Nat) :
    st.tp_step (st.place dl cm size).1 :=
  tp_step_trans (tp_step_spill_if_full st dl cm size) (tp_step_attempt _ _ _ _)

theorem tp_step_out_of_memory (st : PICAS) (dl ml size : Nat) (n1 n2 : String) :
    st.tp_step (st.out_of_memory dl ml size n1 n2).1 := by
  unfold PICAS.out_of_memory
  dsimp only
  split
  · split
    · exact tp_step_trans (tp_step_trans (tp_step_emit st _ (by simp))
        (b := { st.emit _ with fb := _, mem := _ }) (tp_step_eq _ _ rfl rfl rfl))
        (tp_step_emit _ _ (by simp))
    · exact tp_step_trans (tp_step_emit st _ (by simp)) (tp_step_eq _ _ rfl rfl rfl)
  · exact tp_step_emit st _ (by simp)

theorem tp_step_finish (st : PICAS) (pout : PolicyOutput) (dl cm size p : Nat) :
    st.tp_step (st.finish pout dl cm size p) := by
  unfold PICAS.finish
  dsimp only
  split <;> exact tp_step_eq _ _ rfl rfl rfl

theorem scavenger_run_light_num_layers (st : PICAS) (n : Nat) (cfg : ScavengerConfig) :
    (scavenger_run_light st n cfg).num_layers = st.num_layers := by
  have hl : ∀ k, (scavenge_layers cfg st k).num_layers = st.num_layers := by
    intro k
    induction k with
    | zero => rfl
    | succ k ih =>
      simp only [scavenge_layers, PICAS.set_layer]
      exact ih
  unfold scavenger_run_light
  split
  · rfl
  · split
    · rfl
    · exact hl n

theorem tp_step_scavenger_run_light (st : PICAS) (n : Nat) (cfg : ScavengerConfig) :
    st.tp_step (scavenger_run_light st n cfg) :=
  tp_step_same _ _ (scavenger_run_light_num_layers st n cfg)
    (fun i => same_tp_of_same_but_bins (same_but_bins_scavenger_run_light st n cfg i))
    (scavenger_run_light_frame st n cfg).2

theorem tp_step_maybe_scavenge (st : PICAS) : st.tp_step st.maybe_scavenge := by
  unfold PICAS.maybe_scavenge
  split
  · exact tp_step_refl st
  · split
    · exact tp_step_refl st
    · dsimp only
      split
      · exact tp_step_eq _ _ rfl rfl rfl
      · exact tp_step_trans (tp_step_trans (b := { st with allocs_since_scavenge := 0 })
          (tp_step_eq _ _ rfl rfl rfl) (tp_step_scavenger_run_light _ _ _))
          (tp_step_emit _ _ (by simp))

theorem tp_step_free_into_layer (st : PICAS) (h : Nat) : st.tp_step (st.free_into_layer h) := by
  have hl := same_tp_free_into_layer st h
  unfold PICAS.free_into_layer at hl ⊢
  split
  · exact tp_step_refl st
  · split
    · exact tp_step_refl st
    · dsimp only at hl ⊢
      split
      · exact tp_step_refl st
      · rename_i h1 h2 h3
        rw [if_neg h1, if_neg h2, if_neg h3] at hl
        simp only [emit_layers] at hl
        exact tp_step_trans (b := { st.set_layer _ _ with mem := _ })
          (tp_step_same _ _ rfl hl rfl) (tp_step_emit _ _ (by simp))

theorem tp_step_prepare (st : PICAS) (size : Nat) : st.tp_step (st.prepare size).1 := by
  unfold PICAS.prepare
  dsimp only
  exact tp_step_trans (tp_step_maybe_scavenge st)
    (tp_step_trans (tp_step_trans (tp_step_emit_reached _ _ _ _ _)
      (tp_step_apply_jumps _ _ _ _ _)) (tp_step_select_layer _ _ _ _))

/-- `malloc` keeps the flag invariant of every layer and emits `LayerMemTPReached`
for a layer only when it sets the flag of that layer. -/
theorem tp_step_malloc (st : PICAS) (size : Nat) : st.tp_step (st.malloc size).1 := by
  by_cases hh : (Policy.decide st.maybe_scavenge.cfg
      (st.maybe_scavenge.policy_input (if size = 0 then 1 else size))).hard_error = true
  · unfold PICAS.malloc
    dsimp only
    rw [if_pos hh]
    exact tp_step_trans (tp_step_maybe_scavenge st)
      (tp_step_trans (tp_step_emit_reached _ _ _ _ _) (tp_step_out_of_memory _ _ _ _ _ _))
  · have hpl := tp_step_trans (tp_step_prepare st size)
      (tp_step_place (st.prepare size).1 (st.prepare size).2.2.1 (st.prepare size).2.2.2
        (if size = 0 then 1 else size))
    by_cases hp : ((st.prepare size).1.place (st.prepare size).2.2.1 (st.prepare size).2.2.2
        (if size = 0 then 1 else size)).2.2 = 0
    · unfold PICAS.malloc
      dsimp only
      rw [if_neg hh, if_pos hp]
      exact tp_step_trans hpl (tp_step_out_of_memory _ _ _ _ _ _)
    · unfold PICAS.malloc
      dsimp only
      rw [if_neg hh, if_neg hp]
      exact tp_step_trans hpl (tp_step_finish _ _ _ _ _ _)

theorem tp_step_free_depth (k : Nat) :
    ∀ (st : PICAS) (p : Nat), st.tp_step (PICAS.free_depth k st p) := by
  induction k with
  | zero => intro st p; exact tp_step_refl st
  | succ k ih =>
    intro st p
    unfold PICAS.free_depth
    split
    · exact tp_step_refl st
    · split
      · exact ih _ _
      · split
        · exact tp_step_trans (b := { st with fb := _ }) (tp_step_eq _ _ rfl rfl rfl)
            (tp_step_emit _ _ (by simp))
        · dsimp only
          split
          · exact tp_step_refl st
          · exact tp_step_free_into_layer _ _

theorem tp_step_free (st : PICAS) (p : Nat) : st.tp_step (st.free p) :=
  tp_step_free_depth _ _ _

theorem tp_step_mem {a b : PICAS} (m : Mem) (h : a.tp_step b) :
    a.tp_step ({ b with mem := m } : PICAS) :=
  tp_step_trans h (tp_step_eq _ _ rfl rfl rfl)

theorem tp_step_fb {a b : PICAS} (f : Fallback) (h : a.tp_step b) :
    a.tp_step ({ b with fb := f } : PICAS) :=
  tp_step_trans h (tp_step_eq _ _ rfl rfl rfl)

theorem tp_step_ite {a : PICAS} (c : Prop) [Decidable c] (x y : PICAS) (hx : a.tp_step x)
    (hy : a.tp_step y) : a.tp_step (if c then x else y) := by
  split
  · exact hx
  · exact hy

/-- `realloc` is a step of this kind when the `malloc` it may call is. -/
theorem tp_step_realloc (st : PICAS) (p n : Nat) (hm : st.tp_step (st.malloc n).1) :
    st.tp_step (st.realloc p n).1 := by
  unfold PICAS.realloc
  by_cases h1 : p = 0
  · rw [if_pos h1]; exact hm
  rw [if_neg h1]
  by_cases h2 : n = 0
  · rw [if_pos h2]; exact tp_step_free st p
  rw [if_neg h2]
  by_cases h3 : has_align_tag st.mem p = true
  · rw [if_pos h3]
    dsimp only
    by_cases h4 : (st.malloc n).2 = 0
    · rw [if_pos h4]; exact hm
    · rw [if_neg h4]
      refine tp_step_trans (tp_step_trans ?_ (tp_step_free _ _)) (tp_step_emit _ _ (by simp))
      apply tp_step_ite
      · exact tp_step_mem _ hm
      · exact hm
  rw [if_neg h3]
  by_cases h5 : fallback_owns st.mem p = true
  · rw [if_pos h5]
    dsimp only
    by_cases h4 : (st.malloc n).2 = 0
    · rw [if_pos h4]; exact hm
    · rw [if_neg h4]
      refine tp_step_trans ?_ (tp_step_emit _ _ (by simp))
      apply tp_step_fb
      apply tp_step_ite
      · exact tp_step_mem _ hm
      · exact hm
  rw [if_neg h5]
  dsimp only
  by_cases h6 : st.header_from_user_ptr p = 0
  · rw [if_pos h6]; exact tp_step_refl st
  rw [if_neg h6]
  by_cases h7 : n ≤ rd64 st.mem (st.header_from_user_ptr p + 16)
  · rw [if_pos h7]
    exact tp_step_trans (tp_step_mem _ (tp_step_refl st)) (tp_step_emit _ _ (by simp))
  rw [if_neg h7]
  by_cases h4 : (st.malloc n).2 = 0
  · rw [if_pos h4]; exact hm
  · rw [if_neg h4]
    exact tp_step_trans (tp_step_trans (tp_step_mem _ hm) (tp_step_free _ _)) (tp_step_emit _ _ (by simp))

/-- `memalign` is a step of this kind when the `malloc` it calls is. -/
theorem tp_step_memalign (st : PICAS) (a n : Nat) (hm : ∀ size, st.tp_step (st.malloc size).1) :
    st.tp_step (st.memalign a n).1 := by
  unfold PICAS.memalign
  dsimp only
  generalize (if n = 0 then 1 else n) = n1
  generalize (if a < 8 then 8 else a) = a1
  by_cases h1 : (!is_pow2_local a1) = true
  · rw [if_pos h1]; exact tp_step_refl st
  rw [if_neg h1]
  by_cases h2 : a1 ≤ kAlign
  · rw [if_pos h2]; exact hm _
  rw [if_neg h2]
  by_cases h3 : (st.malloc ((n1 + (a1 + sizeof_AlignTag) % W64) % W64)).2 = 0
  · rw [if_pos h3]; exact hm _
  · rw [if_neg h3]
    exact tp_step_trans (tp_step_mem _ (hm _)) (tp_step_emit _ _ (by simp))

/-- The layers the constructor builds satisfy the flag invariant. -/
theorem construct_tp_ok (cfg : Config) (host : Host) (i : Nat)
    (hi : i < (PICAS.construct cfg host).num_layers) :
    ((PICAS.construct cfg host).layers i).tp_ok := by
  have hi2 : i < max 1 (min (safety_validate_and_sanitize cfg).num_layers kMaxLayers) := hi
  unfold LayerState.tp_ok PICAS.construct
  dsimp only
  rw [if_pos hi2]
  dsimp only
  rw [decide_eq_true_iff]
  intro h
  omega

/-- In every reachable state, every layer whose threshold is reached has its flag
set, and has at most as many `LayerMemTPReached` events as its flag counts. -/
theorem tp_ok_of_reachable (st : PICAS) (hr : st.Reachable) :
    ∀ i, i < st.num_layers →
      (st.layers i).tp_ok ∧
      mem_tp_events i st.events ≤ flag_count (st.layers i).mem_tp_reached := by
  have step : ∀ (a b : PICAS), a.tp_step b →
      (∀ i, i < a.num_layers → (a.layers i).tp_ok ∧
        mem_tp_events i a.events ≤ flag_count (a.layers i).mem_tp_reached) →
      ∀ i, i < b.num_layers → (b.layers i).tp_ok ∧
        mem_tp_events i b.events ≤ flag_count (b.layers i).mem_tp_reached := by
    intro a b hs ih i hi
    obtain ⟨hn, hk, l, he, hc⟩ := hs
    obtain ⟨i1, i2⟩ := ih i (by omega)
    refine ⟨hk i i1, ?_⟩
    rw [he, mem_tp_events_append]
    have := hc i
    omega
  induction hr with
  | construct cfg host =>
    intro i hi
    refine ⟨construct_tp_ok cfg host i hi, ?_⟩
    rw [(construct_scavenger cfg host).2.2.1]
    simp [mem_tp_events]
  | malloc st size _ ih => exact step _ _ (tp_step_malloc st size) ih
  | free st p _ ih => exact step _ _ (tp_step_free st p) ih
  | realloc st p n _ ih =>
    exact step _ _ (tp_step_realloc st p n (tp_step_malloc st n)) ih
  | memalign st a n _ ih =>
    exact step _ _ (tp_step_memalign st a n (fun size => tp_step_malloc st size)) ih
  | set_data_layer st layer _ ih => exact step _ _ (tp_step_eq _ _ rfl rfl rfl) ih
  | store st m _ ih => exact step _ _ (tp_step_eq _ _ rfl rfl rfl) ih

theorem flag_count_le_one (b : Bool) : flag_count b ≤ 1 := by
  cases b <;> simp [flag_count]

/-- A step of the allocator never clears a MEM-TP flag. -/
theorem tp_step_flag {a b : PICAS} (h : a.tp_step b) (i : Nat)
    (hf : (a.layers i).mem_tp_reached = true) : (b.layers i).mem_tp_reached = true := by
  obtain ⟨-, -, l, -, hc⟩ := h
  have := hc i
  rw [hf] at this
  cases hb : (b.layers i).mem_tp_reached with
  | true => rfl
  | false =>
    rw [hb] at this
    simp [flag_count] at this

/-! ## The MEM-TP flag in reachable states -/

/-- The part of the MEM-TP flag invariant that holds in every reachable state.
For every memory layer, if the MEM-TP threshold of the layer is 0 or
`bump_used_bytes` is at least the threshold then `mem_tp_reached` holds, and the
events emitted so far hold at most one `LayerMemTPReached` for the layer; and
once the flag is true, no operation (`malloc`, `free`, `realloc`, `memalign`,
`set_data_layer`) clears it. -/
theorem mem_tp_flag_kept :
    (∀ st : PICAS, st.Reachable → ∀ i, i < st.num_layers →
      (((st.layers i).points.mem_tp = 0 ∨
          (st.layers i).points.mem_tp ≤ (st.layers i).bump_used_bytes) →
        (st.layers i).mem_tp_reached = true) ∧
      mem_tp_events i st.events ≤ 1) ∧
    (∀ (st : PICAS) (i : Nat), (st.layers i).mem_tp_reached = true →
      (∀ size, ((st.malloc size).1.layers i).mem_tp_reached = true) ∧
      (∀ p, ((st.free p).layers i).mem_tp_reached = true) ∧
      (∀ p n, ((st.realloc p n).1.layers i).mem_tp_reached = true) ∧
      (∀ a n, ((st.memalign a n).1.layers i).mem_tp_reached = true) ∧
      (∀ L, ((st.set_data_layer L).layers i).mem_tp_reached = true)) := by
  constructor
  · intro st hr i hi
    obtain ⟨h1, h2⟩ := tp_ok_of_reachable st hr i hi
    exact ⟨h1, Nat.le_trans h2 (flag_count_le_one _)⟩
  · intro st i hf
    refine ⟨fun size => tp_step_flag (tp_step_malloc st size) i hf,
      fun p => tp_step_flag (tp_step_free st p) i hf,
      fun p n => tp_step_flag (tp_step_realloc st p n (tp_step_malloc st n)) i hf,
      fun a n => tp_step_flag (tp_step_memalign st a n (fun size => tp_step_malloc st size)) i hf,
      fun L => hf⟩

set_option maxRecDepth 1000000 in
/-- On scenario 1 after the second `malloc(61440)`: layer 0 has used 122944
bytes, past its threshold of 98304; its flag is set and one `LayerMemTPReached`
event was emitted for it. -/
theorem mem_tp_flag_kept_witness :
    scenario_one_b.1.Reachable ∧
    (scenario_one_a.1.layers 0).mem_tp_reached = false ∧
    (scenario_one_b.1.layers 0).mem_tp_reached = true ∧
    mem_tp_events 0 scenario_one_b.1.events = 1 ∧
    (scenario_one_b.1.layers 0).points.mem_tp ≤ (scenario_one_b.1.layers 0).bump_used_bytes ∧
    ((((scenario_one_b.1.layers 0).points.mem_tp = 0 ∨
          (scenario_one_b.1.layers 0).points.mem_tp
            ≤ (scenario_one_b.1.layers 0).bump_used_bytes) →
        (scenario_one_b.1.layers 0).mem_tp_reached = true) ∧
      mem_tp_events 0 scenario_one_b.1.events ≤ 1) :=
  ⟨PICAS.Reachable.malloc _ 61440 (PICAS.Reachable.malloc _ 61440
      (PICAS.Reachable.construct _ _)),
   by decide, by decide, by decide, by decide,
   mem_tp_flag_kept.1 scenario_one_b.1
     (PICAS.Reachable.malloc _ 61440 (PICAS.Reachable.malloc _ 61440
       (PICAS.Reachable.construct _ _))) 0 (by decide)⟩

set_option maxRecDepth 1000000 in
/-- C36, failing input. The MEM-TP flag does not stay equivalent to the
threshold test. On `tp_layer` (one layer, threshold 4096, flag clear at
construction) `malloc(16)` uses 48 bytes; `malloc(SIZE_MAX - 100)` is served by
the bump path, because the cursor sum of `has_space` wraps, and adds 2^64 − 64
to `bump_used_bytes`, which becomes 2^64 − 16: the flag is set and the one
`LayerMemTPReached` event is emitted; the next `malloc(16)` adds 48 and wraps
`bump_used_bytes` to 32. In this reachable state the flag is set although the
threshold is not 0 and `bump_used_bytes` is below it. -/
theorem mem_tp_flag_above_wrapped_count :
    tp_c.1.Reachable ∧
    (tp_layer.layers 0).points.mem_tp = 4096 ∧
    (tp_layer.layers 0).mem_tp_reached = false ∧
    (tp_a.1.layers 0).bump_used_bytes = 48 ∧
    (tp_a.1.layers 0).mem_tp_reached = false ∧
    tp_b.2 ≠ 0 ∧
    (tp_b.1.layers 0).bump_used_bytes = W64 - 16 ∧
    (tp_b.1.layers 0).mem_tp_reached = true ∧
    (tp_c.1.layers 0).bump_used_bytes = 32 ∧
    (tp_c.1.layers 0).points.mem_tp = 4096 ∧
    (tp_c.1.layers 0).mem_tp_reached = true ∧
    mem_tp_events 0 tp_c.1.events = 1 ∧
    ¬ ((tp_c.1.layers 0).mem_tp_reached = true ↔
        ((tp_c.1.layers 0).points.mem_tp = 0 ∨
          (tp_c.1.layers 0).points.mem_tp ≤ (tp_c.1.layers 0).bump_used_bytes)) :=
  ⟨PICAS.Reachable.malloc _ 16 (PICAS.Reachable.malloc _ (SIZE_MAX - 100)
      (PICAS.Reachable.malloc _ 16 (PICAS.Reachable.construct _ _))),
   by decide, by decide, by decide, by decide, by decide, by decide, by decide, by decide,
   by decide, by decide, by decide, by decide⟩

/-! ## What the scavenger pass keeps -/

/-- One merge of the loop, on blocks in address order: the size of `cur` grows by
the size of `nxt`, the other sizes stay, and the blocks left are in order. -/
theorem merge_step_facts (m : Mem) (cur nxt : Nat) (rest : List Nat)
    (h : nodes_in_order m (cur :: nxt :: rest)) (hadj : cur + rd64 m (cur + 8) = nxt) :
    node_size (wr64 m (cur + 8) ((rd64 m (cur + 8) + rd64 m (nxt + 8)) % W64)) cur
      = node_size m cur + node_size m nxt ∧
    (∀ n ∈ rest, node_size (wr64 m (cur + 8) ((rd64 m (cur + 8) + rd64 m (nxt + 8)) % W64)) n
      = node_size m n) ∧
    nodes_in_order (wr64 m (cur + 8) ((rd64 m (cur + 8) + rd64 m (nxt + 8)) % W64))
      (cur :: rest) := by
  obtain ⟨hpw, hsz⟩ := h
  obtain ⟨hcur, hpw2⟩ := List.pairwise_cons.1 hpw
  obtain ⟨hnxt, hpw3⟩ := List.pairwise_cons.1 hpw2
  have hc := hsz cur (List.mem_cons_self _ _)
  have hn := hsz nxt (List.mem_cons_of_mem _ (List.mem_cons_self _ _))
  have hsum : node_size (wr64 m (cur + 8) ((rd64 m (cur + 8) + rd64 m (nxt + 8)) % W64)) cur
      = node_size m cur + node_size m nxt := by
    unfold node_size at *
    rw [rd64_wr64_same, Nat.mod_mod, Nat.mod_eq_of_lt (by omega)]
  have hsame : ∀ n ∈ rest,
      node_size (wr64 m (cur + 8) ((rd64 m (cur + 8) + rd64 m (nxt + 8)) % W64)) n
        = node_size m n := by
    intro n hnr
    have h1 := hcur n (List.mem_cons_of_mem _ hnr)
    unfold node_size at *
    exact rd64_wr64_other _ _ _ _ (by omega)
  refine ⟨hsum, hsame, ?_, ?_⟩
  · refine List.pairwise_cons.2 ⟨?_, ?_⟩
    · intro b hb
      have h1 := hnxt b hb
      have h2 := hcur b (List.mem_cons_of_mem _ hb)
      rw [hsum]
      unfold node_size at *
      omega
    · refine List.Pairwise.imp_of_mem ?_ hpw3
      intro a b ha _ hab
      rw [hsame a ha]
      exact hab
  · intro a ha
    rcases List.mem_cons.1 ha with h1 | h1
    · rw [h1, hsum]
      unfold node_size at *
      omega
    · rw [hsame a h1]
      exact hsz a (List.mem_cons_of_mem _ (List.mem_cons_of_mem _ h1))

theorem free_bytes_congr (m1 m2 : Mem) (l : List Nat)
    (h : ∀ n ∈ l, node_size m1 n = node_size m2 n) : free_bytes m1 l = free_bytes m2 l := by
  unfold free_bytes
  rw [List.map_congr_left h]

/-- The merge loop keeps the sum of the sizes. -/
theorem coalesce_free_bytes : ∀ (rest : List Nat) (m : Mem) (cur : Nat),
    nodes_in_order m (cur :: rest) →
    free_bytes (coalesce m cur rest).1 (coalesce m cur rest).2 = free_bytes m (cur :: rest) := by
  intro rest
  induction rest with
  | nil => intro m cur _; rfl
  | cons nxt rest ih =>
    intro m cur h
    by_cases hadj : cur + rd64 m (cur + 8) = nxt
    · have hstep : coalesce m cur (nxt :: rest) =
          coalesce (wr64 m (cur + 8) ((rd64 m (cur + 8) + rd64 m (nxt + 8)) % W64)) cur rest := by
        rw [coalesce, if_pos hadj]
      obtain ⟨hsum, hsame, hord⟩ := merge_step_facts m cur nxt rest h hadj
      rw [hstep, ih _ cur hord]
      have hr := free_bytes_congr _ m rest hsame
      unfold free_bytes at *
      simp only [List.map_cons, List.sum_cons]
      rw [hsum, hr]
      omega
    · have hstep : coalesce m cur (nxt :: rest) =
          ((coalesce m nxt rest).1, cur :: (coalesce m nxt rest).2) := by
        rw [coalesce, if_neg hadj]
      have hord : nodes_in_order m (nxt :: rest) := nodes_in_order_tail h
      have hcur := (List.pairwise_cons.1 h.1).1
      have hkeep : node_size (coalesce m nxt rest).1 cur = node_size m cur := by
        unfold node_size
        apply coalesce_frame
        intro n hmem
        have h1 := hcur n hmem
        omega
      have i := ih m nxt hord
      rw [hstep]
      unfold free_bytes at *
      simp only [List.map_cons, List.sum_cons] at i ⊢
      rw [hkeep, i]


theorem collect_bins_nil : ∀ k, collect_bins (fun _ => ([] : List Nat)) k = [] := by
  intro k
  induction k with
  | zero => rfl
  | succ k ih => simp [collect_bins, ih]

/-- Pushing a node on a bin adds it to the collected nodes. -/
theorem collect_bins_push (bins : Nat → List Nat) (bi n : Nat) :
    ∀ k, bi < k →
      (collect_bins (fun j => if j = bi then n :: bins bi else bins j) k).Perm
        (n :: collect_bins bins k) := by
  intro k
  induction k with
  | zero => intro h; omega
  | succ k ih =>
    intro h
    simp only [collect_bins]
    by_cases hb : bi = k
    · have hsame : collect_bins (fun j => if j = bi then n :: bins bi else bins j) k
          = collect_bins bins k := by
        have : ∀ k2, k2 ≤ k →
            collect_bins (fun j => if j = bi then n :: bins bi else bins j) k2
              = collect_bins bins k2 := by
          intro k2
          induction k2 with
          | zero => intro _; rfl
          | succ k2 ih2 =>
            intro hk2
            simp only [collect_bins]
            rw [ih2 (by omega), if_neg (by omega)]
        exact this k (Nat.le_refl _)
      rw [hsame, if_pos hb.symm, hb]
      exact List.perm_middle
    · rw [if_neg (fun hc => hb hc.symm)]
      exact List.Perm.append_right _ (ih (by omega))

theorem rebucket_free_nodes : ∀ (l : List Nat) (m : Mem) (L : LayerState),
    (rebucket m L l).2.free_nodes.Perm (L.free_nodes ++ l) := by
  intro l
  induction l with
  | nil => intro m L; simp [rebucket]
  | cons n rest ih =>
    intro m L
    simp only [rebucket]
    refine List.Perm.trans (ih _ _) ?_
    have hp := collect_bins_push L.bins
      (bin_index (rd64 (wr64 m n 0) (n + 8))) n kBins (bin_index_lt _)
    have hp2 : (L.set_bin (bin_index (rd64 (wr64 m n 0) (n + 8)))
        (n :: L.bins (bin_index (rd64 (wr64 m n 0) (n + 8))))).free_nodes.Perm
        (n :: L.free_nodes) := hp
    refine List.Perm.trans (List.Perm.append_right _ hp2) ?_
    simp only [List.cons_append]
    exact List.perm_middle.symm

theorem dump_big_bin_free_nodes : ∀ (l : List Nat) (m : Mem) (L : LayerState),
    (dump_big_bin m L l).2.free_nodes.Perm (L.free_nodes ++ l) := by
  intro l
  induction l with
  | nil => intro m L; simp [dump_big_bin]
  | cons n rest ih =>
    intro m L
    simp only [dump_big_bin]
    refine List.Perm.trans (ih _ _) ?_
    have hp := collect_bins_push L.bins (kBins - 1) n kBins (by simp [kBins])
    have hp2 : (L.set_bin (kBins - 1) (n :: L.bins (kBins - 1))).free_nodes.Perm
        (n :: L.free_nodes) := hp
    refine List.Perm.trans (List.Perm.append_right _ hp2) ?_
    simp only [List.cons_append]
    exact List.perm_middle.symm

theorem free_bytes_perm (m : Mem) {l1 l2 : List Nat} (h : l1.Perm l2) :
    free_bytes m l1 = free_bytes m l2 := by
  unfold free_bytes
  exact (h.map _).sum_eq

theorem covered_congr (m1 m2 : Mem) (l1 l2 : List Nat) (hm : ∀ n, n ∈ l1 ↔ n ∈ l2)
    (hs : ∀ n ∈ l1, node_size m1 n = node_size m2 n) (x : Nat) :
    covered m1 l1 x ↔ covered m2 l2 x := by
  unfold covered
  constructor
  · rintro ⟨n, hn, h1, h2⟩
    exact ⟨n, (hm n).1 hn, h1, by rw [← hs n hn]; exact h2⟩
  · rintro ⟨n, hn, h1, h2⟩
    exact ⟨n, (hm n).2 hn, h1, by rw [hs n ((hm n).2 hn)]; exact h2⟩

/-- The per-layer body of the scavenger on free nodes that are apart: the sum of
the sizes and the set of covered addresses stay, every node left is one of the
nodes given, and only words of the nodes given are written. -/
theorem scavenge_layer_keeps (cfg : ScavengerConfig) (m : Mem) (L : LayerState)
    (hap : nodes_apart m L.free_nodes) :
    free_bytes (scavenge_layer cfg m L).1 (scavenge_layer cfg m L).2.free_nodes
      = free_bytes m L.free_nodes ∧
    (∀ x, covered (scavenge_layer cfg m L).1 (scavenge_layer cfg m L).2.free_nodes x
      ↔ covered m L.free_nodes x) ∧
    (∀ A ∈ (scavenge_layer cfg m L).2.free_nodes, A ∈ L.free_nodes) := by
  have hperm := List.perm_insertionSort (fun a b : Nat => a ≤ b) L.free_nodes
  have hord := nodes_in_order_sorted m L.free_nodes hap
  cases hs : List.insertionSort (fun a b => a ≤ b) L.free_nodes with
  | nil =>
    have hnil : L.free_nodes = [] := by
      rw [hs] at hperm
      exact List.Perm.eq_nil hperm.symm
    rw [scavenge_layer_empty cfg m L hs]
    have he : ({ L with bins := fun _ => [] } : LayerState).free_nodes = [] :=
      collect_bins_nil kBins
    rw [he, hnil]
    refine ⟨rfl, fun x => ?_, fun A hA => hA⟩
    unfold covered
    simp
  | cons b0 rest =>
    rw [hs] at hord hperm
    have hin : ∀ n, n ∈ L.free_nodes ↔ n ∈ b0 :: rest := fun n => (hperm.mem_iff).symm
    -- the merge, when enabled
    have hmerge : ∀ (out : Mem × List Nat),
        out = (if cfg.enable_coalescing then coalesce m b0 rest else (m, b0 :: rest)) →
        out.2.Pairwise (fun a b => a + 16 ≤ b) ∧
        free_bytes out.1 out.2 = free_bytes m (b0 :: rest) ∧
        (∀ x, covered out.1 out.2 x ↔ covered m (b0 :: rest) x) ∧
        (∀ A ∈ out.2, A ∈ b0 :: rest) := by
      intro out hout
      cases hco : cfg.enable_coalescing with
      | true =>
        rw [hco] at hout
        simp only [if_true] at hout
        rw [hout]
        obtain ⟨-, p2, p3, -, p5, p6⟩ := coalesce_spec rest m b0 hord
        refine ⟨List.Pairwise.imp (fun hab => hab.1) p3, coalesce_free_bytes rest m b0 hord,
          ?_, p2⟩
        intro x
        constructor
        · rintro ⟨A, hA, h1, h2⟩
          obtain ⟨n, hn, -, b2, b3⟩ := p6 A hA x h1 h2
          exact ⟨n, hn, b2, b3⟩
        · rintro ⟨n, hn, h1, h2⟩
          obtain ⟨A, hA, a1, a2⟩ := p5 n hn
          exact ⟨A, hA, by omega, by omega⟩
      | false =>
        rw [hco] at hout
        simp only [Bool.false_eq_true, if_false] at hout
        rw [hout]
        exact ⟨List.Pairwise.imp (fun hab => hab.1) hord.1, rfl, fun x => Iff.rfl,
          fun A hA => hA⟩
    obtain ⟨hpw16, hbytes, hcov, hsub⟩ := hmerge _ rfl
    obtain ⟨hmem, hsize⟩ := refill_nodes cfg
      (if cfg.enable_coalescing then coalesce m b0 rest else (m, b0 :: rest)).1 L
      (if cfg.enable_coalescing then coalesce m b0 rest else (m, b0 :: rest)).2 hpw16
    have hpermout : (if cfg.enable_rebucket then
          rebucket (if cfg.enable_coalescing then coalesce m b0 rest else (m, b0 :: rest)).1
            { L with bins := fun _ => [] }
            (if cfg.enable_coalescing then coalesce m b0 rest else (m, b0 :: rest)).2
        else
          dump_big_bin (if cfg.enable_coalescing then coalesce m b0 rest else (m, b0 :: rest)).1
            { L with bins := fun _ => [] }
            (if cfg.enable_coalescing then coalesce m b0 rest
              else (m, b0 :: rest)).2).2.free_nodes.Perm
        (if cfg.enable_coalescing then coalesce m b0 rest else (m, b0 :: rest)).2 := by
      have he : ({ L with bins := fun _ => [] } : LayerState).free_nodes = [] :=
        collect_bins_nil kBins
      cases hrb : cfg.enable_rebucket with
      | true =>
        simp only [if_true]
        have := rebucket_free_nodes
          (if cfg.enable_coalescing then coalesce m b0 rest else (m, b0 :: rest)).2
          (if cfg.enable_coalescing then coalesce m b0 rest else (m, b0 :: rest)).1
          { L with bins := fun _ => [] }
        rw [he, List.nil_append] at this
        exact this
      | false =>
        simp only [Bool.false_eq_true, if_false]
        have := dump_big_bin_free_nodes
          (if cfg.enable_coalescing then coalesce m b0 rest else (m, b0 :: rest)).2
          (if cfg.enable_coalescing then coalesce m b0 rest else (m, b0 :: rest)).1
          { L with bins := fun _ => [] }
        rw [he, List.nil_append] at this
        exact this
    rw [scavenge_layer_cons cfg m L b0 rest hs]
    refine ⟨?_, ?_, ?_⟩
    · rw [free_bytes_perm _ hpermout, free_bytes_congr _ _ _ hsize, hbytes]
      exact free_bytes_perm m hperm
    · intro x
      rw [covered_congr _ _ _ _ hmem (fun n hn => hsize n ((hmem n).1 hn)) x, hcov x]
      exact covered_congr m m _ _ (fun n => (hin n).symm) (fun _ _ => rfl) x
    · intro A hA
      exact (hin A).2 (hsub A ((hmem A).1 hA))


theorem nodes_apart_congr (m1 m2 : Mem) (l : List Nat)
    (h : ∀ n ∈ l, node_size m2 n = node_size m1 n) (ha : nodes_apart m1 l) :
    nodes_apart m2 l := by
  obtain ⟨hpw, hsz⟩ := ha
  refine ⟨List.Pairwise.imp_of_mem ?_ hpw, fun a ha2 => by rw [h a ha2]; exact hsz a ha2⟩
  intro a b ha2 hb2 hab
  rw [h a ha2, h b hb2]
  exact hab

/-- The per-layer body of the scavenger writes only words of the free nodes of
the layer. -/
theorem scavenge_layer_frame (cfg : ScavengerConfig) (m : Mem) (L : LayerState)
    (hap : nodes_apart m L.free_nodes) (a : Nat)
    (h : ∀ n ∈ L.free_nodes, a + 8 ≤ n ∨ n + 16 ≤ a) :
    rd64 (scavenge_layer cfg m L).1 a = rd64 m a := by
  have hperm := List.perm_insertionSort (fun a b : Nat => a ≤ b) L.free_nodes
  have hord := nodes_in_order_sorted m L.free_nodes hap
  cases hs : List.insertionSort (fun a b => a ≤ b) L.free_nodes with
  | nil => rw [scavenge_layer_empty cfg m L hs]
  | cons b0 rest =>
    rw [hs] at hord hperm
    have hin : ∀ n, n ∈ b0 :: rest → n ∈ L.free_nodes := fun n => (hperm.mem_iff).1
    have h1 : rd64 (if cfg.enable_coalescing then coalesce m b0 rest else (m, b0 :: rest)).1 a
        = rd64 m a := by
      cases hco : cfg.enable_coalescing with
      | true =>
        simp only [if_true]
        apply coalesce_frame
        intro n hn
        have := h n (hin n hn)
        omega
      | false => simp only [Bool.false_eq_true, if_false]
    have hsub : ∀ n ∈ (if cfg.enable_coalescing then coalesce m b0 rest
        else (m, b0 :: rest)).2, n ∈ b0 :: rest := by
      cases hco : cfg.enable_coalescing with
      | true =>
        simp only [if_true]
        exact (coalesce_spec rest m b0 hord).2.1
      | false =>
        simp only [Bool.false_eq_true, if_false]
        exact fun n hn => hn
    have hsep : ∀ n ∈ (if cfg.enable_coalescing then coalesce m b0 rest
        else (m, b0 :: rest)).2, n + 8 ≤ a ∨ a + 8 ≤ n := by
      intro n hn
      have := h n (hin n (hsub n hn))
      omega
    rw [scavenge_layer_cons cfg m L b0 rest hs]
    cases hrb : cfg.enable_rebucket with
    | true =>
      simp only [if_true]
      rw [rebucket_frame _ _ _ a hsep, h1]
    | false =>
      simp only [Bool.false_eq_true, if_false]
      rw [dump_big_bin_frame _ _ _ a hsep, h1]

/-- The loop over the layers, when the free nodes of all of them are apart:
layers not yet visited are as they were, and each layer visited has kept the sum
of its free sizes and the set of addresses its free nodes cover. -/
theorem scavenge_layers_keeps (cfg : ScavengerConfig) (st : PICAS) (n : Nat)
    (hap : nodes_apart st.mem (st.all_free_nodes n)) :
    ∀ k, k ≤ n →
      (∀ i, k ≤ i → (scavenge_layers cfg st k).layers i = st.layers i) ∧
      (∀ i, i < k →
        free_bytes (scavenge_layers cfg st k).mem ((scavenge_layers cfg st k).layers i).free_nodes
          = free_bytes st.mem (st.layers i).free_nodes ∧
        (∀ x, covered (scavenge_layers cfg st k).mem
            ((scavenge_layers cfg st k).layers i).free_nodes x
          ↔ covered st.mem (st.layers i).free_nodes x) ∧
        (∀ A ∈ ((scavenge_layers cfg st k).layers i).free_nodes,
          A ∈ (st.layers i).free_nodes)) ∧
      (∀ i, k ≤ i → i < n → ∀ x ∈ (st.layers i).free_nodes,
        node_size (scavenge_layers cfg st k).mem x = node_size st.mem x) := by
  obtain ⟨c1, c2⟩ := collect_bins_pairwise (fun i => (st.layers i).free_nodes) n hap.1
  have hfit : ∀ i, i < n → ∀ x ∈ (st.layers i).free_nodes, x + node_size st.mem x < W64 := by
    intro i hi x hx
    exact hap.2 x ((mem_collect_bins _ x n).2 ⟨i, hi, hx⟩)
  -- nodes of two different layers are apart
  have hcross : ∀ i j, i < n → j < n → i ≠ j → ∀ x ∈ (st.layers i).free_nodes,
      ∀ y ∈ (st.layers j).free_nodes, x + 16 ≤ y ∨ y + 16 ≤ x := by
    intro i j hi hj hne x hx y hy
    rcases Nat.lt_or_gt_of_ne hne with h | h
    · rcases c2 i j h hj x hx y hy with h1 | h1
      · left; exact h1.1
      · right; exact h1.1
    · rcases c2 j i h hi y hy x hx with h1 | h1
      · right; exact h1.1
      · left; exact h1.1
  intro k
  induction k with
  | zero =>
    intro _
    exact ⟨fun i _ => rfl, fun i hi => absurd hi (by omega), fun i _ _ x _ => rfl⟩
  | succ k ih =>
    intro hk
    obtain ⟨i1, i2, i3⟩ := ih (by omega)
    have hkn : k < n := by omega
    have hLk : (scavenge_layers cfg st k).layers k = st.layers k := i1 k (Nat.le_refl _)
    have hapk : nodes_apart (scavenge_layers cfg st k).mem (st.layers k).free_nodes :=
      nodes_apart_congr st.mem _ _ (fun x hx => i3 k (Nat.le_refl _) hkn x hx)
        ⟨c1 k hkn, hfit k hkn⟩
    have hmem : (scavenge_layers cfg st (k + 1)).mem
        = (scavenge_layer cfg (scavenge_layers cfg st k).mem (st.layers k)).1 := by
      simp only [scavenge_layers, hLk]
    have hlay : ∀ i, (scavenge_layers cfg st (k + 1)).layers i
        = if i = k then (scavenge_layer cfg (scavenge_layers cfg st k).mem (st.layers k)).2
          else (scavenge_layers cfg st k).layers i := by
      intro i
      simp only [scavenge_layers, PICAS.set_layer, hLk]
    -- sizes of nodes of other layers survive the pass over layer `k`
    have hother : ∀ i, i < n → i ≠ k → ∀ x ∈ (st.layers i).free_nodes,
        node_size (scavenge_layers cfg st (k + 1)).mem x
          = node_size (scavenge_layers cfg st k).mem x := by
      intro i hi hne x hx
      rw [hmem]
      unfold node_size
      apply scavenge_layer_frame cfg _ _ hapk
      intro y hy
      have := hcross i k hi hkn hne x hx y hy
      omega
    obtain ⟨s1, s2, s3⟩ := scavenge_layer_keeps cfg (scavenge_layers cfg st k).mem (st.layers k) hapk
    refine ⟨?_, ?_, ?_⟩
    · intro i hi
      rw [hlay, if_neg (by omega)]
      exact i1 i (by omega)
    · intro i hi
      by_cases hik : i = k
      · rw [hlay, if_pos hik, hmem, hik]
        refine ⟨?_, ?_, s3⟩
        · rw [s1]
          exact free_bytes_congr _ _ _ (fun x hx => i3 k (Nat.le_refl _) hkn x hx)
        · intro x
          rw [s2 x]
          exact covered_congr _ _ _ _ (fun _ => Iff.rfl)
            (fun y hy => i3 k (Nat.le_refl _) hkn y hy) x
      · have hlt : i < k := by omega
        obtain ⟨j1, j2, j3⟩ := i2 i hlt
        rw [hlay, if_neg hik]
        have hsz : ∀ x ∈ ((scavenge_layers cfg st k).layers i).free_nodes,
            node_size (scavenge_layers cfg st (k + 1)).mem x
              = node_size (scavenge_layers cfg st k).mem x :=
          fun x hx => hother i (by omega) hik x (j3 x hx)
        refine ⟨?_, ?_, j3⟩
        · rw [free_bytes_congr _ _ _ hsz]
          exact j1
        · intro x
          rw [covered_congr _ _ _ _ (fun _ => Iff.rfl) hsz x]
          exact j2 x
    · intro i hki hi x hx
      rw [hother i hi (by omega) x hx]
      exact i3 i (by omega) hi x hx


/-! ## The claims: the frame of the scavenger pass -/

/-- C35. A scavenger pass over layers whose free nodes are apart (the 16 bytes of
each `FreeNode` and the range it records do not overlap another node, in any
layer), under every combination of `enable_coalescing` and `enable_rebucket`,
preserves for each layer the sum of the free-node sizes and the set of addresses
covered by free nodes; on every state it leaves `bump`, `bump_used_bytes`,
`live_bytes_est` and `mem_tp_reached` of every layer unchanged; and with
`enabled = false` it changes nothing at all. -/
theorem scavenger_pass_frame :
    (∀ (st : PICAS) (n : Nat) (cfg : ScavengerConfig),
      nodes_apart st.mem (st.all_free_nodes n) → ∀ i, i < n →
        free_bytes (scavenger_run_light st n cfg).mem
            ((scavenger_run_light st n cfg).layers i).free_nodes
          = free_bytes st.mem (st.layers i).free_nodes ∧
        ∀ x, covered (scavenger_run_light st n cfg).mem
            ((scavenger_run_light st n cfg).layers i).free_nodes x
          ↔ covered st.mem (st.layers i).free_nodes x) ∧
    (∀ (st : PICAS) (n : Nat) (cfg : ScavengerConfig) (i : Nat),
      ((scavenger_run_light st n cfg).layers i).bump = (st.layers i).bump ∧
      ((scavenger_run_light st n cfg).layers i).bump_used_bytes
        = (st.layers i).bump_used_bytes ∧
      ((scavenger_run_light st n cfg).layers i).live_bytes_est = (st.layers i).live_bytes_est ∧
      ((scavenger_run_light st n cfg).layers i).mem_tp_reached
        = (st.layers i).mem_tp_reached) ∧
    (∀ (st : PICAS) (n : Nat) (cfg : ScavengerConfig),
      cfg.enabled = false → scavenger_run_light st n cfg = st) := by
  refine ⟨?_, ?_, ?_⟩
  · intro st n cfg hap i hi
    unfold scavenger_run_light
    by_cases hen : (!cfg.enabled) = true
    · rw [if_pos hen]
      exact ⟨rfl, fun x => Iff.rfl⟩
    · rw [if_neg hen]
      have hn0 : ¬ n = 0 := by omega
      rw [if_neg hn0]
      obtain ⟨h1, h2, -⟩ := (scavenge_layers_keeps cfg st n hap n (Nat.le_refl _)).2.1 i hi
      exact ⟨h1, h2⟩
  · intro st n cfg i
    have h := same_but_bins_scavenger_run_light st n cfg i
    exact ⟨h.2.2.1, h.2.2.2.2.1, h.2.2.2.2.2.1, h.2.2.2.2.2.2.2⟩
  · intro st n cfg hen
    unfold scavenger_run_light
    simp [hen]

set_option maxRecDepth 1000000 in
/-- C35 on `adjacent_free`: the three adjacent free nodes of 48 bytes are apart;
after the pass with the default settings the free sizes still add up to 144. -/
theorem scavenger_pass_frame_witness :
    nodes_apart adjacent_free.mem (adjacent_free.all_free_nodes 1) ∧
    free_bytes adjacent_free.mem (adjacent_free.layers 0).free_nodes = 144 ∧
    ((scavenger_run_light adjacent_free 1 {}).layers 0).free_nodes = [65536] ∧
    free_bytes (scavenger_run_light adjacent_free 1 {}).mem
        ((scavenger_run_light adjacent_free 1 {}).layers 0).free_nodes
      = free_bytes adjacent_free.mem (adjacent_free.layers 0).free_nodes :=
  ⟨⟨by decide, by decide⟩, by decide, by decide,
   (scavenger_pass_frame.1 adjacent_free 1 {} ⟨by decide, by decide⟩ 0 (by decide)).1⟩

/-! ## The layer and its live blocks -/

/-- The loop of the scavenger pass is the per-layer step, layer after layer. -/
theorem scavenge_layers_succ (cfg : ScavengerConfig) (st : PICAS) (n : Nat) :
    scavenge_layers cfg st (n + 1) = (scavenge_layers cfg st n).scavenge_one cfg n := rfl


/-- A request below 2^64 − 48 has a block total that holds header and payload. -/
theorem block_total_ge (size : Nat) (h : size < W64 - 48) :
    sizeof_BlockHeader + size ≤ block_total size := by
  unfold block_total
  simp only [sizeof_BlockHeader, W64] at *
  have hnot : not64 (16 - 1) = W64 - 2 ^ 4 := by decide
  rw [hnot, Nat.mod_eq_of_lt (by omega), Nat.mod_eq_of_lt (by omega)]
  rw [and_high_mask _ 4 (by simp only [W64]; omega) (by omega)]
  have : (32 + size + (16 - 1)) % 2 ^ 4 < 2 ^ 4 := Nat.mod_lt _ (by norm_num)
  omega

/-- Free nodes are apart exactly when they are distinct, pairwise apart and
inside the address space. -/
theorem nodes_apart_iff (m : Mem) (l : List Nat) :
    nodes_apart m l ↔
      l.Nodup ∧
      (∀ a ∈ l, ∀ b ∈ l, a ≠ b →
        (a + 16 ≤ b ∧ a + node_size m a ≤ b) ∨ (b + 16 ≤ a ∧ b + node_size m b ≤ a)) ∧
      (∀ a ∈ l, a + node_size m a < W64) := by
  unfold nodes_apart
  constructor
  · rintro ⟨hpw, hfit⟩
    refine ⟨?_, ?_, hfit⟩
    · refine List.Pairwise.imp ?_ hpw
      intro a b hab hc
      rw [hc] at hab
      omega
    · intro a ha b hb hne
      rcases pairwise_mem_cases hpw a ha b hb with h | h | h
      · exact absurd h hne
      · exact h
      · exact h.symm
  · rintro ⟨hnd, hall, hfit⟩
    exact ⟨List.Nodup.pairwise_of_forall_ne hnd hall, hfit⟩

/-- Taking the node `cur` out of bin `b` removes it from the collected nodes. -/
theorem collect_bins_take (bins : Nat → List Nat) (bi : Nat) (pre : List Nat) (cur : Nat)
    (post : List Nat) (hbin : bins bi = pre ++ cur :: post) :
    ∀ k, bi < k →
      (collect_bins bins k).Perm
        (cur :: collect_bins (fun j => if j = bi then pre ++ post else bins j) k) := by
  intro k
  induction k with
  | zero => intro h; omega
  | succ k ih =>
    intro h
    simp only [collect_bins]
    by_cases hb : bi = k
    · have hsame : ∀ k2, k2 ≤ k →
          collect_bins (fun j => if j = bi then pre ++ post else bins j) k2
            = collect_bins bins k2 := by
        intro k2
        induction k2 with
        | zero => intro _; rfl
        | succ k2 ih2 =>
          intro hk2
          simp only [collect_bins]
          rw [ih2 (by omega), if_neg (by omega)]
      rw [hsame k (Nat.le_refl _), if_pos hb.symm, ← hb, hbin]
      refine List.Perm.trans ?_ List.perm_middle
      exact List.Perm.append_left _ List.perm_middle
    · rw [if_neg (fun hc => hb hc.symm)]
      exact List.Perm.trans (List.Perm.append_right _ (ih (by omega)))
        (by simp)


theorem LayerInv.live_nodup {m : Mem} {L : LayerState} {live : List Nat} {ext : Nat → Nat}
    (hinv : LayerInv m L live ext) : live.Nodup := by
  have h2 : live.Pairwise (fun a b => (a + ext a ≤ b ∨ b + ext b ≤ a) ∧ 32 ≤ ext a) := by
    refine List.Pairwise.imp_of_mem ?_ hinv.live_apart
    intro a b ha _ hab
    exact ⟨hab, (hinv.live_ok a ha).1⟩
  refine List.Pairwise.imp_of_mem ?_ h2
  intro a b _ hb hab hc
  have := (hinv.live_ok b hb).1
  rw [hc] at hab
  omega

/-- Two live blocks of the list are apart. -/
theorem LayerInv.live_cases {m : Mem} {L : LayerState} {live : List Nat} {ext : Nat → Nat}
    (hinv : LayerInv m L live ext) (a b : Nat) (ha : a ∈ live) (hb : b ∈ live) (hne : a ≠ b) :
    a + ext a ≤ b ∨ b + ext b ≤ a := by
  rcases pairwise_mem_cases hinv.live_apart a ha b hb with h | h | h
  · exact absurd h hne
  · exact h
  · exact h.symm

/-- Forgetting live blocks keeps the invariant. -/
theorem LayerInv.sublist {m : Mem} {L : LayerState} {live live2 : List Nat} {ext : Nat → Nat}
    (hinv : LayerInv m L live ext) (hs : live2.Sublist live) : LayerInv m L live2 ext :=
  { bump_le := hinv.bump_le
    end_lt := hinv.end_lt
    apart := hinv.apart
    below := hinv.below
    hi := hinv.hi
    live_ok := fun h hh => hinv.live_ok h (hs.subset hh)
    live_apart := hinv.live_apart.sublist hs
    live_free := fun h hh => hinv.live_free h (hs.subset hh) }

/-- The invariant looks only at the cursor, the end and the bins of the layer. -/
theorem LayerInv.congr {m : Mem} {L L2 : LayerState} {live : List Nat} {ext : Nat → Nat}
    (hinv : LayerInv m L live ext) (hb : L2.bump = L.bump) (he : L2.end_ = L.end_)
    (hbins : L2.bins = L.bins) : LayerInv m L2 live ext := by
  have hfn : L2.free_nodes = L.free_nodes := by
    unfold LayerState.free_nodes; rw [hbins]
  exact
    { bump_le := by rw [hb, he]; exact hinv.bump_le
      end_lt := by rw [he]; exact hinv.end_lt
      apart := by rw [hfn]; exact hinv.apart
      below := by rw [hfn, hb]; exact hinv.below
      hi := by
        intro b hbk n hn
        rw [hbins] at hn
        exact hinv.hi b hbk n hn
      live_ok := by rw [hb]; exact hinv.live_ok
      live_apart := hinv.live_apart
      live_free := by rw [hfn]; exact hinv.live_free }

/-- The two stores of `free_into_layer` on a live block, seen from a layer whose
bins do not receive the node: the block is forgotten and nothing else moves. -/
theorem LayerInv.free_elsewhere {m : Mem} {L : LayerState} {live : List Nat} {ext : Nat → Nat}
    (hinv : LayerInv m L live ext) (h v : Nat) (hh : h ∈ live) :
    LayerInv (wr64 (wr64 m (h + 8) (rd64 m (h + 24))) h v) L (live.erase h) ext := by
  have hnd := hinv.live_nodup
  have hext := (hinv.live_ok h hh).1
  have hsz : ∀ n ∈ L.free_nodes,
      node_size (wr64 (wr64 m (h + 8) (rd64 m (h + 24))) h v) n = node_size m n := by
    intro n hn
    have := hinv.live_free h hh n hn
    unfold node_size
    rw [rd64_wr64_other _ _ _ _ (by omega), rd64_wr64_other _ _ _ _ (by omega)]
  exact
    { bump_le := hinv.bump_le
      end_lt := hinv.end_lt
      apart := nodes_apart_congr m _ _ hsz hinv.apart
      below := by
        intro n hn
        rw [hsz n hn]
        exact hinv.below n hn
      hi := by
        intro b hb n hn
        rw [hsz n ((mem_collect_bins _ n kBins).2 ⟨b, hb, hn⟩)]
        exact hinv.hi b hb n hn
      live_ok := by
        intro a ha
        have ha2 := (List.Nodup.mem_erase_iff hnd).1 ha
        obtain ⟨o1, o2, o3⟩ := hinv.live_ok a ha2.2
        refine ⟨o1, o2, ?_⟩
        have := hinv.live_cases a h ha2.2 hh ha2.1
        rw [rd64_wr64_other _ _ _ _ (by omega), rd64_wr64_other _ _ _ _ (by omega)]
        exact o3
      live_apart := hinv.live_apart.sublist (List.erase_sublist _ _)
      live_free := by
        intro a ha n hn
        have ha2 := (List.Nodup.mem_erase_iff hnd).1 ha
        rw [hsz n hn]
        exact hinv.live_free a ha2.2 n hn }

/-- The two stores of `free_into_layer` on a live block and the push of the node
on the bin of its size keep the invariant, with the block forgotten. -/
theorem LayerInv.free_here {m : Mem} {L L2 : LayerState} {live : List Nat} {ext : Nat → Nat}
    (hinv : LayerInv m L live ext) (h v : Nat) (hh : h ∈ live)
    (hb : L2.bump = L.bump) (he : L2.end_ = L.end_)
    (hbins : L2.bins = fun b =>
      if b = bin_index (rd64 m (h + 24)) then h :: L.bins (bin_index (rd64 m (h + 24)))
      else L.bins b) :
    LayerInv (wr64 (wr64 m (h + 8) (rd64 m (h + 24))) h v) L2 (live.erase h) ext := by
  have hnd := hinv.live_nodup
  obtain ⟨hext, hbelow, htot⟩ := hinv.live_ok h hh
  have helse := hinv.free_elsewhere h v hh
  generalize hM : wr64 (wr64 m (h + 8) (rd64 m (h + 24))) h v = M at helse ⊢
  have hsize : node_size M h = rd64 m (h + 24) := by
    unfold node_size
    rw [← hM, rd64_wr64_other _ _ _ _ (by omega), rd64_wr64_same,
      Nat.mod_eq_of_lt (rd64_lt _ _)]
  have hperm : L2.free_nodes.Perm (h :: L.free_nodes) := by
    unfold LayerState.free_nodes
    rw [hbins]
    exact collect_bins_push L.bins _ h kBins (bin_index_lt _)
  have hmem : ∀ x, x ∈ L2.free_nodes ↔ x = h ∨ x ∈ L.free_nodes := by
    intro x
    rw [hperm.mem_iff, List.mem_cons]
  have hnot : ¬ h ∈ L.free_nodes := by
    intro hc
    have := hinv.live_free h hh h hc
    omega
  have hbump := hinv.bump_le
  have hend := hinv.end_lt
  obtain ⟨a1, a2, a3⟩ := (nodes_apart_iff M L.free_nodes).1 helse.apart
  -- the new node against an old one
  have hnew : ∀ n ∈ L.free_nodes,
      (h + 16 ≤ n ∧ h + node_size M h ≤ n) ∨ (n + 16 ≤ h ∧ n + node_size M n ≤ h) := by
    intro n hn
    have h1 := hinv.live_free h hh n hn
    have h2 : node_size M n = node_size m n := by
      have := hinv.live_free h hh n hn
      unfold node_size
      rw [← hM, rd64_wr64_other _ _ _ _ (by omega), rd64_wr64_other _ _ _ _ (by omega)]
    rw [hsize, h2]
    omega
  exact
    { bump_le := by rw [hb, he]; exact hbump
      end_lt := by rw [he]; exact hend
      apart := by
        rw [nodes_apart_iff]
        refine ⟨hperm.nodup_iff.2 (List.nodup_cons.2 ⟨hnot, a1⟩), ?_, ?_⟩
        · intro a ha b hb2 hne
          rcases (hmem a).1 ha with e1 | e1 <;> rcases (hmem b).1 hb2 with e2 | e2
          · exact absurd (e1.trans e2.symm) hne
          · rw [e1]; exact hnew b e2
          · rw [e2]; exact (hnew a e1).symm
          · exact a2 a e1 b e2 hne
        · intro a ha
          rcases (hmem a).1 ha with e1 | e1
          · rw [e1, hsize]; omega
          · exact a3 a e1
      below := by
        intro n hn
        rw [hb]
        rcases (hmem n).1 hn with e1 | e1
        · rw [e1, hsize]; omega
        · exact helse.below n e1
      hi := by
        intro b hbk n hn
        rw [hbins] at hn
        by_cases hbi : b = bin_index (rd64 m (h + 24))
        · simp only [hbi, if_true] at hn
          rcases List.mem_cons.1 hn with e1 | e1
          · rw [e1, hsize, hbi]
          · rw [hbi]
            exact helse.hi _ (bin_index_lt _) n e1
        · simp only [hbi, if_false] at hn
          exact helse.hi b hbk n hn
      live_ok := by rw [hb]; exact helse.live_ok
      live_apart := helse.live_apart
      live_free := by
        intro a ha n hn
        have ha2 := (List.Nodup.mem_erase_iff hnd).1 ha
        rcases (hmem n).1 hn with e1 | e1
        · rw [e1, hsize]
          have := hinv.live_cases a h ha2.2 hh ha2.1
          omega
        · exact helse.live_free a ha n e1 }


/-- The header stamp and the `total_size` store leave every word outside the 32
bytes of the header. -/
theorem rd64_header_other (m : Mem) (h ml dl size t a : Nat) (hd : a + 8 ≤ h ∨ h + 32 ≤ a) :
    rd64 (wr64 (stamp_header m h ml dl size) (h + 24) t) a = rd64 m a := by
  rw [rd64_wr64_other _ _ _ _ (by omega), rd64_stamp_header_other _ _ _ _ _ _ (by omega)]

/-- The bump branch of `alloc_from_layer` keeps the invariant, with the new
block live and owning its block total. -/
theorem LayerInv.bump_alloc {m : Mem} {L L2 : LayerState} {live : List Nat} {ext : Nat → Nat}
    (hinv : LayerInv m L live ext) (ml dl size total : Nat) (ht : 32 ≤ total)
    (htw : total < W64) (hs : L.bump + total ≤ L.end_)
    (hb : L2.bump = L.bump + total) (he : L2.end_ = L.end_) (hbins : L2.bins = L.bins) :
    LayerInv (wr64 (stamp_header m L.bump ml dl size) (L.bump + 24) total) L2
      (L.bump :: live) (fun a => if a = L.bump then total else ext a) := by
  have hfn : L2.free_nodes = L.free_nodes := by
    unfold LayerState.free_nodes; rw [hbins]
  have hsz : ∀ n ∈ L.free_nodes,
      node_size (wr64 (stamp_header m L.bump ml dl size) (L.bump + 24) total) n
        = node_size m n := by
    intro n hn
    have := hinv.below n hn
    unfold node_size
    exact rd64_header_other _ _ _ _ _ _ _ (by omega)
  have hold : ∀ a ∈ live, (if a = L.bump then total else ext a) = ext a := by
    intro a ha
    have := hinv.live_ok a ha
    rw [if_neg (by omega)]
  exact
    { bump_le := by rw [hb, he]; exact hs
      end_lt := by rw [he]; exact hinv.end_lt
      apart := by rw [hfn]; exact nodes_apart_congr m _ _ hsz hinv.apart
      below := by
        intro n hn
        rw [hfn] at hn
        rw [hsz n hn, hb]
        have := hinv.below n hn
        omega
      hi := by
        intro b hbk n hn
        rw [hbins] at hn
        rw [hsz n ((mem_collect_bins _ n kBins).2 ⟨b, hbk, hn⟩)]
        exact hinv.hi b hbk n hn
      live_ok := by
        intro a ha
        rcases List.mem_cons.1 ha with e1 | e1
        · rw [e1, if_pos rfl, hb, rd64_wr64_same, Nat.mod_eq_of_lt htw]
          exact ⟨ht, Nat.le_refl _, Nat.le_refl _⟩
        · obtain ⟨o1, o2, o3⟩ := hinv.live_ok a e1
          rw [hold a e1, hb, rd64_header_other _ _ _ _ _ _ _ (by omega)]
          exact ⟨o1, by omega, o3⟩
      live_apart := by
        refine List.pairwise_cons.2 ⟨?_, ?_⟩
        · intro a ha
          have := hinv.live_ok a ha
          rw [hold a ha, if_pos rfl]
          right; exact this.2.1
        · refine List.Pairwise.imp_of_mem ?_ hinv.live_apart
          intro a b ha hb2 hab
          rw [hold a ha, hold b hb2]
          exact hab
      live_free := by
        intro a ha n hn
        rw [hfn] at hn
        rw [hsz n hn]
        rcases List.mem_cons.1 ha with e1 | e1
        · rw [e1]
          right
          exact hinv.below n hn
        · rw [hold a e1]
          exact hinv.live_free a e1 n hn }


/-- Taking the node `cur` off its bin (the unlink store included) leaves a hole
of the size of the node. -/
theorem LayerInv.unlink {m : Mem} {L L2 : LayerState} {live : List Nat} {ext : Nat → Nat}
    (hinv : LayerInv m L live ext) (b : Nat) (pre : List Nat) (cur : Nat) (post : List Nat)
    (hbk : b < kBins) (hbin : L.bins b = pre ++ cur :: post)
    (hb : L2.bump = L.bump) (he : L2.end_ = L.end_)
    (hbins : L2.bins = (L.set_bin b (pre ++ post)).bins) :
    LayerHole (match pre.getLast? with
        | some prev => wr64 m prev (head_ptr post)
        | none => m) L2 live ext cur (node_size m cur) ∧
    node_size (match pre.getLast? with
        | some prev => wr64 m prev (head_ptr post)
        | none => m) cur = node_size m cur := by
  have hoth := others_apart m L b pre cur post hinv.apart hbk hbin
  have hcurmem : cur ∈ L.free_nodes :=
    (mem_collect_bins _ cur kBins).2
      ⟨b, hbk, by rw [hbin]; exact List.mem_append_right _ (List.mem_cons_self _ _)⟩
  have hperm : L.free_nodes.Perm (cur :: L2.free_nodes) := by
    unfold LayerState.free_nodes
    rw [hbins]
    exact collect_bins_take L.bins b pre cur post hbin kBins hbk
  obtain ⟨a1, a2, a3⟩ := (nodes_apart_iff m L.free_nodes).1 hinv.apart
  have hnd2 := hperm.nodup_iff.1 a1
  obtain ⟨hnotin, hnd3⟩ := List.nodup_cons.1 hnd2
  have hsub : ∀ n ∈ L2.free_nodes, n ∈ L.free_nodes ∧ n ≠ cur := by
    intro n hn
    refine ⟨hperm.mem_iff.2 (List.mem_cons_of_mem _ hn), ?_⟩
    intro hc
    rw [hc] at hn
    exact hnotin hn
  have hpre : ∀ prev ∈ pre, prev ∈ L.free_nodes :=
    fun prev hp => (mem_collect_bins _ prev kBins).2
      ⟨b, hbk, by rw [hbin]; exact List.mem_append_left _ hp⟩
  have hprecur : ∀ prev ∈ pre, prev ≠ cur := by
    intro prev hp hc
    have hp2 : (L.bins b).Nodup := by
      have := (collect_bins_pairwise L.bins kBins hinv.apart.1).1 b hbk
      refine List.Pairwise.imp ?_ this
      intro x y hxy hc2
      rw [hc2] at hxy
      omega
    rw [hbin] at hp2
    have := (List.nodup_append.1 hp2).2.2
    rw [hc] at hp
    exact this hp (List.mem_cons_self _ _)
  generalize hm1 : (match pre.getLast? with
      | some prev => wr64 m prev (head_ptr post)
      | none => m) = m1
  -- the unlink store changes no size word and no word of a live block
  have hsz : ∀ n ∈ L.free_nodes, node_size m1 n = node_size m n := by
    intro n hn
    unfold node_size
    rw [← hm1]
    apply unlink_frame
    intro prev hp
    by_cases hpn : prev = n
    · rw [hpn]; left; exact Nat.le_refl _
    · have := a2 prev (hpre prev hp) n hn hpn
      omega
  have hlive : ∀ h ∈ live, rd64 m1 (h + 24) = rd64 m (h + 24) := by
    intro h hh
    rw [← hm1]
    apply unlink_frame
    intro prev hp
    have := hinv.live_free h hh prev (hpre prev hp)
    have := (hinv.live_ok h hh).1
    omega
  have hcurb := hinv.below cur hcurmem
  refine ⟨?_, hsz cur hcurmem⟩
  exact
    { inv :=
        { bump_le := by rw [hb, he]; exact hinv.bump_le
          end_lt := by rw [he]; exact hinv.end_lt
          apart := by
            rw [nodes_apart_iff]
            refine ⟨hnd3, ?_, ?_⟩
            · intro x hx y hy hne
              rw [hsz x (hsub x hx).1, hsz y (hsub y hy).1]
              exact a2 x (hsub x hx).1 y (hsub y hy).1 hne
            · intro x hx
              rw [hsz x (hsub x hx).1]
              exact a3 x (hsub x hx).1
          below := by
            intro n hn
            rw [hsz n (hsub n hn).1, hb]
            exact hinv.below n (hsub n hn).1
          hi := by
            intro b2 hb2 n hn
            rw [hbins] at hn
            obtain ⟨h1, -⟩ := hoth b2 hb2 n hn
            rw [hsz n ((mem_collect_bins _ n kBins).2 ⟨b2, hb2, h1⟩)]
            exact hinv.hi b2 hb2 n h1
          live_ok := by
            intro h hh
            rw [hlive h hh, hb]
            exact hinv.live_ok h hh
          live_apart := hinv.live_apart
          live_free := by
            intro h hh n hn
            rw [hsz n (hsub n hn).1]
            exact hinv.live_free h hh n (hsub n hn).1 }
      hole_nodes := by
        intro n hn
        rw [hsz n (hsub n hn).1]
        exact a2 n (hsub n hn).1 cur hcurmem (hsub n hn).2
      hole_live := by
        intro h hh
        exact hinv.live_free h hh cur hcurmem
      hole_below := by rw [hb]; exact hcurb }


/-- Stamping a block header into a hole of at least 32 bytes makes the hole a
live block: any stores inside the first 32 bytes of the hole will do, as long as
the `total_size` they leave is no larger than the hole. -/
theorem LayerHole.fill {m M : Mem} {L L2 : LayerState} {live : List Nat} {ext : Nat → Nat}
    {cur s : Nat} (hh : LayerHole m L live ext cur s) (hs : 32 ≤ s)
    (hframe : ∀ a, a + 8 ≤ cur ∨ cur + 32 ≤ a → rd64 M a = rd64 m a)
    (htot : rd64 M (cur + 24) ≤ s)
    (hb : L2.bump = L.bump) (he : L2.end_ = L.end_) (hbins : L2.bins = L.bins) :
    LayerInv M L2 (cur :: live) (fun a => if a = cur then s else ext a) := by
  have hinv := hh.inv
  have hfn : L2.free_nodes = L.free_nodes := by
    unfold LayerState.free_nodes; rw [hbins]
  have hsz : ∀ n ∈ L.free_nodes, node_size M n = node_size m n := by
    intro n hn
    have := hh.hole_nodes n hn
    unfold node_size
    exact hframe _ (by omega)
  have hold : ∀ a ∈ live, (if a = cur then s else ext a) = ext a := by
    intro a ha
    have := hh.hole_live a ha
    have := (hinv.live_ok a ha).1
    rw [if_neg (by omega)]
  exact
    { bump_le := by rw [hb, he]; exact hinv.bump_le
      end_lt := by rw [he]; exact hinv.end_lt
      apart := by rw [hfn]; exact nodes_apart_congr m _ _ hsz hinv.apart
      below := by
        intro n hn
        rw [hfn] at hn
        rw [hsz n hn, hb]
        exact hinv.below n hn
      hi := by
        intro b hbk n hn
        rw [hbins] at hn
        rw [hsz n ((mem_collect_bins _ n kBins).2 ⟨b, hbk, hn⟩)]
        exact hinv.hi b hbk n hn
      live_ok := by
        intro a ha
        rcases List.mem_cons.1 ha with e1 | e1
        · rw [e1, if_pos rfl, hb]
          exact ⟨hs, hh.hole_below.2, htot⟩
        · obtain ⟨o1, o2, o3⟩ := hinv.live_ok a e1
          have := hh.hole_live a e1
          rw [hold a e1, hb, hframe _ (by omega)]
          exact ⟨o1, o2, o3⟩
      live_apart := by
        refine List.pairwise_cons.2 ⟨?_, ?_⟩
        · intro a ha
          have := hh.hole_live a ha
          rw [hold a ha, if_pos rfl]
          omega
        · refine List.Pairwise.imp_of_mem ?_ hinv.live_apart
          intro a b ha hb2 hab
          rw [hold a ha, hold b hb2]
          exact hab
      live_free := by
        intro a ha n hn
        rw [hfn] at hn
        rw [hsz n hn]
        rcases List.mem_cons.1 ha with e1 | e1
        · rw [e1, if_pos rfl]
          have := hh.hole_nodes n hn
          omega
        · rw [hold a e1]
          exact hinv.live_free a e1 n hn }

/-- Splitting a hole: the three stores that build the remainder node behind the
first `total` bytes and the push of that node on the bin of its size leave a
hole of `total` bytes. -/
theorem LayerHole.split {m : Mem} {L L2 : LayerState} {live : List Nat} {ext : Nat → Nat}
    {cur s : Nat} (hh : LayerHole m L live ext cur s) (total v : Nat) (ht : 16 ≤ total)
    (hrem : total + 16 ≤ s)
    (hb : L2.bump = L.bump) (he : L2.end_ = L.end_)
    (hbins : L2.bins = fun b =>
      if b = bin_index (s - total) then (cur + total) :: L.bins (bin_index (s - total))
      else L.bins b) :
    LayerHole (wr64 (wr64 (wr64 m (cur + total + 8) (s - total)) (cur + total) 0)
        (cur + total) v) L2 live ext cur total ∧
    node_size (wr64 (wr64 (wr64 m (cur + total + 8) (s - total)) (cur + total) 0)
        (cur + total) v) (cur + total) = s - total := by
  have hinv := hh.inv
  have hbump := hinv.bump_le
  have hend := hinv.end_lt
  have hbel := hh.hole_below
  generalize hM : wr64 (wr64 (wr64 m (cur + total + 8) (s - total)) (cur + total) 0)
      (cur + total) v = M
  have hframe : ∀ a, a + 8 ≤ cur + total ∨ cur + total + 16 ≤ a → rd64 M a = rd64 m a := by
    intro a ha
    rw [← hM, rd64_wr64_other _ _ _ _ (by omega), rd64_wr64_other _ _ _ _ (by omega),
      rd64_wr64_other _ _ _ _ (by omega)]
  have hsize : node_size M (cur + total) = s - total := by
    unfold node_size
    rw [← hM, rd64_wr64_other _ _ _ _ (by omega), rd64_wr64_other _ _ _ _ (by omega),
      rd64_wr64_same]
    exact Nat.mod_eq_of_lt (by omega)
  have hsz : ∀ n ∈ L.free_nodes, node_size M n = node_size m n := by
    intro n hn
    have := hh.hole_nodes n hn
    unfold node_size
    exact hframe _ (by omega)
  have hperm : L2.free_nodes.Perm ((cur + total) :: L.free_nodes) := by
    unfold LayerState.free_nodes
    rw [hbins]
    exact collect_bins_push L.bins _ (cur + total) kBins (bin_index_lt _)
  have hmem : ∀ x, x ∈ L2.free_nodes ↔ x = cur + total ∨ x ∈ L.free_nodes := by
    intro x
    rw [hperm.mem_iff, List.mem_cons]
  have hnot : ¬ (cur + total) ∈ L.free_nodes := by
    intro hc
    have := hh.hole_nodes _ hc
    omega
  obtain ⟨a1, a2, a3⟩ := (nodes_apart_iff m L.free_nodes).1 hinv.apart
  have hnew : ∀ n ∈ L.free_nodes,
      (cur + total + 16 ≤ n ∧ cur + total + node_size M (cur + total) ≤ n) ∨
      (n + 16 ≤ cur + total ∧ n + node_size M n ≤ cur + total) := by
    intro n hn
    have := hh.hole_nodes n hn
    rw [hsize, hsz n hn]
    omega
  refine ⟨?_, hsize⟩
  exact
    { inv :=
        { bump_le := by rw [hb, he]; exact hbump
          end_lt := by rw [he]; exact hend
          apart := by
            rw [nodes_apart_iff]
            refine ⟨hperm.nodup_iff.2 (List.nodup_cons.2 ⟨hnot, a1⟩), ?_, ?_⟩
            · intro a ha b hb2 hne
              rcases (hmem a).1 ha with e1 | e1 <;> rcases (hmem b).1 hb2 with e2 | e2
              · exact absurd (e1.trans e2.symm) hne
              · rw [e1]; exact hnew b e2
              · rw [e2]; exact (hnew a e1).symm
              · rw [hsz a e1, hsz b e2]; exact a2 a e1 b e2 hne
            · intro a ha
              rcases (hmem a).1 ha with e1 | e1
              · rw [e1, hsize]; omega
              · rw [hsz a e1]; exact a3 a e1
          below := by
            intro n hn
            rw [hb]
            rcases (hmem n).1 hn with e1 | e1
            · rw [e1, hsize]; omega
            · rw [hsz n e1]; exact hinv.below n e1
          hi := by
            intro b hbk n hn
            rw [hbins] at hn
            by_cases hbi : b = bin_index (s - total)
            · simp only [hbi, if_true] at hn
              rcases List.mem_cons.1 hn with e1 | e1
              · rw [e1, hsize, hbi]
              · rw [hbi, hsz n ((mem_collect_bins _ n kBins).2 ⟨_, bin_index_lt _, e1⟩)]
                exact hinv.hi _ (bin_index_lt _) n e1
            · simp only [hbi, if_false] at hn
              rw [hsz n ((mem_collect_bins _ n kBins).2 ⟨b, hbk, hn⟩)]
              exact hinv.hi b hbk n hn
          live_ok := by
            intro a ha
            obtain ⟨o1, o2, o3⟩ := hinv.live_ok a ha
            have := hh.hole_live a ha
            rw [hb, hframe _ (by omega)]
            exact ⟨o1, o2, o3⟩
          live_apart := hinv.live_apart
          live_free := by
            intro a ha n hn
            rcases (hmem n).1 hn with e1 | e1
            · rw [e1, hsize]
              have := hh.hole_live a ha
              omega
            · rw [hsz n e1]
              exact hinv.live_free a ha n e1 }
      hole_nodes := by
        intro n hn
        rcases (hmem n).1 hn with e1 | e1
        · rw [e1]; right; omega
        · rw [hsz n e1]
          have := hh.hole_nodes n e1
          omega
      hole_live := by
        intro a ha
        have := hh.hole_live a ha
        omega
      hole_below := by rw [hb]; omega }


theorem nodes_apart_perm (m : Mem) {l1 l2 : List Nat} (hp : l1.Perm l2)
    (h : nodes_apart m l1) : nodes_apart m l2 := by
  rw [nodes_apart_iff] at h ⊢
  obtain ⟨a1, a2, a3⟩ := h
  exact ⟨hp.nodup_iff.1 a1,
    fun a ha b hb hne => a2 a (hp.mem_iff.2 ha) b (hp.mem_iff.2 hb) hne,
    fun a ha => a3 a (hp.mem_iff.2 ha)⟩

theorem nodes_apart_of_in_order (m : Mem) (l : List Nat) (h : nodes_in_order m l) :
    nodes_apart m l :=
  ⟨List.Pairwise.imp (fun hab => Or.inl hab) h.1, h.2⟩

/-- The per-layer body of the scavenger leaves free nodes that are apart. -/
theorem scavenge_layer_apart (cfg : ScavengerConfig) (m : Mem) (L : LayerState)
    (hap : nodes_apart m L.free_nodes) :
    nodes_apart (scavenge_layer cfg m L).1 (scavenge_layer cfg m L).2.free_nodes := by
  have hord := nodes_in_order_sorted m L.free_nodes hap
  have he : ({ L with bins := fun _ => [] } : LayerState).free_nodes = [] :=
    collect_bins_nil kBins
  cases hs : List.insertionSort (fun a b => a ≤ b) L.free_nodes with
  | nil =>
    rw [scavenge_layer_empty cfg m L hs, he]
    exact ⟨List.Pairwise.nil, fun a ha => absurd ha (List.not_mem_nil _)⟩
  | cons b0 rest =>
    rw [hs] at hord
    have hout : nodes_apart
        (if cfg.enable_coalescing then coalesce m b0 rest else (m, b0 :: rest)).1
        (if cfg.enable_coalescing then coalesce m b0 rest else (m, b0 :: rest)).2 := by
      cases hco : cfg.enable_coalescing with
      | true =>
        simp only [if_true]
        obtain ⟨-, -, p3, p4, -, -⟩ := coalesce_spec rest m b0 hord
        refine ⟨List.Pairwise.imp ?_ p3, p4⟩
        intro a b hab
        left
        exact ⟨hab.1, Nat.le_of_lt hab.2⟩
      | false =>
        simp only [Bool.false_eq_true, if_false]
        exact nodes_apart_of_in_order m _ hord
    have hpw16 : (if cfg.enable_coalescing then coalesce m b0 rest
        else (m, b0 :: rest)).2.Pairwise (fun a b => a + 16 ≤ b) := by
      cases hco : cfg.enable_coalescing with
      | true =>
        simp only [if_true]
        exact List.Pairwise.imp (fun hab => hab.1) (coalesce_spec rest m b0 hord).2.2.1
      | false =>
        simp only [Bool.false_eq_true, if_false]
        exact List.Pairwise.imp (fun hab => hab.1) hord.1
    obtain ⟨hmem, hsize⟩ := refill_nodes cfg
      (if cfg.enable_coalescing then coalesce m b0 rest else (m, b0 :: rest)).1 L
      (if cfg.enable_coalescing then coalesce m b0 rest else (m, b0 :: rest)).2 hpw16
    rw [scavenge_layer_cons cfg m L b0 rest hs]
    have h1 := nodes_apart_congr _ _ _ hsize hout
    rw [nodes_apart_iff] at h1 ⊢
    obtain ⟨a1, a2, a3⟩ := h1
    refine ⟨?_, fun a ha b hb hne => a2 a ((hmem a).1 ha) b ((hmem b).1 hb) hne,
      fun a ha => a3 a ((hmem a).1 ha)⟩
    cases hrb : cfg.enable_rebucket with
    | true =>
      simp only [if_true]
      have hp := rebucket_free_nodes
        (if cfg.enable_coalescing then coalesce m b0 rest else (m, b0 :: rest)).2
        (if cfg.enable_coalescing then coalesce m b0 rest else (m, b0 :: rest)).1
        { L with bins := fun _ => [] }
      rw [he, List.nil_append] at hp
      exact hp.nodup_iff.2 a1
    | false =>
      simp only [Bool.false_eq_true, if_false]
      have hp := dump_big_bin_free_nodes
        (if cfg.enable_coalescing then coalesce m b0 rest else (m, b0 :: rest)).2
        (if cfg.enable_coalescing then coalesce m b0 rest else (m, b0 :: rest)).1
        { L with bins := fun _ => [] }
      rw [he, List.nil_append] at hp
      exact hp.nodup_iff.2 a1

/-- The per-layer body of the scavenger leaves every free node in a bin at or
above the bin of its size, whether it rebuckets or uses the last bin. -/
theorem scavenge_layer_bins_hi (cfg : ScavengerConfig) (m : Mem) (L : LayerState)
    (hap : nodes_apart m L.free_nodes) :
    (scavenge_layer cfg m L).2.bins_hi (scavenge_layer cfg m L).1 := by
  intro b hb n hn
  cases hrb : cfg.enable_rebucket with
  | true =>
    rw [← scavenge_layer_rebuckets cfg m L hrb hap b n hn]
  | false =>
    rw [scavenge_layer_big_bin cfg m L hrb b n hn]
    have := bin_index_lt (node_size (scavenge_layer cfg m L).1 n)
    omega

/-- The per-layer body of the scavenger keeps the invariant of the layer. -/
theorem LayerInv.scavenge {m : Mem} {L : LayerState} {live : List Nat} {ext : Nat → Nat}
    (hinv : LayerInv m L live ext) (cfg : ScavengerConfig) :
    LayerInv (scavenge_layer cfg m L).1 (scavenge_layer cfg m L).2 live ext := by
  obtain ⟨-, hcov, hsub⟩ := scavenge_layer_keeps cfg m L hinv.apart
  have hsb := same_but_bins_scavenge_layer cfg m L
  -- the end of a node left lies in a node given
  have hend : ∀ A ∈ (scavenge_layer cfg m L).2.free_nodes, ∀ x, A ≤ x →
      x < A + node_size (scavenge_layer cfg m L).1 A →
      ∃ n ∈ L.free_nodes, n ≤ x ∧ x < n + node_size m n := by
    intro A hA x h1 h2
    exact (hcov x).1 ⟨A, hA, h1, h2⟩
  exact
    { bump_le := by rw [hsb.2.2.1, hsb.2.1]; exact hinv.bump_le
      end_lt := by rw [hsb.2.1]; exact hinv.end_lt
      apart := scavenge_layer_apart cfg m L hinv.apart
      below := by
        intro A hA
        rw [hsb.2.2.1]
        have h16 := (hinv.below A (hsub A hA)).1
        refine ⟨h16, ?_⟩
        by_cases hz : node_size (scavenge_layer cfg m L).1 A = 0
        · rw [hz]; omega
        · obtain ⟨n, hn, n1, n2⟩ := hend A hA
            (A + node_size (scavenge_layer cfg m L).1 A - 1) (by omega) (by omega)
          have := (hinv.below n hn).2
          omega
      hi := scavenge_layer_bins_hi cfg m L hinv.apart
      live_ok := by
        intro h hh
        obtain ⟨o1, o2, o3⟩ := hinv.live_ok h hh
        rw [hsb.2.2.1, scavenge_layer_frame cfg m L hinv.apart (h + 24)]
        · exact ⟨o1, o2, o3⟩
        · intro n hn
          have := hinv.live_free h hh n hn
          omega
      live_apart := hinv.live_apart
      live_free := by
        intro h hh A hA
        have hext := (hinv.live_ok h hh).1
        rcases hinv.live_free h hh A (hsub A hA) with h1 | h1
        · left; exact h1
        · right
          refine ⟨h1.1, ?_⟩
          by_contra hc
          obtain ⟨n, hn, n1, n2⟩ := hend A hA h (by omega) (by omega)
          have := hinv.live_free h hh n hn
          omega }


/-- The word that `cur->size` reads after the header stamp: `data_layer` in its
low half and the cleared `flags` in its high half. -/
theorem rd64_stamp_header_size_word (m : Mem) (h ml dl size : Nat) :
    rd64 (stamp_header m h ml dl size) (h + 8) = dl % W32 := by
  rw [rd64_split]
  unfold stamp_header
  simp only [rd32, wr32, wr64]
  rw [rdN_wrN_disjoint _ _ _ _ _ _ (by omega), rdN_wrN_disjoint _ _ _ _ _ _ (by omega),
    rdN_wrN_same, show h + 8 + 4 = h + 12 by omega,
    rdN_wrN_disjoint _ _ _ _ _ _ (by omega), rdN_wrN_same]
  norm_num [W32]

/-- The `total_size` that the free-list branch of `alloc_from_layer` stamps is
the data layer (modulo 2^32), whatever the size of the node was. -/
theorem take_from_bin_total_size (st : PICAS) (dl ml size total b : Nat) (pre : List Nat)
    (cur : Nat) (post : List Nat) :
    rd64 (st.take_from_bin dl ml size total b pre cur post).1.mem (cur + 24) = dl % W32 := by
  unfold PICAS.take_from_bin
  simp only [emit_mem]
  rw [rd64_wr64_same, rd64_stamp_header_size_word]
  exact Nat.mod_eq_of_lt (Nat.lt_of_lt_of_le (Nat.mod_lt _ (by simp [W32])) (by simp [W32, W64]))

theorem layer_inv_free (st : PICAS) (ml : Nat) (live : List Nat) (ext : Nat → Nat) (h : Nat)
    (hinv : LayerInv st.mem (st.layers ml) live ext) (hh : h ∈ live) :
    LayerInv (st.free_into_layer h).mem ((st.free_into_layer h).layers ml) (live.erase h) ext := by
  have hsame := hinv.sublist (List.erase_sublist h live)
  by_cases h0 : h = 0
  · simp only [PICAS.free_into_layer, h0, if_true]
    rw [h0] at hsame
    exact hsame
  by_cases hm : rd32 st.mem h = kMagic
  · by_cases hml : rd32 st.mem (h + 4) < st.num_layers
    · obtain ⟨e1, e2⟩ := free_into_layer_shape st h h0 hm hml
      rw [e1, e2]
      by_cases hi : ml = rd32 st.mem (h + 4)
      · simp only [if_pos hi]
        rw [← hi]
        exact hinv.free_here h _ hh rfl rfl rfl
      · simp only [if_neg hi]
        exact hinv.free_elsewhere h _ hh
    · have hml2 : rd32 st.mem (h + 4) ≥ st.num_layers := by omega
      have : st.free_into_layer h = st := by
        unfold PICAS.free_into_layer
        rw [if_neg h0, if_neg (fun hc => hc hm)]
        simp only [if_pos hml2]
      rw [this]
      exact hsame
  · have : st.free_into_layer h = st := by
      unfold PICAS.free_into_layer
      rw [if_neg h0, if_pos hm]
    rw [this]
    exact hsame

theorem layer_inv_scavenge (st : PICAS) (ml : Nat) (live : List Nat) (ext : Nat → Nat)
    (cfg : ScavengerConfig) (hinv : LayerInv st.mem (st.layers ml) live ext) :
    LayerInv (st.scavenge_one cfg ml).mem ((st.scavenge_one cfg ml).layers ml) live ext := by
  have h := hinv.scavenge cfg
  simp only [PICAS.scavenge_one, PICAS.set_layer, if_true]
  exact h


/-- The bump branch with room: the pointer, the cursor and the end of the
layer. -/
theorem bump_alloc_cursor_here (st : PICAS) (dl ml size total : Nat)
    (hs : (st.layers ml).has_space total = true) :
    (st.bump_alloc dl ml size total).2 = (st.layers ml).bump + sizeof_BlockHeader ∧
    ((st.bump_alloc dl ml size total).1.layers ml).bump
      = ((st.layers ml).bump + total) % W64 ∧
    ((st.bump_alloc dl ml size total).1.layers ml).end_ = (st.layers ml).end_ := by
  refine ⟨?_, ?_, ?_⟩
  · simp only [PICAS.bump_alloc, hs, Bool.not_true, Bool.false_eq_true, if_false]
  · simp only [PICAS.bump_alloc, hs, Bool.not_true, Bool.false_eq_true, if_false, emit_layers]
    split <;> simp only [emit_layers, PICAS.set_layer, if_true]
  · simp only [PICAS.bump_alloc, hs, Bool.not_true, Bool.false_eq_true, if_false, emit_layers]
    split <;> simp only [emit_layers, PICAS.set_layer, if_true]

/-- `alloc_from_layer` with a data-layer index and a request whose block total
and cursor sum do not wrap keeps the invariant of the layer; the block it
returns is live. -/
theorem layer_inv_alloc (st : PICAS) (ml : Nat) (live : List Nat) (dl size : Nat)
    (hml : ml < st.num_layers) (hdl : dl < kMaxLayers) (hsize : size < W64 - 48)
    (hfit : (st.layers ml).bump + block_total size < W64)
    (h : ∃ ext, LayerInv st.mem (st.layers ml) live ext) :
    ∃ ext, LayerInv (st.alloc_from_layer dl ml size).1.mem
      ((st.alloc_from_layer dl ml size).1.layers ml)
      (if (st.alloc_from_layer dl ml size).2 = 0 then live
       else ((st.alloc_from_layer dl ml size).2 - sizeof_BlockHeader) :: live) ext := by
  obtain ⟨ext, hinv⟩ := h
  have ht : 32 ≤ block_total size := by
    have := block_total_ge size hsize
    simp only [sizeof_BlockHeader] at this
    omega
  have hge : ¬ ml ≥ st.num_layers := by omega
  have hdl32 : dl % W32 ≤ 8 := by
    have : dl % W32 ≤ dl := Nat.mod_le _ _
    simp only [kMaxLayers] at hdl
    omega
  cases hs : scan_bins st.mem (st.layers ml) (block_total size)
      (kBins - bin_index (block_total size)) (bin_index (block_total size)) with
  | some r =>
    obtain ⟨b, pre, cur, post⟩ := r
    obtain ⟨s1, s2, s3, s4⟩ := scan_bins_spec _ _ _ _ _ _ _ _ _ hs
    have hb : b < kBins := by
      have := bin_index_lt (block_total size)
      omega
    have hres : st.alloc_from_layer dl ml size
        = st.take_from_bin dl ml size (block_total size) b pre cur post := by
      simp only [PICAS.alloc_from_layer, hge, if_false, hs]
    have hptr : (st.take_from_bin dl ml size (block_total size) b pre cur post).2
        = cur + sizeof_BlockHeader := by
      simp only [PICAS.take_from_bin]
    have hcurs := same_cursor_take_from_bin st dl ml size (block_total size) b pre cur post ml
    have htot := take_from_bin_total_size st dl ml size (block_total size) b pre cur post
    rw [hres, hptr]
    have hne : ¬ cur + sizeof_BlockHeader = 0 := by simp [sizeof_BlockHeader]
    rw [if_neg hne, Nat.add_sub_cancel]
    obtain ⟨hhole, hcs⟩ := @LayerInv.unlink _ _ ((st.layers ml).set_bin b (pre ++ post)) _ _ hinv
      b pre cur post hb s3 rfl rfl rfl
    generalize hm1 : (match pre.getLast? with
      | some prev => wr64 st.mem prev (head_ptr post)
      | none => st.mem) = m1 at hhole hcs
    have hs4 : block_total size ≤ node_size st.mem cur := s4
    have hrem : sub64 (rd64 m1 (cur + 8)) (block_total size)
        = node_size st.mem cur - block_total size := by
      have : rd64 m1 (cur + 8) = node_size st.mem cur := hcs
      rw [this]
      exact sub64_of_le _ _ hs4 (rd64_lt _ _)
    by_cases hsp : sub64 (rd64 m1 (cur + 8)) (block_total size) ≥ block_total 32
    · -- the remainder is split off
      obtain ⟨⟨v, t, hmem⟩, hbins⟩ := take_from_bin_split st dl ml size (block_total size) b pre
        cur post m1 hm1.symm hsp
      have h64 : block_total 32 = 64 := by decide
      rw [hrem, h64] at hsp
      have hfit : node_size st.mem cur - block_total size < W64 :=
        Nat.lt_of_le_of_lt (Nat.sub_le _ _) (rd64_lt _ _)
      have hread : rd64 (wr64 (wr64 m1 (cur + block_total size + 8)
            (node_size st.mem cur - block_total size)) (cur + block_total size) 0)
            (cur + block_total size + 8) = node_size st.mem cur - block_total size := by
        rw [rd64_wr64_other _ _ _ _ (by omega), rd64_wr64_same]
        exact Nat.mod_eq_of_lt hfit
      rw [hrem] at hmem hbins
      rw [hread] at hbins
      obtain ⟨hh2, -⟩ := @LayerHole.split _ _
        ((st.take_from_bin dl ml size (block_total size) b pre cur post).1.layers ml) _ _ _ _ hhole
        (block_total size) v (by omega) (by omega) hcurs.2.2.1 hcurs.2.1 hbins
      refine ⟨_, hh2.fill ht ?_ ?_ rfl rfl rfl⟩
      · intro a ha
        rw [hmem, rd64_header_other _ _ _ _ _ _ _ ha, rd64_wr64_other _ _ _ _ (by omega)]
      · rw [htot]; omega
    · -- the whole node is taken
      obtain ⟨⟨t, hmem⟩, hbins⟩ := take_from_bin_whole st dl ml size (block_total size) b pre
        cur post m1 hm1.symm hsp
      refine ⟨_, @LayerHole.fill _ _ _
        ((st.take_from_bin dl ml size (block_total size) b pre cur post).1.layers ml) _ _ _ _ hhole
        (by omega) ?_ ?_ hcurs.2.2.1 hcurs.2.1 hbins⟩
      · intro a ha
        rw [hmem, rd64_header_other _ _ _ _ _ _ _ ha]
      · rw [htot]; omega
  | none =>
    have hres : st.alloc_from_layer dl ml size
        = st.bump_alloc dl ml size (block_total size) := by
      simp only [PICAS.alloc_from_layer, hge, if_false, hs]
    rw [hres]
    by_cases hsp : (st.layers ml).has_space (block_total size) = true
    · have hs2 : (st.layers ml).bump + block_total size ≤ (st.layers ml).end_ := by
        have := hsp
        simp only [LayerState.has_space, decide_eq_true_eq] at this
        rw [Nat.mod_eq_of_lt hfit] at this
        exact this
      obtain ⟨c1, c2, c3⟩ := bump_alloc_cursor_here st dl ml size (block_total size) hsp
      rw [Nat.mod_eq_of_lt hfit] at c2
      obtain ⟨e1, e2⟩ := bump_alloc_shape st dl ml size (block_total size) hsp
      rw [c1]
      have hne : ¬ (st.layers ml).bump + sizeof_BlockHeader = 0 := by simp [sizeof_BlockHeader]
      rw [if_neg hne, Nat.add_sub_cancel, e1]
      exact ⟨_, hinv.bump_alloc ml dl size (block_total size) ht (block_total_lt size) hs2
        c2 c3 e2⟩
    · have : st.bump_alloc dl ml size (block_total size) = (st, 0) := by
        simp [PICAS.bump_alloc, hsp]
      rw [this]
      exact ⟨ext, hinv⟩


theorem first_fit_none (m : Mem) (total : Nat) : ∀ (l : List Nat),
    first_fit m total l = none → ∀ n ∈ l, rd64 m (n + 8) < total := by
  intro l
  induction l with
  | nil => intro _ n hn; exact absurd hn (List.not_mem_nil _)
  | cons x rest ih =>
    intro h n hn
    unfold first_fit at h
    by_cases hx : rd64 m (x + 8) ≥ total
    · rw [if_pos hx] at h
      exact absurd h (by simp)
    · rw [if_neg hx] at h
      cases hr : first_fit m total rest with
      | none =>
        rcases List.mem_cons.1 hn with e | e
        · rw [e]; omega
        · exact ih hr n e
      | some r =>
        rw [hr] at h
        exact absurd h (by simp)

/-- A scan that finds nothing has seen no node that fits in the bins it
visited. -/
theorem scan_bins_none (m : Mem) (L : LayerState) (total : Nat) :
    ∀ (k b0 : Nat), scan_bins m L total k b0 = none →
      ∀ b, b0 ≤ b → b < b0 + k → ∀ n ∈ L.bins b, rd64 m (n + 8) < total := by
  intro k
  induction k with
  | zero => intro b0 _ b h1 h2; omega
  | succ k ih =>
    intro b0 h b h1 h2 n hn
    unfold scan_bins at h
    cases hf : first_fit m total (L.bins b0) with
    | some r =>
      rw [hf] at h
      exact absurd h (by simp)
    | none =>
      rw [hf] at h
      by_cases hb : b = b0
      · rw [hb] at hn
        exact first_fit_none m total _ hf n hn
      · exact ih (b0 + 1) h b (by omega) (by omega) n hn

/-- With every free node in a bin at or above the bin of its size, a scan from
the bin of `total` that finds nothing means that no free node of the layer has
`total` bytes. -/
theorem scan_bins_complete (m : Mem) (L : LayerState) (total : Nat) (hhi : L.bins_hi m)
    (hs : scan_bins m L total (kBins - bin_index total) (bin_index total) = none) :
    ∀ n ∈ L.free_nodes, node_size m n < total := by
  intro n hn
  obtain ⟨b, hb, hnb⟩ := (mem_collect_bins _ n kBins).1 hn
  by_contra hc
  have hge : total ≤ node_size m n := by omega
  have h1 := bin_index_mono hge
  have h2 := hhi b hb n hnb
  have := scan_bins_none m L total _ _ hs b (by omega) (by omega) n hnb
  unfold node_size at hc
  omega

/-- In every reachable state of a layer the invariant holds for some
assignment of owned bytes to the live blocks. -/
theorem layer_reach_inv (ml : Nat) (st : PICAS) (live : List Nat)
    (hr : PICAS.LayerReach ml st live) :
    ml < st.num_layers ∧ ∃ ext, LayerInv st.mem (st.layers ml) live ext := by
  induction hr with
  | start st hml hbins hbump hend =>
    refine ⟨hml, fun _ => 0, ?_⟩
    have hfn : (st.layers ml).free_nodes = [] := by
      unfold LayerState.free_nodes
      have : (st.layers ml).bins = fun _ => [] := funext hbins
      rw [this]
      exact collect_bins_nil kBins
    exact
      { bump_le := hbump
        end_lt := hend
        apart := by
          rw [hfn]
          exact ⟨List.Pairwise.nil, fun a ha => absurd ha (List.not_mem_nil _)⟩
        below := by rw [hfn]; exact fun n hn => absurd hn (List.not_mem_nil _)
        hi := by
          intro b _ n hn
          rw [hbins b] at hn
          exact absurd hn (List.not_mem_nil _)
        live_ok := fun h hh => absurd hh (List.not_mem_nil _)
        live_apart := List.Pairwise.nil
        live_free := fun h hh => absurd hh (List.not_mem_nil _) }
  | alloc st live dl size hdl hsize hfit _ ih =>
    refine ⟨?_, layer_inv_alloc st ml live dl size ih.1 hdl hsize hfit ih.2⟩
    rw [(tp_step_alloc st dl ml size).1]
    exact ih.1
  | free st live h hh _ ih =>
    obtain ⟨i1, ext, i2⟩ := ih
    refine ⟨?_, ext, layer_inv_free st ml live ext h i2 hh⟩
    rw [(tp_step_free_into_layer st h).1]
    exact i1
  | scavenge st live cfg _ ih =>
    obtain ⟨i1, ext, i2⟩ := ih
    exact ⟨i1, ext, layer_inv_scavenge st ml live ext cfg i2⟩

/-! ## Free-list reuse -/

set_option maxRecDepth 1000000 in
/-- C34, failing input. `alloc_from_layer` can advance the bump cursor although a
free node of the layer fits. On `lifo_freed` (one layer; a block of 48 bytes at
65536 was allocated and freed, so bin 5 holds the node 65536 of size 48 and the
cursor is at 65584) the request `SIZE_MAX - 100` has the block total 2^64 − 64;
the cursor sum of `has_space` wraps, the block is handed out at 65584 and the
cursor moves back to 65520. The request of 100 bytes that follows (block total
144, bin 7) is bump-allocated at 65520: its header covers the free node, and the
store to `total_size` at 65544 sets the `size` word of the node to 144. The
layer now has the free node 65536 of size 144 in bin 5, and the next request of
100 bytes, which starts its scan at bin 7, advances the cursor from 65664 to
65808. -/
theorem wrapped_cursor_skips_fitting_node :
    (lifo_freed.layers 0).free_nodes = [65536] ∧
    node_size lifo_freed.mem 65536 = 48 ∧
    (lifo_freed.layers 0).bump = 65584 ∧
    block_total (SIZE_MAX - 100) = W64 - 64 ∧
    skip_a.2 = 65584 + sizeof_BlockHeader ∧
    (skip_a.1.layers 0).bump = 65520 ∧
    skip_b.2 = 65520 + sizeof_BlockHeader ∧
    (skip_b.1.layers 0).bump = 65664 ∧
    (skip_b.1.layers 0).bins 5 = [65536] ∧
    (skip_b.1.layers 0).free_nodes = [65536] ∧
    node_size skip_b.1.mem 65536 = 144 ∧
    block_total 100 = 144 ∧
    bin_index (block_total 100) = 7 ∧
    skip_c.2 = 65664 + sizeof_BlockHeader ∧
    (skip_b.1.layers 0).bump < (skip_c.1.layers 0).bump ∧
    (skip_c.1.layers 0).bump = 65808 ∧
    ¬ (∀ n ∈ (skip_b.1.layers 0).free_nodes, node_size skip_b.1.mem n < block_total 100) := by
  decide

/-- Free-list reuse is complete where no cursor sum wraps. In every state of a
memory layer that is reachable through `alloc_from_layer` (with a data-layer
index, a request below 2^64 − 48 and `bump + block_total(size)` below 2^64),
`free_into_layer` on live blocks and scavenger passes over the layer (any
scavenger settings), `alloc_from_layer(size)` advances the bump cursor only if
no free node anywhere in the bins of the layer has `size ≥ block_total(size)`:
the scan that starts at `bin_index(block_total(size))` skips no node that fits.
Put the other way: when some free node fits, the call leaves the bump cursor and
returns a free node of the layer that fits. -/
theorem reuse_complete_without_wrap (ml : Nat) (st : PICAS) (live : List Nat)
    (hr : PICAS.LayerReach ml st live) (dl size : Nat) :
    ((st.layers ml).bump < ((st.alloc_from_layer dl ml size).1.layers ml).bump →
      ∀ n ∈ (st.layers ml).free_nodes, node_size st.mem n < block_total size) ∧
    ((∃ n ∈ (st.layers ml).free_nodes, block_total size ≤ node_size st.mem n) →
      ((st.alloc_from_layer dl ml size).1.layers ml).bump = (st.layers ml).bump ∧
      ((st.alloc_from_layer dl ml size).2 - sizeof_BlockHeader) ∈ (st.layers ml).free_nodes ∧
      block_total size
        ≤ node_size st.mem ((st.alloc_from_layer dl ml size).2 - sizeof_BlockHeader)) := by
  obtain ⟨hml, ext, hinv⟩ := layer_reach_inv ml st live hr
  have hge : ¬ ml ≥ st.num_layers := by omega
  cases hs : scan_bins st.mem (st.layers ml) (block_total size)
      (kBins - bin_index (block_total size)) (bin_index (block_total size)) with
  | some r =>
    obtain ⟨b, pre, cur, post⟩ := r
    obtain ⟨s1, s2, s3, s4⟩ := scan_bins_spec _ _ _ _ _ _ _ _ _ hs
    have hb : b < kBins := by
      have := bin_index_lt (block_total size)
      omega
    have hres : st.alloc_from_layer dl ml size
        = st.take_from_bin dl ml size (block_total size) b pre cur post := by
      simp only [PICAS.alloc_from_layer, hge, if_false, hs]
    have hptr : (st.take_from_bin dl ml size (block_total size) b pre cur post).2
        = cur + sizeof_BlockHeader := by
      simp only [PICAS.take_from_bin]
    have hcurs := same_cursor_take_from_bin st dl ml size (block_total size) b pre cur post ml
    rw [hres, hptr, Nat.add_sub_cancel]
    constructor
    · intro hlt
      rw [hcurs.2.2.1] at hlt
      omega
    · intro _
      refine ⟨hcurs.2.2.1, ?_, s4⟩
      exact (mem_collect_bins _ cur kBins).2
        ⟨b, hb, by rw [s3]; exact List.mem_append_right _ (List.mem_cons_self _ _)⟩
  | none =>
    have hall := scan_bins_complete st.mem (st.layers ml) (block_total size) hinv.hi hs
    constructor
    · intro _
      exact hall
    · rintro ⟨n, hn, hfit⟩
      have := hall n hn
      omega

set_option maxRecDepth 1000000 in
/-- On `lifo_freed` (one layer, a block of 48 bytes allocated and freed): the
state is reachable, its one free node has 48 bytes, and `alloc_from_layer` with a
request of 100 bytes, which advances the bump cursor, finds no free node of 144
bytes. -/
theorem reuse_complete_without_wrap_witness :
    (lifo_freed.layers 0).free_nodes = [65536] ∧
    node_size lifo_freed.mem 65536 = 48 ∧
    (lifo_freed.layers 0).bump < ((lifo_freed.alloc_from_layer 0 0 100).1.layers 0).bump ∧
    (∀ n ∈ (lifo_freed.layers 0).free_nodes, node_size lifo_freed.mem n < block_total 100) :=
  ⟨by decide, by decide, by decide,
   (reuse_complete_without_wrap 0 lifo_freed _
      (PICAS.LayerReach.free _ _ (lifo_a.2 - sizeof_BlockHeader) (by decide)
        (PICAS.LayerReach.alloc _ _ 0 16 (by decide) (by decide) (by decide)
          (PICAS.LayerReach.start one_layer (by decide) (fun _ => rfl) (by decide)
            (by decide)))) 0 100).1 (by decide)⟩

end picas
